import Mathlib

/-!
The file ol/View.js: view state, hints and the animation scheduler; and the
atlas manager of the WebGL renderer.

A shallow embedding of `src/src/ol/View.js`; the embedding of
`src/src/ol/renderer/webgl/webglatlasmanager.js` has its own section.

* Numbers are the elements of a linearly ordered field `α` with a floor
  function (exact arithmetic: `ℚ` for evaluation, `ℝ` for statements about
  the real `π`); `NaN` is not modelled, and rounding only where the imports
  hold the doubles themselves (`doubleLogImports`).
* `undefined` and `null` are `none` in a view.  The methods that tell them
  apart, or read a rotation that is `undefined` (`calculateExtent`,
  `calculateCenterZoom`), are given on `Properties`, the three properties as
  the getters return them.
* A method is a function from the view before the call to an `Outcome`: the
  view after the call and the error the call raised, if any.  A raised error
  keeps every write made before it, as in JavaScript.
* A callback is an opaque identity; calling it appends `(callback, argument)`
  to the log `calls` of the view.  Callbacks and observers do not re-enter
  the view.
* `Date.now()` is the argument `now` of `animate` and `updateAnimations_`.
* A method whose result is not a finite number somewhere (a product with
  `undefined`, a division by zero) has the result `none` where the code
  computes it from values that can be missing; the statements about a
  quotient assume a divisor that is not 0.
-/

namespace OlView

/-- The type `ol.Coordinate`, an `[x, y]` array. -/
abbrev Coordinate (α : Type) := α × α

/-- Errors raised by a method: the `TypeError` of a property access on
`undefined` or `null`, and the error of `ol.asserts.assert(false, code)`. -/
inductive JsError where
  | TypeError
  | AssertionError (code : Nat)
  deriving DecidableEq, Repr

/-- A `function(boolean)` passed to `animate`, known by its identity only. -/
abbrev Callback := Nat

/-- The enumeration `ol.ViewHint`: the indices of `hints_`. -/
inductive ViewHint where
  | ANIMATING
  | INTERACTING
  deriving DecidableEq, Repr

/-- The array `hints_`, `[ANIMATING, INTERACTING]`. -/
structure Hints where
  animating : Int
  interacting : Int
  deriving DecidableEq, Repr

/-- Read `hints_[hint]`. -/
def Hints.get (h : Hints) : ViewHint → Int
  | ViewHint.ANIMATING => h.animating
  | ViewHint.INTERACTING => h.interacting

/-- The update `hints_[hint] += delta`. -/
def Hints.add (h : Hints) : ViewHint → Int → Hints
  | ViewHint.ANIMATING, delta => { h with animating := h.animating + delta }
  | ViewHint.INTERACTING, delta => { h with interacting := h.interacting + delta }

/-- The type `olx.AnimationOptions`: one stage as given to `animate`. -/
structure AnimationOptions (α : Type) where
  center : Option (Coordinate α)
  zoom : Option α
  resolution : Option α
  rotation : Option α
  anchor : Option (Coordinate α)
  duration : Option α
  easing : Option (α → α)

/-- An options object with no property set; also what the property reads of
`animate` see when an argument is a function. -/
def AnimationOptions.empty {α : Type} : AnimationOptions α :=
  { center := none, zoom := none, resolution := none, rotation := none,
    anchor := none, duration := none, easing := none }

/-- One element of `arguments` of `animate`: an options object or a function. -/
inductive AnimateArg (α : Type) where
  | options (o : AnimationOptions α)
  | callback (cb : Callback)

/-- The test `typeof arg === 'function'`. -/
def AnimateArg.isFunction {α : Type} : AnimateArg α → Bool
  | AnimateArg.options _ => false
  | AnimateArg.callback _ => true

/-- The argument read as an options object: the properties `animate` reads
are all `undefined` on a function. -/
def AnimateArg.asOptions {α : Type} : AnimateArg α → AnimationOptions α
  | AnimateArg.options o => o
  | AnimateArg.callback _ => AnimationOptions.empty

/-- The argument as a callback, when it is a function. -/
def AnimateArg.asCallback {α : Type} : AnimateArg α → Option Callback
  | AnimateArg.options _ => none
  | AnimateArg.callback cb => some cb

/-- The type `ol.ViewAnimation`: one stage of a series. -/
structure ViewAnimation (α : Type) where
  start : α
  complete : Bool
  anchor : Option (Coordinate α)
  duration : α
  easing : α → α
  sourceCenter : Option (Coordinate α)
  targetCenter : Option (Coordinate α)
  sourceResolution : Option α
  targetResolution : Option α
  sourceRotation : Option α
  targetRotation : Option α
  callback : Option Callback

/-- The type `ol.Constraints`: the three constraint functions of a view. -/
structure Constraints (α : Type) where
  center : Option (Coordinate α) → Option (Coordinate α)
  resolution : Option α → α → α → Option α
  rotation : Option α → α → Option α

/-- What View.js imports or takes from the host and is not part of the
sources: `Math.PI`, `Math.cos`, `Math.sin`, `Math.log`, `Math.pow` and the
default easing `ol.easing.inAndOut`. -/
structure Imports (α : Type) where
  PI : α
  cos : α → α
  sin : α → α
  log : α → α
  pow : α → α → α
  inAndOut : α → α

/-- The fields of an `ol.View`, the observable properties `center`,
`resolution` and `rotation` among them, with the log of callback calls and
the number of `requestAnimationFrame` calls made so far.  `rotation` is a
number: the constructor defaults it to `0`, and `getRotation` and
`setRotation` are typed `number`. -/
structure View (α : Type) where
  hints_ : Hints
  animations_ : List (Option (List (ViewAnimation α)))
  updateAnimationKey_ : Option Nat
  center : Option (Coordinate α)
  resolution : Option α
  rotation : α
  maxResolution_ : α
  minResolution_ : α
  zoomFactor_ : α
  resolutions_ : Option (List α)
  minZoom_ : α
  constraints_ : Constraints α
  calls : List (Callback × Bool)
  frames : Nat

/-- The result of a method call: the view after it and the error raised. -/
structure Outcome (α : Type) where
  view : View α
  error : Option JsError

/-- What a property of the view holds, as `get` returns it: `undefined`,
`null`, or a value. -/
inductive Held (β : Type) where
  | undefined
  | null
  | value (b : β)

/-- The three observable properties of a view as `getCenter()`,
`getResolution()` and `getRotation()` return them, for the methods that tell
`null` from `undefined` or read a rotation that is `undefined`.  The
constructor stores `null` for a center that is not given (`applyOptions_`);
`setCenter`, `setResolution` and `setRotation` store what they are given,
`undefined` included.  For the resolution and the rotation `none` is
`undefined`. -/
structure Properties (α : Type) where
  center : Held (Coordinate α)
  resolution : Option α
  rotation : Option α

section Methods

variable {α : Type} [LinearOrderedField α] [FloorRing α]

/-- The remainder `a % b` of JavaScript, with the sign of `a`: the quotient
is truncated towards zero. -/
def jsRem (a b : α) : α :=
  a - b * (if 0 ≤ a / b then ((⌊a / b⌋ : Int) : α) else ((⌈a / b⌉ : Int) : α))

/-- Modelled from the spec: `ol.math.modulo` of ol/math.js, which is not
among the sources; the spec uses it to "normalize the delta" of a rotation
into one turn.  It is the remainder with the sign of `b`:
`var r = a % b; return r * b < 0 ? r + b : r;`. -/
def modulo (a b : α) : α :=
  let r := jsRem a b
  if r * b < 0 then r + b else r

/-- The truth value of a `number|undefined` in a condition: defined and not
zero. -/
def truthy : Option α → Bool
  | none => false
  | some r => decide (r ≠ 0)

/-- The method `getCenter`. -/
def getCenter (v : View α) : Option (Coordinate α) := v.center

/-- The method `getResolution`. -/
def getResolution (v : View α) : Option α := v.resolution

/-- The method `getRotation`. -/
def getRotation (v : View α) : α := v.rotation

/-- The method `getMaxResolution`. -/
def getMaxResolution (v : View α) : α := v.maxResolution_

/-- The method `getMinResolution`. -/
def getMinResolution (v : View α) : α := v.minResolution_

/-- The method `getHints` with no destination array: a copy of `hints_`. -/
def getHints (v : View α) : Hints := v.hints_

/-- The method `getAnimating`: `hints_[ANIMATING] > 0`. -/
def getAnimating (v : View α) : Bool :=
  decide (v.hints_.get ViewHint.ANIMATING > 0)

/-- The method `getInteracting`: `hints_[INTERACTING] > 0`. -/
def getInteracting (v : View α) : Bool :=
  decide (v.hints_.get ViewHint.INTERACTING > 0)

/-- The method `isDef`: `!!getCenter() && getResolution() !== undefined`. -/
def isDef (v : View α) : Bool :=
  v.center.isSome && v.resolution.isSome

/-- The method `setHint`: `hints_[hint] += delta`. -/
def setHint (v : View α) (hint : ViewHint) (delta : Int) : View α :=
  { v with hints_ := v.hints_.add hint delta }

/-- The call `callback(arg)` guarded by `if (callback)`. -/
def invoke (callback : Option Callback) (arg : Bool) (v : View α) : View α :=
  match callback with
  | none => v
  | some cb => { v with calls := v.calls ++ [(cb, arg)] }

/-- The loop of `cancelAnimations` over `animations_`, oldest series first:
`series[0].callback` is read and called with `false`.  Reading it on a
`null` entry or on an empty series raises a `TypeError`. -/
def cancelLoop : List (Option (List (ViewAnimation α))) → View α → Outcome α
  | [], v => { view := v, error := none }
  | none :: _, v => { view := v, error := some JsError.TypeError }
  | some [] :: _, v => { view := v, error := some JsError.TypeError }
  | some (animation :: _) :: rest, v =>
      cancelLoop rest (invoke animation.callback false v)

/-- The method `cancelAnimations`. -/
def cancelAnimations (v : View α) : Outcome α :=
  let v1 := setHint v ViewHint.ANIMATING (-(v.hints_.get ViewHint.ANIMATING))
  let r := cancelLoop v1.animations_ v1
  match r.error with
  | some e => { view := r.view, error := some e }
  | none => { view := { r.view with animations_ := [] }, error := none }

/-- The tail of the three setters: `if (getAnimating()) cancelAnimations()`. -/
def cancelIfAnimating (v : View α) : Outcome α :=
  if getAnimating v then cancelAnimations v else { view := v, error := none }

/-- The method `setCenter`. -/
def setCenter (center : Option (Coordinate α)) (v : View α) : Outcome α :=
  cancelIfAnimating { v with center := center }

/-- The method `setResolution`. -/
def setResolution (resolution : Option α) (v : View α) : Outcome α :=
  cancelIfAnimating { v with resolution := resolution }

/-- The method `setRotation`. -/
def setRotation (rotation : α) (v : View α) : Outcome α :=
  cancelIfAnimating { v with rotation := rotation }

/-- The method `constrainResolution`, with delta and direction given. -/
def constrainResolution (v : View α) (resolution : Option α) (delta direction : α) :
    Option α :=
  v.constraints_.resolution resolution delta direction

/-- The method `getResolutionForZoom`. -/
def getResolutionForZoom (v : View α) (zoom : α) : Option α :=
  constrainResolution v (some v.maxResolution_) (zoom - v.minZoom_) 0

/-- The method `setZoom`. -/
def setZoom (zoom : α) (v : View α) : Outcome α :=
  setResolution (getResolutionForZoom v zoom) v

/-- The static `isNoopAnimation`; `ol.coordinate.equals` compares the two
arrays element by element. -/
def isNoopAnimation (animation : ViewAnimation α) : Bool :=
  let centerChanges : Bool :=
    match animation.sourceCenter, animation.targetCenter with
    | some s, some t => decide (s ≠ t)
    | _, _ => false
  if centerChanges then false
  else if animation.sourceResolution ≠ animation.targetResolution then false
  else if animation.sourceRotation ≠ animation.targetRotation then false
  else true

/-- Modelled from the spec: `ol.coordinate.rotate` of ol/coordinate.js, which
is not among the sources: the coordinate turned by `angle` about the origin. -/
def rotate (L : Imports α) (coordinate : Coordinate α) (angle : α) : Coordinate α :=
  (coordinate.1 * L.cos angle - coordinate.2 * L.sin angle,
   coordinate.2 * L.cos angle + coordinate.1 * L.sin angle)

/-- The method `calculateCenterRotate` on a view of the model, where a missing
center is read as `undefined`.  The driver calls it on views with an active
series, which have a center. -/
def calculateCenterRotate (L : Imports α) (v : View α) (rotation : α)
    (anchor : Coordinate α) : Option (Coordinate α) :=
  match getCenter v with
  | none => none
  | some currentCenter =>
      let center := rotate L (currentCenter.1 - anchor.1, currentCenter.2 - anchor.2)
        (rotation - getRotation v)
      some (center.1 + anchor.1, center.2 + anchor.2)

/-- The method `calculateCenterZoom` on a view of the model, where a missing
center is read as `undefined`: the result of `Properties.calculateCenterZoom`
on `View.properties`.  The driver calls it on views with an active series,
which have a center; the method on every value the center can hold, `null`
included, is `Properties.calculateCenterZoom`. -/
def calculateCenterZoom (v : View α) (resolution : α) (anchor : Coordinate α) :
    Option (Coordinate α) :=
  match getCenter v, getResolution v with
  | some currentCenter, some currentResolution =>
      some (anchor.1 - resolution * (anchor.1 - currentCenter.1) / currentResolution,
            anchor.2 - resolution * (anchor.2 - currentCenter.2) / currentResolution)
  | _, _ => none

/-- The center part of one stage in `updateAnimations_`: under
`if (animation.sourceCenter)` the center is set to the interpolated point.
Reading `animation.targetCenter[0]` raises a `TypeError` when the target is
missing. -/
def writeCenter (animation : ViewAnimation α) (progress : α) (v : View α) : Outcome α :=
  match animation.sourceCenter with
  | none => { view := v, error := none }
  | some s =>
      match animation.targetCenter with
      | none => { view := v, error := some JsError.TypeError }
      | some t =>
          let x := s.1 + progress * (t.1 - s.1)
          let y := s.2 + progress * (t.2 - s.2)
          { view := { v with center := some (x, y) }, error := none }

/-- The resolution part of one stage in `updateAnimations_`. -/
def writeResolution (animation : ViewAnimation α) (progress : α) (v : View α) : View α :=
  match animation.sourceResolution, animation.targetResolution with
  | some s, some t =>
      if s ≠ 0 ∧ t ≠ 0 then
        let resolution := if progress = 1 then t else s + progress * (t - s)
        let v1 := match animation.anchor with
          | some anchor => { v with center := calculateCenterZoom v resolution anchor }
          | none => v
        { v1 with resolution := some resolution }
      else v
  | _, _ => v

/-- The rotation part of one stage in `updateAnimations_`. -/
def writeRotation (L : Imports α) (animation : ViewAnimation α) (progress : α)
    (v : View α) : View α :=
  match animation.sourceRotation, animation.targetRotation with
  | some s, some t =>
      let rotation :=
        if progress = 1 then modulo (t + L.PI) (2 * L.PI) - L.PI
        else s + progress * (t - s)
      let v1 := match animation.anchor with
        | some anchor => { v with center := calculateCenterRotate L v rotation anchor }
        | none => v
      { v1 with rotation := rotation }
  | _, _ => v

/-- The fraction of one stage at time `now`, before it is capped at 1:
`animation.duration > 0 ? elapsed / animation.duration : 1`. -/
def stageFraction (now : α) (animation : ViewAnimation α) : α :=
  if animation.duration > 0 then (now - animation.start) / animation.duration else 1

/-- The locals and the view of `updateAnimations_` after the inner loop over
one series: the stages (with their `complete` flags), `seriesComplete`,
`more`, and the error raised. -/
structure SeriesPass (α : Type) where
  series : List (ViewAnimation α)
  view : View α
  seriesComplete : Bool
  more : Bool
  error : Option JsError

/-- The inner loop of `updateAnimations_` over the stages of one series, from
the first: a complete stage is skipped, the first incomplete one is advanced,
and the loop goes on to the next stage only when that one completed. -/
def updateSeries (L : Imports α) (now : α) :
    List (ViewAnimation α) → View α → Bool → Bool → SeriesPass α
  | [], v, seriesComplete, more =>
      { series := [], view := v, seriesComplete := seriesComplete, more := more,
        error := none }
  | animation :: rest, v, seriesComplete, more =>
      if animation.complete then
        let p := updateSeries L now rest v seriesComplete more
        { p with series := animation :: p.series }
      else
        let fraction0 := stageFraction now animation
        let animation1 : ViewAnimation α :=
          if fraction0 ≥ 1 then { animation with complete := true } else animation
        let fraction : α := if fraction0 ≥ 1 then 1 else fraction0
        let seriesComplete1 : Bool := if fraction0 ≥ 1 then seriesComplete else false
        let progress := animation1.easing fraction
        let c := writeCenter animation1 progress v
        match c.error with
        | some e =>
            { series := animation1 :: rest, view := c.view,
              seriesComplete := seriesComplete1, more := more, error := some e }
        | none =>
            let v1 := writeRotation L animation1 progress
              (writeResolution animation1 progress c.view)
            if animation1.complete then
              let p := updateSeries L now rest v1 seriesComplete1 true
              { p with series := animation1 :: p.series }
            else
              { series := animation1 :: rest, view := v1,
                seriesComplete := seriesComplete1, more := true, error := none }

/-- The locals and the view of `updateAnimations_` after the outer loop has
visited some entries of `animations_`: the entries as they are now (a retired
series is `null`), the view, `more`, and the error raised. -/
structure LoopPass (α : Type) where
  entries : List (Option (List (ViewAnimation α)))
  view : View α
  more : Bool
  error : Option JsError

/-- The outer loop of `updateAnimations_`, from the last entry of
`animations_` to the first.  Reading `series.length` on a `null` entry, or
`series[0].callback` on an empty series, raises a `TypeError`. -/
def updateLoop (L : Imports α) (now : α) :
    List (Option (List (ViewAnimation α))) → View α → Bool → LoopPass α
  | [], v, more => { entries := [], view := v, more := more, error := none }
  | entry :: rest, v, more =>
      let r := updateLoop L now rest v more
      match r.error with
      | some e => { r with entries := entry :: r.entries, error := some e }
      | none =>
          match entry with
          | none =>
              { r with entries := none :: r.entries, error := some JsError.TypeError }
          | some series =>
              let p := updateSeries L now series r.view true r.more
              match p.error with
              | some e =>
                  { entries := some p.series :: r.entries, view := p.view,
                    more := p.more, error := some e }
              | none =>
                  if p.seriesComplete then
                    let v1 := setHint p.view ViewHint.ANIMATING (-1)
                    match p.series with
                    | [] =>
                        { entries := none :: r.entries, view := v1, more := p.more,
                          error := some JsError.TypeError }
                    | first :: _ =>
                        { entries := none :: r.entries,
                          view := invoke first.callback true v1,
                          more := p.more, error := none }
                  else
                    { entries := some p.series :: r.entries, view := p.view,
                      more := p.more, error := none }

/-- The method `updateAnimations_`, the per-frame driver, run at time `now`.
A pending frame request is cancelled first; after the loop the retired
entries are pruned and, when `more`, a frame is requested. -/
def updateAnimations_ (L : Imports α) (now : α) (v : View α) : Outcome α :=
  let v0 : View α := { v with updateAnimationKey_ := none }
  if !getAnimating v0 then { view := v0, error := none }
  else
    let r := updateLoop L now v0.animations_ v0 false
    match r.error with
    | some e => { view := { r.view with animations_ := r.entries }, error := some e }
    | none =>
        let v1 : View α :=
          { r.view with animations_ := r.entries.filter (fun entry => entry.isSome) }
        if r.more then
          { view := { v1 with updateAnimationKey_ := some (v1.frames + 1),
                              frames := v1.frames + 1 },
            error := none }
        else { view := v1, error := none }

/-- The target rotation `animate` computes for a requested rotation from the
rotation reached so far: `rotation + delta` with
`delta = modulo(options.rotation - rotation + Math.PI, 2 * Math.PI) - Math.PI`. -/
def rotationTarget (L : Imports α) (rotation requested : α) : α :=
  rotation + (modulo (requested - rotation + L.PI) (2 * L.PI) - L.PI)

/-- The resolution target of one stage in `animate`, when it has one: from
`options.zoom` through the resolution constraint, else from a truthy
`options.resolution`. -/
def resolutionTarget (v : View α) (options : AnimationOptions α) : Option (Option α) :=
  match options.zoom with
  | some zoom => some (constrainResolution v (some v.maxResolution_) (zoom - v.minZoom_) 0)
  | none => if truthy options.resolution then some options.resolution else none

/-- The body of the loop of `animate` for one options object: the stage it
builds from the start time, center, resolution and rotation reached so far. -/
def makeAnimation (L : Imports α) (v : View α) (callback : Option Callback)
    (options : AnimationOptions α) (start : α) (center : Coordinate α)
    (resolution : Option α) (rotation : α) : ViewAnimation α :=
  let animation0 : ViewAnimation α :=
    { start := start, complete := false, anchor := options.anchor,
      duration := match options.duration with
        | some d => d
        | none => 1000,
      easing := match options.easing with
        | some f => f
        | none => L.inAndOut,
      sourceCenter := none, targetCenter := none,
      sourceResolution := none, targetResolution := none,
      sourceRotation := none, targetRotation := none, callback := none }
  let animation1 : ViewAnimation α :=
    match options.center with
    | some c => { animation0 with sourceCenter := some center, targetCenter := some c }
    | none => animation0
  let animation2 : ViewAnimation α :=
    match resolutionTarget v options with
    | some target =>
        { animation1 with sourceResolution := resolution, targetResolution := target }
    | none => animation1
  let animation3 : ViewAnimation α :=
    match options.rotation with
    | some requested =>
        { animation2 with sourceRotation := some rotation,
                          targetRotation := some (rotationTarget L rotation requested) }
    | none => animation2
  let animation4 : ViewAnimation α := { animation3 with callback := callback }
  if isNoopAnimation animation4 then { animation4 with complete := true } else animation4

/-- The loop of `animate` over the stage arguments: the series, with
`start`, `center`, `resolution` and `rotation` threaded from stage to stage. -/
def buildSeries (L : Imports α) (v : View α) (callback : Option Callback) :
    List (AnimationOptions α) → α → Coordinate α → Option α → α → List (ViewAnimation α)
  | [], _, _, _, _ => []
  | options :: rest, start, center, resolution, rotation =>
      let animation := makeAnimation L v callback options start center resolution rotation
      let center1 : Coordinate α :=
        match options.center with
        | some c => c
        | none => center
      let resolution1 : Option α :=
        match resolutionTarget v options with
        | some target => target
        | none => resolution
      let rotation1 : α :=
        match options.rotation with
        | some requested => rotationTarget L rotation requested
        | none => rotation
      let start1 : α := if animation.complete then start else start + animation.duration
      animation :: buildSeries L v callback rest start1 center1 resolution1 rotation1

/-- Run `f` after a call, unless the call raised. -/
def Outcome.andThen (o : Outcome α) (f : View α → Outcome α) : Outcome α :=
  match o.error with
  | some _ => o
  | none => f o.view

/-- An outcome without error. -/
def Outcome.ok (v : View α) : Outcome α := { view := v, error := none }

/-- Whether `animate` takes its last argument as the callback:
`animationCount > 1 && typeof arguments[animationCount - 1] === 'function'`. -/
def hasCallback (args : List (AnimateArg α)) : Bool :=
  decide (args.length > 1) &&
    (match args.getLast? with
     | some arg => arg.isFunction
     | none => false)

/-- The local `callback` of `animate`. -/
def callbackOf (args : List (AnimateArg α)) : Option Callback :=
  if hasCallback args then
    match args.getLast? with
    | some arg => arg.asCallback
    | none => none
  else none

/-- The local `animationCount` of `animate` once the callback is taken off. -/
def animationCount (args : List (AnimateArg α)) : Nat :=
  if hasCallback args then args.length - 1 else args.length

/-- The branch of `animate` for a view that is not defined: the targets of
`state = arguments[animationCount - 1]` are set, then the callback is called
with `true`.  With no argument `state` is `undefined` and reading
`state.center` raises a `TypeError`. -/
def animateUndefined (args : List (AnimateArg α)) (v : View α) : Outcome α :=
  if animationCount args = 0 then { view := v, error := some JsError.TypeError }
  else
    match args.get? (animationCount args - 1) with
    | none => { view := v, error := some JsError.TypeError }
    | some arg =>
        let state := arg.asOptions
        let o1 : Outcome α :=
          match state.center with
          | some c => setCenter (some c) v
          | none => Outcome.ok v
        let o2 : Outcome α := o1.andThen (fun v1 =>
          match state.zoom with
          | some zoom => setZoom zoom v1
          | none => Outcome.ok v1)
        let o3 : Outcome α := o2.andThen (fun v2 =>
          match state.rotation with
          | some rotation => setRotation rotation v2
          | none => Outcome.ok v2)
        o3.andThen (fun v3 => Outcome.ok (invoke (callbackOf args) true v3))

/-- The method `animate`, called at time `now` with the arguments `args`. -/
def animate (L : Imports α) (now : α) (args : List (AnimateArg α)) (v : View α) :
    Outcome α :=
  if !isDef v then animateUndefined args v
  else
    match getCenter v with
    | none => { view := v, error := some JsError.TypeError }
    | some center =>
        let series := buildSeries L v (callbackOf args)
          ((args.take (animationCount args)).map AnimateArg.asOptions)
          now center (getResolution v) (getRotation v)
        let v1 : View α := { v with animations_ := v.animations_ ++ [some series] }
        updateAnimations_ L now (setHint v1 ViewHint.ANIMATING 1)

/-- One call on the view by its user or by the frame callback. -/
inductive Op (α : Type) where
  | animate (now : α) (args : List (AnimateArg α))
  | tick (now : α)
  | cancelAnimations
  | setCenter (center : Option (Coordinate α))
  | setResolution (resolution : Option α)
  | setRotation (rotation : α)

/-- Run one call. -/
def Op.run (L : Imports α) : Op α → View α → Outcome α
  | Op.animate now args, v => OlView.animate L now args v
  | Op.tick now, v => updateAnimations_ L now v
  | Op.cancelAnimations, v => OlView.cancelAnimations v
  | Op.setCenter center, v => OlView.setCenter center v
  | Op.setResolution resolution, v => OlView.setResolution resolution v
  | Op.setRotation rotation, v => OlView.setRotation rotation v

/-- Run a sequence of calls, the first in the list first; a raised error ends
the run. -/
def runOps (L : Imports α) : List (Op α) → View α → Outcome α
  | [], v => Outcome.ok v
  | op :: rest, v => (op.run L v).andThen (runOps L rest)

/-- The scan of `linearFindNearest` from index `i`, with `prev` the element
before it. -/
def findNearestFrom (target direction : α) : Nat → α → List α → Option Nat
  | _, _, [] => none
  | i, prev, x :: rest =>
      if direction > 0 then
        if x < target then some (i - 1) else findNearestFrom target direction (i + 1) x rest
      else if direction < 0 then
        if x ≤ target then some i else findNearestFrom target direction (i + 1) x rest
      else if x = target then some i
      else if x < target then
        if prev - target < target - x then some (i - 1) else some i
      else findNearestFrom target direction (i + 1) x rest

/-- Modelled from the spec: `ol.array.linearFindNearest` of ol/array.js,
which is not among the sources: the index of the entry of a descending table
nearest to `target`, `direction` selecting the higher or the lower neighbour
(`0`: the nearer one). -/
def linearFindNearest (arr : List α) (target direction : α) : Nat :=
  match arr with
  | [] => 0
  | first :: rest =>
      if first ≤ target then 0
      else if target ≤ (first :: rest).getLast (List.cons_ne_nil first rest) then rest.length
      else
        match findNearestFrom target direction 1 first rest with
        | some i => i
        | none => rest.length

/-- The type `ol.Pixel`, an `[x, y]` array of pixel coordinates. -/
abbrev Pixel (α : Type) := α × α

/-- The type `ol.Size`, a `[width, height]` array. -/
abbrev Size (α : Type) := α × α

/-- The type `ol.Extent`, `[minx, miny, maxx, maxy]`. -/
structure Extent (α : Type) where
  minX : α
  minY : α
  maxX : α
  maxY : α

/-- The method `getSizeFromViewport_`: `[100, 100]`, or the computed width
and height of the viewport element of the view when the document has one
(`element`). -/
def getSizeFromViewport_ (element : Option (Size α)) : Size α :=
  match element with
  | some metrics => metrics
  | none => (100, 100)

/-- Modelled from the spec: `ol.extent.getForViewAndSize` of ol/extent.js,
which is not among the sources: "the rotated bounding box of a `size`-pixel
viewport" at the given center, resolution and rotation. -/
def getForViewAndSize (L : Imports α) (center : Coordinate α) (resolution rotation : α)
    (size : Size α) : Extent α :=
  let dx := resolution * size.1 / 2
  let dy := resolution * size.2 / 2
  let xCos := dx * L.cos rotation
  let xSin := dx * L.sin rotation
  let yCos := dy * L.cos rotation
  let ySin := dy * L.sin rotation
  let x := center.1
  let y := center.2
  let x0 := x - xCos + ySin
  let x1 := x - xCos - ySin
  let x2 := x + xCos - ySin
  let x3 := x + xCos + ySin
  let y0 := y - xSin - yCos
  let y1 := y - xSin + yCos
  let y2 := y + xSin + yCos
  let y3 := y + xSin - yCos
  { minX := min (min x0 x1) (min x2 x3), minY := min (min y0 y1) (min y2 y3),
    maxX := max (max x0 x1) (max x2 x3), maxY := max (max y0 y1) (max y2 y3) }

/-- The properties of a view of the model, in which `undefined` and `null`
are one value for the center: a missing center is read as `undefined`, and the
rotation is a number. -/
def View.properties (v : View α) : Properties α :=
  { center := match v.center with
      | some c => Held.value c
      | none => Held.undefined,
    resolution := v.resolution,
    rotation := some v.rotation }

/-- The method `calculateExtent`, on the properties of the view, with
`element` the size of the viewport element of the view, if any.
`ol.asserts.assert(assertion, code)` raises the assertion error `code` when
`assertion` is falsy: assertion 1 on a center that is `undefined` or `null`,
assertion 2 on a resolution that is `undefined`, assertion 3 on a rotation that
is `undefined`.  The method reads the properties and writes nothing. -/
def Properties.calculateExtent (L : Imports α) (element : Option (Size α))
    (opt_size : Option (Size α)) (p : Properties α) : Except JsError (Extent α) :=
  let size : Size α :=
    match opt_size with
    | some s => s
    | none => getSizeFromViewport_ element
  match p.center with
  | Held.undefined => Except.error (JsError.AssertionError 1)
  | Held.null => Except.error (JsError.AssertionError 1)
  | Held.value center =>
      match p.resolution with
      | none => Except.error (JsError.AssertionError 2)
      | some resolution =>
          match p.rotation with
          | none => Except.error (JsError.AssertionError 3)
          | some rotation => Except.ok (getForViewAndSize L center resolution rotation size)

/-- The method `calculateCenterZoom`, on the properties of the view.  The
guard is `currentCenter !== undefined && currentResolution !== undefined`: a
center that is `null` passes it, and reading `currentCenter[0]` then raises a
`TypeError`. -/
def Properties.calculateCenterZoom (p : Properties α) (resolution : α)
    (anchor : Coordinate α) : Except JsError (Option (Coordinate α)) :=
  match p.center, p.resolution with
  | Held.undefined, _ => Except.ok none
  | _, none => Except.ok none
  | Held.null, some _ => Except.error JsError.TypeError
  | Held.value currentCenter, some currentResolution =>
      Except.ok (some
        (anchor.1 - resolution * (anchor.1 - currentCenter.1) / currentResolution,
         anchor.2 - resolution * (anchor.2 - currentCenter.2) / currentResolution))

/-- The method `getZoomForResolution`. -/
def getZoomForResolution (L : Imports α) (v : View α) (resolution : α) : α :=
  match v.resolutions_ with
  | some resolutions =>
      let nearest := linearFindNearest resolutions resolution 1
      let max := resolutions.getD nearest 0
      let zoomFactor : α :=
        if nearest = resolutions.length - 1 then 2
        else max / resolutions.getD (nearest + 1) 0
      (nearest : α) + L.log (max / resolution) / L.log zoomFactor
  | none =>
      v.minZoom_ + L.log (v.maxResolution_ / resolution) / L.log v.zoomFactor_

/-- The method `getZoom`. -/
def getZoom (L : Imports α) (v : View α) : Option α :=
  match getResolution v with
  | some resolution => some (getZoomForResolution L v resolution)
  | none => none

/-- The type `olx.ViewState`, without the projection: what `getState`
returns.  The resolution is cast to a number in the code, not checked. -/
structure ViewState (α : Type) where
  center : Coordinate α
  resolution : Option α
  rotation : α
  zoom : Option α

/-- The method `getState`: `center.slice()` raises a `TypeError` when the
center is `undefined` or `null`; nothing else is checked.  The method reads
the view and writes nothing. -/
def getState (L : Imports α) (v : View α) : Except JsError (ViewState α) :=
  match getCenter v with
  | none => Except.error JsError.TypeError
  | some center =>
      Except.ok { center := center, resolution := getResolution v,
                  rotation := getRotation v, zoom := getZoom L v }

/-- The method `centerOn`.  With the resolution undefined the two offsets
are `NaN` and so is the center that is set: no result in the model. -/
def centerOn (L : Imports α) (coordinate : Coordinate α) (size : Size α)
    (position : Pixel α) (v : View α) : Option (Outcome α) :=
  match getResolution v with
  | none => none
  | some resolution =>
      let rotation := getRotation v
      let cosAngle := L.cos (-rotation)
      let sinAngle := L.sin (-rotation)
      let rotX := coordinate.1 * cosAngle - coordinate.2 * sinAngle
      let rotY := coordinate.2 * cosAngle + coordinate.1 * sinAngle
      let rotX1 := rotX + (size.1 / 2 - position.1) * resolution
      let rotY1 := rotY + (position.2 - size.2 / 2) * resolution
      let sinAngle1 := -sinAngle
      let centerX := rotX1 * cosAngle - rotY1 * sinAngle1
      let centerY := rotY1 * cosAngle + rotX1 * sinAngle1
      some (setCenter (some (centerX, centerY)) v)

end Methods

/-! ## What a pass of the driver does to the stages and the series

The `complete` flag a pass leaves on a stage depends on the time only, not on
the values the pass writes; `advanceSeries` is that part of the inner loop. -/

section Flags

variable {α : Type} [LinearOrderedField α] [FloorRing α]

/-- The stages of one series after a pass at time `now`: every stage up to
and including the first one whose fraction is below 1 is visited, and a
visited stage whose fraction reached 1 is complete. -/
def advanceSeries (now : α) : List (ViewAnimation α) → List (ViewAnimation α)
  | [] => []
  | animation :: rest =>
      if animation.complete then animation :: advanceSeries now rest
      else if stageFraction now animation ≥ 1 then
        { animation with complete := true } :: advanceSeries now rest
      else animation :: rest

/-- Every stage of the series is complete. -/
def seriesDone (series : List (ViewAnimation α)) : Bool :=
  series.all (fun animation => animation.complete)

/-- Some stage of the series is not complete. -/
def hasIncomplete (series : List (ViewAnimation α)) : Bool :=
  series.any (fun animation => !animation.complete)

/-- A stage the driver can run: a stage with a source center has a target
center, as every stage `animate` builds. -/
def stageOK (animation : ViewAnimation α) : Bool :=
  !animation.sourceCenter.isSome || animation.targetCenter.isSome

/-- An entry of `animations_` as `animate` leaves it: a series, not `null`,
with at least one stage, all of them runnable. -/
def seriesOK : Option (List (ViewAnimation α)) → Bool
  | some (animation :: rest) => (animation :: rest).all stageOK
  | _ => false

/-- The callback stored for an entry, `series[0].callback`. -/
def entryCallback : Option (List (ViewAnimation α)) → Option Callback
  | some (animation :: _) => animation.callback
  | _ => none

/-- An entry of `animations_` after a pass at time `now`: `null` when all its
stages are complete then, else the series with its stages advanced. -/
def tickEntry (now : α) : Option (List (ViewAnimation α)) → Option (List (ViewAnimation α))
  | none => none
  | some series =>
      if seriesDone (advanceSeries now series) then none
      else some (advanceSeries now series)

/-- The entry is retired by a pass at time `now`. -/
def retires (now : α) (entry : Option (List (ViewAnimation α))) : Bool :=
  match entry with
  | none => false
  | some series => seriesDone (advanceSeries now series)

/-- The callback calls a list of entries gives rise to with argument `arg`,
in list order: one for each entry that stores a callback. -/
def callbackCalls (arg : Bool) (entries : List (Option (List (ViewAnimation α)))) :
    List (Callback × Bool) :=
  entries.filterMap (fun entry => (entryCallback entry).map (fun cb => (cb, arg)))

/-- The view with its three observable properties replaced. -/
def withState (v : View α) (center : Option (Coordinate α)) (resolution : Option α)
    (rotation : α) : View α :=
  { v with center := center, resolution := resolution, rotation := rotation }

/-- The invariant of the views reached through the methods: the entries of
`animations_` are well-formed series, the ANIMATING hint counts them, and a
view with an active series is defined. -/
def WellFormed (v : View α) : Prop :=
  v.animations_.all seriesOK = true ∧
  v.hints_.animating = (v.animations_.length : Int) ∧
  (v.animations_ ≠ [] → isDef v = true)

/-- Some entry has a stage that is not complete. -/
def anyIncomplete (entries : List (Option (List (ViewAnimation α)))) : Bool :=
  entries.any (fun entry =>
    match entry with
    | some series => hasIncomplete series
    | none => false)

/-- The entries a pass at time `now` retires, in the order the pass visits
them: the last of `animations_` first. -/
def retiredBy (now : α) (entries : List (Option (List (ViewAnimation α)))) :
    List (Option (List (ViewAnimation α))) :=
  (entries.filter (retires now)).reverse

/-- The view after a pass that wrote the given center, resolution and
rotation and retired the given entries: the ANIMATING hint is lowered by one
for each, and each stored callback is called with `true`. -/
def afterPass (v : View α) (center : Option (Coordinate α)) (resolution : Option α)
    (rotation : α) (retired : List (Option (List (ViewAnimation α)))) : View α :=
  { v with center := center, resolution := resolution, rotation := rotation,
           hints_ := v.hints_.add ViewHint.ANIMATING (-(retired.length : Int)),
           calls := v.calls ++ callbackCalls true retired }

/-- The entries of `animations_` left by a pass at time `now`, pruned. -/
def remaining (now : α) (entries : List (Option (List (ViewAnimation α)))) :
    List (Option (List (ViewAnimation α))) :=
  (entries.map (tickEntry now)).filter (fun entry => entry.isSome)

/-- The view after a driver tick at time `now` that went through the loop
and wrote the given center, resolution and rotation: the retired series are
pruned, and a frame is requested when some stage was advanced. -/
def afterTick (now : α) (v : View α) (center : Option (Coordinate α))
    (resolution : Option α) (rotation : α) : View α :=
  { afterPass v center resolution rotation (retiredBy now v.animations_) with
    animations_ := remaining now v.animations_,
    updateAnimationKey_ := if anyIncomplete v.animations_ then some (v.frames + 1) else none,
    frames := if anyIncomplete v.animations_ then v.frames + 1 else v.frames }

/-- An entry of `animations_` whose `series[0]` can be read: a series, not
`null`, with a first stage. -/
def hasFirstStage : Option (List (ViewAnimation α)) → Bool
  | some (_ :: _) => true
  | _ => false

/-- The number of entries that store the callback `cb`. -/
def holders (cb : Callback) (entries : List (Option (List (ViewAnimation α)))) : Nat :=
  (entries.filter (fun entry => decide (entryCallback entry = some cb))).length

/-- The number of calls of `cb` with argument `arg` in a log. -/
def callsWith (cb : Callback) (arg : Bool) (calls : List (Callback × Bool)) : Nat :=
  (calls.filter (fun call => decide (call = (cb, arg)))).length

/-- The number of calls of `cb` in a log, with either argument. -/
def invocations (cb : Callback) (calls : List (Callback × Bool)) : Nat :=
  (calls.filter (fun call => decide (call.1 = cb))).length

/-- The series a call of `animate` at time `now` builds on a defined view. -/
def seriesFor (L : Imports α) (now : α) (args : List (AnimateArg α)) (v : View α) :
    List (ViewAnimation α) :=
  match getCenter v with
  | none => []
  | some center =>
      buildSeries L v (callbackOf args)
        ((args.take (animationCount args)).map AnimateArg.asOptions)
        now center (getResolution v) (getRotation v)

/-- The first stage `animate` would build changes the view (it is not marked
complete as a no-op) and has a positive duration. -/
def startsMoving (L : Imports α) (now : α) (args : List (AnimateArg α)) (v : View α) : Bool :=
  match seriesFor L now args v with
  | [] => false
  | animation :: _ => !animation.complete && decide (0 < animation.duration)

/-- The view after `animations_.push(series)` and `setHint(ANIMATING, 1)`,
the two statements of `animate` before it runs the driver. -/
def pushSeries (v : View α) (series : List (ViewAnimation α)) : View α :=
  setHint { v with animations_ := v.animations_ ++ [some series] } ViewHint.ANIMATING 1

/-- The trailing arguments of `animate` for an optional callback. -/
def callbackArgs (callback : Option Callback) : List (AnimateArg α) :=
  match callback with
  | some cb => [AnimateArg.callback cb]
  | none => []

/-- Every target the options give equals the value reached so far: the center
given is the current one, the resolution target is the current resolution,
and the rotation target is the current rotation. -/
def changesNothing (L : Imports α) (v : View α) (options : AnimationOptions α)
    (center : Coordinate α) (resolution : Option α) (rotation : α) : Prop :=
  (∀ c, options.center = some c → center = c) ∧
  (∀ target, resolutionTarget v options = some target → resolution = target) ∧
  (∀ requested, options.rotation = some requested →
    rotation = rotationTarget L rotation requested)

/-- Options with a center target only. -/
def centerOptions {α : Type} (center : Coordinate α) : AnimationOptions α :=
  { AnimationOptions.empty with center := some center }

/-- The three observable properties of a view: center, resolution and
rotation. -/
abbrev Props (α : Type) := Option (Coordinate α) × Option α × α

/-- The observable properties stored in a view. -/
def props (v : View α) : Props α := (v.center, v.resolution, v.rotation)

/-- A rotation normalised as the driver writes it at the end of a stage:
`modulo(rotation + Math.PI, 2 * Math.PI) - Math.PI`. -/
def normalizeRotation (L : Imports α) (rotation : α) : α :=
  modulo (rotation + L.PI) (2 * L.PI) - L.PI

/-- What the driver writes for a stage without anchor at the given progress,
as a function of the properties before. -/
def writeProps (L : Imports α) (animation : ViewAnimation α) (progress : α)
    (p : Props α) : Props α :=
  let center : Option (Coordinate α) :=
    match animation.sourceCenter, animation.targetCenter with
    | some s, some t =>
        some (s.1 + progress * (t.1 - s.1), s.2 + progress * (t.2 - s.2))
    | _, _ => p.1
  let resolution : Option α :=
    match animation.sourceResolution, animation.targetResolution with
    | some s, some t =>
        if s ≠ 0 ∧ t ≠ 0 then some (if progress = 1 then t else s + progress * (t - s))
        else p.2.1
    | _, _ => p.2.1
  let rotation : α :=
    match animation.sourceRotation, animation.targetRotation with
    | some s, some t =>
        if progress = 1 then normalizeRotation L t else s + progress * (t - s)
    | _, _ => p.2.2
  (center, resolution, rotation)

/-- The properties once every stage of the series that is not complete yet
has been run to its end, in order. -/
def settleProps (L : Imports α) : List (ViewAnimation α) → Props α → Props α
  | [], p => p
  | animation :: rest, p =>
      if animation.complete then settleProps L rest p
      else settleProps L rest (writeProps L animation 1 p)

/-- A stage as `animate` builds it from options without anchor and with an
easing that maps 1 to 1. -/
def plainStage (animation : ViewAnimation α) : Prop :=
  stageOK animation = true ∧ animation.anchor = none ∧ animation.easing 1 = 1

/-- The stage arguments of a call of `animate`: the arguments without the
callback, read as options. -/
def stagesOf (args : List (AnimateArg α)) : List (AnimationOptions α) :=
  (args.take (animationCount args)).map AnimateArg.asOptions

/-- The last center target given by the stages, if any. -/
def lastCenter (stages : List (AnimationOptions α)) : Option (Coordinate α) :=
  (stages.filterMap (fun o => o.center)).getLast?

/-- The last resolution target given by the stages, if any: the resolution
the constraint gives for a zoom, or the resolution given. -/
def lastResolution (v : View α) (stages : List (AnimationOptions α)) : Option (Option α) :=
  (stages.filterMap (fun o => resolutionTarget v o)).getLast?

/-- The last rotation requested by the stages, if any. -/
def lastRotation (stages : List (AnimationOptions α)) : Option α :=
  (stages.filterMap (fun o => o.rotation)).getLast?

/-- A view that runs at most one series, of plain stages, towards the
properties `P`: every stage that is not complete ends by the time `t1`, and
running the stages that are not complete to their end gives `P`. -/
def Settling (L : Imports α) (t1 : α) (P : Props α) (w : View α) : Prop :=
  WellFormed w ∧
  ((w.animations_ = [] ∧ props w = P) ∨
   ∃ s, w.animations_ = [some s] ∧ (∀ a ∈ s, plainStage a) ∧
     (∀ a ∈ s, a.complete = false → a.start + a.duration ≤ t1) ∧
     settleProps L s (props w) = P)

/-- The center, resolution and rotation the loop of `animate` has reached
after the given stages, from the values it started with. -/
def threadEnd (L : Imports α) (v : View α) :
    List (AnimationOptions α) → Coordinate α → Option α → α → Coordinate α × Option α × α
  | [], center, resolution, rotation => (center, resolution, rotation)
  | options :: rest, center, resolution, rotation =>
      threadEnd L v rest
        (match options.center with
         | some c => c
         | none => center)
        (match resolutionTarget v options with
         | some target => target
         | none => resolution)
        (match options.rotation with
         | some requested => rotationTarget L rotation requested
         | none => rotation)

/-- The view after a call of `animate` at time `now`, driver ticks at the
given times, and a last driver tick at time `t1`. -/
def runToEnd (L : Imports α) (now t1 : α) (times : List α) (args : List (AnimateArg α))
    (v : View α) : View α :=
  (updateAnimations_ L t1
    (runOps L (times.map Op.tick) (animate L now args v).view).view).view

/-- The duration of the stage built from the options:
`options.duration !== undefined ? options.duration : 1000`. -/
def stageDuration (options : AnimationOptions α) : α :=
  match options.duration with
  | some d => d
  | none => 1000

/-- The sum of the durations of the stages. -/
def totalDuration : List (AnimationOptions α) → α
  | [] => 0
  | options :: rest => stageDuration options + totalDuration rest

/-- Options with a zoom target and an anchor only. -/
def anchoredZoom (zoom : α) (anchor : Coordinate α) : AnimationOptions α :=
  { AnimationOptions.empty with zoom := some zoom, anchor := some anchor }

/-- A stage as `animate` builds it at time `now` from `{zoom, anchor: c}` on a
view with a positive resolution, for a positive target: no center or rotation
part, the anchor `c`, the default easing and duration, and positive source and
target resolutions where both are there. -/
def ZoomStage (L : Imports α) (now : α) (c : Coordinate α) (a : ViewAnimation α) : Prop :=
  a.sourceCenter = none ∧ a.sourceRotation = none ∧ a.anchor = some c ∧
  a.easing = L.inAndOut ∧ a.start = now ∧ a.duration = 1000 ∧
  (∀ s t, a.sourceResolution = some s → a.targetResolution = some t → 0 < s ∧ 0 < t)

/-- A view centred at `c`, with a positive resolution, that runs no series or
the one series of one `ZoomStage` about `c`. -/
def ZoomingAbout (L : Imports α) (now : α) (c : Coordinate α) (w : View α) : Prop :=
  WellFormed w ∧ w.center = some c ∧ (∃ r, w.resolution = some r ∧ 0 < r) ∧
  (w.animations_ = [] ∨ ∃ a, w.animations_ = [some [a]] ∧ ZoomStage L now c a)

/-- The sum of the durations of the stages that are not no-ops, that is not
marked complete when `animate` builds them. -/
def durationBefore : List (ViewAnimation α) → α
  | [] => 0
  | animation :: rest =>
      (if animation.complete then 0 else animation.duration) + durationBefore rest

/-- The target of the nearest stage of `earlier` (the last in the list) that
has one for the dimension read by `target`, or the live value `live` when no
stage has one. -/
def nearestTarget {β : Type} (target : ViewAnimation α → Option β) (live : β)
    (earlier : List (ViewAnimation α)) : β :=
  match (earlier.filterMap target).getLast? with
  | some t => t
  | none => live

/-- The stages a pass at time `now` advances in a series, in the order of the
pass, each with the fraction passed to its easing function: the stages that
are complete are skipped, a stage whose fraction reached 1 is advanced with the
fraction 1 and marked complete, and the first stage whose fraction is below 1
is the last one advanced. -/
def advanced (now : α) : List (ViewAnimation α) → List (ViewAnimation α × α)
  | [] => []
  | animation :: rest =>
      if animation.complete then advanced now rest
      else if stageFraction now animation ≥ 1 then
        ({ animation with complete := true }, 1) :: advanced now rest
      else [(animation, stageFraction now animation)]

/-- The writes of one advanced stage with the fraction passed to its easing
function: the center part, the resolution part and the rotation part. -/
def stageWrite (L : Imports α) (w : View α) (stage : ViewAnimation α × α) : View α :=
  writeRotation L stage.1 (stage.1.easing stage.2)
    (writeResolution stage.1 (stage.1.easing stage.2)
      (writeCenter stage.1 (stage.1.easing stage.2) w).view)

/-- The writes of a pass at time `now` for one entry of `animations_`: the
writes of the stages it advances, in order. -/
def seriesWrites (L : Imports α) (now : α) (entry : Option (List (ViewAnimation α)))
    (w : View α) : View α :=
  match entry with
  | some series => (advanced now series).foldl (stageWrite L) w
  | none => w

/-- The writes of a pass at time `now` over the entries of `animations_`: the
last entry, the series added most recently, is visited first. -/
def passWrites (L : Imports α) (now : α) (entries : List (Option (List (ViewAnimation α))))
    (w : View α) : View α :=
  entries.foldr (seriesWrites L now) w

/-- The stages of a series after driver ticks at the given times, in order. -/
def ticked (times : List α) (series : List (ViewAnimation α)) : List (ViewAnimation α) :=
  times.foldl (fun stages t => advanceSeries t stages) series

/-- The times are in order from `t0` on: none is earlier than `t0` or than the
time before it. -/
def inOrderFrom (t0 : α) : List α → Prop
  | [] => True
  | t :: times => t0 ≤ t ∧ inOrderFrom t times

/-- The last of the times, or `t0` when there is none. -/
def lastTime (t0 : α) : List α → α
  | [] => t0
  | t :: times => lastTime t times

/-- The stages of a series are on time by the time `τ`: they start one after
the other from `start`, a stage that was a no-op when `animate` built it
(`noop`) is complete and takes no time, and a stage of positive duration that
was completed since ended by `τ`. -/
def OnTime (τ : α) : α → List Bool → List (ViewAnimation α) → Prop
  | _, [], [] => True
  | start, noop :: noops, animation :: rest =>
      animation.start = start ∧ (noop = true → animation.complete = true) ∧
      (noop = false → animation.complete = true → 0 < animation.duration →
        animation.start + animation.duration ≤ τ) ∧
      OnTime τ (if noop then start else start + animation.duration) noops rest
  | _, _, _ => False

end Flags

/-! ## Views and imports to evaluate on -/

section Evaluation

variable {α : Type} [LinearOrderedField α] [FloorRing α]

/-- Modelled from the spec: `ol.ResolutionConstraint.createSnapToResolutions`
of ol/ResolutionConstraint.js, which is not among the sources: "find nearest
entry in a provided ascending/descending resolution table, offset by integer
`delta`, clamped to table bounds". -/
def createSnapToResolutions (resolutions : List α) (resolution : Option α)
    (delta direction : α) : Option α :=
  match resolution with
  | none => none
  | some r =>
      let z : α := (linearFindNearest resolutions r direction : α) + delta
      let clamped : α := max 0 (min z ((resolutions.length : α) - 1))
      resolutions.get? ⌊clamped⌋₊

/-- Constraints for evaluation: the table constraint on the resolution, no
constraint on center and rotation. -/
def tableConstraints (resolutions : List α) : Constraints α :=
  { center := fun c => c,
    resolution := createSnapToResolutions resolutions,
    rotation := fun rotation delta => rotation.map (fun r => r + delta) }

/-- Imports to evaluate on rationals: `Math.PI` is the value of the double,
`cos` and `sin` are Taylor polynomials, `log` is the binary logarithm at 1, 2
and 4 and its first-order expansion at 1 elsewhere, `pow` is the power with
the exponent floored (exact at whole exponents), and `inAndOut` is
`3t² - 2t³`. -/
def evalImports : Imports ℚ :=
  { PI := 884279719003555 / 281474976710656,
    cos := fun x => 1 - x * x / 2 + x * x * x * x / 24,
    sin := fun x => x - x * x * x / 6,
    log := fun x => if x = 4 then 2 else x - 1,
    pow := fun b y => b ^ ⌊y⌋,
    inAndOut := fun t => 3 * t * t - 2 * t * t * t }

/-- A view as constructed with `resolutions: [4, 2, 1]`, the given center
and resolution, and rotation 0: no hint, no animation. -/
def tableView (center : Option (Coordinate ℚ)) (resolution : Option ℚ) : View ℚ :=
  { hints_ := { animating := 0, interacting := 0 },
    animations_ := [],
    updateAnimationKey_ := none,
    center := center,
    resolution := resolution,
    rotation := 0,
    maxResolution_ := 4,
    minResolution_ := 1,
    zoomFactor_ := 2,
    resolutions_ := some [4, 2, 1],
    minZoom_ := 0,
    constraints_ := tableConstraints [4, 2, 1],
    calls := [],
    frames := 0 }

/-- A stage that moves the center from `(1, 2)` to `(10, 10)` with linear
easing, from time `start` for `duration`, with callback `cb`. -/
def panStage (start duration : ℚ) (cb : Option Callback) : ViewAnimation ℚ :=
  { start := start, complete := false, anchor := none, duration := duration,
    easing := fun t => t,
    sourceCenter := some (1, 2), targetCenter := some (10, 10),
    sourceResolution := none, targetResolution := none,
    sourceRotation := none, targetRotation := none, callback := cb }

/-- The view `tableView (1, 2) 2` with two active series: a pan started at
time 0 for 1000 ms with callback 1, and one started at 500 for 1000 ms with
callback 2. -/
def busyView : View ℚ :=
  { tableView (some (1, 2)) (some 2) with
    hints_ := { animating := 2, interacting := 0 },
    animations_ := [some [panStage 0 1000 (some 1)], some [panStage 500 1000 (some 2)]] }

/-- Options for a pan to `center` over `duration` milliseconds. -/
def panOptions (center : Coordinate ℚ) (duration : ℚ) : AnimationOptions ℚ :=
  { AnimationOptions.empty with center := some center, duration := some duration }

/-- A pan with callback 1 started at time 0, a tick at 500, a second pan
with callback 2 started at 600, and a `setRotation`. -/
def sampleOps : List (Op ℚ) :=
  [Op.animate 0 [AnimateArg.options (panOptions (10, 10) 1000), AnimateArg.callback 1],
   Op.tick 500,
   Op.animate 600 [AnimateArg.options (panOptions (20, 0) 1000), AnimateArg.callback 2],
   Op.setRotation 1]

/-- Options with a zoom target only. -/
def zoomOptions {α : Type} (zoom : α) : AnimationOptions α :=
  { AnimationOptions.empty with zoom := some zoom }

/-- The view `tableView (1, 2) 2` with one active series: a pan started at
time 0 for 1000 ms with callback 1. -/
def dueView : View ℚ :=
  { tableView (some (1, 2)) (some 2) with
    hints_ := { animating := 1, interacting := 0 },
    animations_ := [some [panStage 0 1000 (some 1)]] }

/-- Options with a rotation target only. -/
def rotationOptions {α : Type} (rotation : α) : AnimationOptions α :=
  { AnimationOptions.empty with rotation := some rotation }

/-- Options with center `(3, 4)` and rotation 1. -/
def placeOptions : AnimationOptions ℚ :=
  { AnimationOptions.empty with center := some (3, 4), rotation := some 1 }

/-- Options with center `(1, 2)` and resolution 5, as `fit` passes them. -/
def fitOptions : AnimationOptions ℚ :=
  { AnimationOptions.empty with center := some (1, 2), resolution := some 5 }

/-- The view `tableView (1, 2) 2` after `setRotation(4)`. -/
def spunView : View ℚ :=
  { tableView (some (1, 2)) (some 2) with rotation := 4 }

/-- Options with the resolution target 1000 only. -/
def farOptions : AnimationOptions ℚ :=
  { AnimationOptions.empty with resolution := some 1000 }

/-- Options with center `(3, 4)`, zoom 2 and rotation 1, over 500 ms. -/
def flightOptions : AnimationOptions ℚ :=
  { AnimationOptions.empty with
    center := some (3, 4), zoom := some 2, rotation := some 1, duration := some 500 }

/-- Options for a pan to `center` over `duration` milliseconds with the
linear easing `t => t`. -/
def glideOptions (center : Coordinate ℚ) (duration : ℚ) : AnimationOptions ℚ :=
  { AnimationOptions.empty with center := some center, duration := some duration,
                                easing := some (fun t => t) }

/-- Two pans in series, of 1000 ms each, with the linear easing: to `(5, 6)`
and then to `(9, 10)`. -/
def glideArgs : List (AnimateArg ℚ) :=
  [AnimateArg.options (glideOptions (5, 6) 1000), AnimateArg.options (glideOptions (9, 10) 1000)]

/-- Options for a change to `resolution` over `duration` milliseconds with the
linear easing `t => t`. -/
def scaleOptions (resolution duration : ℚ) : AnimationOptions ℚ :=
  { AnimationOptions.empty with resolution := some resolution, duration := some duration,
                                easing := some (fun t => t) }

/-- Two changes of resolution in series, of 1000 ms each, with the linear
easing: to 4 and then to 1. -/
def scaleArgs : List (AnimateArg ℚ) :=
  [AnimateArg.options (scaleOptions 4 1000), AnimateArg.options (scaleOptions 1 1000)]

/-- A flight to center `(3, 4)`, zoom 2 and rotation 1, followed by a change
to the resolution 2 with the linear easing, of 500 ms each. -/
def returnArgs : List (AnimateArg ℚ) :=
  [AnimateArg.options flightOptions, AnimateArg.options (scaleOptions 2 500)]

end Evaluation

/-! ## Fitting a geometry or an extent -/

section Fitting

variable {α : Type} [LinearOrderedField α] [FloorRing α]

/-- Modelled from the spec: `ol.extent.getWidth` of ol/extent.js, which is not
among the sources: the `dx` of the spec's `max(dx/sizeX, dy/sizeY)`. -/
def Extent.getWidth (extent : Extent α) : α := extent.maxX - extent.minX

/-- Modelled from the spec: `ol.extent.getHeight` of ol/extent.js, which is
not among the sources: the `dy` of the spec's `max(dx/sizeX, dy/sizeY)`. -/
def Extent.getHeight (extent : Extent α) : α := extent.maxY - extent.minY

/-- Modelled from the spec: `ol.extent.isEmpty` of ol/extent.js, which is not
among the sources: the extent has its maximum below its minimum in `x` or in
`y`. -/
def Extent.isEmpty (extent : Extent α) : Bool :=
  decide (extent.maxX < extent.minX) || decide (extent.maxY < extent.minY)

/-- Modelled from the spec: `ol.extent.getCenter` of ol/extent.js, which is
not among the sources: the middle of the extent. -/
def Extent.getCenter (extent : Extent α) : Coordinate α :=
  ((extent.minX + extent.maxX) / 2, (extent.minY + extent.maxY) / 2)

/-- Modelled from the spec: the coordinates of
`ol.geom.Polygon.fromExtent(extent)` (ol/geom/Polygon.js is not among the
sources), the "target bounding points": the ring of the four corners, closed,
as its first point and the others. -/
def fromExtent (extent : Extent α) : Coordinate α × List (Coordinate α) :=
  ((extent.minX, extent.minY),
   [(extent.minX, extent.maxY), (extent.maxX, extent.maxY), (extent.maxX, extent.minY),
    (extent.minX, extent.minY)])

/-- Modelled from the spec: the effect of `geometry.rotate(angle, anchor)` on
one coordinate (ol/geom/SimpleGeometry.js is not among the sources): the
coordinate turned by `angle` about `anchor`. -/
def rotateAbout (L : Imports α) (angle : α) (anchor p : Coordinate α) : Coordinate α :=
  let d := rotate L (p.1 - anchor.1, p.2 - anchor.2) angle
  (anchor.1 + d.1, anchor.2 + d.2)

/-- The method `getResolutionForExtent`; the two components of the size are
divisors. -/
def getResolutionForExtent (element : Option (Size α)) (extent : Extent α)
    (opt_size : Option (Size α)) : α :=
  let size : Size α :=
    match opt_size with
    | some s => s
    | none => getSizeFromViewport_ element
  let xResolution := extent.getWidth / size.1
  let yResolution := extent.getHeight / size.2
  max xResolution yResolution

/-- The first argument of `fit`: an extent (an array), a circle (a simple
geometry of type `CIRCLE`, with its extent), another simple geometry (with its
coordinates, at least one: with none the rotated extent is infinite), or
anything else. -/
inductive FitTarget (α : Type) where
  | extent (extent : Extent α)
  | circle (extent : Extent α)
  | geometry (first : Coordinate α) (rest : List (Coordinate α))
  | other

/-- The array `padding` of the fit options: `[top, right, bottom, left]`. -/
structure Padding (α : Type) where
  top : α
  right : α
  bottom : α
  left : α

/-- The type `olx.view.FitOptions`. -/
structure FitOptions (α : Type) where
  size : Option (Size α)
  padding : Option (Padding α)
  constrainResolution : Option Bool
  nearest : Option Bool
  minResolution : Option α
  maxZoom : Option α
  duration : Option α
  easing : Option (α → α)
  callback : Option Callback

/-- The function `ol.nullFunction`, which does nothing, as a callback: the
identity 0.  A call of it is logged like a call of any callback. -/
def nullFunction : Callback := 0

/-- The result of `fit`: the view after the call, the error raised, and the
calls handed to `setTimeout(..., 0)`, which run after `fit` has returned. -/
structure FitOutcome (α : Type) where
  view : View α
  error : Option JsError
  timers : List (Callback × Bool)

/-- The least of a first number and the numbers of a list: the loop
`min = Math.min(min, x)` from `+Infinity`. -/
def leastOf (first : α) (rest : List α) : α := rest.foldl min first

/-- The greatest of a first number and the numbers of a list: the loop
`max = Math.max(max, x)` from `-Infinity`. -/
def greatestOf (first : α) (rest : List α) : α := rest.foldl max first

/-- The part of `fit` up to `var center`: the resolution and the center it
computes.  The assertions 24 and 25 raise; the result is `none` where a value
is not a finite number: a padded size of 0 for an extent that is wider or
higher than 0, a minimum resolution or a constrained resolution that is
undefined. -/
def fitState (L : Imports α) (element : Option (Size α)) (target : FitTarget α)
    (options : FitOptions α) (v : View α) : Except JsError (Option (α × Coordinate α)) :=
  let size : Size α :=
    match options.size with
    | some s => s
    | none => getSizeFromViewport_ element
  let geometry : Except JsError (Coordinate α × List (Coordinate α)) :=
    match target with
    | FitTarget.other => Except.error (JsError.AssertionError 24)
    | FitTarget.extent extent =>
        if extent.isEmpty then Except.error (JsError.AssertionError 25)
        else Except.ok (fromExtent extent)
    | FitTarget.circle extent =>
        let ring := fromExtent extent
        Except.ok (rotateAbout L (getRotation v) extent.getCenter ring.1,
          ring.2.map (rotateAbout L (getRotation v) extent.getCenter))
    | FitTarget.geometry first rest => Except.ok (first, rest)
  match geometry with
  | Except.error e => Except.error e
  | Except.ok coords =>
      let padding : Padding α :=
        match options.padding with
        | some p => p
        | none => { top := 0, right := 0, bottom := 0, left := 0 }
      let constrain : Bool :=
        match options.constrainResolution with
        | some b => b
        | none => true
      let nearest : Bool :=
        match options.nearest with
        | some b => b
        | none => false
      let minResolution : Option α :=
        match options.minResolution with
        | some m => some m
        | none =>
            match options.maxZoom with
            | some maxZoom =>
                constrainResolution v (some v.maxResolution_) (maxZoom - v.minZoom_) 0
            | none => some 0
      let rotation := getRotation v
      let cosAngle := L.cos (-rotation)
      let sinAngle := L.sin (-rotation)
      let rotX : Coordinate α → α := fun p => p.1 * cosAngle - p.2 * sinAngle
      let rotY : Coordinate α → α := fun p => p.1 * sinAngle + p.2 * cosAngle
      let minRotX := leastOf (rotX coords.1) (coords.2.map rotX)
      let minRotY := leastOf (rotY coords.1) (coords.2.map rotY)
      let maxRotX := greatestOf (rotX coords.1) (coords.2.map rotX)
      let maxRotY := greatestOf (rotY coords.1) (coords.2.map rotY)
      let rotated : Extent α :=
        { minX := minRotX, minY := minRotY, maxX := maxRotX, maxY := maxRotY }
      let width := size.1 - padding.right - padding.left
      let height := size.2 - padding.top - padding.bottom
      let resolution : Option α :=
        if (width = 0 ∧ rotated.getWidth = 0) ∨ (height = 0 ∧ rotated.getHeight = 0) then
          minResolution
        else if width = 0 ∨ height = 0 then none
        else
          match minResolution with
          | some m => some (max (getResolutionForExtent element rotated (some (width, height))) m)
          | none => none
      match resolution with
      | none => Except.ok none
      | some resolution0 =>
          let resolution1 : Option α :=
            if constrain then
              match constrainResolution v (some resolution0) 0 0 with
              | some constrained =>
                  if !nearest && decide (constrained < resolution0) then
                    constrainResolution v (some constrained) (-1) 0
                  else some constrained
              | none => none
            else some resolution0
          match resolution1 with
          | none => Except.ok none
          | some r =>
              let sinAngle1 := -sinAngle
              let centerRotX := (minRotX + maxRotX) / 2 + (padding.right - padding.left) / 2 * r
              let centerRotY := (minRotY + maxRotY) / 2 + (padding.top - padding.bottom) / 2 * r
              let centerX := centerRotX * cosAngle - centerRotY * sinAngle1
              let centerY := centerRotY * cosAngle + centerRotX * sinAngle1
              Except.ok (some (r, (centerX, centerY)))

/-- The options object `fit` passes to `animate`. -/
def fitStage (resolution : α) (center : Coordinate α) (duration : α)
    (easing : Option (α → α)) : AnimationOptions α :=
  { center := some center, zoom := none, resolution := some resolution, rotation := none,
    anchor := none, duration := some duration, easing := easing }

/-- The method `fit`, called at time `now`: with a duration the computed
state is passed to `animate` with the callback; without one the resolution and
the center are set and the callback is handed to `setTimeout`. -/
def fit (L : Imports α) (element : Option (Size α)) (now : α) (target : FitTarget α)
    (options : FitOptions α) (v : View α) : Option (FitOutcome α) :=
  match fitState L element target options v with
  | Except.error e => some { view := v, error := some e, timers := [] }
  | Except.ok none => none
  | Except.ok (some (resolution, center)) =>
      let callback : Callback :=
        match options.callback with
        | some cb => cb
        | none => nullFunction
      match options.duration with
      | some duration =>
          let o := animate L now
            [AnimateArg.options (fitStage resolution center duration options.easing),
             AnimateArg.callback callback] v
          some { view := o.view, error := o.error, timers := [] }
      | none =>
          let o := (setResolution (some resolution) v).andThen (setCenter (some center))
          match o.error with
          | some e => some { view := o.view, error := some e, timers := [] }
          | none => some { view := o.view, error := none, timers := [(callback, true)] }

/-- Fit options with a size only and `constrainResolution: false`. -/
def plainFit (size : Size α) : FitOptions α :=
  { size := some size, padding := none, constrainResolution := some false, nearest := none,
    minResolution := none, maxZoom := none, duration := none, easing := none,
    callback := none }

/-- Fit options with the size 100 by 100, the padding `[10, 20, 30, 40]` and
`constrainResolution: false`. -/
def paddedFit : FitOptions ℚ :=
  { size := some (100, 100),
    padding := some { top := 10, right := 20, bottom := 30, left := 40 },
    constrainResolution := some false, nearest := none, minResolution := none,
    maxZoom := none, duration := none, easing := none, callback := none }

/-- The extent `[0, 0, 200, 100]`. -/
def wideExtent : Extent ℚ := { minX := 0, minY := 0, maxX := 200, maxY := 100 }

/-- Fit options with the size 100 by 100, `constrainResolution: false`, the
given duration and the callback 7. -/
def timedFit (duration : ℚ) : FitOptions ℚ :=
  { size := some (100, 100), padding := none, constrainResolution := some false,
    nearest := none, minResolution := none, maxZoom := none, duration := some duration,
    easing := none, callback := some 7 }

/-- Fit options with the size 100 by 100, `constrainResolution: false`, no
duration and the callback 7. -/
def calledFit : FitOptions ℚ :=
  { size := some (100, 100), padding := none, constrainResolution := some false,
    nearest := none, minResolution := none, maxZoom := none, duration := none,
    easing := none, callback := some 7 }

end Fitting

/-! ## The resolution model and the configuration of a view -/

section Configuration

variable {α : Type} [LinearOrderedField α] [FloorRing α]

/-- Modelled from the spec: `ol.ResolutionConstraint.createSnapToPower` of
ol/ResolutionConstraint.js, which is not among the sources: "given
`maxResolution`, `zoomFactor`, and an integer `maxZoomDelta`, compute
continuous zoom level `log(maxResolution/resolution)/log(zoomFactor)`, round
according to `direction` (0 = nearest, −1 = floor, +1 = ceil) after adding
`delta`, clamp level to `[0, maxZoomDelta]`, convert back to resolution".
The rounding is applied to the level of the resolution and `delta` is added to
the rounded level: for a whole `delta` ("offset by integer `delta`", as the
table variant has it) that is the same as rounding the sum, and the zoom
numbers of `getZoomForResolution`, "not necessarily integral", pass through
`getResolutionForZoom` unrounded, as the inverse property of the spec needs. -/
def createSnapToPower (L : Imports α) (power maxResolution maxZoomDelta : α)
    (resolution : Option α) (delta direction : α) : Option α :=
  match resolution with
  | none => none
  | some r =>
      let level := L.log (maxResolution / r) / L.log power
      let rounded : α :=
        if direction < 0 then ((⌊level⌋ : Int) : α)
        else if direction > 0 then ((⌈level⌉ : Int) : α)
        else ((⌊level + 1 / 2⌋ : Int) : α)
      let newLevel := min (max (rounded + delta) 0) maxZoomDelta
      some (maxResolution / L.pow power newLevel)

/-- Modelled from the spec: `ol.math.clamp` of ol/math.js, which is not among
the sources: the value brought into `[min, max]`,
`Math.min(Math.max(value, min), max)`. -/
def clamp (value lo hi : α) : α := min (max value lo) hi

/-- The method `getMinZoom`. -/
def getMinZoom (L : Imports α) (v : View α) : α := getZoomForResolution L v v.maxResolution_

/-- The method `getMaxZoom`. -/
def getMaxZoom (L : Imports α) (v : View α) : α := getZoomForResolution L v v.minResolution_

/-- A projection, as far as `createResolutionConstraint_` reads it: the
results of `getExtent()` and `getMetersPerUnit()`. -/
structure Projection (α : Type) where
  extent : Option (Extent α)
  metersPerUnit : α

/-- The option `constrainRotation`, a boolean or a number. -/
inductive ConstrainRotation (α : Type) where
  | bool (b : Bool)
  | number (n : α)

/-- The type `olx.ViewOptions`; the projection option is the projection
`ol.proj.createProjection` resolves it to. -/
structure ViewOptions (α : Type) where
  center : Option (Coordinate α)
  constrainRotation : Option (ConstrainRotation α)
  enableRotation : Option Bool
  extent : Option (Extent α)
  maxResolution : Option α
  minResolution : Option α
  maxZoom : Option α
  minZoom : Option α
  projection : Option (Projection α)
  resolution : Option α
  resolutions : Option (List α)
  rotation : Option α
  zoom : Option α
  zoomFactor : Option α

/-- An options object with no property set. -/
def ViewOptions.empty {α : Type} : ViewOptions α :=
  { center := none, constrainRotation := none, enableRotation := none, extent := none,
    maxResolution := none, minResolution := none, maxZoom := none, minZoom := none,
    projection := none, resolution := none, resolutions := none, rotation := none,
    zoom := none, zoomFactor := none }

/-- What View.js takes from modules of the repository that are not among the
sources, as parameters: the constants `DEFAULT_MIN_ZOOM` and
`DEFAULT_TILE_SIZE`, `ol.proj.METERS_PER_UNIT[DEGREES]`, the projection
`'EPSG:3857'`, and the constructors of the center and rotation constraints. -/
structure Modules (α : Type) where
  DEFAULT_MIN_ZOOM : α
  DEFAULT_TILE_SIZE : α
  METERS_PER_DEGREE : α
  EPSG3857 : Projection α
  createExtent : Extent α → Option (Coordinate α) → Option (Coordinate α)
  centerNone : Option (Coordinate α) → Option (Coordinate α)
  rotationDisable : Option α → α → Option α
  rotationNone : Option α → α → Option α
  createSnapToN : α → Option α → α → Option α
  createSnapToZero : Option α → α → Option α

/-- A view with the field `options_`, the options it was configured with;
only `getUpdatedOptions_` reads it. -/
structure Configured (α : Type) where
  view : View α
  options_ : ViewOptions α

/-- The static `createCenterConstraint_`. -/
def createCenterConstraint_ (M : Modules α) (options : ViewOptions α) :
    Option (Coordinate α) → Option (Coordinate α) :=
  match options.extent with
  | some extent => M.createExtent extent
  | none => M.centerNone

/-- The static `createRotationConstraint_`. -/
def createRotationConstraint_ (M : Modules α) (options : ViewOptions α) :
    Option α → α → Option α :=
  let enableRotation : Bool :=
    match options.enableRotation with
    | some b => b
    | none => true
  if enableRotation then
    match options.constrainRotation with
    | none => M.createSnapToZero
    | some (ConstrainRotation.bool true) => M.createSnapToZero
    | some (ConstrainRotation.bool false) => M.rotationNone
    | some (ConstrainRotation.number n) => M.createSnapToN n
  else M.rotationDisable

/-- The object `createResolutionConstraint_` returns. -/
structure ConstraintInfo (α : Type) where
  constraint : Option α → α → α → Option α
  maxResolution : α
  minResolution : α
  minZoom : α
  zoomFactor : α

/-- The read `array[i]` for a number `i`: the element when `i` is a whole
number within the array, else `undefined`. -/
def index (array : List α) (i : α) : Option α :=
  if 0 ≤ i ∧ ((⌊i⌋₊ : Nat) : α) = i then array.get? ⌊i⌋₊ else none

/-- The static `createResolutionConstraint_`.  With a table of resolutions
whose entry at `minZoom`, or whose last entry, is `undefined`, the maximum or
minimum resolution is not a number: no result in the model. -/
def createResolutionConstraint_ (L : Imports α) (M : Modules α) (options : ViewOptions α) :
    Option (ConstraintInfo α) :=
  let defaultMaxZoom : α := 28
  let defaultZoomFactor : α := 2
  let minZoom : α :=
    match options.minZoom with
    | some z => z
    | none => M.DEFAULT_MIN_ZOOM
  let maxZoom : α :=
    match options.maxZoom with
    | some z => z
    | none => defaultMaxZoom
  let zoomFactor : α :=
    match options.zoomFactor with
    | some f => f
    | none => defaultZoomFactor
  match options.resolutions with
  | some resolutions =>
      let minResolution : Option α :=
        match index resolutions maxZoom with
        | some r => some r
        | none => resolutions.getLast?
      match index resolutions minZoom, minResolution with
      | some maxResolution, some minResolution =>
          some { constraint := createSnapToResolutions resolutions,
                 maxResolution := maxResolution, minResolution := minResolution,
                 minZoom := minZoom, zoomFactor := zoomFactor }
      | _, _ => none
  | none =>
      let projection : Projection α :=
        match options.projection with
        | some p => p
        | none => M.EPSG3857
      let size : α :=
        match projection.extent with
        | none => 360 * M.METERS_PER_DEGREE / projection.metersPerUnit
        | some extent => max extent.getWidth extent.getHeight
      let defaultMaxResolution :=
        size / M.DEFAULT_TILE_SIZE / L.pow defaultZoomFactor M.DEFAULT_MIN_ZOOM
      let defaultMinResolution :=
        defaultMaxResolution / L.pow defaultZoomFactor (defaultMaxZoom - M.DEFAULT_MIN_ZOOM)
      let maxResolution : α :=
        match options.maxResolution with
        | some r => r
        | none => defaultMaxResolution / L.pow zoomFactor minZoom
      let minZoom1 : α :=
        match options.maxResolution with
        | some _ => 0
        | none => minZoom
      let minResolution : α :=
        match options.minResolution with
        | some r => r
        | none =>
            match options.maxZoom with
            | some _ =>
                match options.maxResolution with
                | some _ => maxResolution / L.pow zoomFactor maxZoom
                | none => defaultMaxResolution / L.pow zoomFactor maxZoom
            | none => defaultMinResolution
      let maxZoom1 : α :=
        minZoom1 + ((⌊L.log (maxResolution / minResolution) / L.log zoomFactor⌋ : Int) : α)
      let minResolution1 := maxResolution / L.pow zoomFactor (maxZoom1 - minZoom1)
      some { constraint := createSnapToPower L zoomFactor maxResolution (maxZoom1 - minZoom1),
             maxResolution := maxResolution, minResolution := minResolution1,
             minZoom := minZoom1, zoomFactor := zoomFactor }

/-- The method `applyOptions_`.  It writes the fields of the resolution
model, the constraints, the three properties (the resolution only when the
options give a resolution or a zoom) and `options_`.  There is no result in the
model where `createResolutionConstraint_` has none, and where the resolution
to clamp for a table of resolutions is `undefined`. -/
def applyOptions_ (L : Imports α) (M : Modules α) (options : ViewOptions α)
    (cv : Configured α) : Option (Configured α) :=
  match createResolutionConstraint_ L M options with
  | none => none
  | some info =>
      let v1 : View α :=
        { cv.view with
          maxResolution_ := info.maxResolution,
          minResolution_ := info.minResolution,
          zoomFactor_ := info.zoomFactor,
          resolutions_ := options.resolutions,
          minZoom_ := info.minZoom,
          constraints_ :=
            { center := createCenterConstraint_ M options,
              resolution := info.constraint,
              rotation := createRotationConstraint_ M options } }
      let rotation : α :=
        match options.rotation with
        | some r => r
        | none => 0
      let resolution : Option (Option α) :=
        match options.resolution with
        | some r => some (some r)
        | none =>
            match options.zoom with
            | some zoom =>
                let constrained :=
                  constrainResolution v1 (some v1.maxResolution_) (zoom - v1.minZoom_) 0
                match v1.resolutions_ with
                | some _ =>
                    let value : Option α :=
                      if truthy (getResolution v1) then getResolution v1 else constrained
                    match value with
                    | some x => some (some (clamp x v1.minResolution_ v1.maxResolution_))
                    | none => none
                | none => some constrained
            | none => some (getResolution v1)
      match resolution with
      | none => none
      | some r =>
          some { view := { v1 with center := options.center, resolution := r,
                                   rotation := rotation },
                 options_ := options }

/-- Modelled from the spec: `ol.obj.assign({}, options, newOptions)` of
ol/obj.js, which is not among the sources: the properties of the first
object, replaced by those `newOptions` defines. -/
def assign (options newOptions : ViewOptions α) : ViewOptions α :=
  { center := newOptions.center <|> options.center,
    constrainRotation := newOptions.constrainRotation <|> options.constrainRotation,
    enableRotation := newOptions.enableRotation <|> options.enableRotation,
    extent := newOptions.extent <|> options.extent,
    maxResolution := newOptions.maxResolution <|> options.maxResolution,
    minResolution := newOptions.minResolution <|> options.minResolution,
    maxZoom := newOptions.maxZoom <|> options.maxZoom,
    minZoom := newOptions.minZoom <|> options.minZoom,
    projection := newOptions.projection <|> options.projection,
    resolution := newOptions.resolution <|> options.resolution,
    resolutions := newOptions.resolutions <|> options.resolutions,
    rotation := newOptions.rotation <|> options.rotation,
    zoom := newOptions.zoom <|> options.zoom,
    zoomFactor := newOptions.zoomFactor <|> options.zoomFactor }

/-- The method `getUpdatedOptions_`. -/
def getUpdatedOptions_ (L : Imports α) (cv : Configured α) (newOptions : ViewOptions α) :
    ViewOptions α :=
  let options := cv.options_
  let options1 : ViewOptions α :=
    match options.resolution with
    | some _ => { options with resolution := getResolution cv.view }
    | none => { options with zoom := getZoom L cv.view }
  let options2 : ViewOptions α :=
    { options1 with center := getCenter cv.view, rotation := some (getRotation cv.view) }
  assign options2 newOptions

/-- The method `setMinZoom`. -/
def setMinZoom (L : Imports α) (M : Modules α) (zoom : α) (cv : Configured α) :
    Option (Configured α) :=
  applyOptions_ L M (getUpdatedOptions_ L cv { ViewOptions.empty with minZoom := some zoom }) cv

/-- The method `setMaxZoom`. -/
def setMaxZoom (L : Imports α) (M : Modules α) (zoom : α) (cv : Configured α) :
    Option (Configured α) :=
  applyOptions_ L M (getUpdatedOptions_ L cv { ViewOptions.empty with maxZoom := some zoom }) cv

/-- The constructor: no hint, no series, no frame requested, then
`applyOptions_`. -/
def newView (L : Imports α) (M : Modules α) (options : ViewOptions α) :
    Option (Configured α) :=
  applyOptions_ L M options
    { view :=
        { hints_ := { animating := 0, interacting := 0 },
          animations_ := [],
          updateAnimationKey_ := none,
          center := none,
          resolution := none,
          rotation := 0,
          maxResolution_ := 0,
          minResolution_ := 0,
          zoomFactor_ := 0,
          resolutions_ := none,
          minZoom_ := 0,
          constraints_ :=
            { center := fun c => c,
              resolution := fun r _ _ => r,
              rotation := fun r _ => r },
          calls := [],
          frames := 0 },
      options_ := options }

/-- `Math.log` and `Math.pow` in exact arithmetic, for the base `b` above 1:
`log 1 = 0`, `log b > 0`, `log` is monotone on the positive numbers, the
powers of `b` are positive, and `y ↦ pow(b, y)` and `x ↦ log(x) / log(b)` are
inverse to each other. -/
def ExactPower (L : Imports α) (b : α) : Prop :=
  L.log 1 = 0 ∧ 0 < L.log b ∧
  (∀ x y, 0 < x → x ≤ y → L.log x ≤ L.log y) ∧
  (∀ y, 0 < L.pow b y) ∧
  (∀ x, 0 < x → L.pow b (L.log x / L.log b) = x) ∧
  (∀ y, L.log (L.pow b y) / L.log b = y)

/-- A view with the power-law resolution model, as `applyOptions_` leaves it
for options without a table of resolutions: the constraint snaps to the powers
of `zoomFactor_` below `maxResolution_`, over the whole number `maxLevel` of
levels, and `minResolution_` is the resolution of the last level. -/
def PowerLaw (L : Imports α) (v : View α) (maxLevel : Int) : Prop :=
  v.resolutions_ = none ∧
  v.constraints_.resolution
    = createSnapToPower L v.zoomFactor_ v.maxResolution_ (maxLevel : α) ∧
  v.minResolution_ = v.maxResolution_ / L.pow v.zoomFactor_ (maxLevel : α)

/-- A view with a table of resolutions that spans its range, as
`applyOptions_` leaves it for options with `resolutions`, the minimum zoom 0
and no `maxZoom` within the table: the constraint snaps to the entries of the
table, `maxResolution_` is the first entry and `minResolution_` the last. -/
def TableModel (v : View α) (table : List α) : Prop :=
  v.resolutions_ = some table ∧
  v.constraints_.resolution = createSnapToResolutions table ∧
  table.head? = some v.maxResolution_ ∧
  table.getLast? = some v.minResolution_

/-- What the range of the power-law model needs of `Math.pow` at the base
`b`: it is 1 at the exponent 0 and does not decrease from there on. -/
def SteadyPower (L : Imports α) (b : α) : Prop :=
  L.pow b 0 = 1 ∧ ∀ x y, 0 ≤ x → x ≤ y → L.pow b x ≤ L.pow b y

/-- A view with the power-law model: powers of 2 below the maximum resolution
4, over 2 levels, with center `(1, 2)`, resolution 2 and rotation 0. -/
def powerView (L : Imports α) : View α :=
  { hints_ := { animating := 0, interacting := 0 },
    animations_ := [],
    updateAnimationKey_ := none,
    center := some (1, 2),
    resolution := some 2,
    rotation := 0,
    maxResolution_ := 4,
    minResolution_ := 4 / L.pow 2 2,
    zoomFactor_ := 2,
    resolutions_ := none,
    minZoom_ := 0,
    constraints_ :=
      { center := fun c => c,
        resolution := createSnapToPower L 2 4 2,
        rotation := fun rotation delta => rotation.map (fun r => r + delta) },
    calls := [],
    frames := 0 }

/-- The imports with the given logarithm and power and nothing else: the
other fields are constant 0. -/
def logImports (log : α → α) (pow : α → α → α) : Imports α :=
  { PI := 0, cos := fun _ => 0, sin := fun _ => 0, log := log, pow := pow,
    inAndOut := fun _ => 0 }

/-- Modules to evaluate on rationals: minimum zoom 0, tiles of 256 pixels, a
default projection with the extent `[-512, -512, 512, 512]`, and constraints
on center and rotation that pass their argument through. -/
def evalModules : Modules ℚ :=
  { DEFAULT_MIN_ZOOM := 0,
    DEFAULT_TILE_SIZE := 256,
    METERS_PER_DEGREE := 111320,
    EPSG3857 :=
      { extent := some { minX := -512, minY := -512, maxX := 512, maxY := 512 },
        metersPerUnit := 1 },
    createExtent := fun _ c => c,
    centerNone := fun c => c,
    rotationDisable := fun _ _ => some 0,
    rotationNone := fun rotation delta => rotation.map (fun r => r + delta),
    createSnapToN := fun _ rotation delta => rotation.map (fun r => r + delta),
    createSnapToZero := fun rotation delta => rotation.map (fun r => r + delta) }

/-- The view options `{maxResolution: 4, maxZoom: 2}`. -/
def boundedOptions : ViewOptions ℚ :=
  { ViewOptions.empty with maxResolution := some 4, maxZoom := some 2 }

/-- The view options `{maxZoom: 2, center: [1, 2], zoom: 0}`. -/
def levelOptions : ViewOptions ℚ :=
  { ViewOptions.empty with maxZoom := some 2, center := some (1, 2), zoom := some 0 }

/-- Modules with the usual constants, no extent on the projection
`'EPSG:3857'`, and constraints that let every value pass. -/
def plainModules : Modules α :=
  { DEFAULT_MIN_ZOOM := 0,
    DEFAULT_TILE_SIZE := 256,
    METERS_PER_DEGREE := 111320,
    EPSG3857 := { extent := none, metersPerUnit := 1 },
    createExtent := fun _ c => c,
    centerNone := fun c => c,
    rotationDisable := fun _ _ => some 0,
    rotationNone := fun rotation delta => rotation.map (fun r => r + delta),
    createSnapToN := fun _ rotation delta => rotation.map (fun r => r + delta),
    createSnapToZero := fun rotation delta => rotation.map (fun r => r + delta) }

/-- The view options `{maxResolution: ..., minResolution: ...}`. -/
def rangeOptions (maxResolution minResolution : α) : ViewOptions α :=
  { ViewOptions.empty with maxResolution := some maxResolution,
                           minResolution := some minResolution }

/-- Imports for evaluation in which `log` returns, as exact fractions, the
doubles that `Math.log` returns at 1000 (6.907755278982137, that is
`243045032034301 / 2^45`) and at 10 (2.302585092994046, that is
`2592480341699211 / 2^50`); the other functions are those of `evalImports`,
whose `pow` is exact at whole exponents. -/
def doubleLogImports : Imports ℚ :=
  { evalImports with
    log := fun x =>
      if x = 1000 then 243045032034301 / 35184372088832
      else if x = 10 then 2592480341699211 / 1125899906842624
      else evalImports.log x }

/-- The view options `{maxResolution: 1000, minResolution: 1, zoomFactor: 10}`. -/
def decimalOptions : ViewOptions ℚ :=
  { ViewOptions.empty with maxResolution := some 1000, minResolution := some 1,
                           zoomFactor := some 10 }

/-- The view options `{resolutions: [4, 2, 1], minZoom: 1}`. -/
def shiftedOptions : ViewOptions ℚ :=
  { ViewOptions.empty with resolutions := some [4, 2, 1], minZoom := some 1 }

/-- The view `tableView (1, 2) 2` with the range that the options
`{resolutions: [4, 2, 1], minZoom: 1}` configure: the maximum resolution is
the entry 2 at the index 1 of the table, and the minimum zoom is 1. -/
def shiftedView : View ℚ :=
  { tableView (some (1, 2)) (some 2) with maxResolution_ := 2, minZoom_ := 1 }

end Configuration

/-! ## The atlas manager of the WebGL renderer

A shallow embedding of `src/src/ol/renderer/webgl/webglatlasmanager.js`.
Numbers are the elements of a linearly ordered commutative ring (`ℤ` for evaluation).  A
canvas is known by a number and its size; the render callback is an opaque
identity whose calls are logged and which does not re-enter the atlas. -/

section Atlases

variable {α : Type} [LinearOrderedCommRing α]

/-- The `HTMLCanvasElement` of an atlas: its identity and its size. -/
structure Canvas (α : Type) where
  id : Nat
  width : α
  height : α
  deriving DecidableEq

/-- The type `ol.renderer.webgl.AtlasInfo`: where an entry was drawn. -/
structure AtlasInfo (α : Type) where
  offsetX : α
  offsetY : α
  image : Canvas α
  deriving DecidableEq

/-- The type `ol.renderer.webgl.Atlas.Block`: an empty block of an atlas. -/
structure Block (α : Type) where
  x : α
  y : α
  width : α
  height : α
  deriving DecidableEq

/-- A call `renderCallback.call(opt_this, context, x, y)`. -/
structure Rendering (α : Type) where
  renderCallback : Nat
  x : α
  y : α
  deriving DecidableEq

/-- The fields of an `ol.renderer.webgl.Atlas`, with the log of the calls of
render callbacks.  `entries_` is the object from hash to `AtlasInfo`; a hash
that is not a key gives `none`. -/
structure Atlas (α : Type) where
  space_ : α
  emptyBlocks_ : List (Block α)
  entries_ : Nat → Option (AtlasInfo α)
  canvas_ : Canvas α
  rendered : List (Rendering α)

/-- The constructor `new ol.renderer.webgl.Atlas(size, space)`; `canvas` is
the identity of the canvas element it creates. -/
def Atlas.create (size space : α) (canvas : Nat) : Atlas α :=
  { space_ := space
    emptyBlocks_ := [{ x := 0, y := 0, width := size, height := size }]
    entries_ := fun _ => none
    canvas_ := { id := canvas, width := size, height := size }
    rendered := [] }

/-- The method `ol.renderer.webgl.Atlas.prototype.get`. -/
def Atlas.get (atlas : Atlas α) (hash : Nat) : Option (AtlasInfo α) :=
  atlas.entries_ hash

/-- The method `ol.renderer.webgl.Atlas.prototype.updateBlocks_`: the block at
`index` is removed and the new blocks that are not empty take its place. -/
def Atlas.updateBlocks_ (atlas : Atlas α) (index : Nat) (newBlock1 newBlock2 : Block α) :
    Atlas α :=
  let args1 : List (Block α) :=
    if 0 < newBlock1.width ∧ 0 < newBlock1.height then [newBlock1] else []
  let args2 : List (Block α) :=
    if 0 < newBlock2.width ∧ 0 < newBlock2.height then args1 ++ [newBlock2] else args1
  { atlas with
    emptyBlocks_ := atlas.emptyBlocks_.take index ++ args2 ++ atlas.emptyBlocks_.drop (index + 1) }

/-- The method `ol.renderer.webgl.Atlas.prototype.split_`: the rest of `block`
after a `width` by `height` part is taken from its top left corner, as two
blocks. -/
def Atlas.split_ (atlas : Atlas α) (index : Nat) (block : Block α) (width height : α) :
    Atlas α :=
  let deltaWidth := block.width - width
  let deltaHeight := block.height - height
  if deltaWidth > deltaHeight then
    -- split vertically
    atlas.updateBlocks_ index
      { x := block.x + width, y := block.y, width := block.width - width,
        height := block.height }
      { x := block.x, y := block.y + height, width := width,
        height := block.height - height }
  else
    -- split horizontally
    atlas.updateBlocks_ index
      { x := block.x + width, y := block.y, width := block.width - width,
        height := height }
      { x := block.x, y := block.y + height, width := block.width,
        height := block.height - height }

/-- The loop of `ol.renderer.webgl.Atlas.prototype.add` from the block at
index `i` on; `blocks` are the blocks from that index on.  The result is the
atlas after the call and the entry returned, `none` for `null`. -/
def Atlas.addFrom (atlas : Atlas α) (hash : Nat) (width height : α) (renderCallback : Nat) :
    Nat → List (Block α) → Atlas α × Option (AtlasInfo α)
  | _, [] => (atlas, none)
  | i, block :: rest =>
    if block.width ≥ width + atlas.space_ ∧ block.height ≥ height + atlas.space_ then
      -- we found a block that is big enough for our entry
      let entry : AtlasInfo α :=
        { offsetX := block.x + atlas.space_, offsetY := block.y + atlas.space_,
          image := atlas.canvas_ }
      let atlas1 : Atlas α :=
        { atlas with
          entries_ := Function.update atlas.entries_ hash (some entry)
          rendered := atlas.rendered ++
            [{ renderCallback := renderCallback, x := block.x + atlas.space_,
               y := block.y + atlas.space_ }] }
      -- split the block after we inserted the entry
      (atlas1.split_ i block (width + atlas.space_) (height + atlas.space_), some entry)
    else
      Atlas.addFrom atlas hash width height renderCallback (i + 1) rest

/-- The method `ol.renderer.webgl.Atlas.prototype.add`. -/
def Atlas.add (hash : Nat) (width height : α) (renderCallback : Nat) (atlas : Atlas α) :
    Atlas α × Option (AtlasInfo α) :=
  Atlas.addFrom atlas hash width height renderCallback 0 atlas.emptyBlocks_

/-- The fields of an `ol.renderer.webgl.AtlasManager`. -/
structure AtlasManager (α : Type) where
  size_ : α
  space_ : α
  atlases_ : List (Atlas α)

/-- The constructor `new ol.renderer.webgl.AtlasManager(opt_size, opt_space)`.
The canvas of the atlas at index `i` of `atlases_` has the identity `i`. -/
def AtlasManager.create (opt_size opt_space : Option α) : AtlasManager α :=
  let size := match opt_size with
    | some size => size
    | none => 256
  let space := match opt_space with
    | some space => space
    | none => 1
  { size_ := size, space_ := space, atlases_ := [Atlas.create size space 0] }

/-- The loop of `getInfo` over the atlases. -/
def getInfoFrom : List (Atlas α) → Nat → Option (AtlasInfo α)
  | [], _ => none
  | atlas :: rest, hash =>
    match atlas.get hash with
    | some info => some info
    | none => getInfoFrom rest hash

/-- The method `ol.renderer.webgl.AtlasManager.prototype.getInfo`. -/
def AtlasManager.getInfo (manager : AtlasManager α) (hash : Nat) : Option (AtlasInfo α) :=
  getInfoFrom manager.atlases_ hash

/-- The loop of `AtlasManager.prototype.add` over the existing atlases: the
atlases after it and the entry, or `none` when no atlas has room. -/
def addToAtlases (hash : Nat) (width height : α) (renderCallback : Nat) :
    List (Atlas α) → Option (List (Atlas α) × AtlasInfo α)
  | [] => none
  | atlas :: rest =>
    match (atlas.add hash width height renderCallback).2 with
    | some info => some ((atlas.add hash width height renderCallback).1 :: rest, info)
    | none =>
      match addToAtlases hash width height renderCallback rest with
      | some (atlases, info) => some (atlas :: atlases, info)
      | none => none

/-- The error of `goog.asserts.assert(false, message)`. -/
inductive GoogError where
  | AssertionError (message : String)
  deriving DecidableEq

/-- The method `ol.renderer.webgl.AtlasManager.prototype.add`: the manager
after the call and the value returned, or the error of the assertion. -/
def AtlasManager.add (hash : Nat) (width height : α) (renderCallback : Nat)
    (manager : AtlasManager α) : Except GoogError (AtlasManager α × Option (AtlasInfo α)) :=
  if ¬ (width ≤ manager.size_ ∧ height ≤ manager.size_) then
    Except.error (GoogError.AssertionError "the entry is too big for the current atlas size")
  else
    match addToAtlases hash width height renderCallback manager.atlases_ with
    | some (atlases, info) => Except.ok ({ manager with atlases_ := atlases }, some info)
    | none =>
      -- the entry could not be added to one of the existing atlases,
      -- create a new atlas and add to this one.
      let atlas := Atlas.create manager.size_ manager.space_ manager.atlases_.length
      let added := atlas.add hash width height renderCallback
      Except.ok ({ manager with atlases_ := manager.atlases_ ++ [added.1] }, added.2)

/-- One `add` call on an atlas: hash, width, height and render callback. -/
structure AddCall (α : Type) where
  hash : Nat
  width : α
  height : α
  renderCallback : Nat

/-- A sequence of `add` calls on an atlas: the atlas after them and, for every
call in order, the call with the value it returned. -/
def Atlas.addAll : List (AddCall α) → Atlas α → Atlas α × List (AddCall α × Option (AtlasInfo α))
  | [], atlas => (atlas, [])
  | call :: calls, atlas =>
    let added := atlas.add call.hash call.width call.height call.renderCallback
    let later := Atlas.addAll calls added.1
    (later.1, (call, added.2) :: later.2)

/-- A rectangle of pixels `[x, x + width) × [y, y + height)`. -/
structure Rect (α : Type) where
  x : α
  y : α
  width : α
  height : α

/-- The pixel `(px, py)` lies in the rectangle. -/
def Rect.Covers (r : Rect α) (px py : α) : Prop :=
  r.x ≤ px ∧ px < r.x + r.width ∧ r.y ≤ py ∧ py < r.y + r.height

/-- Two rectangles overlap: a pixel lies in both. -/
def Rect.Overlaps (r q : Rect α) : Prop :=
  ∃ px py : α, r.Covers px py ∧ q.Covers px py

/-- The rectangle lies within `[0, size) × [0, size)`. -/
def Rect.Within (size : α) (r : Rect α) : Prop :=
  0 ≤ r.x ∧ r.x + r.width ≤ size ∧ 0 ≤ r.y ∧ r.y + r.height ≤ size

/-- The pixels of an empty block. -/
def Block.rect (block : Block α) : Rect α :=
  { x := block.x, y := block.y, width := block.width, height := block.height }

/-- The pixels of an entry returned by `add`: `width` by `height` pixels from
the offset of the info. -/
def entryRect (call : AddCall α) (info : AtlasInfo α) : Rect α :=
  { x := info.offsetX, y := info.offsetY, width := call.width, height := call.height }

/-- The pixel rectangles of the entries that a sequence of `add` calls
returned, in the order of the calls. -/
def placedRects : List (AddCall α × Option (AtlasInfo α)) → List (Rect α)
  | [] => []
  | (call, some info) :: rest => entryRect call info :: placedRects rest
  | (_, none) :: rest => placedRects rest

/-- Two rectangles are apart: one ends where the other starts or before, along
`x` or along `y`. -/
def Rect.Apart (r q : Rect α) : Prop :=
  r.x + r.width ≤ q.x ∨ q.x + q.width ≤ r.x ∨ r.y + r.height ≤ q.y ∨ q.y + q.height ≤ r.y

/-- The rectangle `r` lies inside the rectangle `b`. -/
def Rect.Inside (r b : Rect α) : Prop :=
  b.x ≤ r.x ∧ r.x + r.width ≤ b.x + b.width ∧ b.y ≤ r.y ∧ r.y + r.height ≤ b.y + b.height

/-- The packing invariant of an atlas: the empty blocks and the entries placed
so far are pairwise apart and lie within the canvas of side `size`. -/
def Packed (size : α) (atlas : Atlas α) (placed : List (Rect α)) : Prop :=
  (atlas.emptyBlocks_.map Block.rect ++ placed).Pairwise Rect.Apart ∧
  ∀ r ∈ atlas.emptyBlocks_.map Block.rect ++ placed, r.Within size

end Atlases

/-! ## Lemmas on the driver -/

section DriverLemmas

set_option linter.unusedSectionVars false

variable {α : Type} [LinearOrderedField α] [FloorRing α]

theorem withState_self (v : View α) : withState v v.center v.resolution v.rotation = v := rfl

theorem withState_withState (v : View α) (c c1 : Option (Coordinate α))
    (r r1 : Option α) (ρ ρ1 : α) :
    withState (withState v c r ρ) c1 r1 ρ1 = withState v c1 r1 ρ1 := rfl

theorem writeCenter_ok (animation : ViewAnimation α) (progress : α) (v : View α)
    (h : stageOK animation = true) :
    (writeCenter animation progress v).error = none ∧
    ∃ c, (writeCenter animation progress v).view = withState v c v.resolution v.rotation := by
  unfold writeCenter
  cases hs : animation.sourceCenter with
  | none => exact ⟨rfl, v.center, rfl⟩
  | some s =>
    cases ht : animation.targetCenter with
    | none => simp [stageOK, hs, ht] at h
    | some t => exact ⟨rfl, _, rfl⟩

theorem writeResolution_state (animation : ViewAnimation α) (progress : α) (v : View α) :
    ∃ c r, writeResolution animation progress v = withState v c r v.rotation := by
  unfold writeResolution
  cases animation.sourceResolution with
  | none => exact ⟨v.center, v.resolution, rfl⟩
  | some s =>
    cases animation.targetResolution with
    | none => exact ⟨v.center, v.resolution, rfl⟩
    | some t =>
      by_cases hst : s ≠ 0 ∧ t ≠ 0
      · simp only [if_pos hst]
        cases animation.anchor with
        | none => exact ⟨_, _, rfl⟩
        | some a => exact ⟨_, _, rfl⟩
      · simp only [if_neg hst]
        exact ⟨v.center, v.resolution, rfl⟩

theorem writeRotation_state (L : Imports α) (animation : ViewAnimation α) (progress : α)
    (v : View α) :
    ∃ c ρ, writeRotation L animation progress v = withState v c v.resolution ρ := by
  unfold writeRotation
  cases animation.sourceRotation with
  | none => exact ⟨v.center, v.rotation, rfl⟩
  | some s =>
    cases animation.targetRotation with
    | none => exact ⟨v.center, v.rotation, rfl⟩
    | some t =>
      cases animation.anchor with
      | none => exact ⟨_, _, rfl⟩
      | some a => exact ⟨_, _, rfl⟩

theorem writes_state (L : Imports α) (animation : ViewAnimation α) (progress : α)
    (v : View α) (h : stageOK animation = true) :
    (writeCenter animation progress v).error = none ∧
    ∃ c r ρ, writeRotation L animation progress
      (writeResolution animation progress (writeCenter animation progress v).view)
        = withState v c r ρ := by
  obtain ⟨he, c0, hc⟩ := writeCenter_ok animation progress v h
  refine ⟨he, ?_⟩
  obtain ⟨c1, r1, hr⟩ := writeResolution_state animation progress
    (writeCenter animation progress v).view
  obtain ⟨c2, ρ2, hρ⟩ := writeRotation_state L animation progress
    (writeResolution animation progress (writeCenter animation progress v).view)
  refine ⟨c2, r1, ρ2, ?_⟩
  rw [hρ, hr, hc]
  rfl

theorem updateSeries_spec (L : Imports α) (now : α) (series : List (ViewAnimation α)) :
    ∀ (v : View α) (sc more : Bool), series.all stageOK = true →
      (updateSeries L now series v sc more).error = none ∧
      (updateSeries L now series v sc more).series = advanceSeries now series ∧
      (updateSeries L now series v sc more).seriesComplete
        = (sc && seriesDone (advanceSeries now series)) ∧
      (updateSeries L now series v sc more).more = (more || hasIncomplete series) ∧
      ∃ c r ρ, (updateSeries L now series v sc more).view = withState v c r ρ := by
  induction series with
  | nil =>
    intro v sc more _
    simp [updateSeries, advanceSeries, seriesDone, hasIncomplete]
    exact ⟨_, _, _, (withState_self v).symm⟩
  | cons a rest ih =>
    intro v sc more h
    have hrest : rest.all stageOK = true := by
      simp only [List.all_cons, Bool.and_eq_true] at h
      exact h.2
    have ha : stageOK a = true := by
      simp only [List.all_cons, Bool.and_eq_true] at h
      exact h.1
    by_cases hc : a.complete = true
    · obtain ⟨h1, h2, h3, h4, c, r, ρ, h5⟩ := ih v sc more hrest
      simp only [updateSeries, hc, if_true, advanceSeries]
      refine ⟨h1, by rw [h2], ?_, ?_, c, r, ρ, h5⟩
      · rw [h3]; simp [seriesDone, hc]
      · rw [h4]; simp [hasIncomplete, hc]
    · have hc' : a.complete = false := by simpa using hc
      by_cases hf : stageFraction now a ≥ 1
      · have ha1 : stageOK ({ a with complete := true } : ViewAnimation α) = true := ha
        obtain ⟨he, c, r, ρ, hw⟩ := writes_state L { a with complete := true }
          (a.easing 1) v ha1
        obtain ⟨h1, h2, h3, h4, c1, r1, ρ1, h5⟩ := ih (withState v c r ρ) sc true hrest
        simp only [updateSeries, hc', advanceSeries, hf, if_true, he, hw]
        simp only [Bool.false_eq_true, if_false]
        refine ⟨h1, by rw [h2], ?_, ?_, c1, r1, ρ1, ?_⟩
        · rw [h3]; simp [seriesDone]
        · rw [h4]; simp [hasIncomplete, hc']
        · rw [h5]; rfl
      · obtain ⟨he, c, r, ρ, hw⟩ := writes_state L a
          (a.easing (stageFraction now a)) v ha
        simp only [updateSeries, hc', advanceSeries, hf, if_false, he, hw]
        simp only [Bool.false_eq_true, if_false]
        refine ⟨trivial, trivial, ?_, ?_, c, r, ρ, rfl⟩
        · simp [seriesDone, hc']
        · simp [hasIncomplete, hc']

theorem advanceSeries_cons (now : α) (a : ViewAnimation α) (rest : List (ViewAnimation α)) :
    ∃ b rest1, advanceSeries now (a :: rest) = b :: rest1 ∧ b.callback = a.callback := by
  unfold advanceSeries
  by_cases hc : a.complete = true
  · exact ⟨a, advanceSeries now rest, by simp [hc], rfl⟩
  · by_cases hf : stageFraction now a ≥ 1
    · exact ⟨{ a with complete := true }, advanceSeries now rest, by simp [hc, hf], rfl⟩
    · exact ⟨a, rest, by simp [hc, hf], rfl⟩

theorem callbackCalls_append (arg : Bool) (xs ys : List (Option (List (ViewAnimation α)))) :
    callbackCalls arg (xs ++ ys) = callbackCalls arg xs ++ callbackCalls arg ys := by
  simp [callbackCalls, List.filterMap_append]

theorem retiredBy_cons (now : α) (entry : Option (List (ViewAnimation α)))
    (rest : List (Option (List (ViewAnimation α)))) :
    retiredBy now (entry :: rest)
      = retiredBy now rest ++ (if retires now entry then [entry] else []) := by
  unfold retiredBy
  by_cases h : retires now entry = true
  · simp [List.filter_cons, h]
  · simp [List.filter_cons, h]

theorem updateLoop_spec (L : Imports α) (now : α)
    (entries : List (Option (List (ViewAnimation α)))) :
    ∀ (v : View α) (more : Bool), entries.all seriesOK = true →
      (updateLoop L now entries v more).error = none ∧
      (updateLoop L now entries v more).entries = entries.map (tickEntry now) ∧
      (updateLoop L now entries v more).more = (more || anyIncomplete entries) ∧
      ∃ c r ρ, (updateLoop L now entries v more).view
        = afterPass v c r ρ (retiredBy now entries) := by
  induction entries with
  | nil =>
    intro v more _
    refine ⟨rfl, rfl, by simp [updateLoop, anyIncomplete], v.center, v.resolution, v.rotation, ?_⟩
    simp [updateLoop, afterPass, retiredBy, callbackCalls, Hints.add]
  | cons entry rest ih =>
    intro v more h
    simp only [List.all_cons, Bool.and_eq_true] at h
    obtain ⟨hentry, hrest⟩ := h
    obtain ⟨h1, h2, h3, c, r, ρ, h4⟩ := ih v more hrest
    cases entry with
    | none => simp [seriesOK] at hentry
    | some series =>
      cases series with
      | nil => simp [seriesOK] at hentry
      | cons a s =>
        have hok : (a :: s).all stageOK = true := hentry
        obtain ⟨p1, p2, p3, p4, c1, r1, ρ1, p5⟩ := updateSeries_spec L now (a :: s)
          (updateLoop L now rest v more).view true (updateLoop L now rest v more).more hok
        obtain ⟨b, rest1, hb, hcb⟩ := advanceSeries_cons now a s
        by_cases hd : seriesDone (advanceSeries now (a :: s)) = true
        · have hret : retires now (some (a :: s)) = true := hd
          have hd2 : seriesDone (b :: rest1) = true := by rw [← hb]; exact hd
          simp only [updateLoop, h1, p1, p3, p2, hb, hd2, Bool.and_self, if_true, p4]
          refine ⟨trivial, ?_, ?_, c1, r1, ρ1, ?_⟩
          · rw [h2]; simp [tickEntry, hd]
          · rw [h3]
            simp only [anyIncomplete, List.any_cons]
            cases more <;> cases hasIncomplete (a :: s) <;> simp
          · rw [p5, h4, retiredBy_cons, hret]
            simp only [if_true]
            cases hcbv : b.callback with
            | none =>
              have : a.callback = none := by rw [← hcb, hcbv]
              simp [afterPass, withState, setHint, invoke, Hints.add, callbackCalls,
                entryCallback, this]
              ring
            | some cb =>
              have : a.callback = some cb := by rw [← hcb, hcbv]
              simp [afterPass, withState, setHint, invoke, Hints.add, callbackCalls,
                entryCallback, this]
              ring
        · have hret : retires now (some (a :: s)) = false := by
            simpa [retires] using hd
          have hd' : seriesDone (advanceSeries now (a :: s)) = false := by simpa using hd
          simp only [updateLoop, h1, p1, p3, hd', Bool.and_false, Bool.false_eq_true,
            if_false, p2, p4]
          refine ⟨trivial, ?_, ?_, c1, r1, ρ1, ?_⟩
          · rw [h2]; simp [tickEntry, hd']
          · rw [h3]
            simp only [anyIncomplete, List.any_cons]
            cases more <;> cases hasIncomplete (a :: s) <;> simp
          · rw [p5, h4, retiredBy_cons, hret]
            simp [afterPass, withState]

theorem isDef_writeCenter (animation : ViewAnimation α) (progress : α) (v : View α)
    (h : isDef v = true) : isDef (writeCenter animation progress v).view = true := by
  unfold writeCenter
  cases animation.sourceCenter with
  | none => exact h
  | some s =>
    cases animation.targetCenter with
    | none => exact h
    | some t =>
      simp only [isDef, Bool.and_eq_true] at h ⊢
      exact ⟨rfl, h.2⟩

theorem isDef_writeResolution (animation : ViewAnimation α) (progress : α) (v : View α)
    (h : isDef v = true) : isDef (writeResolution animation progress v) = true := by
  unfold writeResolution
  cases animation.sourceResolution with
  | none => exact h
  | some s =>
    cases animation.targetResolution with
    | none => exact h
    | some t =>
      by_cases hst : s ≠ 0 ∧ t ≠ 0
      · simp only [if_pos hst]
        cases animation.anchor with
        | none =>
          simp only [isDef, Bool.and_eq_true] at h ⊢
          exact ⟨h.1, rfl⟩
        | some a =>
          simp only [isDef, Bool.and_eq_true, Option.isSome_iff_exists] at h
          obtain ⟨⟨c, hc⟩, ⟨r, hr⟩⟩ := h
          simp [isDef, calculateCenterZoom, getCenter, getResolution, hc, hr]
      · simp only [if_neg hst]
        exact h

theorem isDef_writeRotation (L : Imports α) (animation : ViewAnimation α) (progress : α)
    (v : View α) (h : isDef v = true) :
    isDef (writeRotation L animation progress v) = true := by
  unfold writeRotation
  cases animation.sourceRotation with
  | none => exact h
  | some s =>
    cases animation.targetRotation with
    | none => exact h
    | some t =>
      cases animation.anchor with
      | none => exact h
      | some a =>
        simp only [isDef, Bool.and_eq_true, Option.isSome_iff_exists] at h
        obtain ⟨⟨c, hc⟩, ⟨r, hr⟩⟩ := h
        simp [isDef, calculateCenterRotate, getCenter, hc, hr]

theorem isDef_updateSeries (L : Imports α) (now : α) (series : List (ViewAnimation α)) :
    ∀ (v : View α) (sc more : Bool), isDef v = true →
      isDef (updateSeries L now series v sc more).view = true := by
  induction series with
  | nil => intro v sc more h; exact h
  | cons a rest ih =>
    intro v sc more h
    by_cases hc : a.complete = true
    · simp only [updateSeries, hc, if_true]
      exact ih v sc more h
    · have hc' : a.complete = false := by simpa using hc
      by_cases hf : stageFraction now a ≥ 1
      · simp only [updateSeries, hc', hf, if_true, Bool.false_eq_true, if_false]
        split
        · exact isDef_writeCenter _ _ v h
        · exact ih _ _ _ (isDef_writeRotation L _ _ _
            (isDef_writeResolution _ _ _ (isDef_writeCenter _ _ v h)))
      · simp only [updateSeries, hc', hf, if_false, Bool.false_eq_true]
        split
        · exact isDef_writeCenter _ _ v h
        · exact isDef_writeRotation L _ _ _
            (isDef_writeResolution _ _ _ (isDef_writeCenter _ _ v h))

theorem isDef_setHint (v : View α) (hint : ViewHint) (delta : Int) :
    isDef (setHint v hint delta) = isDef v := rfl

theorem isDef_invoke (callback : Option Callback) (arg : Bool) (v : View α) :
    isDef (invoke callback arg v) = isDef v := by
  cases callback <;> rfl

theorem isDef_updateLoop (L : Imports α) (now : α)
    (entries : List (Option (List (ViewAnimation α)))) :
    ∀ (v : View α) (more : Bool), isDef v = true →
      isDef (updateLoop L now entries v more).view = true := by
  induction entries with
  | nil => intro v more h; exact h
  | cons entry rest ih =>
    intro v more h
    have hr := ih v more h
    simp only [updateLoop]
    split
    · exact hr
    · cases entry with
      | none => exact hr
      | some series =>
        have hp := isDef_updateSeries L now series _ true
          (updateLoop L now rest v more).more hr
        simp only
        split
        · exact hp
        · split
          · split
            · rw [isDef_setHint]; exact hp
            · rw [isDef_invoke, isDef_setHint]; exact hp
          · exact hp

theorem updateAnimations_idle (L : Imports α) (now : α) (v : View α)
    (h : getAnimating v = false) :
    updateAnimations_ L now v
      = { view := { v with updateAnimationKey_ := none }, error := none } := by
  have h' : getAnimating ({ v with updateAnimationKey_ := none } : View α) = false := h
  simp [updateAnimations_, h']

theorem updateAnimations_spec (L : Imports α) (now : α) (v : View α)
    (ha : getAnimating v = true) (hok : v.animations_.all seriesOK = true) :
    ∃ c r ρ, updateAnimations_ L now v
        = { view := afterTick now v c r ρ, error := none } ∧
      (isDef v = true → c.isSome = true ∧ r.isSome = true) := by
  have ha' : getAnimating ({ v with updateAnimationKey_ := none } : View α) = true := ha
  obtain ⟨h1, h2, h3, c, r, ρ, h4⟩ := updateLoop_spec L now v.animations_
    { v with updateAnimationKey_ := none } false hok
  refine ⟨c, r, ρ, ?_, ?_⟩
  · simp only [updateAnimations_, ha', Bool.not_true, Bool.false_eq_true, if_false, h1, h2,
      h3, h4, Bool.false_or]
    by_cases hm : anyIncomplete v.animations_ = true
    · simp [hm, afterTick, afterPass, remaining]
    · simp [hm, afterTick, afterPass, remaining]
  · intro hd
    have hd' : isDef ({ v with updateAnimationKey_ := none } : View α) = true := hd
    have := isDef_updateLoop L now v.animations_ _ false hd'
    rw [h4] at this
    simpa [isDef, afterPass] using this

end DriverLemmas

/-! ## Lemmas on cancellation and the setters -/

section CancelLemmas

set_option linter.unusedSectionVars false

variable {α : Type} [LinearOrderedField α] [FloorRing α]

theorem cancelLoop_spec (entries : List (Option (List (ViewAnimation α)))) :
    ∀ v : View α, entries.all hasFirstStage = true →
      cancelLoop entries v
        = { view := { v with calls := v.calls ++ callbackCalls false entries },
            error := none } := by
  induction entries with
  | nil => intro v _; simp [cancelLoop, callbackCalls]
  | cons entry rest ih =>
    intro v h
    simp only [List.all_cons, Bool.and_eq_true] at h
    cases entry with
    | none => simp [hasFirstStage] at h
    | some series =>
      cases series with
      | nil => simp [hasFirstStage] at h
      | cons a s =>
        rw [cancelLoop, ih _ h.2]
        cases hcb : a.callback with
        | none => simp [invoke, callbackCalls, entryCallback, hcb]
        | some cb => simp [invoke, callbackCalls, entryCallback, hcb]

theorem invoke_frame (callback : Option Callback) (arg : Bool) (v : View α) :
    (invoke callback arg v).hints_ = v.hints_ ∧ (invoke callback arg v).center = v.center ∧
    (invoke callback arg v).resolution = v.resolution ∧
    (invoke callback arg v).rotation = v.rotation ∧
    (invoke callback arg v).animations_ = v.animations_ := by
  cases callback <;> exact ⟨rfl, rfl, rfl, rfl, rfl⟩

theorem cancelLoop_frame (entries : List (Option (List (ViewAnimation α)))) :
    ∀ v : View α,
      (cancelLoop entries v).view.hints_ = v.hints_ ∧
      (cancelLoop entries v).view.center = v.center ∧
      (cancelLoop entries v).view.resolution = v.resolution ∧
      (cancelLoop entries v).view.rotation = v.rotation := by
  induction entries with
  | nil => intro v; exact ⟨rfl, rfl, rfl, rfl⟩
  | cons entry rest ih =>
    intro v
    cases entry with
    | none => exact ⟨rfl, rfl, rfl, rfl⟩
    | some series =>
      cases series with
      | nil => exact ⟨rfl, rfl, rfl, rfl⟩
      | cons a s =>
        obtain ⟨h1, h2, h3, h4⟩ := ih (invoke a.callback false v)
        obtain ⟨i1, i2, i3, i4, _⟩ := invoke_frame a.callback false v
        rw [cancelLoop]
        exact ⟨h1.trans i1, h2.trans i2, h3.trans i3, h4.trans i4⟩

/-- The view after a cancellation that met no error. -/
theorem cancelAnimations_spec (v : View α) (h : v.animations_.all hasFirstStage = true) :
    cancelAnimations v
      = { view := { v with
            hints_ := v.hints_.add ViewHint.ANIMATING (-(v.hints_.get ViewHint.ANIMATING)),
            calls := v.calls ++ callbackCalls false v.animations_,
            animations_ := [] },
          error := none } := by
  have h' : (setHint v ViewHint.ANIMATING
      (-(v.hints_.get ViewHint.ANIMATING))).animations_.all hasFirstStage = true := h
  simp only [cancelAnimations]
  rw [cancelLoop_spec _ _ h']
  rfl

theorem seriesOK_hasFirstStage (entries : List (Option (List (ViewAnimation α))))
    (h : entries.all seriesOK = true) : entries.all hasFirstStage = true := by
  rw [List.all_eq_true] at h ⊢
  intro e he
  have := h e he
  cases e with
  | none => simp [seriesOK] at this
  | some series =>
    cases series with
    | nil => simp [seriesOK] at this
    | cons a s => rfl

theorem wellFormed_idle (v : View α) (hwf : WellFormed v) (h : getAnimating v = false) :
    v.animations_ = [] := by
  obtain ⟨_, hh, _⟩ := hwf
  simp only [getAnimating, Hints.get, decide_eq_false_iff_not, not_lt] at h
  rw [hh] at h
  have : v.animations_.length = 0 := by omega
  exact List.length_eq_zero.mp this

theorem wellFormed_animating (v : View α) (hwf : WellFormed v) (h : v.animations_ ≠ []) :
    getAnimating v = true := by
  obtain ⟨_, hh, _⟩ := hwf
  simp only [getAnimating, Hints.get, decide_eq_true_eq, hh]
  have : 0 < v.animations_.length := List.length_pos.mpr h
  omega

end CancelLemmas

/-! ## The setters and `cancelAnimations` (C1, C2) -/

section Cancellation

set_option linter.unusedSectionVars false

variable {α : Type} [LinearOrderedField α] [FloorRing α]

/-- The outcome of one of the three setters on a view with an active series:
`w` is the view with the new value stored. -/
theorem cancelIfAnimating_active (v w : View α) (hwf : WellFormed v)
    (hactive : v.animations_ ≠ []) (hh : w.hints_ = v.hints_)
    (ha : w.animations_ = v.animations_) (hc : w.calls = v.calls) :
    (cancelIfAnimating w).error = none ∧
    (cancelIfAnimating w).view.center = w.center ∧
    (cancelIfAnimating w).view.resolution = w.resolution ∧
    (cancelIfAnimating w).view.rotation = w.rotation ∧
    (cancelIfAnimating w).view.animations_ = [] ∧
    (cancelIfAnimating w).view.hints_.get ViewHint.ANIMATING = 0 ∧
    (cancelIfAnimating w).view.hints_.get ViewHint.INTERACTING
      = v.hints_.get ViewHint.INTERACTING ∧
    (cancelIfAnimating w).view.calls = v.calls ++ callbackCalls false v.animations_ := by
  have hanim : getAnimating w = true := by
    have := wellFormed_animating v hwf hactive
    simpa [getAnimating, hh] using this
  have hfirst : w.animations_.all hasFirstStage = true := by
    rw [ha]; exact seriesOK_hasFirstStage _ hwf.1
  simp only [cancelIfAnimating, hanim, if_true]
  rw [cancelAnimations_spec w hfirst]
  simp [Hints.add, Hints.get, hh, ha, hc]

theorem setters_cancel_animations_aux (v : View α) (hwf : WellFormed v)
    (hactive : v.animations_ ≠ []) (rotation : α) :
    (setRotation rotation v).error = none ∧
    getRotation (setRotation rotation v).view = rotation ∧
    (setRotation rotation v).view.animations_ = [] ∧
    (setRotation rotation v).view.hints_.get ViewHint.ANIMATING = 0 ∧
    (setRotation rotation v).view.calls = v.calls ++ callbackCalls false v.animations_ := by
  obtain ⟨h1, _, _, h4, h5, h6, _, h8⟩ :=
    cancelIfAnimating_active v { v with rotation := rotation } hwf hactive rfl rfl rfl
  exact ⟨h1, h4, h5, h6, h8⟩

/-- C1: on a view with at least one active series, each of `setCenter`,
`setResolution` and `setRotation` stores the new value, leaves `animations_`
empty and the ANIMATING hint at 0, and calls the stored callback of every
series that was active once with `false`. -/
theorem setters_cancel_animations (v : View α) (hwf : WellFormed v)
    (hactive : v.animations_ ≠ []) (center : Option (Coordinate α))
    (resolution : Option α) (rotation : α) :
    ((setCenter center v).error = none ∧
      getCenter (setCenter center v).view = center ∧
      (setCenter center v).view.animations_ = [] ∧
      (setCenter center v).view.hints_.get ViewHint.ANIMATING = 0 ∧
      (setCenter center v).view.calls = v.calls ++ callbackCalls false v.animations_) ∧
    ((setResolution resolution v).error = none ∧
      getResolution (setResolution resolution v).view = resolution ∧
      (setResolution resolution v).view.animations_ = [] ∧
      (setResolution resolution v).view.hints_.get ViewHint.ANIMATING = 0 ∧
      (setResolution resolution v).view.calls
        = v.calls ++ callbackCalls false v.animations_) ∧
    ((setRotation rotation v).error = none ∧
      getRotation (setRotation rotation v).view = rotation ∧
      (setRotation rotation v).view.animations_ = [] ∧
      (setRotation rotation v).view.hints_.get ViewHint.ANIMATING = 0 ∧
      (setRotation rotation v).view.calls = v.calls ++ callbackCalls false v.animations_) := by
  refine ⟨?_, ?_, ?_⟩
  · obtain ⟨h1, h2, _, _, h5, h6, _, h8⟩ :=
      cancelIfAnimating_active v { v with center := center } hwf hactive rfl rfl rfl
    exact ⟨h1, h2, h5, h6, h8⟩
  · obtain ⟨h1, _, h3, _, h5, h6, _, h8⟩ :=
      cancelIfAnimating_active v { v with resolution := resolution } hwf hactive rfl rfl rfl
    exact ⟨h1, h3, h5, h6, h8⟩
  · obtain ⟨h1, _, _, h4, h5, h6, _, h8⟩ :=
      cancelIfAnimating_active v { v with rotation := rotation } hwf hactive rfl rfl rfl
    exact ⟨h1, h4, h5, h6, h8⟩

theorem busyView_wellFormed : WellFormed busyView := by
  simp [WellFormed, busyView, tableView, seriesOK, stageOK, panStage, isDef]

/-- C1 on `busyView`: both callbacks are called with `false`. -/
theorem setters_cancel_animations_witness :
    WellFormed busyView ∧ busyView.animations_ ≠ [] ∧
    (setCenter (some (3, 4)) busyView).view.calls
      = busyView.calls ++ callbackCalls false busyView.animations_ ∧
    callbackCalls false busyView.animations_ = [(1, false), (2, false)] :=
  ⟨busyView_wellFormed, by simp [busyView],
   (setters_cancel_animations busyView busyView_wellFormed (by simp [busyView])
      (some (3, 4)) (some 1) 0).1.2.2.2.2,
   by decide⟩

/-- C2: `cancelAnimations` lowers the ANIMATING hint by its whole current
value in one `setHint`, to 0, whatever that value was; it leaves the
INTERACTING hint and the center, resolution and rotation as they were; and on
a view whose active entries are series with a first stage it raises no error,
calls each stored callback once with `false`, the oldest series first, and
leaves `animations_` empty. -/
theorem cancelAnimations_effect (v : View α) :
    (cancelAnimations v).view.hints_
      = (setHint v ViewHint.ANIMATING (-(v.hints_.get ViewHint.ANIMATING))).hints_ ∧
    (cancelAnimations v).view.hints_.get ViewHint.ANIMATING = 0 ∧
    (cancelAnimations v).view.hints_.get ViewHint.INTERACTING
      = v.hints_.get ViewHint.INTERACTING ∧
    (cancelAnimations v).view.center = v.center ∧
    (cancelAnimations v).view.resolution = v.resolution ∧
    (cancelAnimations v).view.rotation = v.rotation ∧
    (v.animations_.all hasFirstStage = true →
      (cancelAnimations v).error = none ∧
      (cancelAnimations v).view.calls = v.calls ++ callbackCalls false v.animations_ ∧
      (cancelAnimations v).view.animations_ = []) := by
  obtain ⟨f1, f2, f3, f4⟩ := cancelLoop_frame v.animations_
    (setHint v ViewHint.ANIMATING (-(v.hints_.get ViewHint.ANIMATING)))
  have hview : ∀ o : Outcome α,
      (match o.error with
        | some e => ({ view := o.view, error := some e } : Outcome α)
        | none => { view := { o.view with animations_ := [] }, error := none }).view.hints_
          = o.view.hints_ ∧
      (match o.error with
        | some e => ({ view := o.view, error := some e } : Outcome α)
        | none => { view := { o.view with animations_ := [] }, error := none }).view.center
          = o.view.center ∧
      (match o.error with
        | some e => ({ view := o.view, error := some e } : Outcome α)
        | none => { view := { o.view with animations_ := [] }, error := none }).view.resolution
          = o.view.resolution ∧
      (match o.error with
        | some e => ({ view := o.view, error := some e } : Outcome α)
        | none => { view := { o.view with animations_ := [] }, error := none }).view.rotation
          = o.view.rotation := by
    intro o
    cases o.error <;> exact ⟨rfl, rfl, rfl, rfl⟩
  obtain ⟨g1, g2, g3, g4⟩ := hview (cancelLoop
    (setHint v ViewHint.ANIMATING (-(v.hints_.get ViewHint.ANIMATING))).animations_
    (setHint v ViewHint.ANIMATING (-(v.hints_.get ViewHint.ANIMATING))))
  have hh : (cancelAnimations v).view.hints_
      = (setHint v ViewHint.ANIMATING (-(v.hints_.get ViewHint.ANIMATING))).hints_ :=
    g1.trans f1
  refine ⟨hh, ?_, ?_, g2.trans f2, g3.trans f3, g4.trans f4, ?_⟩
  · rw [hh]; simp [setHint, Hints.add, Hints.get]
  · rw [hh]; simp [setHint, Hints.add, Hints.get]
  · intro h
    rw [cancelAnimations_spec v h]
    exact ⟨rfl, rfl, rfl⟩

/-- C2 on `busyView`: the two callbacks are called with `false`, the older
series first. -/
theorem cancelAnimations_effect_witness :
    busyView.animations_.all hasFirstStage = true ∧
    (cancelAnimations busyView).error = none ∧
    (cancelAnimations busyView).view.calls
      = busyView.calls ++ callbackCalls false busyView.animations_ ∧
    (cancelAnimations busyView).view.animations_ = [] ∧
    busyView.calls ++ callbackCalls false busyView.animations_ = [(1, false), (2, false)] :=
  ⟨by decide, ((cancelAnimations_effect busyView).2.2.2.2.2.2 (by decide)).1,
   ((cancelAnimations_effect busyView).2.2.2.2.2.2 (by decide)).2.1,
   ((cancelAnimations_effect busyView).2.2.2.2.2.2 (by decide)).2.2, by decide⟩

end Cancellation

/-! ## The invariant is kept by every call -/

section Invariant

set_option linter.unusedSectionVars false

variable {α : Type} [LinearOrderedField α] [FloorRing α]

theorem wellFormed_of_empty (u : View α) (h : u.animations_ = [])
    (hh : u.hints_.animating = 0) : WellFormed u := by
  refine ⟨by simp [h], by simp [h, hh], fun hne => absurd h hne⟩

theorem wellFormed_setter (v w : View α) (hwf : WellFormed v) (hh : w.hints_ = v.hints_)
    (ha : w.animations_ = v.animations_) (hc : w.calls = v.calls) :
    (cancelIfAnimating w).error = none ∧ WellFormed (cancelIfAnimating w).view := by
  by_cases hne : v.animations_ = []
  · have hidle : getAnimating w = false := by
      simp [getAnimating, Hints.get, hh, hwf.2.1, hne]
    simp only [cancelIfAnimating, hidle, Bool.false_eq_true, if_false]
    refine ⟨trivial, wellFormed_of_empty w (ha.trans hne) ?_⟩
    rw [hh, hwf.2.1, hne]; rfl
  · obtain ⟨h1, _, _, _, h5, h6, _, _⟩ := cancelIfAnimating_active v w hwf hne hh ha hc
    exact ⟨h1, wellFormed_of_empty _ h5 h6⟩

theorem wellFormed_cancelAnimations (v : View α) (hwf : WellFormed v) :
    (cancelAnimations v).error = none ∧ WellFormed (cancelAnimations v).view := by
  rw [cancelAnimations_spec v (seriesOK_hasFirstStage _ hwf.1)]
  refine ⟨rfl, wellFormed_of_empty _ rfl ?_⟩
  simp [Hints.add, Hints.get]

theorem advanceSeries_all_stageOK (now : α) (series : List (ViewAnimation α)) :
    (advanceSeries now series).all stageOK = series.all stageOK := by
  induction series with
  | nil => rfl
  | cons a rest ih =>
    unfold advanceSeries
    by_cases hc : a.complete = true
    · simp only [hc, if_true, List.all_cons, ih]
    · have hc' : a.complete = false := by simpa using hc
      by_cases hf : stageFraction now a ≥ 1
      · simp only [hc', Bool.false_eq_true, if_false, hf, if_true, List.all_cons, ih]
        rfl
      · simp only [hc', Bool.false_eq_true, if_false, hf]

theorem seriesOK_advance (now : α) (series : List (ViewAnimation α))
    (h : seriesOK (some series) = true) : seriesOK (some (advanceSeries now series)) = true := by
  cases series with
  | nil => simp [seriesOK] at h
  | cons a s =>
    obtain ⟨b, rest1, hb, _⟩ := advanceSeries_cons now a s
    have h1 := advanceSeries_all_stageOK now (a :: s)
    rw [hb] at h1 ⊢
    simp only [seriesOK] at h ⊢
    rw [h1]; exact h

theorem remaining_seriesOK (now : α) (entries : List (Option (List (ViewAnimation α))))
    (h : entries.all seriesOK = true) : (remaining now entries).all seriesOK = true := by
  induction entries with
  | nil => rfl
  | cons entry rest ih =>
    simp only [List.all_cons, Bool.and_eq_true] at h
    cases entry with
    | none => simp [seriesOK] at h
    | some series =>
      have hrest := ih h.2
      unfold remaining at hrest ⊢
      by_cases hd : seriesDone (advanceSeries now series) = true
      · simpa [tickEntry, hd] using hrest
      · simp only [List.map_cons, tickEntry, hd, Bool.false_eq_true, if_false,
          List.filter_cons, Option.isSome_some, if_true, List.all_cons, Bool.and_eq_true]
        exact ⟨seriesOK_advance now series h.1, hrest⟩

theorem retired_add_remaining (now : α) (entries : List (Option (List (ViewAnimation α))))
    (h : entries.all seriesOK = true) :
    (retiredBy now entries).length + (remaining now entries).length = entries.length := by
  induction entries with
  | nil => rfl
  | cons entry rest ih =>
    simp only [List.all_cons, Bool.and_eq_true] at h
    cases entry with
    | none => simp [seriesOK] at h
    | some series =>
      have hrest := ih h.2
      unfold remaining retiredBy at hrest ⊢
      by_cases hd : seriesDone (advanceSeries now series) = true
      · simp [tickEntry, retires, hd, List.filter_cons] at hrest ⊢
        omega
      · simp [tickEntry, retires, hd, List.filter_cons] at hrest ⊢
        omega

theorem wellFormed_tick (L : Imports α) (now : α) (v : View α) (hwf : WellFormed v) :
    (updateAnimations_ L now v).error = none ∧
    WellFormed (updateAnimations_ L now v).view := by
  by_cases ha : getAnimating v = true
  · obtain ⟨c, r, ρ, heq, hdef⟩ := updateAnimations_spec L now v ha hwf.1
    rw [heq]
    refine ⟨rfl, remaining_seriesOK now _ hwf.1, ?_, ?_⟩
    · have := retired_add_remaining now v.animations_ hwf.1
      simp only [afterTick, afterPass, Hints.add, hwf.2.1]
      omega
    · intro hne
      have hne' : v.animations_ ≠ [] := by
        intro h0
        apply hne
        simp [afterTick, remaining, h0]
      obtain ⟨hc, hr⟩ := hdef (hwf.2.2 hne')
      simp [isDef, afterTick, afterPass, hc, hr]
  · have ha' : getAnimating v = false := by simpa using ha
    rw [updateAnimations_idle L now v ha']
    exact ⟨rfl, hwf⟩

theorem animationCount_pos (args : List (AnimateArg α)) (h : args ≠ []) :
    0 < animationCount args ∧ animationCount args ≤ args.length := by
  unfold animationCount
  by_cases hcb : hasCallback args = true
  · simp only [hcb, if_true]
    have : args.length > 1 := by
      simp only [hasCallback, Bool.and_eq_true, decide_eq_true_eq] at hcb
      exact hcb.1
    omega
  · simp only [hcb, if_false]
    exact ⟨List.length_pos.mpr h, le_refl _⟩

theorem good_andThen (o : Outcome α) (f : View α → Outcome α)
    (ho : o.error = none ∧ WellFormed o.view)
    (hf : ∀ u, WellFormed u → (f u).error = none ∧ WellFormed (f u).view) :
    (o.andThen f).error = none ∧ WellFormed (o.andThen f).view := by
  unfold Outcome.andThen
  rw [ho.1]
  exact hf _ ho.2

theorem wellFormed_setCenter (c : Option (Coordinate α)) (v : View α) (hwf : WellFormed v) :
    (setCenter c v).error = none ∧ WellFormed (setCenter c v).view :=
  wellFormed_setter v { v with center := c } hwf rfl rfl rfl

theorem wellFormed_setResolution (r : Option α) (v : View α) (hwf : WellFormed v) :
    (setResolution r v).error = none ∧ WellFormed (setResolution r v).view :=
  wellFormed_setter v { v with resolution := r } hwf rfl rfl rfl

theorem wellFormed_setRotation (ρ : α) (v : View α) (hwf : WellFormed v) :
    (setRotation ρ v).error = none ∧ WellFormed (setRotation ρ v).view :=
  wellFormed_setter v { v with rotation := ρ } hwf rfl rfl rfl

theorem wellFormed_invoke (callback : Option Callback) (arg : Bool) (v : View α)
    (hwf : WellFormed v) : WellFormed (invoke callback arg v) := by
  cases callback with
  | none => exact hwf
  | some cb => exact hwf

theorem wellFormed_animateUndefined (args : List (AnimateArg α)) (hargs : args ≠ [])
    (v : View α) (hwf : WellFormed v) :
    (animateUndefined args v).error = none ∧ WellFormed (animateUndefined args v).view := by
  obtain ⟨hpos, hle⟩ := animationCount_pos args hargs
  have hlt : animationCount args - 1 < args.length := by omega
  obtain ⟨arg, harg⟩ : ∃ arg, args.get? (animationCount args - 1) = some arg :=
    ⟨_, List.get?_eq_get hlt⟩
  have hne : animationCount args ≠ 0 := by omega
  simp only [animateUndefined, hne, if_false, harg]
  apply good_andThen
  · apply good_andThen
    · apply good_andThen
      · cases arg.asOptions.center with
        | none => exact ⟨rfl, hwf⟩
        | some c => exact wellFormed_setCenter _ v hwf
      · intro u hu
        cases arg.asOptions.zoom with
        | none => exact ⟨rfl, hu⟩
        | some z => exact wellFormed_setResolution _ u hu
    · intro u hu
      cases arg.asOptions.rotation with
      | none => exact ⟨rfl, hu⟩
      | some ρ => exact wellFormed_setRotation _ u hu
  · intro u hu
    exact ⟨rfl, wellFormed_invoke _ _ u hu⟩

theorem stageOK_makeAnimation (L : Imports α) (v : View α) (callback : Option Callback)
    (options : AnimationOptions α) (start : α) (center : Coordinate α)
    (resolution : Option α) (rotation : α) :
    stageOK (makeAnimation L v callback options start center resolution rotation) = true := by
  unfold makeAnimation
  cases options.center <;> cases resolutionTarget v options <;> cases options.rotation <;>
    simp only [stageOK] <;> split <;> rfl

theorem buildSeries_all_stageOK (L : Imports α) (v : View α) (callback : Option Callback)
    (stages : List (AnimationOptions α)) :
    ∀ (start : α) (center : Coordinate α) (resolution : Option α) (rotation : α),
      (buildSeries L v callback stages start center resolution rotation).all stageOK = true := by
  induction stages with
  | nil => intro _ _ _ _; rfl
  | cons o rest ih =>
    intro start center resolution rotation
    simp only [buildSeries, List.all_cons, Bool.and_eq_true]
    exact ⟨stageOK_makeAnimation L v callback o start center resolution rotation, ih _ _ _ _⟩

theorem buildSeries_length (L : Imports α) (v : View α) (callback : Option Callback)
    (stages : List (AnimationOptions α)) :
    ∀ (start : α) (center : Coordinate α) (resolution : Option α) (rotation : α),
      (buildSeries L v callback stages start center resolution rotation).length
        = stages.length := by
  induction stages with
  | nil => intro _ _ _ _; rfl
  | cons o rest ih =>
    intro start center resolution rotation
    simp only [buildSeries, List.length_cons, ih]

theorem seriesOK_buildSeries (L : Imports α) (v : View α) (callback : Option Callback)
    (stages : List (AnimationOptions α)) (hne : stages ≠ [])
    (start : α) (center : Coordinate α) (resolution : Option α) (rotation : α) :
    seriesOK (some (buildSeries L v callback stages start center resolution rotation))
      = true := by
  have hall := buildSeries_all_stageOK L v callback stages start center resolution rotation
  have hlen := buildSeries_length L v callback stages start center resolution rotation
  cases hb : buildSeries L v callback stages start center resolution rotation with
  | nil =>
    rw [hb] at hlen
    exact absurd (List.length_eq_zero.mp hlen.symm) hne
  | cons a s =>
    rw [hb] at hall
    exact hall

theorem stages_ne_nil (args : List (AnimateArg α)) (h : args ≠ []) :
    (args.take (animationCount args)).map AnimateArg.asOptions ≠ [] := by
  obtain ⟨hpos, hle⟩ := animationCount_pos args h
  intro h0
  have := congrArg List.length h0
  simp only [List.length_map, List.length_take, List.length_nil] at this
  omega

theorem wellFormed_push (v : View α) (hwf : WellFormed v) (hdef : isDef v = true)
    (series : List (ViewAnimation α)) (hs : seriesOK (some series) = true) :
    WellFormed (setHint ({ v with animations_ := v.animations_ ++ [some series] } : View α)
      ViewHint.ANIMATING 1) := by
  refine ⟨?_, ?_, fun _ => hdef⟩
  · simp only [setHint, List.all_append, List.all_cons, List.all_nil, Bool.and_true,
      Bool.and_eq_true]
    exact ⟨hwf.1, hs⟩
  · simp only [setHint, Hints.add, List.length_append, List.length_singleton, hwf.2.1]
    push_cast
    ring

theorem wellFormed_animate (L : Imports α) (now : α) (args : List (AnimateArg α))
    (hargs : args ≠ []) (v : View α) (hwf : WellFormed v) :
    (animate L now args v).error = none ∧ WellFormed (animate L now args v).view := by
  unfold animate
  by_cases hdef : isDef v = true
  · simp only [hdef, Bool.not_true, Bool.false_eq_true, if_false]
    cases hc : getCenter v with
    | none => simp [isDef, getCenter] at hdef hc; simp [hc] at hdef
    | some center =>
      simp only
      exact wellFormed_tick L now _ (wellFormed_push v hwf hdef _
        (seriesOK_buildSeries L v _ _ (stages_ne_nil args hargs) _ _ _ _))
  · have hdef' : isDef v = false := by simpa using hdef
    simp only [hdef', Bool.not_false, if_true]
    exact wellFormed_animateUndefined args hargs v hwf

theorem wellFormed_run (L : Imports α) (op : Op α)
    (hop : ∀ now args, op = Op.animate now args → args ≠ [])
    (v : View α) (hwf : WellFormed v) :
    (op.run L v).error = none ∧ WellFormed (op.run L v).view := by
  cases op with
  | animate now args => exact wellFormed_animate L now args (hop now args rfl) v hwf
  | tick now => exact wellFormed_tick L now v hwf
  | cancelAnimations => exact wellFormed_cancelAnimations v hwf
  | setCenter c => exact wellFormed_setCenter c v hwf
  | setResolution r => exact wellFormed_setResolution r v hwf
  | setRotation ρ => exact wellFormed_setRotation ρ v hwf

theorem wellFormed_runOps (L : Imports α) (ops : List (Op α))
    (hops : ∀ op ∈ ops, ∀ now args, op = Op.animate now args → args ≠ []) :
    ∀ v : View α, WellFormed v →
      (runOps L ops v).error = none ∧ WellFormed (runOps L ops v).view := by
  induction ops with
  | nil => intro v hwf; exact ⟨rfl, hwf⟩
  | cons op rest ih =>
    intro v hwf
    simp only [runOps]
    exact good_andThen _ _ (wellFormed_run L op (hops op (List.mem_cons_self _ _)) v hwf)
      (ih (fun o ho => hops o (List.mem_cons_of_mem _ ho)))

end Invariant

/-! ## The ANIMATING hint counts the active series (C4) -/

section HintCount

set_option linter.unusedSectionVars false

variable {α : Type} [LinearOrderedField α] [FloorRing α]

/-- C4: from a freshly constructed view (both hints 0, no series), after any
sequence of `animate` calls with at least one argument, driver ticks,
`cancelAnimations` calls and `setCenter`, `setResolution` and `setRotation`
calls, no call has raised, the ANIMATING hint is the number of series in
`animations_`, it is not negative, and `getAnimating()` is true exactly when
a series is active. -/
theorem hint_counts_series (L : Imports α) (v0 : View α)
    (hhints : v0.hints_ = { animating := 0, interacting := 0 })
    (hempty : v0.animations_ = []) (ops : List (Op α))
    (hops : ∀ op ∈ ops, ∀ now args, op = Op.animate now args → args ≠ []) :
    (runOps L ops v0).error = none ∧
    (runOps L ops v0).view.hints_.get ViewHint.ANIMATING
      = ((runOps L ops v0).view.animations_.length : Int) ∧
    0 ≤ (runOps L ops v0).view.hints_.get ViewHint.ANIMATING ∧
    (getAnimating (runOps L ops v0).view = true ↔ (runOps L ops v0).view.animations_ ≠ []) := by
  have hwf0 : WellFormed v0 := wellFormed_of_empty v0 hempty (by rw [hhints])
  obtain ⟨herr, hwf⟩ := wellFormed_runOps L ops hops v0 hwf0
  refine ⟨herr, hwf.2.1, ?_, ?_⟩
  · have : (runOps L ops v0).view.hints_.get ViewHint.ANIMATING
        = ((runOps L ops v0).view.animations_.length : Int) := hwf.2.1
    omega
  · constructor
    · intro ha hnil
      have := hwf.2.1
      simp only [getAnimating, Hints.get, decide_eq_true_eq] at ha
      rw [this, hnil] at ha
      simp at ha
    · intro hne
      exact wellFormed_animating _ hwf hne

theorem sampleOps_args : ∀ op ∈ sampleOps, ∀ (now : ℚ) (args : List (AnimateArg ℚ)),
    op = Op.animate now args → args ≠ [] := by
  intro op hop now args h
  simp only [sampleOps, List.mem_cons, List.mem_singleton, List.not_mem_nil, or_false] at hop
  rcases hop with h1 | h1 | h1 | h1 <;> rw [h1] at h <;> cases h <;> simp

/-- C4 on `sampleOps` from `tableView (1, 2) 2`. -/
theorem hint_counts_series_witness :
    (runOps evalImports sampleOps (tableView (some (1, 2)) (some 2))).error = none ∧
    (runOps evalImports sampleOps (tableView (some (1, 2)) (some 2))).view.hints_.get
        ViewHint.ANIMATING
      = ((runOps evalImports sampleOps
          (tableView (some (1, 2)) (some 2))).view.animations_.length : Int) :=
  ⟨(hint_counts_series evalImports (tableView (some (1, 2)) (some 2)) rfl rfl sampleOps
      sampleOps_args).1,
   (hint_counts_series evalImports (tableView (some (1, 2)) (some 2)) rfl rfl sampleOps
      sampleOps_args).2.1⟩

end HintCount

/-! ## Each callback is called at most once (C3) -/

section Once

set_option linter.unusedSectionVars false

variable {α : Type} [LinearOrderedField α] [FloorRing α]

theorem invocations_append (cb : Callback) (xs ys : List (Callback × Bool)) :
    invocations cb (xs ++ ys) = invocations cb xs + invocations cb ys := by
  simp [invocations, List.filter_append]

theorem callsWith_append (cb : Callback) (arg : Bool) (xs ys : List (Callback × Bool)) :
    callsWith cb arg (xs ++ ys) = callsWith cb arg xs + callsWith cb arg ys := by
  simp [callsWith, List.filter_append]

theorem holders_append (cb : Callback) (xs ys : List (Option (List (ViewAnimation α)))) :
    holders cb (xs ++ ys) = holders cb xs + holders cb ys := by
  simp [holders, List.filter_append]

theorem holders_reverse (cb : Callback) (xs : List (Option (List (ViewAnimation α)))) :
    holders cb xs.reverse = holders cb xs := by
  simp [holders, List.filter_reverse]

theorem invocations_callbackCalls (cb : Callback) (arg : Bool)
    (xs : List (Option (List (ViewAnimation α)))) :
    invocations cb (callbackCalls arg xs) = holders cb xs := by
  induction xs with
  | nil => rfl
  | cons e rest ih =>
    have hcons : callbackCalls arg (e :: rest)
        = callbackCalls arg [e] ++ callbackCalls arg rest := by
      rw [← callbackCalls_append]; rfl
    have hh : holders cb (e :: rest) = holders cb [e] + holders cb rest := by
      rw [← holders_append]; rfl
    rw [hcons, invocations_append, ih, hh]
    congr 1
    cases hcb : entryCallback e with
    | none => simp [callbackCalls, invocations, holders, hcb]
    | some c =>
      by_cases hc : c = cb
      · simp [callbackCalls, invocations, holders, hcb, hc]
      · simp [callbackCalls, invocations, holders, hcb, hc]

theorem callsWith_callbackCalls (cb : Callback) (arg : Bool)
    (xs : List (Option (List (ViewAnimation α)))) :
    callsWith cb arg (callbackCalls arg xs) = holders cb xs := by
  induction xs with
  | nil => rfl
  | cons e rest ih =>
    have hcons : callbackCalls arg (e :: rest)
        = callbackCalls arg [e] ++ callbackCalls arg rest := by
      rw [← callbackCalls_append]; rfl
    have hh : holders cb (e :: rest) = holders cb [e] + holders cb rest := by
      rw [← holders_append]; rfl
    rw [hcons, callsWith_append, ih, hh]
    congr 1
    cases hcb : entryCallback e with
    | none => simp [callbackCalls, callsWith, holders, hcb]
    | some c =>
      by_cases hc : c = cb
      · simp [callbackCalls, callsWith, holders, hcb, hc]
      · simp [callbackCalls, callsWith, holders, hcb, hc]

theorem callsWith_callbackCalls_other (cb : Callback) (arg : Bool)
    (xs : List (Option (List (ViewAnimation α)))) :
    callsWith cb (!arg) (callbackCalls arg xs) = 0 := by
  induction xs with
  | nil => rfl
  | cons e rest ih =>
    have hcons : callbackCalls arg (e :: rest)
        = callbackCalls arg [e] ++ callbackCalls arg rest := by
      rw [← callbackCalls_append]; rfl
    rw [hcons, callsWith_append, ih]
    cases hcb : entryCallback e with
    | none => simp [callbackCalls, callsWith, hcb]
    | some c => cases arg <;> simp [callbackCalls, callsWith, hcb]

theorem entryCallback_advance (now : α) (a : ViewAnimation α) (s : List (ViewAnimation α)) :
    entryCallback (some (advanceSeries now (a :: s))) = entryCallback (some (a :: s)) := by
  obtain ⟨b, rest1, hb, hcb⟩ := advanceSeries_cons now a s
  rw [hb]
  exact hcb

theorem holders_split (cb : Callback) (now : α)
    (entries : List (Option (List (ViewAnimation α)))) (h : entries.all seriesOK = true) :
    holders cb (remaining now entries) + holders cb (retiredBy now entries)
      = holders cb entries := by
  induction entries with
  | nil => rfl
  | cons entry rest ih =>
    simp only [List.all_cons, Bool.and_eq_true] at h
    have hrest := ih h.2
    cases entry with
    | none => simp [seriesOK] at h
    | some series =>
      cases series with
      | nil => simp [seriesOK] at h
      | cons a s =>
        have hh : holders cb (some (a :: s) :: rest)
            = holders cb [some (a :: s)] + holders cb rest := by
          rw [← holders_append]; rfl
        rw [retiredBy_cons, holders_append, hh, ← hrest]
        by_cases hd : seriesDone (advanceSeries now (a :: s)) = true
        · have hret : retires now (some (a :: s)) = true := hd
          have hrem : remaining now (some (a :: s) :: rest) = remaining now rest := by
            simp [remaining, tickEntry, hd]
          rw [hrem, hret]
          simp only [if_true]
          omega
        · have hd' : seriesDone (advanceSeries now (a :: s)) = false := by simpa using hd
          have hret : retires now (some (a :: s)) = false := hd'
          have hrem : remaining now (some (a :: s) :: rest)
              = some (advanceSeries now (a :: s)) :: remaining now rest := by
            simp [remaining, tickEntry, hd']
          have h1 : holders cb (some (advanceSeries now (a :: s)) :: remaining now rest)
              = holders cb [some (a :: s)] + holders cb (remaining now rest) := by
            have : holders cb (some (advanceSeries now (a :: s)) :: remaining now rest)
                = holders cb [some (advanceSeries now (a :: s))]
                  + holders cb (remaining now rest) := by
              rw [← holders_append]; rfl
            rw [this]
            congr 1
            simp only [holders, List.filter_cons, entryCallback_advance]
            split <;> rfl
          rw [hrem, hret, h1]
          simp [holders]
          omega

/-- The number of series that store `cb` plus the number of calls of `cb`
made so far. -/
theorem total_tick (L : Imports α) (now : α) (v : View α) (hwf : WellFormed v)
    (cb : Callback) :
    holders cb (updateAnimations_ L now v).view.animations_
        + invocations cb (updateAnimations_ L now v).view.calls
      = holders cb v.animations_ + invocations cb v.calls ∧
    callsWith cb false (updateAnimations_ L now v).view.calls = callsWith cb false v.calls := by
  by_cases ha : getAnimating v = true
  · obtain ⟨c, r, ρ, heq, _⟩ := updateAnimations_spec L now v ha hwf.1
    rw [heq]
    simp only [afterTick, afterPass, invocations_append, invocations_callbackCalls,
      callsWith_append]
    have := holders_split cb now v.animations_ hwf.1
    have h0 := callsWith_callbackCalls_other cb true (retiredBy now v.animations_)
    simp only [Bool.not_true] at h0
    rw [h0]
    omega
  · have ha' : getAnimating v = false := by simpa using ha
    rw [updateAnimations_idle L now v ha']
    exact ⟨rfl, rfl⟩

theorem total_cancelAnimations (v : View α) (hwf : WellFormed v) (cb : Callback) :
    holders cb (cancelAnimations v).view.animations_
        + invocations cb (cancelAnimations v).view.calls
      = holders cb v.animations_ + invocations cb v.calls ∧
    callsWith cb true (cancelAnimations v).view.calls = callsWith cb true v.calls ∧
    callsWith cb false (cancelAnimations v).view.calls
      = callsWith cb false v.calls + holders cb v.animations_ := by
  rw [cancelAnimations_spec v (seriesOK_hasFirstStage _ hwf.1)]
  simp only [invocations_append, invocations_callbackCalls, callsWith_append,
    callsWith_callbackCalls]
  have h0 := callsWith_callbackCalls_other cb false v.animations_
  simp only [Bool.not_false] at h0
  rw [h0]
  simp [holders]
  omega

theorem total_setter (v w : View α) (hwf : WellFormed v) (hh : w.hints_ = v.hints_)
    (ha : w.animations_ = v.animations_) (hc : w.calls = v.calls) (cb : Callback) :
    holders cb (cancelIfAnimating w).view.animations_
        + invocations cb (cancelIfAnimating w).view.calls
      = holders cb v.animations_ + invocations cb v.calls ∧
    callsWith cb true (cancelIfAnimating w).view.calls = callsWith cb true v.calls ∧
    callsWith cb false (cancelIfAnimating w).view.calls
      = callsWith cb false v.calls + holders cb v.animations_ := by
  by_cases hne : v.animations_ = []
  · have hidle : getAnimating w = false := by
      simp [getAnimating, Hints.get, hh, hwf.2.1, hne]
    simp only [cancelIfAnimating, hidle, Bool.false_eq_true, if_false, ha, hc, hne]
    simp [holders]
  · obtain ⟨_, _, _, _, h5, _, _, h8⟩ := cancelIfAnimating_active v w hwf hne hh ha hc
    rw [h5, h8]
    simp only [invocations_append, invocations_callbackCalls, callsWith_append,
      callsWith_callbackCalls]
    have h0 := callsWith_callbackCalls_other cb false v.animations_
    simp only [Bool.not_false] at h0
    rw [h0]
    simp [holders]
    omega

theorem total_run (L : Imports α) (op : Op α) (hop : ∀ t args, op ≠ Op.animate t args)
    (w : View α) (hwf : WellFormed w) (cb : Callback) :
    holders cb (op.run L w).view.animations_ + invocations cb (op.run L w).view.calls
      = holders cb w.animations_ + invocations cb w.calls ∧
    ((∃ t, op = Op.tick t) →
      callsWith cb false (op.run L w).view.calls = callsWith cb false w.calls) ∧
    ((∀ t, op ≠ Op.tick t) →
      callsWith cb true (op.run L w).view.calls = callsWith cb true w.calls) := by
  cases op with
  | animate now args => exact absurd rfl (hop now args)
  | tick now =>
    obtain ⟨h1, h2⟩ := total_tick L now w hwf cb
    exact ⟨h1, fun _ => h2, fun h => absurd rfl (h now)⟩
  | cancelAnimations =>
    obtain ⟨h1, h2, _⟩ := total_cancelAnimations w hwf cb
    exact ⟨h1, fun h => (by obtain ⟨t, ht⟩ := h; cases ht), fun _ => h2⟩
  | setCenter c =>
    obtain ⟨h1, h2, _⟩ := total_setter w { w with center := c } hwf rfl rfl rfl cb
    exact ⟨h1, fun h => (by obtain ⟨t, ht⟩ := h; cases ht), fun _ => h2⟩
  | setResolution r =>
    obtain ⟨h1, h2, _⟩ := total_setter w { w with resolution := r } hwf rfl rfl rfl cb
    exact ⟨h1, fun h => (by obtain ⟨t, ht⟩ := h; cases ht), fun _ => h2⟩
  | setRotation ρ =>
    obtain ⟨h1, h2, _⟩ := total_setter w { w with rotation := ρ } hwf rfl rfl rfl cb
    exact ⟨h1, fun h => (by obtain ⟨t, ht⟩ := h; cases ht), fun _ => h2⟩

theorem total_runOps (L : Imports α) (cb : Callback) (ops : List (Op α))
    (hops : ∀ op ∈ ops, ∀ t args, op ≠ Op.animate t args) :
    ∀ w : View α, WellFormed w →
      WellFormed (runOps L ops w).view ∧
      holders cb (runOps L ops w).view.animations_
          + invocations cb (runOps L ops w).view.calls
        = holders cb w.animations_ + invocations cb w.calls := by
  induction ops with
  | nil => intro w hwf; exact ⟨hwf, rfl⟩
  | cons op rest ih =>
    intro w hwf
    have hop := hops op (List.mem_cons_self _ _)
    obtain ⟨herr, hwf1⟩ := wellFormed_run L op
      (fun now args h => absurd h (hop now args)) w hwf
    obtain ⟨h1, _, _⟩ := total_run L op hop w hwf cb
    obtain ⟨hwf2, h2⟩ := ih (fun o ho => hops o (List.mem_cons_of_mem _ ho)) _ hwf1
    simp only [runOps, Outcome.andThen, herr]
    exact ⟨hwf2, h2.trans h1⟩

theorem hasCallback_snoc (stages : List (AnimateArg α)) (hst : stages ≠ []) (cb : Callback) :
    hasCallback (stages ++ [AnimateArg.callback cb]) = true := by
  have : 0 < stages.length := List.length_pos.mpr hst
  simp [hasCallback, AnimateArg.isFunction]
  omega

theorem callbackOf_snoc (stages : List (AnimateArg α)) (hst : stages ≠ []) (cb : Callback) :
    callbackOf (stages ++ [AnimateArg.callback cb]) = some cb := by
  simp [callbackOf, hasCallback_snoc stages hst cb, AnimateArg.asCallback]

theorem animationCount_snoc (stages : List (AnimateArg α)) (hst : stages ≠ [])
    (cb : Callback) :
    animationCount (stages ++ [AnimateArg.callback cb]) = stages.length := by
  simp [animationCount, hasCallback_snoc stages hst cb]

theorem callback_makeAnimation (L : Imports α) (v : View α) (callback : Option Callback)
    (options : AnimationOptions α) (start : α) (center : Coordinate α)
    (resolution : Option α) (rotation : α) :
    (makeAnimation L v callback options start center resolution rotation).callback
      = callback := by
  unfold makeAnimation
  simp only
  split <;> rfl

theorem entryCallback_buildSeries (L : Imports α) (v : View α) (callback : Option Callback)
    (stages : List (AnimationOptions α)) (hne : stages ≠ [])
    (start : α) (center : Coordinate α) (resolution : Option α) (rotation : α) :
    entryCallback (some (buildSeries L v callback stages start center resolution rotation))
      = callback := by
  cases stages with
  | nil => exact absurd rfl hne
  | cons o rest =>
    simp only [buildSeries, entryCallback]
    exact callback_makeAnimation L v callback o start center resolution rotation

theorem cancelIfAnimating_idle (w : View α) (h : getAnimating w = false) :
    cancelIfAnimating w = Outcome.ok w := by
  simp [cancelIfAnimating, h, Outcome.ok]

/-- The branch of `animate` for a view that is not defined, on a view that is
not animating: the three targets of the chosen argument are stored and the
callback is called with `true`. -/
theorem animateUndefined_idle (args : List (AnimateArg α)) (v : View α)
    (hidle : getAnimating v = false) (arg : AnimateArg α)
    (hcount : animationCount args ≠ 0)
    (harg : args.get? (animationCount args - 1) = some arg) :
    animateUndefined args v
      = Outcome.ok (invoke (callbackOf args) true
          { v with
            center := match arg.asOptions.center with
              | some c => some c
              | none => v.center,
            resolution := match arg.asOptions.zoom with
              | some zoom => getResolutionForZoom v zoom
              | none => v.resolution,
            rotation := match arg.asOptions.rotation with
              | some rotation => rotation
              | none => v.rotation }) := by
  simp only [animateUndefined, hcount, if_false, harg]
  cases hc : arg.asOptions.center <;> cases hz : arg.asOptions.zoom <;>
    cases hr : arg.asOptions.rotation <;>
    simp only [setCenter, setZoom, setResolution, setRotation, Outcome.andThen, Outcome.ok] <;>
    (repeat (first
      | rw [cancelIfAnimating_idle _ (by exact hidle)]
      | simp only [Outcome.ok])) <;> rfl

theorem wellFormed_undefined (v : View α) (hwf : WellFormed v) (hdef : isDef v = false) :
    v.animations_ = [] ∧ getAnimating v = false := by
  have hnil : v.animations_ = [] := by
    by_contra hne
    have := hwf.2.2 hne
    rw [hdef] at this
    exact Bool.false_ne_true this
  refine ⟨hnil, ?_⟩
  simp [getAnimating, Hints.get, hwf.2.1, hnil]

theorem get_last_stage (args : List (AnimateArg α)) (hargs : args ≠ []) :
    animationCount args ≠ 0 ∧
    ∃ arg, args.get? (animationCount args - 1) = some arg := by
  obtain ⟨hpos, hle⟩ := animationCount_pos args hargs
  have hlt : animationCount args - 1 < args.length := by omega
  exact ⟨by omega, _, List.get?_eq_get hlt⟩

theorem total_animate (L : Imports α) (now : α) (v : View α) (hwf : WellFormed v)
    (cb : Callback) (hfresh : holders cb v.animations_ = 0)
    (stages : List (AnimateArg α)) (hst : stages ≠ []) :
    holders cb (animate L now (stages ++ [AnimateArg.callback cb]) v).view.animations_
        + invocations cb (animate L now (stages ++ [AnimateArg.callback cb]) v).view.calls
      = invocations cb v.calls + 1 ∧
    callsWith cb false (animate L now (stages ++ [AnimateArg.callback cb]) v).view.calls
      = callsWith cb false v.calls := by
  have hargs : stages ++ [AnimateArg.callback cb] ≠ [] := by simp
  unfold animate
  by_cases hdef : isDef v = true
  · simp only [hdef, Bool.not_true, Bool.false_eq_true, if_false]
    cases hc : getCenter v with
    | none => simp [isDef, getCenter] at hdef hc; simp [hc] at hdef
    | some center =>
      simp only
      have hs := seriesOK_buildSeries L v (callbackOf (stages ++ [AnimateArg.callback cb]))
        _ (stages_ne_nil _ hargs) now center (getResolution v) (getRotation v)
      obtain ⟨h1, h2⟩ := total_tick L now _ (wellFormed_push v hwf hdef _ hs) cb
      rw [h1, h2]
      refine ⟨?_, rfl⟩
      have hcb := entryCallback_buildSeries L v (callbackOf (stages ++ [AnimateArg.callback cb]))
        _ (stages_ne_nil _ hargs) now center (getResolution v) (getRotation v)
      clear h1 h2
      generalize buildSeries L v (callbackOf (stages ++ [AnimateArg.callback cb]))
        (List.map AnimateArg.asOptions
          (List.take (animationCount (stages ++ [AnimateArg.callback cb]))
            (stages ++ [AnimateArg.callback cb])))
        now center (getResolution v) (getRotation v) = series at hcb ⊢
      rw [callbackOf_snoc stages hst cb] at hcb
      simp only [setHint, holders_append, hfresh, zero_add]
      simp [holders, List.filter_cons, hcb]
      omega
  · have hdef' : isDef v = false := by simpa using hdef
    obtain ⟨hnil, hidle⟩ := wellFormed_undefined v hwf hdef'
    obtain ⟨hcount, arg, harg⟩ := get_last_stage _ hargs
    simp only [hdef', Bool.not_false, if_true]
    rw [animateUndefined_idle _ v hidle arg hcount harg, callbackOf_snoc stages hst cb]
    simp only [Outcome.ok, invoke, hnil, invocations_append, callsWith_append]
    simp [holders, invocations, callsWith]

/-- C3: a callback `cb` given to `animate` with at least one stage, and stored
by no series that is already active, is called at most once over any later
sequence of driver ticks, `cancelAnimations` calls and setter calls; `animate`
itself never calls it with `false`, a driver tick never calls it with `false`
(it retires a series that completed on its own with `true`), and
`cancelAnimations` and the setters never call it with `true` (they cancel with
`false`). -/
theorem callback_at_most_once (L : Imports α) (now : α) (v : View α) (hwf : WellFormed v)
    (cb : Callback) (hfresh : holders cb v.animations_ = 0)
    (stages : List (AnimateArg α)) (hst : stages ≠ [])
    (ops : List (Op α)) (hops : ∀ op ∈ ops, ∀ t args, op ≠ Op.animate t args)
    (op : Op α) (hop : ∀ t args, op ≠ Op.animate t args) :
    invocations cb
        (op.run L (runOps L ops
          (animate L now (stages ++ [AnimateArg.callback cb]) v).view).view).view.calls
      ≤ invocations cb v.calls + 1 ∧
    callsWith cb false (animate L now (stages ++ [AnimateArg.callback cb]) v).view.calls
      = callsWith cb false v.calls ∧
    ((∃ t, op = Op.tick t) →
      callsWith cb false
          (op.run L (runOps L ops
            (animate L now (stages ++ [AnimateArg.callback cb]) v).view).view).view.calls
        = callsWith cb false
          (runOps L ops
            (animate L now (stages ++ [AnimateArg.callback cb]) v).view).view.calls) ∧
    ((∀ t, op ≠ Op.tick t) →
      callsWith cb true
          (op.run L (runOps L ops
            (animate L now (stages ++ [AnimateArg.callback cb]) v).view).view).view.calls
        = callsWith cb true
          (runOps L ops
            (animate L now (stages ++ [AnimateArg.callback cb]) v).view).view.calls) := by
  obtain ⟨_, hwf1⟩ := wellFormed_animate L now (stages ++ [AnimateArg.callback cb])
    (by simp) v hwf
  obtain ⟨a1, a2⟩ := total_animate L now v hwf cb hfresh stages hst
  obtain ⟨hwf2, b1⟩ := total_runOps L cb ops hops _ hwf1
  obtain ⟨c1, c2, c3⟩ := total_run L op hop _ hwf2 cb
  refine ⟨?_, a2, c2, c3⟩
  omega

theorem tableView_wellFormed (center : Option (Coordinate ℚ)) (resolution : Option ℚ) :
    WellFormed (tableView center resolution) :=
  wellFormed_of_empty _ rfl rfl

/-- C3 on a pan with callback 1 started at time 0 on `tableView (1, 2) 2`,
followed by a tick at 500 and a `setRotation`: callback 1 is called once. -/
theorem callback_at_most_once_witness :
    WellFormed (tableView (some (1, 2)) (some 2)) ∧
    holders 1 (tableView (some (1, 2)) (some 2)).animations_ = 0 ∧
    invocations 1
        ((Op.setRotation 1).run evalImports (runOps evalImports [Op.tick 500]
          (animate evalImports 0
            ([AnimateArg.options (panOptions (10, 10) 1000)] ++ [AnimateArg.callback 1])
            (tableView (some (1, 2)) (some 2))).view).view).view.calls
      ≤ invocations 1 (tableView (some (1, 2)) (some 2)).calls + 1 :=
  ⟨tableView_wellFormed _ _, rfl,
   (callback_at_most_once evalImports 0 (tableView (some (1, 2)) (some 2))
      (tableView_wellFormed _ _) 1 rfl [AnimateArg.options (panOptions (10, 10) 1000)]
      (by simp) [Op.tick 500]
      (by intro op hop t args h; simp at hop; rw [hop] at h; cases h)
      (Op.setRotation 1) (by intro t args h; cases h)).1⟩

end Once

/-! ## Cancelling a zoom animation (C5) -/

section CancelZoom

set_option linter.unusedSectionVars false

variable {α : Type} [LinearOrderedField α] [FloorRing α]

/-- C5 fails as stated: `tableView (5, 5) 1` is at its last zoom level, 2
(`getResolutionForZoom 2` is its resolution 1), so `animate({zoom: 2 + 1}, cb)`
builds a no-op stage, retires the series at once and calls `cb` with `true`;
the following `setCenter([0, 0])` has nothing to cancel and `cb` is never
called with `false`. -/
theorem cancel_zoom_counterexample :
    isDef (tableView (some (5, 5)) (some 1)) = true ∧
    getResolutionForZoom (tableView (some (5, 5)) (some 1)) 2
      = getResolution (tableView (some (5, 5)) (some 1)) ∧
    (setCenter (some (0, 0))
      (animate evalImports 0 [AnimateArg.options (zoomOptions (2 + 1)), AnimateArg.callback 7]
        (tableView (some (5, 5)) (some 1))).view).view.calls = [(7, true)] := by
  refine ⟨rfl, ?_, ?_⟩
  · norm_num [getResolutionForZoom, constrainResolution, tableView, tableConstraints,
      createSnapToResolutions, linearFindNearest, findNearestFrom, getResolution]
  · norm_num [animate, isDef, getCenter, getResolution, getRotation, hasCallback, callbackOf,
      animationCount, AnimateArg.isFunction, AnimateArg.asCallback, AnimateArg.asOptions,
      zoomOptions, AnimationOptions.empty, buildSeries, makeAnimation, resolutionTarget,
      isNoopAnimation, setHint, Hints.add, updateAnimations_, getAnimating, Hints.get,
      updateLoop, updateSeries, invoke, setCenter, cancelIfAnimating, tableView,
      constrainResolution, tableConstraints, createSnapToResolutions, linearFindNearest,
      findNearestFrom]

/-- C5, amended: on a defined view with no active series, when the zoom
target resolves to a resolution other than the current one and the default
easing maps 0 to 0, `animate({zoom: zoom}, cb)` followed at once by
`setCenter([0, 0])` calls `cb` exactly once, with `false`, and leaves the
resolution as it was before the `animate` call. -/
theorem cancel_zoom_delivers_false (L : Imports α) (hease : L.inAndOut 0 = 0) (now : α)
    (v : View α) (hwf : WellFormed v) (hdef : isDef v = true) (hidle : v.animations_ = [])
    (zoom : α) (cb : Callback)
    (hchange : getResolutionForZoom v zoom ≠ getResolution v) :
    (animate L now [AnimateArg.options (zoomOptions zoom), AnimateArg.callback cb] v).error
      = none ∧
    (setCenter (some (0, 0))
      (animate L now [AnimateArg.options (zoomOptions zoom), AnimateArg.callback cb]
        v).view).error = none ∧
    (setCenter (some (0, 0))
      (animate L now [AnimateArg.options (zoomOptions zoom), AnimateArg.callback cb]
        v).view).view.calls = v.calls ++ [(cb, false)] ∧
    getResolution (setCenter (some (0, 0))
      (animate L now [AnimateArg.options (zoomOptions zoom), AnimateArg.callback cb]
        v).view).view = getResolution v := by
  have hh : v.hints_.animating = 0 := by rw [hwf.2.1, hidle]; rfl
  simp only [isDef, Bool.and_eq_true, Option.isSome_iff_exists] at hdef
  obtain ⟨⟨c, hc⟩, ⟨r, hr⟩⟩ := hdef
  simp only [getResolutionForZoom, getResolution, hr] at hchange
  generalize hT : constrainResolution v (some v.maxResolution_) (zoom - v.minZoom_) 0 = T
    at hchange
  have h1000 : ¬ ((1000 : α) ≤ 0) := by norm_num
  have h10 : ¬ ((1 : α) ≤ 0) := by norm_num
  have hne : ¬ (some r = T) := fun h => hchange h.symm
  cases T with
  | none =>
    simp [animate, isDef, getCenter, getResolution, getRotation, hasCallback, callbackOf,
      animationCount, AnimateArg.isFunction, AnimateArg.asCallback, AnimateArg.asOptions,
      zoomOptions, AnimationOptions.empty, buildSeries, makeAnimation, resolutionTarget,
      isNoopAnimation, setHint, Hints.add, updateAnimations_, getAnimating, Hints.get,
      updateLoop, updateSeries, invoke, setCenter, cancelIfAnimating, hc, hr, hT, hidle, hh,
      stageFraction, writeCenter, writeResolution, writeRotation, cancelAnimations,
      cancelLoop, h1000, h10]
  | some t =>
    have hrt : ¬ (r = t) := fun h => hne (by rw [h])
    by_cases h0 : r ≠ 0 ∧ t ≠ 0
    · simp [animate, isDef, getCenter, getResolution, getRotation, hasCallback, callbackOf,
        animationCount, AnimateArg.isFunction, AnimateArg.asCallback, AnimateArg.asOptions,
        zoomOptions, AnimationOptions.empty, buildSeries, makeAnimation, resolutionTarget,
        isNoopAnimation, setHint, Hints.add, updateAnimations_, getAnimating, Hints.get,
        updateLoop, updateSeries, invoke, setCenter, cancelIfAnimating, hc, hr, hT, hidle, hh,
        stageFraction, writeCenter, writeResolution, writeRotation, cancelAnimations,
        cancelLoop, h1000, h10, hrt, h0, hease]
    · simp [animate, isDef, getCenter, getResolution, getRotation, hasCallback, callbackOf,
        animationCount, AnimateArg.isFunction, AnimateArg.asCallback, AnimateArg.asOptions,
        zoomOptions, AnimationOptions.empty, buildSeries, makeAnimation, resolutionTarget,
        isNoopAnimation, setHint, Hints.add, updateAnimations_, getAnimating, Hints.get,
        updateLoop, updateSeries, invoke, setCenter, cancelIfAnimating, hc, hr, hT, hidle, hh,
        stageFraction, writeCenter, writeResolution, writeRotation, cancelAnimations,
        cancelLoop, h1000, h10, hrt, h0, hease]

/-- C5, amended, on `tableView (5, 5) 2` and a zoom to level 2. -/
theorem cancel_zoom_delivers_false_witness :
    evalImports.inAndOut 0 = 0 ∧
    getResolutionForZoom (tableView (some (5, 5)) (some 2)) 2
      ≠ getResolution (tableView (some (5, 5)) (some 2)) ∧
    (setCenter (some (0, 0))
      (animate evalImports 0 [AnimateArg.options (zoomOptions 2), AnimateArg.callback 7]
        (tableView (some (5, 5)) (some 2))).view).view.calls
      = (tableView (some (5, 5)) (some 2)).calls ++ [(7, false)] :=
  ⟨by norm_num [evalImports],
   by norm_num [getResolutionForZoom, constrainResolution, tableView, tableConstraints,
      createSnapToResolutions, linearFindNearest, findNearestFrom, getResolution],
   (cancel_zoom_delivers_false evalImports (by norm_num [evalImports]) 0
      (tableView (some (5, 5)) (some 2)) (tableView_wellFormed _ _) rfl rfl 2 7
      (by norm_num [getResolutionForZoom, constrainResolution, tableView, tableConstraints,
        createSnapToResolutions, linearFindNearest, findNearestFrom, getResolution])).2.2.1⟩

end CancelZoom

/-! ## Two series side by side (C6) -/

section TwoSeries

set_option linter.unusedSectionVars false

variable {α : Type} [LinearOrderedField α] [FloorRing α]

theorem remaining_append (now : α) (xs ys : List (Option (List (ViewAnimation α)))) :
    remaining now (xs ++ ys) = remaining now xs ++ remaining now ys := by
  simp [remaining, List.filter_append]

theorem retiredBy_append (now : α) (xs ys : List (Option (List (ViewAnimation α)))) :
    retiredBy now (xs ++ ys) = retiredBy now ys ++ retiredBy now xs := by
  simp [retiredBy, List.filter_append]

theorem buildSeries_start (L : Imports α) (v : View α) (callback : Option Callback)
    (o : AnimationOptions α) (rest : List (AnimationOptions α)) (start : α)
    (center : Coordinate α) (resolution : Option α) (rotation : α) :
    ∃ a tail, buildSeries L v callback (o :: rest) start center resolution rotation = a :: tail ∧
      a.start = start := by
  refine ⟨_, _, rfl, ?_⟩
  unfold makeAnimation
  cases o.center <;> cases resolutionTarget v o <;> cases o.rotation <;>
    simp only <;> split <;> rfl

/-- A series whose first stage is incomplete with a fraction below 1 is left
as it is by a pass, and not retired. -/
theorem pass_keeps (now : α) (a : ViewAnimation α) (tail : List (ViewAnimation α))
    (hc : a.complete = false) (hf : stageFraction now a < 1) :
    remaining now [some (a :: tail)] = [some (a :: tail)] ∧
    retiredBy now [some (a :: tail)] = [] := by
  have hadv : advanceSeries now (a :: tail) = a :: tail := by
    simp [advanceSeries, hc, not_le.mpr hf]
  have hd : seriesDone (a :: tail) = false := by simp [seriesDone, hc]
  constructor
  · simp [remaining, tickEntry, hadv, hd]
  · simp [retiredBy, retires, hadv, hd]

theorem startsMoving_spec (L : Imports α) (now : α) (args : List (AnimateArg α))
    (v : View α) (hdef : isDef v = true) (h : startsMoving L now args v = true) :
    ∃ a tail, seriesFor L now args v = a :: tail ∧ a.complete = false ∧
      stageFraction now a < 1 ∧ seriesOK (some (a :: tail)) = true ∧
      a.callback = callbackOf args := by
  unfold startsMoving at h
  cases hs : seriesFor L now args v with
  | nil => rw [hs] at h; exact absurd h (by simp)
  | cons a tail =>
    rw [hs] at h
    simp only [Bool.and_eq_true, Bool.not_eq_true', decide_eq_true_eq] at h
    obtain ⟨hc, hd⟩ := h
    simp only [isDef, Bool.and_eq_true, Option.isSome_iff_exists] at hdef
    obtain ⟨⟨c, hcen⟩, _⟩ := hdef
    simp only [seriesFor, getCenter, hcen] at hs
    cases hst : (args.take (animationCount args)).map AnimateArg.asOptions with
    | nil => rw [hst] at hs; simp [buildSeries] at hs
    | cons o rest =>
      rw [hst] at hs
      obtain ⟨a', tail', hb, hstart⟩ := buildSeries_start L v (callbackOf args) o rest now c
        (getResolution v) (getRotation v)
      have hok := seriesOK_buildSeries L v (callbackOf args) (o :: rest) (by simp) now c
        (getResolution v) (getRotation v)
      have hcb := entryCallback_buildSeries L v (callbackOf args) (o :: rest) (by simp) now c
        (getResolution v) (getRotation v)
      rw [hs] at hb hok hcb
      obtain ⟨ha, _⟩ := List.cons.inj hb
      refine ⟨a, tail, rfl, hc, ?_, hok, hcb⟩
      have hs0 : a.start = now := by rw [ha]; exact hstart
      simp only [stageFraction, hd, if_true, hs0, sub_self, zero_div]
      exact zero_lt_one

/-- A call of `animate` whose first stage changes the view and has a positive
duration, on a defined view: the driver pass it ends with retires what was
due among the older series and keeps the new series, last in the list. -/
theorem animate_appends (L : Imports α) (now : α) (args : List (AnimateArg α))
    (v : View α) (hwf : WellFormed v) (hdef : isDef v = true)
    (h : startsMoving L now args v = true) :
    (animate L now args v).error = none ∧
    (animate L now args v).view.animations_
      = remaining now v.animations_ ++ [some (seriesFor L now args v)] ∧
    (animate L now args v).view.hints_.animating
      = v.hints_.animating + 1 - ((retiredBy now v.animations_).length : Int) ∧
    (animate L now args v).view.hints_.interacting = v.hints_.interacting ∧
    (animate L now args v).view.calls
      = v.calls ++ callbackCalls true (retiredBy now v.animations_) ∧
    isDef (animate L now args v).view = true := by
  obtain ⟨a, tail, hs, hc, hf, hok, _⟩ := startsMoving_spec L now args v hdef h
  obtain ⟨hk1, hk2⟩ := pass_keeps now a tail hc hf
  have hsf : seriesFor L now args v = a :: tail := hs
  simp only [isDef, Bool.and_eq_true, Option.isSome_iff_exists] at hdef
  obtain ⟨⟨c, hcen⟩, ⟨r, hres⟩⟩ := hdef
  have hdef' : isDef v = true := by simp [isDef, hcen, hres]
  simp only [seriesFor, getCenter, hcen] at hs
  have hwf2 : WellFormed (pushSeries v (a :: tail)) :=
    wellFormed_push v hwf hdef' (a :: tail) hok
  have hanim : getAnimating (pushSeries v (a :: tail)) = true :=
    wellFormed_animating _ hwf2 (by simp [pushSeries, setHint])
  obtain ⟨c1, r1, ρ1, heq, hd1⟩ := updateAnimations_spec L now _ hanim hwf2.1
  have hanimate : animate L now args v
      = { view := afterTick now (pushSeries v (a :: tail)) c1 r1 ρ1, error := none } := by
    rw [← heq]
    simp only [animate, hdef', Bool.not_true, Bool.false_eq_true, if_false, getCenter, hcen, hs,
      pushSeries]
  rw [hanimate, hsf]
  obtain ⟨hc1, hr1⟩ := hd1 hdef'
  refine ⟨rfl, ?_, ?_, ?_, ?_, ?_⟩
  · simp only [afterTick, pushSeries, setHint, remaining_append, hk1]
  · simp only [afterTick, afterPass, pushSeries, setHint, Hints.add, retiredBy_append, hk2,
      List.nil_append]
    ring
  · simp only [afterTick, afterPass, pushSeries, setHint, Hints.add]
  · simp only [afterTick, afterPass, pushSeries, setHint, retiredBy_append, hk2,
      List.nil_append]
  · simp [isDef, afterTick, afterPass, hc1, hr1]

/-- C6, amended: on a defined view with no active series, two `animate`
calls at the same time, each with a first stage that changes the view and has
a positive duration, leave their two series in `animations_` and raise the
ANIMATING hint by 1 each; a following `setRotation` empties the list and calls
each of the two callbacks once with `false`. -/
theorem two_series_then_cancel (L : Imports α) (now : α) (v : View α) (hwf : WellFormed v)
    (hdef : isDef v = true) (hidle : v.animations_ = [])
    (stages1 stages2 : List (AnimateArg α)) (hst1 : stages1 ≠ []) (hst2 : stages2 ≠ [])
    (cb1 cb2 : Callback)
    (h1 : startsMoving L now (stages1 ++ [AnimateArg.callback cb1]) v = true)
    (h2 : startsMoving L now (stages2 ++ [AnimateArg.callback cb2])
      (animate L now (stages1 ++ [AnimateArg.callback cb1]) v).view = true)
    (rotation : α) :
    (animate L now (stages1 ++ [AnimateArg.callback cb1]) v).view.animations_
      = [some (seriesFor L now (stages1 ++ [AnimateArg.callback cb1]) v)] ∧
    (animate L now (stages1 ++ [AnimateArg.callback cb1]) v).view.hints_.get ViewHint.ANIMATING
      = v.hints_.get ViewHint.ANIMATING + 1 ∧
    (animate L now (stages2 ++ [AnimateArg.callback cb2])
        (animate L now (stages1 ++ [AnimateArg.callback cb1]) v).view).view.animations_
      = [some (seriesFor L now (stages1 ++ [AnimateArg.callback cb1]) v),
         some (seriesFor L now (stages2 ++ [AnimateArg.callback cb2])
           (animate L now (stages1 ++ [AnimateArg.callback cb1]) v).view)] ∧
    (animate L now (stages2 ++ [AnimateArg.callback cb2])
        (animate L now (stages1 ++ [AnimateArg.callback cb1]) v).view).view.hints_.get
          ViewHint.ANIMATING
      = v.hints_.get ViewHint.ANIMATING + 2 ∧
    (setRotation rotation (animate L now (stages2 ++ [AnimateArg.callback cb2])
        (animate L now (stages1 ++ [AnimateArg.callback cb1]) v).view).view).error = none ∧
    (setRotation rotation (animate L now (stages2 ++ [AnimateArg.callback cb2])
        (animate L now (stages1 ++ [AnimateArg.callback cb1]) v).view).view).view.animations_
      = [] ∧
    (setRotation rotation (animate L now (stages2 ++ [AnimateArg.callback cb2])
        (animate L now (stages1 ++ [AnimateArg.callback cb1]) v).view).view).view.calls
      = v.calls ++ [(cb1, false), (cb2, false)] := by
  obtain ⟨a1, t1, hs1, hc1, hf1, hok1, hcb1⟩ := startsMoving_spec L now _ v hdef h1
  obtain ⟨_, e2, e3, _, e5, e6⟩ := animate_appends L now _ v hwf hdef h1
  obtain ⟨_, hwf1⟩ := wellFormed_animate L now (stages1 ++ [AnimateArg.callback cb1])
    (by simp) v hwf
  generalize animate L now (stages1 ++ [AnimateArg.callback cb1]) v = o1 at *
  obtain ⟨a2, t2, hs2, hc2, hf2, hok2, hcb2⟩ := startsMoving_spec L now _ o1.view e6 h2
  obtain ⟨_, f2, f3, _, f5, f6⟩ := animate_appends L now _ o1.view hwf1 e6 h2
  obtain ⟨_, hwf2⟩ := wellFormed_animate L now (stages2 ++ [AnimateArg.callback cb2])
    (by simp) o1.view hwf1
  generalize animate L now (stages2 ++ [AnimateArg.callback cb2]) o1.view = o2 at *
  obtain ⟨hk1, hk2⟩ := pass_keeps now a1 t1 hc1 hf1
  rw [hidle] at e2 e3 e5
  simp only [remaining, retiredBy, List.map_nil, List.filter_nil, List.nil_append,
    List.reverse_nil, List.length_nil, callbackCalls, List.filterMap_nil, List.append_nil,
    Int.ofNat_zero, Nat.cast_zero, sub_zero] at e2 e3 e5
  rw [hs1] at e2
  simp only [e2, hk1, hk2, List.length_nil, callbackCalls, List.filterMap_nil,
    List.append_nil, Nat.cast_zero, sub_zero, List.singleton_append] at f2 f3 f5
  have hne : o2.view.animations_ ≠ [] := by rw [f2]; simp
  obtain ⟨g1, _, g3, _, g5⟩ := (setters_cancel_animations_aux o2.view hwf2 hne rotation)
  refine ⟨by rw [e2, hs1], e3, by rw [f2, hs1], ?_, g1, g3, ?_⟩
  · simp only [Hints.get] at e3 ⊢
    rw [f3, e3]; ring
  · rw [g5, f5, e5, f2, hs2]
    simp [callbackCalls, entryCallback, hcb1, hcb2, callbackOf_snoc _ hst1, callbackOf_snoc _ hst2]

/-- C6 fails as stated: `dueView` is defined and has one series that is due
at time 1000.  Two `animate` calls at time 1000, each with a stage that
changes the view for 1000 ms, retire that series in the first call, so the
ANIMATING hint has risen by 1 after the two calls, not by 2. -/
theorem two_series_counterexample :
    isDef dueView = true ∧ WellFormed dueView ∧
    startsMoving evalImports 1000
      ([AnimateArg.options (panOptions (20, 0) 1000)] ++ [AnimateArg.callback 2]) dueView
        = true ∧
    startsMoving evalImports 1000
      ([AnimateArg.options (panOptions (30, 0) 1000)] ++ [AnimateArg.callback 3])
      (animate evalImports 1000
        ([AnimateArg.options (panOptions (20, 0) 1000)] ++ [AnimateArg.callback 2])
        dueView).view = true ∧
    (animate evalImports 1000
      ([AnimateArg.options (panOptions (30, 0) 1000)] ++ [AnimateArg.callback 3])
      (animate evalImports 1000
        ([AnimateArg.options (panOptions (20, 0) 1000)] ++ [AnimateArg.callback 2])
        dueView).view).view.hints_.get ViewHint.ANIMATING
      = dueView.hints_.get ViewHint.ANIMATING + 1 := by
  refine ⟨rfl, ?_, ?_, ?_, ?_⟩
  · simp [WellFormed, dueView, tableView, seriesOK, stageOK, panStage, isDef]
  · norm_num [startsMoving, seriesFor, animate, isDef, getCenter, getResolution, getRotation,
      hasCallback, callbackOf, animationCount, AnimateArg.isFunction, AnimateArg.asCallback,
      AnimateArg.asOptions, panOptions, AnimationOptions.empty, buildSeries, makeAnimation,
      resolutionTarget, isNoopAnimation, tableView, dueView, panStage, truthy]
  · norm_num [startsMoving, seriesFor, animate, isDef, getCenter, getResolution, getRotation,
      hasCallback, callbackOf, animationCount, AnimateArg.isFunction, AnimateArg.asCallback,
      AnimateArg.asOptions, panOptions, AnimationOptions.empty, buildSeries, makeAnimation,
      resolutionTarget, isNoopAnimation, setHint, Hints.add, updateAnimations_, getAnimating,
      Hints.get, updateLoop, updateSeries, invoke, tableView, dueView, panStage, truthy,
      stageFraction, writeCenter, writeResolution, writeRotation]
  · norm_num [animate, isDef, getCenter, getResolution, getRotation,
      hasCallback, callbackOf, animationCount, AnimateArg.isFunction, AnimateArg.asCallback,
      AnimateArg.asOptions, panOptions, AnimationOptions.empty, buildSeries, makeAnimation,
      resolutionTarget, isNoopAnimation, setHint, Hints.add, updateAnimations_, getAnimating,
      Hints.get, updateLoop, updateSeries, invoke, tableView, dueView, panStage, truthy,
      stageFraction, writeCenter, writeResolution, writeRotation]

/-- C6, amended, on `tableView (1, 2) 2` with two pans started at time 0. -/
theorem two_series_then_cancel_witness :
    (setRotation 1 (animate evalImports 0
        ([AnimateArg.options (panOptions (30, 0) 1000)] ++ [AnimateArg.callback 3])
        (animate evalImports 0
          ([AnimateArg.options (panOptions (20, 0) 1000)] ++ [AnimateArg.callback 2])
          (tableView (some (1, 2)) (some 2))).view).view).view.calls
      = (tableView (some (1, 2)) (some 2)).calls ++ [(2, false), (3, false)] :=
  (two_series_then_cancel evalImports 0 (tableView (some (1, 2)) (some 2))
    (tableView_wellFormed _ _) rfl rfl
    [AnimateArg.options (panOptions (20, 0) 1000)]
    [AnimateArg.options (panOptions (30, 0) 1000)] (by simp) (by simp) 2 3
    (by norm_num [startsMoving, seriesFor, animate, isDef, getCenter, getResolution,
      getRotation, hasCallback, callbackOf, animationCount, AnimateArg.isFunction,
      AnimateArg.asCallback, AnimateArg.asOptions, panOptions, AnimationOptions.empty,
      buildSeries, makeAnimation, resolutionTarget, isNoopAnimation, tableView, truthy])
    (by norm_num [startsMoving, seriesFor, animate, isDef, getCenter, getResolution,
      getRotation, hasCallback, callbackOf, animationCount, AnimateArg.isFunction,
      AnimateArg.asCallback, AnimateArg.asOptions, panOptions, AnimationOptions.empty,
      buildSeries, makeAnimation, resolutionTarget, isNoopAnimation, setHint, Hints.add,
      updateAnimations_, getAnimating, Hints.get, updateLoop, updateSeries, invoke, tableView,
      truthy, stageFraction, writeCenter, writeResolution, writeRotation, evalImports])
    1).2.2.2.2.2.2

end TwoSeries

/-! ## `animate` without arguments (C7) -/

section NoArguments

set_option linter.unusedSectionVars false

variable {α : Type} [LinearOrderedField α] [FloorRing α]

theorem updateLoop_error_cons (L : Imports α) (now : α)
    (x : Option (List (ViewAnimation α))) (rest : List (Option (List (ViewAnimation α))))
    (w : View α) (more : Bool) (e : JsError)
    (h : (updateLoop L now rest w more).error = some e) :
    (updateLoop L now (x :: rest) w more).error = some e ∧
    (updateLoop L now (x :: rest) w more).entries
      = x :: (updateLoop L now rest w more).entries ∧
    (updateLoop L now (x :: rest) w more).view = (updateLoop L now rest w more).view := by
  simp only [updateLoop, h]
  exact ⟨trivial, trivial, trivial⟩

theorem updateLoop_empty_series (L : Imports α) (now : α)
    (xs : List (Option (List (ViewAnimation α)))) (w : View α) (more : Bool) :
    (updateLoop L now (xs ++ [some []]) w more).error = some JsError.TypeError ∧
    (updateLoop L now (xs ++ [some []]) w more).entries = xs ++ [none] ∧
    (updateLoop L now (xs ++ [some []]) w more).view = setHint w ViewHint.ANIMATING (-1) := by
  induction xs with
  | nil => simp [updateLoop, updateSeries]
  | cons x rest ih =>
    obtain ⟨h1, h2, h3⟩ := ih
    obtain ⟨g1, g2, g3⟩ := updateLoop_error_cons L now x (rest ++ [some []]) w more _ h1
    rw [List.cons_append]
    exact ⟨g1, by rw [g2, h2]; rfl, by rw [g3, h3]⟩

theorem tick_empty_series (L : Imports α) (now : α) (w : View α)
    (xs : List (Option (List (ViewAnimation α)))) (hw : w.animations_ = xs ++ [some []])
    (ha : getAnimating w = true) :
    (updateAnimations_ L now w).error = some JsError.TypeError ∧
    (updateAnimations_ L now w).view.hints_ = w.hints_.add ViewHint.ANIMATING (-1) ∧
    (updateAnimations_ L now w).view.animations_ = xs ++ [none] := by
  have ha' : getAnimating ({ w with updateAnimationKey_ := none } : View α) = true := ha
  have h := updateLoop_empty_series L now xs
    ({ w with updateAnimationKey_ := none } : View α) false
  rw [← hw] at h
  obtain ⟨h1, h2, h3⟩ := h
  simp only [updateAnimations_, ha', Bool.not_true, Bool.false_eq_true, if_false, h1, h2, h3]
  exact ⟨trivial, rfl, trivial⟩

/-- C7 fails as stated: on the defined view `tableView (1, 2) 2`, `animate()`
raises, but leaves a `null` entry in `animations_`, which had none; and
`animate(cb)`, with a callback and no stage, takes the callback for a stage
and does not raise. -/
theorem animate_no_stage_counterexample :
    (animate evalImports 0 [] (tableView (some (1, 2)) (some 2))).error
      = some JsError.TypeError ∧
    (tableView (some (1, 2)) (some 2)).animations_ = [] ∧
    (animate evalImports 0 [] (tableView (some (1, 2)) (some 2))).view.animations_ = [none] ∧
    (animate evalImports 0 [AnimateArg.callback 7]
      (tableView (some (1, 2)) (some 2))).error = none := by
  refine ⟨?_, rfl, ?_, ?_⟩
  · simp [animate, isDef, getCenter, tableView, animationCount, hasCallback, buildSeries,
      updateAnimations_, getAnimating, setHint, Hints.add, Hints.get, updateLoop, updateSeries]
  · simp [animate, isDef, getCenter, tableView, animationCount, hasCallback, buildSeries,
      updateAnimations_, getAnimating, setHint, Hints.add, Hints.get, updateLoop, updateSeries]
  · exact (wellFormed_animate evalImports 0 [AnimateArg.callback 7] (by simp) _
      (tableView_wellFormed _ _)).1

/-- C7, amended: `animate` called with no argument at all raises (a
`TypeError`) on every view whose ANIMATING hint is not negative, defined or
not, and leaves both hints as they were; on a view that is not defined it
leaves the whole view, the list of active series included, as it was. -/
theorem animate_no_arguments (L : Imports α) (now : α) (v : View α)
    (hhint : 0 ≤ v.hints_.get ViewHint.ANIMATING) :
    (animate L now [] v).error = some JsError.TypeError ∧
    (animate L now [] v).view.hints_ = v.hints_ ∧
    (isDef v = false → (animate L now [] v).view = v) := by
  by_cases hdef : isDef v = true
  · have hcen : ∃ c, getCenter v = some c := by
      simp only [isDef, Bool.and_eq_true, Option.isSome_iff_exists] at hdef
      exact hdef.1
    obtain ⟨c, hc⟩ := hcen
    have hanim : getAnimating (pushSeries v []) = true := by
      simp only [getAnimating, pushSeries, setHint, Hints.add, Hints.get,
        decide_eq_true_eq] at hhint ⊢
      omega
    obtain ⟨h1, h2, _⟩ := tick_empty_series L now (pushSeries v []) v.animations_ rfl hanim
    have hanimate : animate L now [] v = updateAnimations_ L now (pushSeries v []) := by
      simp [animate, hdef, hc, animationCount, hasCallback, buildSeries, pushSeries]
    rw [hanimate]
    refine ⟨h1, ?_, fun h => absurd hdef (by simp [h])⟩
    rw [h2]
    cases hh : v.hints_ with
    | mk a i => simp [pushSeries, setHint, Hints.add, hh]
  · have hdef' : isDef v = false := by simpa using hdef
    simp [animate, hdef', animateUndefined, animationCount, hasCallback]

/-- C7, amended, on `tableView (1, 2) 2`. -/
theorem animate_no_arguments_witness :
    (animate evalImports 0 [] (tableView (some (1, 2)) (some 2))).error
      = some JsError.TypeError ∧
    (animate evalImports 0 [] (tableView (some (1, 2)) (some 2))).view.hints_
      = (tableView (some (1, 2)) (some 2)).hints_ :=
  ⟨(animate_no_arguments evalImports 0 (tableView (some (1, 2)) (some 2))
      (by simp [tableView, Hints.get])).1,
   (animate_no_arguments evalImports 0 (tableView (some (1, 2)) (some 2))
      (by simp [tableView, Hints.get])).2.1⟩

end NoArguments

/-! ## `animate` on a view that is not defined (C8, C9) -/

section Undefined

set_option linter.unusedSectionVars false

variable {α : Type} [LinearOrderedField α] [FloorRing α]

theorem get?_middle (earlier : List (AnimateArg α)) (x : AnimateArg α)
    (tail : List (AnimateArg α)) : (earlier ++ x :: tail).get? earlier.length = some x := by
  induction earlier with
  | nil => rfl
  | cons e rest ih => simpa using ih

theorem last_stage_args (earlier : List (AnimateArg α)) (last : AnimationOptions α)
    (callback : Option Callback) :
    animationCount (earlier ++ [AnimateArg.options last] ++ callbackArgs callback)
      = earlier.length + 1 ∧
    callbackOf (earlier ++ [AnimateArg.options last] ++ callbackArgs callback) = callback ∧
    (earlier ++ [AnimateArg.options last] ++ callbackArgs callback).get? earlier.length
      = some (AnimateArg.options last) := by
  cases callback with
  | none =>
    have hargs : earlier ++ [AnimateArg.options last] ++ callbackArgs none
        = earlier ++ [AnimateArg.options last] := by simp [callbackArgs]
    rw [hargs]
    have hcb : hasCallback (earlier ++ [AnimateArg.options last]) = false := by
      simp [hasCallback, AnimateArg.isFunction]
    refine ⟨?_, ?_, get?_middle earlier _ []⟩
    · simp [animationCount, hcb]
    · simp [callbackOf, hcb]
  | some cb =>
    have hcb := hasCallback_snoc (earlier ++ [AnimateArg.options last]) (by simp) cb
    refine ⟨?_, ?_, ?_⟩
    · simp only [callbackArgs, animationCount, hcb, if_true, List.length_append,
        List.length_singleton]
      omega
    · exact callbackOf_snoc (earlier ++ [AnimateArg.options last]) (by simp) cb
    · have hargs : earlier ++ [AnimateArg.options last] ++ callbackArgs (some cb)
          = earlier ++ AnimateArg.options last :: [AnimateArg.callback cb] := by
        simp [callbackArgs]
      rw [hargs]
      exact get?_middle earlier _ _

/-- C8: on a view that is not defined, `animate` with at least one stage adds
no series and leaves the hints as they were; it stores the center of the last
stage, the resolution `getResolutionForZoom` gives for its zoom, and its
rotation, each when given, whatever the earlier stages are; and it calls the
callback, when given, once with `true`. -/
theorem animate_undefined_shortcut (L : Imports α) (now : α) (v : View α)
    (hwf : WellFormed v) (hdef : isDef v = false) (earlier : List (AnimateArg α))
    (last : AnimationOptions α) (callback : Option Callback) :
    (animate L now (earlier ++ [AnimateArg.options last] ++ callbackArgs callback) v).error
      = none ∧
    (animate L now (earlier ++ [AnimateArg.options last] ++ callbackArgs callback)
      v).view.animations_ = v.animations_ ∧
    (animate L now (earlier ++ [AnimateArg.options last] ++ callbackArgs callback)
      v).view.hints_ = v.hints_ ∧
    getCenter (animate L now (earlier ++ [AnimateArg.options last] ++ callbackArgs callback)
      v).view = (match last.center with
        | some c => some c
        | none => getCenter v) ∧
    getResolution (animate L now (earlier ++ [AnimateArg.options last] ++ callbackArgs callback)
      v).view = (match last.zoom with
        | some zoom => getResolutionForZoom v zoom
        | none => getResolution v) ∧
    getRotation (animate L now (earlier ++ [AnimateArg.options last] ++ callbackArgs callback)
      v).view = (match last.rotation with
        | some rotation => rotation
        | none => getRotation v) ∧
    (animate L now (earlier ++ [AnimateArg.options last] ++ callbackArgs callback)
      v).view.calls = v.calls ++ (match callback with
        | some cb => [(cb, true)]
        | none => []) := by
  obtain ⟨_, hidle⟩ := wellFormed_undefined v hwf hdef
  obtain ⟨hcount, hcb, hget⟩ := last_stage_args earlier last callback
  have hcount0 : animationCount (earlier ++ [AnimateArg.options last] ++ callbackArgs callback)
      ≠ 0 := by omega
  have hget' : (earlier ++ [AnimateArg.options last] ++ callbackArgs callback).get?
      (animationCount (earlier ++ [AnimateArg.options last] ++ callbackArgs callback) - 1)
      = some (AnimateArg.options last) := by
    rw [hcount]; exact hget
  have hanimate : animate L now
      (earlier ++ [AnimateArg.options last] ++ callbackArgs callback) v
      = animateUndefined (earlier ++ [AnimateArg.options last] ++ callbackArgs callback) v := by
    simp [animate, hdef]
  rw [hanimate, animateUndefined_idle _ v hidle _ hcount0 hget', hcb]
  cases callback <;>
    simp [Outcome.ok, invoke, AnimateArg.asOptions, getCenter, getResolution, getRotation]

/-- C8 on the view `tableView` with neither center nor resolution: an earlier
pan stage has no effect, the last stage sets center and rotation, callback 5
is called with `true`. -/
theorem animate_undefined_shortcut_witness :
    WellFormed (tableView none none) ∧ isDef (tableView none none) = false ∧
    getCenter (animate evalImports 0
      ([AnimateArg.options (panOptions (7, 7) 10)] ++ [AnimateArg.options placeOptions]
        ++ callbackArgs (some 5)) (tableView none none)).view
      = (match placeOptions.center with
        | some c => some c
        | none => getCenter (tableView none none)) ∧
    (animate evalImports 0
      ([AnimateArg.options (panOptions (7, 7) 10)] ++ [AnimateArg.options placeOptions]
        ++ callbackArgs (some 5)) (tableView none none)).view.calls
      = (tableView none none).calls ++ [(5, true)] :=
  ⟨tableView_wellFormed _ _, rfl,
   (animate_undefined_shortcut evalImports 0 (tableView none none) (tableView_wellFormed _ _)
      rfl [AnimateArg.options (panOptions (7, 7) 10)] placeOptions (some 5)).2.2.2.1,
   (animate_undefined_shortcut evalImports 0 (tableView none none) (tableView_wellFormed _ _)
      rfl [AnimateArg.options (panOptions (7, 7) 10)] placeOptions (some 5)).2.2.2.2.2.2⟩

/-- C9, the code at the failing input: on the view with neither center nor
resolution, `animate({center: [1, 2], resolution: 5})` sets the center and
leaves the resolution undefined, although the loop of `animate` for a defined
view takes the same `resolution` as the target of the stage. -/
theorem animate_undefined_drops_resolution :
    isDef (tableView none none) = false ∧
    getCenter (animate evalImports 0 [AnimateArg.options fitOptions]
      (tableView none none)).view = some (1, 2) ∧
    getResolution (animate evalImports 0 [AnimateArg.options fitOptions]
      (tableView none none)).view = none ∧
    resolutionTarget (tableView none none) fitOptions = some (some 5) := by
  refine ⟨rfl, ?_, ?_, ?_⟩
  · simp [animate, isDef, tableView, animateUndefined, animationCount, hasCallback,
      AnimateArg.asOptions, AnimationOptions.empty, setCenter, cancelIfAnimating, getAnimating,
      Hints.get, Outcome.andThen, Outcome.ok, invoke, callbackOf, getCenter, fitOptions,
      AnimateArg.isFunction]
  · simp [animate, isDef, tableView, animateUndefined, animationCount, hasCallback,
      AnimateArg.asOptions, AnimationOptions.empty, setCenter, cancelIfAnimating, getAnimating,
      Hints.get, Outcome.andThen, Outcome.ok, invoke, callbackOf, getResolution, fitOptions,
      AnimateArg.isFunction]
  · simp [resolutionTarget, AnimationOptions.empty, truthy, fitOptions]

end Undefined

/-! ## The rotation target (C10, C11) -/

section Rotation

set_option linter.unusedSectionVars false

variable {α : Type} [LinearOrderedField α] [FloorRing α]

/-- For a positive `b`, `modulo a b` lies in `[0, b)` and differs from `a`
by a multiple of `b`. -/
theorem modulo_spec (a b : α) (hb : 0 < b) :
    0 ≤ modulo a b ∧ modulo a b < b ∧ ∃ k : Int, modulo a b = a - (k : α) * b := by
  unfold modulo jsRem
  by_cases hq : 0 ≤ a / b
  · have h1 : ((⌊a / b⌋ : Int) : α) ≤ a / b := Int.floor_le _
    have h2 : a / b < ((⌊a / b⌋ : Int) : α) + 1 := Int.lt_floor_add_one _
    have h1' : ((⌊a / b⌋ : Int) : α) * b ≤ a := (le_div_iff₀ hb).mp h1
    have h2' : a < (((⌊a / b⌋ : Int) : α) + 1) * b := (div_lt_iff₀ hb).mp h2
    have hr0 : 0 ≤ a - b * ((⌊a / b⌋ : Int) : α) := by nlinarith
    have hrb : a - b * ((⌊a / b⌋ : Int) : α) < b := by nlinarith
    have hnot : ¬ ((a - b * ((⌊a / b⌋ : Int) : α)) * b < 0) :=
      not_lt.mpr (mul_nonneg hr0 hb.le)
    simp only [hq, if_true, hnot, if_false]
    exact ⟨hr0, hrb, ⌊a / b⌋, by ring⟩
  · have h1 : a / b ≤ ((⌈a / b⌉ : Int) : α) := Int.le_ceil _
    have h2 : ((⌈a / b⌉ : Int) : α) < a / b + 1 := Int.ceil_lt_add_one _
    have h1' : a ≤ ((⌈a / b⌉ : Int) : α) * b := (div_le_iff₀ hb).mp h1
    have h2' : ((⌈a / b⌉ : Int) : α) - 1 < a / b := by linarith
    have h2'' : (((⌈a / b⌉ : Int) : α) - 1) * b < a := (lt_div_iff₀ hb).mp h2'
    have hr0 : a - b * ((⌈a / b⌉ : Int) : α) ≤ 0 := by nlinarith
    have hrb : -b < a - b * ((⌈a / b⌉ : Int) : α) := by nlinarith
    simp only [hq, if_false]
    by_cases hneg : (a - b * ((⌈a / b⌉ : Int) : α)) * b < 0
    · simp only [hneg, if_true]
      have hlt : a - b * ((⌈a / b⌉ : Int) : α) < 0 := by
        by_contra hge
        exact absurd hneg (not_lt.mpr (mul_nonneg (not_lt.mp hge) hb.le))
      refine ⟨by linarith, by linarith, ⌈a / b⌉ - 1, ?_⟩
      push_cast
      ring
    · simp only [hneg, if_false]
      have hge : 0 ≤ a - b * ((⌈a / b⌉ : Int) : α) := by
        by_contra hlt
        exact hneg (mul_neg_of_neg_of_pos (not_le.mp hlt) hb)
      exact ⟨hge, by linarith, ⌈a / b⌉, by ring⟩

/-- The value of `modulo` on a number written as a remainder in `[0, b)` plus
a multiple of `b`. -/
theorem modulo_add_mul (x b : α) (hb : 0 < b) (h0 : 0 ≤ x) (h1 : x < b) (j : Int) :
    modulo (x + (j : α) * b) b = x := by
  obtain ⟨m0, m1, k, hk⟩ := modulo_spec (x + (j : α) * b) b hb
  have hm : modulo (x + (j : α) * b) b = x + ((j - k : Int) : α) * b := by
    rw [hk]; push_cast; ring
  rw [hm] at m0 m1 ⊢
  have hlt : ((j - k : Int) : α) < 1 := by
    by_contra hge
    have : (1 : α) ≤ ((j - k : Int) : α) := not_lt.mp hge
    nlinarith
  have hgt : (-1 : α) < ((j - k : Int) : α) := by
    by_contra hle
    have : ((j - k : Int) : α) ≤ -1 := not_lt.mp hle
    nlinarith
  have hlt' : j - k < 1 := by exact_mod_cast hlt
  have hgt' : -1 < j - k := by exact_mod_cast hgt
  have hz : j - k = 0 := by omega
  rw [hz]
  simp

/-- The target rotation is the request up to whole turns, and at most half a
turn away from the current rotation: the signed path lies in `[-π, π)`. -/
theorem rotationTarget_spec (L : Imports α) (hpi : 0 < L.PI) (rotation requested : α) :
    (∃ k : Int, rotationTarget L rotation requested = requested + (k : α) * (2 * L.PI)) ∧
    -L.PI ≤ rotationTarget L rotation requested - rotation ∧
    rotationTarget L rotation requested - rotation < L.PI := by
  have h2pi : 0 < 2 * L.PI := by linarith
  obtain ⟨m0, m1, k, hk⟩ := modulo_spec (requested - rotation + L.PI) (2 * L.PI) h2pi
  unfold rotationTarget
  refine ⟨⟨-k, ?_⟩, by linarith, by linarith⟩
  rw [hk]; push_cast; ring

theorem seriesFor_rotation (L : Imports α) (now : α) (v : View α) (hdef : isDef v = true)
    (requested : α) :
    ∃ a, seriesFor L now [AnimateArg.options (rotationOptions requested)] v = [a] ∧
      a.sourceRotation = some (getRotation v) ∧
      a.targetRotation = some (rotationTarget L (getRotation v) requested) ∧
      (rotationTarget L (getRotation v) requested = getRotation v → a.complete = true) := by
  simp only [isDef, Bool.and_eq_true, Option.isSome_iff_exists] at hdef
  obtain ⟨⟨c, hc⟩, _⟩ := hdef
  refine ⟨makeAnimation L v none (rotationOptions requested) now c (getResolution v)
    (getRotation v), ?_, ?_, ?_, ?_⟩
  · simp [seriesFor, getCenter, hc, animationCount, hasCallback, callbackOf, buildSeries,
      AnimateArg.asOptions, AnimateArg.isFunction]
  · simp only [makeAnimation, rotationOptions, AnimationOptions.empty, resolutionTarget, truthy,
      Bool.false_eq_true, if_false]
    split <;> rfl
  · simp only [makeAnimation, rotationOptions, AnimationOptions.empty, resolutionTarget, truthy,
      Bool.false_eq_true, if_false]
    split <;> rfl
  · intro h
    simp [makeAnimation, rotationOptions, AnimationOptions.empty, resolutionTarget, truthy,
      isNoopAnimation, h]

theorem rotationTarget_turns (L : Imports α) (hpi : 0 < L.PI) (rotation : α) (k : Int) :
    rotationTarget L rotation (rotation + 2 * L.PI * (k : α)) = rotation := by
  have h2pi : 0 < 2 * L.PI := by linarith
  have h := modulo_add_mul L.PI (2 * L.PI) h2pi hpi.le (by linarith) k
  unfold rotationTarget
  have harg : rotation + 2 * L.PI * (k : α) - rotation + L.PI
      = L.PI + (k : α) * (2 * L.PI) := by ring
  rw [harg, h]
  ring

theorem rotationTarget_half_turn (L : Imports α) (hpi : 0 < L.PI) (rotation : α) :
    rotationTarget L rotation (rotation + L.PI) - rotation = -L.PI := by
  have h2pi : 0 < 2 * L.PI := by linarith
  have h := modulo_add_mul 0 (2 * L.PI) h2pi (le_refl 0) h2pi 1
  unfold rotationTarget
  have harg : rotation + L.PI - rotation + L.PI = 0 + ((1 : Int) : α) * (2 * L.PI) := by
    push_cast; ring
  rw [harg, h]
  ring

/-- C10: on a defined view with rotation ρ, the stage `animate({rotation: θ})`
builds has source ρ and a target that is θ up to whole turns and at most half
a turn from ρ; from 0 to 3π/2 the target is -π/2; and a request of ρ + 2πk
gives target ρ and a stage marked complete as a no-op.  `π` is any positive
`Math.PI`. -/
theorem rotation_shortest_path (L : Imports α) (hpi : 0 < L.PI) (now : α) (v : View α)
    (hdef : isDef v = true) (requested : α) :
    ∃ a, seriesFor L now [AnimateArg.options (rotationOptions requested)] v = [a] ∧
      a.sourceRotation = some (getRotation v) ∧
      a.targetRotation = some (rotationTarget L (getRotation v) requested) ∧
      (∃ k : Int, rotationTarget L (getRotation v) requested
        = requested + (k : α) * (2 * L.PI)) ∧
      |rotationTarget L (getRotation v) requested - getRotation v| ≤ L.PI ∧
      (getRotation v = 0 → requested = 3 * L.PI / 2 →
        rotationTarget L (getRotation v) requested = -(L.PI / 2)) ∧
      (∀ k : Int, requested = getRotation v + 2 * L.PI * (k : α) →
        rotationTarget L (getRotation v) requested = getRotation v ∧ a.complete = true) := by
  obtain ⟨a, h1, h2, h3, h4⟩ := seriesFor_rotation L now v hdef requested
  obtain ⟨hk, hlo, hhi⟩ := rotationTarget_spec L hpi (getRotation v) requested
  refine ⟨a, h1, h2, h3, hk, abs_le.mpr ⟨hlo, hhi.le⟩, ?_, ?_⟩
  · intro h0 hreq
    have h2pi : 0 < 2 * L.PI := by linarith
    have h := modulo_add_mul (L.PI / 2) (2 * L.PI) h2pi (by linarith) (by linarith) 1
    rw [h0, hreq]
    unfold rotationTarget
    have harg : 3 * L.PI / 2 - 0 + L.PI = L.PI / 2 + ((1 : Int) : α) * (2 * L.PI) := by
      push_cast; ring
    rw [harg, h]
    ring
  · intro k hreq
    have ht : rotationTarget L (getRotation v) requested = getRotation v := by
      rw [hreq]; exact rotationTarget_turns L hpi (getRotation v) k
    exact ⟨ht, h4 ht⟩

theorem evalImports_PI_pos : 0 < evalImports.PI := by
  norm_num [evalImports]

/-- C10 on `tableView (1, 2) 2`, whose rotation is 0, and a request of 3π/2. -/
theorem rotation_shortest_path_witness :
    0 < evalImports.PI ∧ isDef (tableView (some (1, 2)) (some 2)) = true ∧
    ∃ a, seriesFor evalImports 0
        [AnimateArg.options (rotationOptions (3 * evalImports.PI / 2))]
        (tableView (some (1, 2)) (some 2)) = [a] ∧
      a.targetRotation = some (rotationTarget evalImports
        (getRotation (tableView (some (1, 2)) (some 2))) (3 * evalImports.PI / 2)) ∧
      rotationTarget evalImports (getRotation (tableView (some (1, 2)) (some 2)))
        (3 * evalImports.PI / 2) = -(evalImports.PI / 2) := by
  obtain ⟨a, h1, _, h3, _, _, h6, _⟩ := rotation_shortest_path evalImports evalImports_PI_pos 0
    (tableView (some (1, 2)) (some 2)) rfl (3 * evalImports.PI / 2)
  exact ⟨evalImports_PI_pos, rfl, a, h1, h3, h6 rfl rfl⟩

/-- C11 fails as stated: with the current rotation 0 and a request exactly
half a turn away, the signed delta is -π, the end the claim excludes, and not
+π. -/
theorem rotation_delta_counterexample :
    rotationTarget evalImports 0 (0 + evalImports.PI) - 0 = -evalImports.PI ∧
    ¬ (-evalImports.PI < rotationTarget evalImports 0 (0 + evalImports.PI) - 0) ∧
    rotationTarget evalImports 0 (0 + evalImports.PI) - 0 ≠ evalImports.PI := by
  have h := rotationTarget_half_turn evalImports evalImports_PI_pos 0
  have hpos := evalImports_PI_pos
  refine ⟨h, ?_, ?_⟩
  · rw [h]; exact lt_irrefl _
  · rw [h]; intro heq; linarith

/-- C11, amended: the signed delta `targetRotation - ρ` computed by `animate`
lies in the half-open interval `[-π, π)`: `-π` is included and `+π` is
excluded, and a request exactly half a turn away resolves to a delta of
`-π`. -/
theorem rotation_delta_interval (L : Imports α) (hpi : 0 < L.PI) (rotation requested : α) :
    -L.PI ≤ rotationTarget L rotation requested - rotation ∧
    rotationTarget L rotation requested - rotation < L.PI ∧
    (requested - rotation = L.PI →
      rotationTarget L rotation requested - rotation = -L.PI) := by
  obtain ⟨_, hlo, hhi⟩ := rotationTarget_spec L hpi rotation requested
  refine ⟨hlo, hhi, ?_⟩
  intro h
  have hreq : requested = rotation + L.PI := by linarith
  rw [hreq]
  exact rotationTarget_half_turn L hpi rotation

/-- C11, amended, with the double `Math.PI` and the rotations 1 and 2. -/
theorem rotation_delta_interval_witness :
    0 < evalImports.PI ∧
    -evalImports.PI ≤ rotationTarget evalImports 1 2 - 1 ∧
    rotationTarget evalImports 1 2 - 1 < evalImports.PI :=
  ⟨evalImports_PI_pos, (rotation_delta_interval evalImports evalImports_PI_pos 1 2).1,
   (rotation_delta_interval evalImports evalImports_PI_pos 1 2).2.1⟩

end Rotation

/-! ## No-op stages (C12) -/

section Noop

set_option linter.unusedSectionVars false

variable {α : Type} [LinearOrderedField α] [FloorRing α]

theorem complete_makeAnimation (L : Imports α) (v : View α) (callback : Option Callback)
    (options : AnimationOptions α) (start : α) (center : Coordinate α)
    (resolution : Option α) (rotation : α) :
    (makeAnimation L v callback options start center resolution rotation).complete = true ↔
      changesNothing L v options center resolution rotation := by
  unfold makeAnimation changesNothing
  cases hc : options.center <;> cases hr : resolutionTarget v options <;>
    cases hρ : options.rotation <;>
    simp [isNoopAnimation, apply_ite ViewAnimation.complete]

theorem duration_makeAnimation (L : Imports α) (v : View α) (callback : Option Callback)
    (options : AnimationOptions α) (start : α) (center : Coordinate α)
    (resolution : Option α) (rotation : α) :
    (makeAnimation L v callback options start center resolution rotation).start = start ∧
    (makeAnimation L v callback options start center resolution rotation).duration
      = (match options.duration with
        | some d => d
        | none => 1000) := by
  unfold makeAnimation
  cases options.center <;> cases resolutionTarget v options <;> cases options.rotation <;>
    simp only <;> split <;> exact ⟨rfl, rfl⟩

/-- C12: in the series `animate` builds, a stage whose every given target
equals the value reached so far is marked complete when it is created and is
still in the series, and the stage after it starts when it starts; a stage
that changes the view is not complete and the stage after it starts later by
its duration.  `animate({center: currentCenter}, next)` is the first case. -/
theorem noop_stage_timing (L : Imports α) (v : View α) (callback : Option Callback)
    (o1 o2 : AnimationOptions α) (rest : List (AnimationOptions α)) (start : α)
    (center : Coordinate α) (resolution : Option α) (rotation : α) :
    ∃ a1 a2 tail,
      buildSeries L v callback (o1 :: o2 :: rest) start center resolution rotation
        = a1 :: a2 :: tail ∧
      a1.start = start ∧
      (a1.complete = true ↔ changesNothing L v o1 center resolution rotation) ∧
      (changesNothing L v o1 center resolution rotation → a2.start = a1.start) ∧
      (¬ changesNothing L v o1 center resolution rotation →
        a1.complete = false ∧ a2.start = a1.start + a1.duration) ∧
      changesNothing L v (centerOptions center) center resolution rotation := by
  obtain ⟨hs1, _⟩ := duration_makeAnimation L v callback o1 start center resolution rotation
  have hc1 := complete_makeAnimation L v callback o1 start center resolution rotation
  refine ⟨makeAnimation L v callback o1 start center resolution rotation, _, _, rfl, hs1, hc1,
    ?_, ?_, ?_⟩
  · intro h
    have hc := hc1.mpr h
    simp only [hc, if_true]
    rw [(duration_makeAnimation L v callback o2 _ _ _ _).1, hs1]
  · intro h
    have hc : (makeAnimation L v callback o1 start center resolution rotation).complete
        = false := by
      cases hcc : (makeAnimation L v callback o1 start center resolution rotation).complete
      · rfl
      · exact absurd (hc1.mp hcc) h
    refine ⟨hc, ?_⟩
    simp only [hc, Bool.false_eq_true, if_false]
    rw [(duration_makeAnimation L v callback o2 _ _ _ _).1, hs1]
  · simp [changesNothing, centerOptions, AnimationOptions.empty, resolutionTarget, truthy]

end Noop

/-! ## The driver tick (C13, C14, C15) -/

section Tick

set_option linter.unusedSectionVars false

variable {α : Type} [LinearOrderedField α] [FloorRing α]

theorem remaining_eq_filter (now : α) (entries : List (Option (List (ViewAnimation α))))
    (h : entries.all seriesOK = true) :
    remaining now entries
      = (entries.filter (fun entry => !retires now entry)).map (tickEntry now) := by
  induction entries with
  | nil => rfl
  | cons entry rest ih =>
    simp only [List.all_cons, Bool.and_eq_true] at h
    have hrest := ih h.2
    cases entry with
    | none => simp [seriesOK] at h
    | some series =>
      unfold remaining at hrest ⊢
      by_cases hd : seriesDone (advanceSeries now series) = true
      · simp [tickEntry, retires, hd, List.filter_cons, hrest]
      · simp [tickEntry, retires, hd, List.filter_cons, hrest]

/-- C13: a driver tick at time `now` leaves in `animations_` exactly the
series that are not retired, in their order, with their stages advanced, a
series being retired iff all its stages are complete after the pass
(`retires`); it lowers the ANIMATING hint by the number of retired series and
calls the stored callback of each retired series, and of no other, once
with `true`. -/
theorem tick_retires_complete_series (L : Imports α) (now : α) (v : View α)
    (hwf : WellFormed v) :
    (updateAnimations_ L now v).error = none ∧
    (updateAnimations_ L now v).view.animations_
      = (v.animations_.filter (fun entry => !retires now entry)).map (tickEntry now) ∧
    (∀ series, retires now (some series) = seriesDone (advanceSeries now series)) ∧
    (∀ series, retires now (some series) = false →
      tickEntry now (some series) = some (advanceSeries now series)) ∧
    (updateAnimations_ L now v).view.hints_.get ViewHint.ANIMATING
      = v.hints_.get ViewHint.ANIMATING
        - ((v.animations_.filter (retires now)).length : Int) ∧
    (updateAnimations_ L now v).view.hints_.get ViewHint.INTERACTING
      = v.hints_.get ViewHint.INTERACTING ∧
    (updateAnimations_ L now v).view.calls
      = v.calls ++ callbackCalls true (v.animations_.filter (retires now)).reverse := by
  have hkeep : ∀ series : List (ViewAnimation α), retires now (some series) = false →
      tickEntry now (some series) = some (advanceSeries now series) := by
    intro series h
    simp only [retires] at h
    simp [tickEntry, h]
  by_cases ha : getAnimating v = true
  · obtain ⟨c, r, ρ, heq, _⟩ := updateAnimations_spec L now v ha hwf.1
    rw [heq]
    refine ⟨rfl, ?_, fun _ => rfl, hkeep, ?_, ?_, ?_⟩
    · exact remaining_eq_filter now v.animations_ hwf.1
    · simp [afterTick, afterPass, Hints.add, Hints.get, retiredBy]
      ring
    · simp [afterTick, afterPass, Hints.add, Hints.get]
    · simp [afterTick, afterPass, retiredBy]
  · have ha' : getAnimating v = false := by simpa using ha
    have hnil := wellFormed_idle v hwf ha'
    rw [updateAnimations_idle L now v ha']
    refine ⟨rfl, ?_, fun _ => rfl, hkeep, ?_, rfl, ?_⟩
    · simp [hnil]
    · simp [hnil]
    · simp [hnil, callbackCalls]

/-- C13 on `busyView` at time 1000: the older series is retired with `true`,
the newer stays. -/
theorem tick_retires_complete_series_witness :
    WellFormed busyView ∧
    (updateAnimations_ evalImports 1000 busyView).view.calls
      = busyView.calls
        ++ callbackCalls true (busyView.animations_.filter (retires 1000)).reverse ∧
    (updateAnimations_ evalImports 1000 busyView).view.hints_.get ViewHint.ANIMATING
      = busyView.hints_.get ViewHint.ANIMATING
        - ((busyView.animations_.filter (retires 1000)).length : Int) :=
  ⟨busyView_wellFormed,
   (tick_retires_complete_series evalImports 1000 busyView busyView_wellFormed).2.2.2.2.2.2,
   (tick_retires_complete_series evalImports 1000 busyView busyView_wellFormed).2.2.2.2.1⟩

theorem dueView_wellFormed : WellFormed dueView := by
  simp [WellFormed, dueView, tableView, seriesOK, stageOK, panStage, isDef]

/-- C14 fails as stated: the tick of `dueView` at time 1000 completes the only
incomplete stage and retires the only series, so no incomplete stage remains,
and yet it requests another frame. -/
theorem tick_schedule_counterexample :
    WellFormed dueView ∧
    (updateAnimations_ evalImports 1000 dueView).view.animations_ = [] ∧
    (updateAnimations_ evalImports 1000 dueView).view.updateAnimationKey_ = some 1 := by
  refine ⟨dueView_wellFormed, ?_, ?_⟩
  · norm_num [updateAnimations_, getAnimating, Hints.get, dueView, tableView, panStage,
      updateLoop, updateSeries, stageFraction, writeCenter, writeResolution, writeRotation,
      setHint, Hints.add, invoke]
  · norm_num [updateAnimations_, getAnimating, Hints.get, dueView, tableView, panStage,
      updateLoop, updateSeries, stageFraction, writeCenter, writeResolution, writeRotation,
      setHint, Hints.add, invoke]

/-- C14, amended: after a driver tick the driver is scheduled for the next
frame iff the tick advanced a stage, that is iff some stage of some series
was incomplete when the tick began; the tick in which the last incomplete
stage completes therefore still schedules one more frame. -/
theorem tick_schedules_iff_advanced (L : Imports α) (now : α) (v : View α)
    (hwf : WellFormed v) :
    ((updateAnimations_ L now v).view.updateAnimationKey_.isSome = true ↔
      anyIncomplete v.animations_ = true) := by
  by_cases ha : getAnimating v = true
  · obtain ⟨c, r, ρ, heq, _⟩ := updateAnimations_spec L now v ha hwf.1
    rw [heq]
    by_cases hm : anyIncomplete v.animations_ = true
    · simp [afterTick, hm]
    · simp [afterTick, hm]
  · have ha' : getAnimating v = false := by simpa using ha
    have hnil := wellFormed_idle v hwf ha'
    rw [updateAnimations_idle L now v ha']
    simp [hnil, anyIncomplete]

/-- C14, amended, on `dueView` at time 1000. -/
theorem tick_schedules_iff_advanced_witness :
    WellFormed dueView ∧
    ((updateAnimations_ evalImports 1000 dueView).view.updateAnimationKey_.isSome = true ↔
      anyIncomplete dueView.animations_ = true) :=
  ⟨dueView_wellFormed, tick_schedules_iff_advanced evalImports 1000 dueView dueView_wellFormed⟩

/-- C15: when the ANIMATING hint is not positive, a driver tick cancels the
pending frame request, if any, and does nothing else: center, resolution,
rotation, hints, callbacks called and `animations_` are as before, and no
frame is requested. -/
theorem tick_without_hint (L : Imports α) (now : α) (v : View α)
    (hhint : v.hints_.get ViewHint.ANIMATING ≤ 0) :
    (updateAnimations_ L now v).error = none ∧
    (updateAnimations_ L now v).view = { v with updateAnimationKey_ := none } ∧
    (updateAnimations_ L now v).view.center = v.center ∧
    (updateAnimations_ L now v).view.resolution = v.resolution ∧
    (updateAnimations_ L now v).view.rotation = v.rotation ∧
    (updateAnimations_ L now v).view.hints_ = v.hints_ ∧
    (updateAnimations_ L now v).view.calls = v.calls ∧
    (updateAnimations_ L now v).view.animations_ = v.animations_ ∧
    (updateAnimations_ L now v).view.frames = v.frames ∧
    (updateAnimations_ L now v).view.updateAnimationKey_ = none := by
  have ha : getAnimating v = false := by
    simp only [getAnimating, decide_eq_false_iff_not, not_lt]
    exact hhint
  rw [updateAnimations_idle L now v ha]
  exact ⟨rfl, rfl, rfl, rfl, rfl, rfl, rfl, rfl, rfl, rfl⟩

/-- C15 on `tableView (1, 2) 2` with a frame request pending. -/
theorem tick_without_hint_witness :
    (updateAnimations_ evalImports 7
      { tableView (some (1, 2)) (some 2) with updateAnimationKey_ := some 3 }).view
      = { ({ tableView (some (1, 2)) (some 2) with updateAnimationKey_ := some 3 } : View ℚ)
          with updateAnimationKey_ := none } :=
  (tick_without_hint evalImports 7
    { tableView (some (1, 2)) (some 2) with updateAnimationKey_ := some 3 }
    (by simp [tableView, Hints.get])).2.1

end Tick

/-! ## The setters store what they are given (C18) -/

section Setters

set_option linter.unusedSectionVars false

variable {α : Type} [LinearOrderedField α] [FloorRing α]

/-- C18: on a view with no active animation, `setCenter(v)`, `setResolution(v)`
and `setRotation(v)` store exactly the value given, with no constraint
applied, and leave the other two of center, resolution and rotation and both
hints as they were. -/
theorem setters_store_raw (v : View α) (hwf : WellFormed v) (hidle : v.animations_ = [])
    (center : Option (Coordinate α)) (resolution : Option α) (rotation : α) :
    ((setCenter center v).error = none ∧
      getCenter (setCenter center v).view = center ∧
      getResolution (setCenter center v).view = getResolution v ∧
      getRotation (setCenter center v).view = getRotation v ∧
      getHints (setCenter center v).view = getHints v) ∧
    ((setResolution resolution v).error = none ∧
      getResolution (setResolution resolution v).view = resolution ∧
      getCenter (setResolution resolution v).view = getCenter v ∧
      getRotation (setResolution resolution v).view = getRotation v ∧
      getHints (setResolution resolution v).view = getHints v) ∧
    ((setRotation rotation v).error = none ∧
      getRotation (setRotation rotation v).view = rotation ∧
      getCenter (setRotation rotation v).view = getCenter v ∧
      getResolution (setRotation rotation v).view = getResolution v ∧
      getHints (setRotation rotation v).view = getHints v) := by
  have ha : getAnimating v = false := by
    simp [getAnimating, Hints.get, hwf.2.1, hidle]
  refine ⟨?_, ?_, ?_⟩
  · have h : getAnimating ({ v with center := center } : View α) = false := ha
    simp only [setCenter, cancelIfAnimating_idle _ h]
    exact ⟨rfl, rfl, rfl, rfl, rfl⟩
  · have h : getAnimating ({ v with resolution := resolution } : View α) = false := ha
    simp only [setResolution, cancelIfAnimating_idle _ h]
    exact ⟨rfl, rfl, rfl, rfl, rfl⟩
  · have h : getAnimating ({ v with rotation := rotation } : View α) = false := ha
    simp only [setRotation, cancelIfAnimating_idle _ h]
    exact ⟨rfl, rfl, rfl, rfl, rfl⟩

/-- C18 on `tableView (1, 2) 2`: a resolution outside `[1, 4]` is stored as
given. -/
theorem setters_store_raw_witness :
    WellFormed (tableView (some (1, 2)) (some 2)) ∧
    getResolution (setResolution (some 1000) (tableView (some (1, 2)) (some 2))).view
      = some 1000 :=
  ⟨tableView_wellFormed _ _,
   (setters_store_raw (tableView (some (1, 2)) (some 2)) (tableView_wellFormed _ _) rfl
      (some (9, 9)) (some 1000) 7).2.1.2.1⟩

end Setters

/-! ## `calculateExtent` and `getState` (C19, C20) -/

section Queries

set_option linter.unusedSectionVars false

variable {α : Type} [LinearOrderedField α] [FloorRing α]

/-- C19: `calculateExtent(size)` fails iff the center of the view is missing
(`undefined` or `null`) or its resolution is `undefined` or its rotation is
`undefined`, with the assertion error 1, 2 or 3 of the first check that fails;
in every other state it returns the extent `getForViewAndSize` gives for the
current center, resolution and rotation and the size given, or the viewport's
size when none is given; it is a function of the properties and writes
nothing. -/
theorem calculateExtent_fails_iff (L : Imports α) (element opt_size : Option (Size α))
    (p : Properties α) :
    ((∃ e, p.calculateExtent L element opt_size = Except.error e) ↔
      (p.center = Held.undefined ∨ p.center = Held.null ∨ p.resolution = none ∨
        p.rotation = none)) ∧
    (p.center = Held.undefined ∨ p.center = Held.null →
      p.calculateExtent L element opt_size = Except.error (JsError.AssertionError 1)) ∧
    (∀ center, p.center = Held.value center → p.resolution = none →
      p.calculateExtent L element opt_size = Except.error (JsError.AssertionError 2)) ∧
    (∀ center resolution, p.center = Held.value center → p.resolution = some resolution →
      p.rotation = none →
      p.calculateExtent L element opt_size = Except.error (JsError.AssertionError 3)) ∧
    (∀ center resolution rotation, p.center = Held.value center →
      p.resolution = some resolution → p.rotation = some rotation →
      p.calculateExtent L element opt_size
        = Except.ok (getForViewAndSize L center resolution rotation
            (match opt_size with
             | some size => size
             | none => getSizeFromViewport_ element))) := by
  obtain ⟨center, resolution, rotation⟩ := p
  refine ⟨?_, ?_, ?_, ?_, ?_⟩
  · cases center with
    | undefined => simp [Properties.calculateExtent]
    | null => simp [Properties.calculateExtent]
    | value c =>
      cases resolution with
      | none => simp [Properties.calculateExtent]
      | some r =>
        cases rotation with
        | none => simp [Properties.calculateExtent]
        | some ρ => simp [Properties.calculateExtent]
  · rintro (h | h) <;> simp only at h <;> subst h <;> rfl
  · intro c hc hr
    simp only at hc hr
    subst hc hr
    rfl
  · intro c r hc hr hρ
    simp only at hc hr hρ
    subst hc hr hρ
    rfl
  · intro c r ρ hc hr hρ
    simp only at hc hr hρ
    subst hc hr hρ
    rfl

/-- C19 evaluated: a view constructed without a center, a view with the
center `(1, 2)` and no resolution, and a view with center and resolution after
`setRotation(undefined)` fail with the assertion errors 1, 2 and 3; the view
with center `(1, 2)`, resolution 2 and rotation 0 has the extent
`[-99, -48, 101, 52]` for the size `[100, 50]`. -/
theorem calculateExtent_fails_iff_witness :
    Properties.calculateExtent evalImports none (some (100, 50))
        { center := Held.null, resolution := some 2, rotation := some 0 }
      = Except.error (JsError.AssertionError 1) ∧
    Properties.calculateExtent evalImports none (some (100, 50))
        { center := Held.value (1, 2), resolution := none, rotation := some 0 }
      = Except.error (JsError.AssertionError 2) ∧
    Properties.calculateExtent evalImports none (some (100, 50))
        { center := Held.value (1, 2), resolution := some 2, rotation := none }
      = Except.error (JsError.AssertionError 3) ∧
    Properties.calculateExtent evalImports none (some (100, 50))
        { center := Held.value (1, 2), resolution := some 2, rotation := some 0 }
      = Except.ok { minX := -99, minY := -48, maxX := 101, maxY := 52 } := by
  refine ⟨(calculateExtent_fails_iff evalImports none (some (100, 50)) _).2.1 (Or.inr rfl),
    (calculateExtent_fails_iff evalImports none (some (100, 50)) _).2.2.1 (1, 2) rfl rfl,
    (calculateExtent_fails_iff evalImports none (some (100, 50)) _).2.2.2.1 (1, 2) 2 rfl rfl
      rfl, ?_⟩
  rw [(calculateExtent_fails_iff evalImports none (some (100, 50)) _).2.2.2.2 (1, 2) 2 0 rfl
    rfl rfl]
  norm_num [getForViewAndSize, evalImports]

/-- C20 fails as stated: the view `tableView (1, 2)` has a center and no
resolution, and `getState()` does not fail on it: it returns a state whose
resolution and zoom are undefined. -/
theorem getState_counterexample :
    getCenter (tableView (some (1, 2)) none) = some (1, 2) ∧
    getResolution (tableView (some (1, 2)) none) = none ∧
    getState evalImports (tableView (some (1, 2)) none)
      = Except.ok { center := (1, 2), resolution := none, rotation := 0, zoom := none } :=
  ⟨rfl, rfl, rfl⟩

/-- C20, amended: `getState()` fails exactly when the center is undefined
(the `TypeError` of `center.slice()`); on a view with a center it returns the
stored center, resolution and rotation and `getZoom()`, also when the
resolution is undefined, and then the zoom is undefined too. -/
theorem getState_fails_iff (L : Imports α) (v : View α) :
    ((∃ e, getState L v = Except.error e) ↔ getCenter v = none) ∧
    (getCenter v = none → getState L v = Except.error JsError.TypeError) ∧
    (∀ center, getCenter v = some center →
      getState L v = Except.ok { center := center, resolution := getResolution v,
                                 rotation := getRotation v, zoom := getZoom L v }) ∧
    (getResolution v = none → getZoom L v = none) := by
  refine ⟨?_, ?_, ?_, ?_⟩
  · cases hc : getCenter v with
    | none => simp [getState, hc]
    | some c => simp [getState, hc]
  · intro hc
    simp [getState, hc]
  · intro c hc
    simp [getState, hc]
  · intro hr
    simp [getZoom, hr]

end Queries

/-! ## A series run to its end (C16, C17) -/

section Completion

set_option linter.unusedSectionVars false

variable {α : Type} [LinearOrderedField α] [FloorRing α]

theorem props_writes (L : Imports α) (a : ViewAnimation α) (q : α) (v : View α)
    (hok : stageOK a = true) (hanchor : a.anchor = none) :
    props (writeRotation L a q (writeResolution a q (writeCenter a q v).view))
      = writeProps L a q (props v) := by
  unfold writeRotation writeResolution writeCenter writeProps props
  rw [hanchor]
  cases hsc : a.sourceCenter <;> cases htc : a.targetCenter <;>
    cases hsr : a.sourceResolution <;> cases htr : a.targetResolution <;>
    cases hsρ : a.sourceRotation <;> cases htρ : a.targetRotation <;>
    simp [stageOK, hsc, htc] at hok <;>
    simp only [normalizeRotation] <;>
    (try split) <;> rfl

theorem writeProps_absorb (L : Imports α) (a : ViewAnimation α) (q : α) (p : Props α) :
    writeProps L a 1 (writeProps L a q p) = writeProps L a 1 p := by
  unfold writeProps
  cases a.sourceCenter <;> cases a.targetCenter <;>
    cases a.sourceResolution <;> cases a.targetResolution <;>
    cases a.sourceRotation <;> cases a.targetRotation <;>
    simp only <;> (try split) <;> rfl

theorem updateSeries_settle (L : Imports α) (t : α) (series : List (ViewAnimation α)) :
    ∀ (v : View α) (sc more : Bool), (∀ a ∈ series, plainStage a) →
      settleProps L (updateSeries L t series v sc more).series
          (props (updateSeries L t series v sc more).view)
        = settleProps L series (props v) := by
  induction series with
  | nil => intro v sc more _; rfl
  | cons a rest ih =>
    intro v sc more h
    have hrest : ∀ b ∈ rest, plainStage b := fun b hb => h b (List.mem_cons_of_mem _ hb)
    obtain ⟨hok, hanchor, hease⟩ := h a (List.mem_cons_self _ _)
    by_cases hc : a.complete = true
    · simp only [updateSeries, hc, if_true, settleProps]
      exact ih v sc more hrest
    · have hc' : a.complete = false := by simpa using hc
      by_cases hf : stageFraction t a ≥ 1
      · have hok1 : stageOK ({ a with complete := true } : ViewAnimation α) = true := hok
        obtain ⟨he, _⟩ := writes_state L { a with complete := true } (a.easing 1) v hok1
        have hp := props_writes L { a with complete := true } (a.easing 1) v hok1 hanchor
        simp only [updateSeries, hc', hf, if_true, he, Bool.false_eq_true, if_false,
          settleProps]
        rw [ih _ sc true hrest, hp, hease]
        rfl
      · obtain ⟨he, _⟩ := writes_state L a (a.easing (stageFraction t a)) v hok
        have hp := props_writes L a (a.easing (stageFraction t a)) v hok hanchor
        simp only [updateSeries, hc', hf, if_false, he, Bool.false_eq_true, settleProps]
        rw [hp, writeProps_absorb]

theorem props_setHint (v : View α) (hint : ViewHint) (delta : Int) :
    props (setHint v hint delta) = props v := rfl

theorem props_invoke (callback : Option Callback) (arg : Bool) (v : View α) :
    props (invoke callback arg v) = props v := by
  cases callback <;> rfl

/-- The properties after a driver tick of a view with one series are those
the inner loop leaves. -/
theorem tick_single_props (L : Imports α) (t : α) (v : View α) (s : List (ViewAnimation α))
    (hs : v.animations_ = [some s]) (ha : getAnimating v = true) :
    props (updateAnimations_ L t v).view
      = props (updateSeries L t s { v with updateAnimationKey_ := none } true false).view := by
  obtain ⟨f1, f2, f3, f4, f5, f6, f7, f8, f9, f10, f11, f12, f13, f14⟩ := v
  simp only at hs
  subst hs
  have ha' : getAnimating (View.mk f1 [some s] none f4 f5 f6 f7 f8 f9 f10 f11 f12 f13 f14)
      = true := ha
  simp only [updateAnimations_, ha', Bool.not_true, Bool.false_eq_true, if_false, updateLoop]
  generalize updateSeries L t s _ true false = p
  cases hpe : p.error with
  | some e => rfl
  | none =>
    simp only
    by_cases hsc : p.seriesComplete = true
    · simp only [hsc, if_true]
      cases hps : p.series with
      | nil => rfl
      | cons first tail =>
        simp only
        by_cases hm : p.more = true
        · simp only [hm, if_true, props]
          have := props_invoke first.callback true (setHint p.view ViewHint.ANIMATING (-1))
          simp only [props] at this
          exact this
        · simp only [hm, if_false, props]
          have := props_invoke first.callback true (setHint p.view ViewHint.ANIMATING (-1))
          simp only [props] at this
          exact this
    · simp only [hsc, if_false]
      by_cases hm : p.more = true
      · simp only [hm, if_true]; rfl
      · simp only [hm, if_false]; rfl

theorem settleProps_done (L : Imports α) (s : List (ViewAnimation α)) (p : Props α)
    (h : seriesDone s = true) : settleProps L s p = p := by
  induction s with
  | nil => rfl
  | cons a rest ih =>
    simp only [seriesDone, List.all_cons, Bool.and_eq_true] at h
    simp only [settleProps, h.1, if_true]
    exact ih h.2

theorem advanceSeries_mem (t : α) (s : List (ViewAnimation α)) :
    ∀ b ∈ advanceSeries t s, ∃ a ∈ s, b = a ∨ (b = { a with complete := true }) := by
  induction s with
  | nil => intro b hb; simp [advanceSeries] at hb
  | cons a rest ih =>
    intro b hb
    unfold advanceSeries at hb
    by_cases hc : a.complete = true
    · simp only [hc, if_true, List.mem_cons] at hb
      rcases hb with hb | hb
      · exact ⟨a, List.mem_cons_self _ _, Or.inl hb⟩
      · obtain ⟨a', ha', h⟩ := ih b hb
        exact ⟨a', List.mem_cons_of_mem _ ha', h⟩
    · have hc' : a.complete = false := by simpa using hc
      by_cases hf : stageFraction t a ≥ 1
      · simp only [hc', Bool.false_eq_true, if_false, hf, if_true, List.mem_cons] at hb
        rcases hb with hb | hb
        · exact ⟨a, List.mem_cons_self _ _, Or.inr hb⟩
        · obtain ⟨a', ha', h⟩ := ih b hb
          exact ⟨a', List.mem_cons_of_mem _ ha', h⟩
      · simp only [hc', Bool.false_eq_true, if_false, hf] at hb
        exact ⟨b, hb, Or.inl rfl⟩

theorem advanceSeries_plain (t : α) (s : List (ViewAnimation α))
    (h : ∀ a ∈ s, plainStage a) : ∀ b ∈ advanceSeries t s, plainStage b := by
  intro b hb
  obtain ⟨a, ha, hba⟩ := advanceSeries_mem t s b hb
  rcases hba with hba | hba
  · rw [hba]; exact h a ha
  · rw [hba]; exact h a ha

theorem advanceSeries_late (t t1 : α) (s : List (ViewAnimation α))
    (h : ∀ a ∈ s, a.complete = false → a.start + a.duration ≤ t1) :
    ∀ b ∈ advanceSeries t s, b.complete = false → b.start + b.duration ≤ t1 := by
  intro b hb hbc
  obtain ⟨a, ha, hba⟩ := advanceSeries_mem t s b hb
  rcases hba with hba | hba
  · rw [hba] at hbc ⊢; exact h a ha hbc
  · rw [hba] at hbc; simp at hbc

theorem advanceSeries_done_of_late (t1 : α) (s : List (ViewAnimation α))
    (h : ∀ a ∈ s, a.complete = false → a.start + a.duration ≤ t1) :
    seriesDone (advanceSeries t1 s) = true := by
  induction s with
  | nil => rfl
  | cons a rest ih =>
    have hrest := ih (fun b hb => h b (List.mem_cons_of_mem _ hb))
    unfold advanceSeries
    by_cases hc : a.complete = true
    · simp only [hc, if_true, seriesDone, List.all_cons, Bool.true_and]
      exact hrest
    · have hc' : a.complete = false := by simpa using hc
      have hend := h a (List.mem_cons_self _ _) hc'
      have hf : stageFraction t1 a ≥ 1 := by
        unfold stageFraction
        by_cases hd : a.duration > 0
        · simp only [hd, if_true, ge_iff_le]
          rw [le_div_iff₀ hd]
          linarith
        · simp only [hd, if_false, ge_iff_le, le_refl]
      simp only [hc', Bool.false_eq_true, if_false, hf, if_true, seriesDone, List.all_cons,
        Bool.true_and]
      exact hrest

theorem settling_tick (L : Imports α) (t t1 : α) (P : Props α) (w : View α)
    (h : Settling L t1 P w) :
    (updateAnimations_ L t w).error = none ∧ Settling L t1 P (updateAnimations_ L t w).view := by
  obtain ⟨hwf, hcase⟩ := h
  obtain ⟨herr, hwf'⟩ := wellFormed_tick L t w hwf
  refine ⟨herr, hwf', ?_⟩
  rcases hcase with ⟨hnil, hp⟩ | ⟨s, hs, hplain, hlate, hsettle⟩
  · have hidle : getAnimating w = false := by
      simp [getAnimating, Hints.get, hwf.2.1, hnil]
    rw [updateAnimations_idle L t w hidle]
    exact Or.inl ⟨hnil, hp⟩
  · have hanim : getAnimating w = true := wellFormed_animating w hwf (by rw [hs]; simp)
    have hprops := tick_single_props L t w s hs hanim
    have hinv := updateSeries_settle L t s { w with updateAnimationKey_ := none } true false
      hplain
    have hok : s.all stageOK = true := by
      rw [List.all_eq_true]
      intro a ha
      exact (hplain a ha).1
    obtain ⟨_, hser, _, _, _⟩ := updateSeries_spec L t s
      { w with updateAnimationKey_ := none } true false hok
    rw [hser, ← hprops] at hinv
    have hprops0 : props ({ w with updateAnimationKey_ := none } : View α) = props w := rfl
    rw [hprops0, hsettle] at hinv
    obtain ⟨c, r, ρ, heq, _⟩ := updateAnimations_spec L t w hanim hwf.1
    have hanims : (updateAnimations_ L t w).view.animations_ = remaining t [some s] := by
      rw [heq, ← hs]; rfl
    by_cases hd : seriesDone (advanceSeries t s) = true
    · left
      refine ⟨?_, ?_⟩
      · rw [hanims]; simp [remaining, tickEntry, hd]
      · rw [settleProps_done L _ _ hd] at hinv
        exact hinv
    · right
      refine ⟨advanceSeries t s, ?_, advanceSeries_plain t s hplain,
        advanceSeries_late t t1 s hlate, hinv⟩
      rw [hanims]; simp [remaining, tickEntry, hd]

theorem settling_late (L : Imports α) (t1 : α) (P : Props α) (w : View α)
    (h : Settling L t1 P w) :
    (updateAnimations_ L t1 w).view.animations_ = [] ∧
    props (updateAnimations_ L t1 w).view = P := by
  obtain ⟨_, h'⟩ := settling_tick L t1 t1 P w h
  obtain ⟨hwf, hcase⟩ := h
  rcases hcase with ⟨hnil, hp⟩ | ⟨s, hs, hplain, hlate, hsettle⟩
  · have hidle : getAnimating w = false := by
      simp [getAnimating, Hints.get, hwf.2.1, hnil]
    rw [updateAnimations_idle L t1 w hidle]
    exact ⟨hnil, hp⟩
  · have hanim : getAnimating w = true := wellFormed_animating w hwf (by rw [hs]; simp)
    obtain ⟨c, r, ρ, heq, _⟩ := updateAnimations_spec L t1 w hanim hwf.1
    have hanims : (updateAnimations_ L t1 w).view.animations_ = [] := by
      rw [heq]
      have hd := advanceSeries_done_of_late t1 s hlate
      simp [afterTick, remaining, hs, tickEntry, hd]
    refine ⟨hanims, ?_⟩
    obtain ⟨_, hcase'⟩ := h'
    rcases hcase' with ⟨_, hp⟩ | ⟨s', hs', _⟩
    · exact hp
    · rw [hanims] at hs'
      simp at hs'

theorem settling_ticks (L : Imports α) (t1 : α) (P : Props α) (times : List α) :
    ∀ w : View α, Settling L t1 P w →
      Settling L t1 P (runOps L (times.map Op.tick) w).view := by
  induction times with
  | nil => intro w h; exact h
  | cons t rest ih =>
    intro w h
    obtain ⟨herr, h1⟩ := settling_tick L t t1 P w h
    simp only [List.map_cons, runOps, Op.run, Outcome.andThen, herr]
    exact ih _ h1

theorem fields_makeAnimation (L : Imports α) (v : View α) (callback : Option Callback)
    (o : AnimationOptions α) (start : α) (c : Coordinate α) (r : Option α) (ρ : α) :
    (makeAnimation L v callback o start c r ρ).sourceCenter
      = (match o.center with
        | some _ => some c
        | none => none) ∧
    (makeAnimation L v callback o start c r ρ).targetCenter = o.center ∧
    (makeAnimation L v callback o start c r ρ).sourceResolution
      = (match resolutionTarget v o with
        | some _ => r
        | none => none) ∧
    (makeAnimation L v callback o start c r ρ).targetResolution
      = (match resolutionTarget v o with
        | some tg => tg
        | none => none) ∧
    (makeAnimation L v callback o start c r ρ).sourceRotation
      = (match o.rotation with
        | some _ => some ρ
        | none => none) ∧
    (makeAnimation L v callback o start c r ρ).targetRotation
      = (match o.rotation with
        | some requested => some (rotationTarget L ρ requested)
        | none => none) ∧
    (makeAnimation L v callback o start c r ρ).anchor = o.anchor ∧
    (makeAnimation L v callback o start c r ρ).easing
      = (match o.easing with
        | some f => f
        | none => L.inAndOut) := by
  unfold makeAnimation
  cases o.center <;> cases resolutionTarget v o <;> cases o.rotation <;>
    simp only <;> split <;> exact ⟨rfl, rfl, rfl, rfl, rfl, rfl, rfl, rfl⟩

theorem writeProps_makeAnimation (L : Imports α) (v : View α) (callback : Option Callback)
    (o : AnimationOptions α) (start : α) (c : Coordinate α) (r0 ρ ρ' : α) (hr0 : r0 ≠ 0)
    (hz : ∀ tg, resolutionTarget v o = some tg → ∃ t, tg = some t ∧ t ≠ 0) :
    writeProps L (makeAnimation L v callback o start c (some r0) ρ) 1 (some c, some r0, ρ')
      = (some (match o.center with
          | some c' => c'
          | none => c),
         (match resolutionTarget v o with
          | some tg => tg
          | none => some r0),
         (match o.rotation with
          | some requested => normalizeRotation L (rotationTarget L ρ requested)
          | none => ρ')) := by
  obtain ⟨f1, f2, f3, f4, f5, f6, _, _⟩ :=
    fields_makeAnimation L v callback o start c (some r0) ρ
  unfold writeProps
  rw [f1, f2, f3, f4, f5, f6]
  cases hc : o.center <;> cases hr : resolutionTarget v o <;> cases hρ : o.rotation
  all_goals first
    | (obtain ⟨t, ht, ht0⟩ := hz _ hr
       subst ht
       simp [hr0, ht0])
    | simp

theorem settle_buildSeries (L : Imports α) (v : View α) (callback : Option Callback)
    (stages : List (AnimationOptions α)) :
    ∀ (start : α) (c : Coordinate α) (r0 ρ ρ' : α), r0 ≠ 0 →
      (∀ o ∈ stages, ∀ tg, resolutionTarget v o = some tg → ∃ t, tg = some t ∧ t ≠ 0) →
      (settleProps L (buildSeries L v callback stages start c (some r0) ρ)
          (some c, some r0, ρ')).1 = some (threadEnd L v stages c (some r0) ρ).1 ∧
      (settleProps L (buildSeries L v callback stages start c (some r0) ρ)
          (some c, some r0, ρ')).2.1 = (threadEnd L v stages c (some r0) ρ).2.1 ∧
      (ρ' = normalizeRotation L ρ →
        (settleProps L (buildSeries L v callback stages start c (some r0) ρ)
          (some c, some r0, ρ')).2.2
          = normalizeRotation L (threadEnd L v stages c (some r0) ρ).2.2) := by
  induction stages with
  | nil =>
    intro start c r0 ρ ρ' _ _
    simp [buildSeries, settleProps, threadEnd]
  | cons o rest ih =>
    intro start c r0 ρ ρ' hr0 hz
    have hzo := hz o (List.mem_cons_self _ _)
    have hzrest : ∀ o' ∈ rest, ∀ tg, resolutionTarget v o' = some tg →
        ∃ t, tg = some t ∧ t ≠ 0 := fun o' ho' => hz o' (List.mem_cons_of_mem _ ho')
    obtain ⟨r1, hr1, hr10⟩ : ∃ r1, (match resolutionTarget v o with
        | some tg => tg
        | none => some r0) = some r1 ∧ r1 ≠ 0 := by
      cases hr : resolutionTarget v o with
      | none => exact ⟨r0, rfl, hr0⟩
      | some tg =>
        obtain ⟨t, ht, ht0⟩ := hzo tg hr
        exact ⟨t, ht, ht0⟩
    simp only [buildSeries, settleProps, threadEnd]
    rw [hr1]
    by_cases hcomp : (makeAnimation L v callback o start c (some r0) ρ).complete = true
    · obtain ⟨h1, h2, h3⟩ := (complete_makeAnimation L v callback o start c (some r0) ρ).mp hcomp
      have hc1 : (match o.center with
          | some c' => c'
          | none => c) = c := by
        cases hc : o.center with
        | none => rfl
        | some c' => exact (h1 c' hc).symm
      have hr1' : r1 = r0 := by
        cases hr : resolutionTarget v o with
        | none => rw [hr] at hr1; exact (Option.some.inj hr1).symm
        | some tg =>
          rw [hr] at hr1
          have h := h2 tg hr
          have hr1'' : tg = some r1 := hr1
          rw [hr1''] at h
          exact (Option.some.inj h).symm
      have hρ1 : (match o.rotation with
          | some requested => rotationTarget L ρ requested
          | none => ρ) = ρ := by
        cases hρ : o.rotation with
        | none => rfl
        | some requested => exact (h3 requested hρ).symm
      simp only [hcomp, if_true, hc1, hρ1, hr1']
      exact ih _ c r0 ρ ρ' hr0 hzrest
    · have hcomp' : (makeAnimation L v callback o start c (some r0) ρ).complete = false := by
        simpa using hcomp
      simp only [hcomp', Bool.false_eq_true, if_false]
      rw [writeProps_makeAnimation L v callback o start c r0 ρ ρ' hr0 hzo, hr1]
      obtain ⟨i1, i2, i3⟩ := ih
        (if (makeAnimation L v callback o start c (some r0) ρ).complete = true then start
         else start + (makeAnimation L v callback o start c (some r0) ρ).duration)
        (match o.center with
          | some c' => c'
          | none => c) r1
        (match o.rotation with
          | some requested => rotationTarget L ρ requested
          | none => ρ)
        (match o.rotation with
          | some requested => normalizeRotation L (rotationTarget L ρ requested)
          | none => ρ') hr10 hzrest
      simp only [hcomp', Bool.false_eq_true, if_false] at i1 i2 i3
      refine ⟨i1, i2, fun hρ' => i3 ?_⟩
      cases hρ : o.rotation with
      | none => exact hρ'
      | some requested => rfl

theorem threadEnd_center (L : Imports α) (v : View α) (stages : List (AnimationOptions α)) :
    ∀ (c : Coordinate α) (r : Option α) (ρ : α),
      (threadEnd L v stages c r ρ).1 = (match lastCenter stages with
        | some c' => c'
        | none => c) := by
  induction stages with
  | nil => intro c r ρ; rfl
  | cons o rest ih =>
    intro c r ρ
    simp only [threadEnd, ih]
    cases hc : o.center with
    | none => simp [lastCenter, List.filterMap_cons, hc]
    | some x =>
      simp only [lastCenter, List.filterMap_cons, hc, List.getLast?_cons]
      cases (List.filterMap (fun o => o.center) rest).getLast? <;> rfl

theorem threadEnd_resolution (L : Imports α) (v : View α)
    (stages : List (AnimationOptions α)) :
    ∀ (c : Coordinate α) (r : Option α) (ρ : α),
      (threadEnd L v stages c r ρ).2.1 = (match lastResolution v stages with
        | some tg => tg
        | none => r) := by
  induction stages with
  | nil => intro c r ρ; rfl
  | cons o rest ih =>
    intro c r ρ
    simp only [threadEnd, ih]
    cases hr : resolutionTarget v o with
    | none => simp [lastResolution, List.filterMap_cons, hr]
    | some x =>
      simp only [lastResolution, List.filterMap_cons, hr, List.getLast?_cons]
      cases (List.filterMap (fun o => resolutionTarget v o) rest).getLast? <;> rfl

theorem normalizeRotation_periodic (L : Imports α) (hpi : 0 < L.PI) (x : α) (k : Int) :
    normalizeRotation L (x + (k : α) * (2 * L.PI)) = normalizeRotation L x := by
  have h2pi : 0 < 2 * L.PI := by linarith
  obtain ⟨m0, m1, j, hj⟩ := modulo_spec (x + L.PI) (2 * L.PI) h2pi
  have h := modulo_add_mul (modulo (x + L.PI) (2 * L.PI)) (2 * L.PI) h2pi m0 m1 (j + k)
  unfold normalizeRotation
  have harg : x + (k : α) * (2 * L.PI) + L.PI
      = modulo (x + L.PI) (2 * L.PI) + ((j + k : Int) : α) * (2 * L.PI) := by
    rw [hj]; push_cast; ring
  rw [harg, h]

theorem normalizeRotation_range (L : Imports α) (hpi : 0 < L.PI) (x : α) :
    -L.PI ≤ normalizeRotation L x ∧ normalizeRotation L x < L.PI := by
  have h2pi : 0 < 2 * L.PI := by linarith
  obtain ⟨m0, m1, _⟩ := modulo_spec (x + L.PI) (2 * L.PI) h2pi
  unfold normalizeRotation
  constructor <;> linarith

theorem normalizeRotation_of_mem (L : Imports α) (hpi : 0 < L.PI) (x : α)
    (h0 : -L.PI ≤ x) (h1 : x < L.PI) : normalizeRotation L x = x := by
  have h2pi : 0 < 2 * L.PI := by linarith
  have h := modulo_add_mul (x + L.PI) (2 * L.PI) h2pi (by linarith) (by linarith) 0
  unfold normalizeRotation
  have harg : x + L.PI = x + L.PI + ((0 : Int) : α) * (2 * L.PI) := by push_cast; ring
  rw [harg, h]
  ring

theorem normalizeRotation_target (L : Imports α) (hpi : 0 < L.PI) (ρ requested : α) :
    normalizeRotation L (rotationTarget L ρ requested) = normalizeRotation L requested := by
  obtain ⟨⟨k, hk⟩, _, _⟩ := rotationTarget_spec L hpi ρ requested
  rw [hk]
  exact normalizeRotation_periodic L hpi requested k

theorem threadEnd_rotation (L : Imports α) (hpi : 0 < L.PI) (v : View α)
    (stages : List (AnimationOptions α)) :
    ∀ (c : Coordinate α) (r : Option α) (ρ : α),
      normalizeRotation L (threadEnd L v stages c r ρ).2.2 = (match lastRotation stages with
        | some requested => normalizeRotation L requested
        | none => normalizeRotation L ρ) := by
  induction stages with
  | nil => intro c r ρ; rfl
  | cons o rest ih =>
    intro c r ρ
    simp only [threadEnd, ih]
    cases hρ : o.rotation with
    | none => simp [lastRotation, List.filterMap_cons, hρ]
    | some x =>
      simp only [lastRotation, List.filterMap_cons, hρ, List.getLast?_cons]
      cases (List.filterMap (fun o => o.rotation) rest).getLast? with
      | none => exact normalizeRotation_target L hpi ρ x
      | some y => rfl

theorem timing_makeAnimation (L : Imports α) (v : View α) (callback : Option Callback)
    (o : AnimationOptions α) (start : α) (c : Coordinate α) (r : Option α) (ρ : α) :
    (makeAnimation L v callback o start c r ρ).start = start ∧
    (makeAnimation L v callback o start c r ρ).duration = stageDuration o := by
  unfold makeAnimation stageDuration
  cases o.center <;> cases resolutionTarget v o <;> cases o.rotation <;>
    simp only <;> split <;> exact ⟨rfl, rfl⟩

theorem totalDuration_nonneg (stages : List (AnimationOptions α))
    (h : ∀ o ∈ stages, 0 ≤ stageDuration o) : 0 ≤ totalDuration stages := by
  induction stages with
  | nil => exact le_refl _
  | cons o rest ih =>
    have h1 := h o (List.mem_cons_self _ _)
    have h2 := ih (fun o' ho' => h o' (List.mem_cons_of_mem _ ho'))
    simp only [totalDuration]
    linarith

theorem buildSeries_late (L : Imports α) (v : View α) (callback : Option Callback)
    (stages : List (AnimationOptions α)) (hdur : ∀ o ∈ stages, 0 ≤ stageDuration o) :
    ∀ (start : α) (c : Coordinate α) (r : Option α) (ρ : α),
      ∀ a ∈ buildSeries L v callback stages start c r ρ,
        a.start + a.duration ≤ start + totalDuration stages := by
  induction stages with
  | nil => intro start c r ρ a ha; simp [buildSeries] at ha
  | cons o rest ih =>
    intro start c r ρ a ha
    have h1 := hdur o (List.mem_cons_self _ _)
    have hrest : ∀ o' ∈ rest, 0 ≤ stageDuration o' :=
      fun o' ho' => hdur o' (List.mem_cons_of_mem _ ho')
    have h2 := totalDuration_nonneg rest hrest
    obtain ⟨hs, hd⟩ := timing_makeAnimation L v callback o start c r ρ
    simp only [buildSeries, List.mem_cons] at ha
    simp only [totalDuration]
    rcases ha with ha | ha
    · rw [ha, hs, hd]; linarith
    · have := ih hrest _ _ _ _ a ha
      rw [hd] at this
      split at this <;> linarith

theorem plain_buildSeries (L : Imports α) (hease : L.inAndOut 1 = 1) (v : View α)
    (callback : Option Callback) (stages : List (AnimationOptions α))
    (hanchor : ∀ o ∈ stages, o.anchor = none)
    (heasing : ∀ o ∈ stages, ∀ f, o.easing = some f → f 1 = 1) :
    ∀ (start : α) (c : Coordinate α) (r : Option α) (ρ : α),
      ∀ a ∈ buildSeries L v callback stages start c r ρ, plainStage a := by
  induction stages with
  | nil => intro start c r ρ a ha; simp [buildSeries] at ha
  | cons o rest ih =>
    intro start c r ρ a ha
    simp only [buildSeries, List.mem_cons] at ha
    rcases ha with ha | ha
    · obtain ⟨_, _, _, _, _, _, f7, f8⟩ := fields_makeAnimation L v callback o start c r ρ
      rw [ha]
      refine ⟨stageOK_makeAnimation L v callback o start c r ρ, ?_, ?_⟩
      · rw [f7]; exact hanchor o (List.mem_cons_self _ _)
      · rw [f8]
        cases he : o.easing with
        | none => exact hease
        | some f => exact heasing o (List.mem_cons_self _ _) f he
    · exact ih (fun o' ho' => hanchor o' (List.mem_cons_of_mem _ ho'))
        (fun o' ho' => heasing o' (List.mem_cons_of_mem _ ho')) _ _ _ _ a ha

theorem rotationTarget_self (L : Imports α) (hpi : 0 < L.PI) (ρ : α) :
    rotationTarget L ρ ρ = ρ := by
  have h2pi : 0 < 2 * L.PI := by linarith
  have h := modulo_add_mul L.PI (2 * L.PI) h2pi (le_of_lt hpi) (by linarith) 0
  unfold rotationTarget
  have harg : ρ - ρ + L.PI = L.PI + ((0 : Int) : α) * (2 * L.PI) := by push_cast; ring
  rw [harg, h]
  ring

theorem animate_settling (L : Imports α) (now t1 : α) (args : List (AnimateArg α))
    (hargs : args ≠ []) (v : View α) (hwf : WellFormed v) (hdef : isDef v = true)
    (hidle : v.animations_ = [])
    (hplain : ∀ a ∈ seriesFor L now args v, plainStage a)
    (hlate : ∀ a ∈ seriesFor L now args v, a.complete = false → a.start + a.duration ≤ t1) :
    Settling L t1 (settleProps L (seriesFor L now args v) (props v)) (animate L now args v).view := by
  have hdef0 := hdef
  simp only [isDef, Bool.and_eq_true, Option.isSome_iff_exists] at hdef
  obtain ⟨⟨c, hcen⟩, ⟨r, hres⟩⟩ := hdef
  have hsf : seriesFor L now args v = buildSeries L v (callbackOf args)
      ((args.take (animationCount args)).map AnimateArg.asOptions)
      now c (getResolution v) (getRotation v) := by
    simp only [seriesFor, getCenter, hcen]
  have hok : seriesOK (some (seriesFor L now args v)) = true := by
    rw [hsf]
    exact seriesOK_buildSeries L v _ _ (stages_ne_nil args hargs) _ _ _ _
  have hwf2 : WellFormed (pushSeries v (seriesFor L now args v)) :=
    wellFormed_push v hwf hdef0 _ hok
  have hanimate : animate L now args v
      = updateAnimations_ L now (pushSeries v (seriesFor L now args v)) := by
    rw [hsf]
    simp only [animate, hdef0, Bool.not_true, Bool.false_eq_true, if_false, getCenter, hcen,
      pushSeries]
  rw [hanimate]
  refine (settling_tick L now t1 _ _ ⟨hwf2, Or.inr ⟨seriesFor L now args v, ?_, hplain, hlate,
    rfl⟩⟩).2
  simp only [pushSeries, setHint, hidle, List.nil_append]

theorem runToEnd_props (L : Imports α) (now t1 : α) (times : List α)
    (args : List (AnimateArg α))
    (hargs : args ≠ []) (v : View α) (hwf : WellFormed v) (hdef : isDef v = true)
    (hidle : v.animations_ = [])
    (hplain : ∀ a ∈ seriesFor L now args v, plainStage a)
    (hlate : ∀ a ∈ seriesFor L now args v, a.complete = false → a.start + a.duration ≤ t1) :
    (runToEnd L now t1 times args v).animations_ = [] ∧
    props (runToEnd L now t1 times args v)
      = settleProps L (seriesFor L now args v) (props v) :=
  settling_late L t1 _ _ (settling_ticks L t1 _ times _
    (animate_settling L now t1 args hargs v hwf hdef hidle hplain hlate))

theorem runToEnd_ends (L : Imports α) (hease : L.inAndOut 1 = 1)
    (now t1 : α) (times : List α) (args : List (AnimateArg α)) (hargs : args ≠ [])
    (v : View α) (hwf : WellFormed v) (hidle : v.animations_ = [])
    (c0 : Coordinate α) (r0 : α) (hc : getCenter v = some c0)
    (hr : getResolution v = some r0) (hr0 : r0 ≠ 0)
    (hanchor : ∀ o ∈ stagesOf args, o.anchor = none)
    (heasing : ∀ o ∈ stagesOf args, ∀ f, o.easing = some f → f 1 = 1)
    (hzoom : ∀ o ∈ stagesOf args, ∀ tg, resolutionTarget v o = some tg →
      ∃ t, tg = some t ∧ t ≠ 0)
    (hlate : ∀ a ∈ seriesFor L now args v, a.complete = false →
      a.start + a.duration ≤ t1) :
    (runToEnd L now t1 times args v).animations_ = [] ∧
    getCenter (runToEnd L now t1 times args v)
      = some (threadEnd L v (stagesOf args) c0 (some r0) (getRotation v)).1 ∧
    getResolution (runToEnd L now t1 times args v)
      = (threadEnd L v (stagesOf args) c0 (some r0) (getRotation v)).2.1 ∧
    (getRotation v = normalizeRotation L (getRotation v) →
      getRotation (runToEnd L now t1 times args v)
        = normalizeRotation L
            (threadEnd L v (stagesOf args) c0 (some r0) (getRotation v)).2.2) := by
  have hc' : v.center = some c0 := hc
  have hr' : v.resolution = some r0 := hr
  have hdef : isDef v = true := by simp [isDef, hc', hr']
  have hsf : seriesFor L now args v = buildSeries L v (callbackOf args) (stagesOf args)
      now c0 (some r0) (getRotation v) := by
    simp only [seriesFor, hc, hr, stagesOf]
  have hplain : ∀ a ∈ seriesFor L now args v, plainStage a := by
    rw [hsf]
    exact plain_buildSeries L hease v _ _ hanchor heasing _ _ _ _
  obtain ⟨hnil, hp⟩ := runToEnd_props L now t1 times args hargs v hwf hdef hidle hplain hlate
  have hprops : props v = (some c0, some r0, getRotation v) := by
    simp only [props, hc', hr', getRotation]
  rw [hsf, hprops] at hp
  obtain ⟨s1, s2, s3⟩ := settle_buildSeries L v (callbackOf args) (stagesOf args) now c0 r0
    (getRotation v) (getRotation v) hr0 hzoom
  rw [← hp] at s1 s2 s3
  exact ⟨hnil, s1, s2, s3⟩

theorem runToEnd_targets (L : Imports α) (hease : L.inAndOut 1 = 1)
    (now t1 : α) (times : List α) (args : List (AnimateArg α)) (hargs : args ≠ [])
    (v : View α) (hwf : WellFormed v) (hidle : v.animations_ = [])
    (c0 : Coordinate α) (r0 : α) (hc : getCenter v = some c0)
    (hr : getResolution v = some r0) (hr0 : r0 ≠ 0)
    (hanchor : ∀ o ∈ stagesOf args, o.anchor = none)
    (heasing : ∀ o ∈ stagesOf args, ∀ f, o.easing = some f → f 1 = 1)
    (hzoom : ∀ o ∈ stagesOf args, ∀ tg, resolutionTarget v o = some tg →
      ∃ t, tg = some t ∧ t ≠ 0)
    (hdur : ∀ o ∈ stagesOf args, 0 ≤ stageDuration o)
    (hlate : now + totalDuration (stagesOf args) ≤ t1) :
    (runToEnd L now t1 times args v).animations_ = [] ∧
    getCenter (runToEnd L now t1 times args v)
      = some (threadEnd L v (stagesOf args) c0 (some r0) (getRotation v)).1 ∧
    getResolution (runToEnd L now t1 times args v)
      = (threadEnd L v (stagesOf args) c0 (some r0) (getRotation v)).2.1 ∧
    (getRotation v = normalizeRotation L (getRotation v) →
      getRotation (runToEnd L now t1 times args v)
        = normalizeRotation L
            (threadEnd L v (stagesOf args) c0 (some r0) (getRotation v)).2.2) := by
  have hsf : seriesFor L now args v = buildSeries L v (callbackOf args) (stagesOf args)
      now c0 (some r0) (getRotation v) := by
    simp only [seriesFor, hc, hr, stagesOf]
  have hlate' : ∀ a ∈ seriesFor L now args v, a.complete = false →
      a.start + a.duration ≤ t1 := by
    rw [hsf]
    intro a ha _
    exact le_trans (buildSeries_late L v _ _ hdur _ _ _ _ a ha) hlate
  exact runToEnd_ends L hease now t1 times args hargs v hwf hidle c0 r0 hc hr hr0 hanchor
    heasing hzoom hlate'

theorem buildSeries_start_le (L : Imports α) (v : View α) (callback : Option Callback)
    (stages : List (AnimationOptions α)) (hdur : ∀ o ∈ stages, 0 ≤ stageDuration o) :
    ∀ (start : α) (c : Coordinate α) (r : Option α) (ρ : α),
      ∀ a ∈ buildSeries L v callback stages start c r ρ,
        start ≤ a.start ∧ 0 ≤ a.duration := by
  induction stages with
  | nil => intro _ _ _ _ a ha; simp [buildSeries] at ha
  | cons o rest ih =>
    intro start c r ρ a ha
    have ho := hdur o (List.mem_cons_self _ _)
    have hrest : ∀ o' ∈ rest, 0 ≤ stageDuration o' :=
      fun o' h => hdur o' (List.mem_cons_of_mem _ h)
    obtain ⟨t1, t2⟩ := timing_makeAnimation L v callback o start c r ρ
    simp only [buildSeries, List.mem_cons] at ha
    rcases ha with rfl | ha
    · exact ⟨t1.ge, by rw [t2]; exact ho⟩
    · obtain ⟨h1, h2⟩ := ih hrest _ _ _ _ a ha
      refine ⟨le_trans ?_ h1, h2⟩
      split_ifs
      · exact le_refl _
      · rw [t2]; linarith

theorem buildSeries_last_end (L : Imports α) (v : View α) (callback : Option Callback)
    (stages : List (AnimationOptions α)) (hdur : ∀ o ∈ stages, 0 ≤ stageDuration o) :
    ∀ (start : α) (c : Coordinate α) (r : Option α) (ρ : α) (l : ViewAnimation α),
      (buildSeries L v callback stages start c r ρ).getLast? = some l →
      ∀ a ∈ buildSeries L v callback stages start c r ρ, a.complete = false →
        a.start + a.duration ≤ l.start + l.duration := by
  induction stages with
  | nil => intro _ _ _ _ l _ a ha; simp [buildSeries] at ha
  | cons o rest ih =>
    intro start c r ρ l hl a ha hinc
    have hrest : ∀ o' ∈ rest, 0 ≤ stageDuration o' :=
      fun o' h => hdur o' (List.mem_cons_of_mem _ h)
    obtain ⟨t1, t2⟩ := timing_makeAnimation L v callback o start c r ρ
    simp only [buildSeries] at hl ha
    cases htail : buildSeries L v callback rest
        (if (makeAnimation L v callback o start c r ρ).complete = true then start
          else start + (makeAnimation L v callback o start c r ρ).duration)
        (match o.center with
          | some c' => c'
          | none => c)
        (match resolutionTarget v o with
          | some target => target
          | none => r)
        (match o.rotation with
          | some requested => rotationTarget L ρ requested
          | none => ρ) with
    | nil =>
      rw [htail] at hl ha
      simp only [List.getLast?_singleton, Option.some.injEq] at hl
      simp only [List.mem_singleton] at ha
      rw [ha, hl]
    | cons b tail =>
      have hl' : (buildSeries L v callback rest
          (if (makeAnimation L v callback o start c r ρ).complete = true then start
            else start + (makeAnimation L v callback o start c r ρ).duration)
          (match o.center with
            | some c' => c'
            | none => c)
          (match resolutionTarget v o with
            | some target => target
            | none => r)
          (match o.rotation with
            | some requested => rotationTarget L ρ requested
            | none => ρ)).getLast? = some l := by
        rw [htail] at hl ⊢
        rw [List.getLast?_cons_cons] at hl
        exact hl
      have hlmem := List.mem_of_getLast?_eq_some hl'
      rcases List.mem_cons.1 ha with rfl | ha'
      · obtain ⟨h1, h2⟩ := buildSeries_start_le L v callback rest hrest _ _ _ _ l hlmem
        rw [if_neg (by simp [hinc])] at h1
        linarith
      · exact ih hrest _ _ _ _ l hl' a ha' hinc

theorem seriesFor_late_of_last (L : Imports α) (now t1 : α) (args : List (AnimateArg α))
    (v : View α) (hdur : ∀ o ∈ stagesOf args, 0 ≤ stageDuration o)
    (hlate : ∀ l, (seriesFor L now args v).getLast? = some l → l.start + l.duration ≤ t1) :
    ∀ a ∈ seriesFor L now args v, a.complete = false → a.start + a.duration ≤ t1 := by
  intro a ha hinc
  cases hl : (seriesFor L now args v).getLast? with
  | none =>
    rw [List.getLast?_eq_none_iff.1 hl] at ha
    simp at ha
  | some l =>
    have hend := hlate l hl
    unfold seriesFor at ha hl
    cases hc : getCenter v with
    | none =>
      rw [hc] at ha
      simp at ha
    | some c =>
      rw [hc] at ha hl
      exact le_trans (buildSeries_last_end L v _ _ hdur _ _ _ _ l hl a ha hinc) hend

/-- C16, amended: on a defined view with no active series, a resolution that
is not 0 and a rotation within `[-π, π)`, for a series created by `animate`
whose stages have no anchor, easing functions that return 1 at 1, durations
that are not negative and resolution targets that are defined and not 0: after
any driver ticks and a driver tick at a time not earlier than the end of the
last stage, no series is left; `getCenter()` is the last center target given,
or the center before the call when none was given; `getResolution()` is the
last resolution target, or the resolution before the call; and `getRotation()`
is the last requested rotation brought into `[-π, π)` by whole turns, or the
rotation before the call when none was requested. -/
theorem series_reaches_targets (L : Imports α) (hpi : 0 < L.PI) (hease : L.inAndOut 1 = 1)
    (now t1 : α) (times : List α) (args : List (AnimateArg α)) (hargs : args ≠ [])
    (v : View α) (hwf : WellFormed v) (hidle : v.animations_ = [])
    (c0 : Coordinate α) (r0 : α) (hc : getCenter v = some c0)
    (hr : getResolution v = some r0) (hr0 : r0 ≠ 0)
    (hrot0 : -L.PI ≤ getRotation v) (hrot1 : getRotation v < L.PI)
    (hanchor : ∀ o ∈ stagesOf args, o.anchor = none)
    (heasing : ∀ o ∈ stagesOf args, ∀ f, o.easing = some f → f 1 = 1)
    (hzoom : ∀ o ∈ stagesOf args, ∀ tg, resolutionTarget v o = some tg →
      ∃ t, tg = some t ∧ t ≠ 0)
    (hdur : ∀ o ∈ stagesOf args, 0 ≤ stageDuration o)
    (hlate : ∀ l, (seriesFor L now args v).getLast? = some l →
      l.start + l.duration ≤ t1) :
    (runToEnd L now t1 times args v).animations_ = [] ∧
    getCenter (runToEnd L now t1 times args v)
      = some (match lastCenter (stagesOf args) with
        | some c => c
        | none => c0) ∧
    getResolution (runToEnd L now t1 times args v)
      = (match lastResolution v (stagesOf args) with
        | some target => target
        | none => some r0) ∧
    (∀ o ∈ stagesOf args, ∀ z, o.zoom = some z → resolutionTarget v o
      = some (constrainResolution v (some v.maxResolution_) (z - v.minZoom_) 0)) ∧
    (lastRotation (stagesOf args) = none →
      getRotation (runToEnd L now t1 times args v) = getRotation v) ∧
    (∀ requested, lastRotation (stagesOf args) = some requested →
      -L.PI ≤ getRotation (runToEnd L now t1 times args v) ∧
      getRotation (runToEnd L now t1 times args v) < L.PI ∧
      ∃ k : Int, getRotation (runToEnd L now t1 times args v)
        = requested + (k : α) * (2 * L.PI)) := by
  have hnorm := normalizeRotation_of_mem L hpi (getRotation v) hrot0 hrot1
  have hlate' := seriesFor_late_of_last L now t1 args v hdur hlate
  obtain ⟨h1, h2, h3, h4⟩ := runToEnd_ends L hease now t1 times args hargs v hwf hidle
    c0 r0 hc hr hr0 hanchor heasing hzoom hlate'
  have h4' := h4 hnorm.symm
  rw [threadEnd_center] at h2
  rw [threadEnd_resolution] at h3
  rw [threadEnd_rotation L hpi] at h4'
  refine ⟨h1, h2, h3, ?_, ?_, ?_⟩
  · intro o _ z hz
    simp only [resolutionTarget, hz]
  · intro hnone
    rw [hnone] at h4'
    have h5 : getRotation (runToEnd L now t1 times args v)
        = normalizeRotation L (getRotation v) := h4'
    rw [h5, hnorm]
  · intro requested hsome
    rw [hsome] at h4'
    have h5 : getRotation (runToEnd L now t1 times args v)
        = normalizeRotation L requested := h4'
    rw [h5]
    obtain ⟨n0, n1⟩ := normalizeRotation_range L hpi requested
    refine ⟨n0, n1, ?_⟩
    have h2pi : 0 < 2 * L.PI := by linarith
    obtain ⟨_, _, k, hk⟩ := modulo_spec (requested + L.PI) (2 * L.PI) h2pi
    refine ⟨-k, ?_⟩
    unfold normalizeRotation
    rw [hk]; push_cast; ring

/-- C16 fails as stated: on the defined view with rotation 4, the series of
`animate({rotation: 4})` has no anchor and the default easing, and after a
tick at the end of its stage `getRotation()` is still 4, which is not below π,
whereas the requested rotation normalised into `[-π, π)` is. -/
theorem series_end_counterexample :
    isDef spunView = true ∧ spunView.animations_ = [] ∧
    (rotationOptions (4 : ℚ)).anchor = none ∧ (rotationOptions (4 : ℚ)).easing = none ∧
    evalImports.inAndOut 1 = 1 ∧
    getRotation (runToEnd evalImports 0 1000 [] [AnimateArg.options (rotationOptions 4)]
      spunView) = 4 ∧
    normalizeRotation evalImports 4 < evalImports.PI ∧
    ¬ ((4 : ℚ) < evalImports.PI) := by
  have hpi := evalImports_PI_pos
  have hself := rotationTarget_self evalImports hpi 4
  have hwf : WellFormed spunView := by
    refine ⟨rfl, rfl, fun h => absurd rfl h⟩
  have hsf : seriesFor evalImports 0 [AnimateArg.options (rotationOptions 4)] spunView
      = [makeAnimation evalImports spunView none (rotationOptions 4) 0 (1, 2) (some 2) 4] := rfl
  have hcomp : (makeAnimation evalImports spunView none (rotationOptions 4) 0 (1, 2)
      (some 2) 4).complete = true := by
    rw [complete_makeAnimation]
    refine ⟨fun c hc => ?_, fun tg htg => ?_, fun requested hreq => ?_⟩
    · simp [rotationOptions, AnimationOptions.empty] at hc
    · simp [resolutionTarget, rotationOptions, AnimationOptions.empty, truthy] at htg
    · have : requested = 4 := by
        simp [rotationOptions, AnimationOptions.empty] at hreq
        exact hreq.symm
      rw [this, hself]
  have hplain : ∀ a ∈ seriesFor evalImports 0 [AnimateArg.options (rotationOptions 4)]
      spunView, plainStage a := by
    intro a ha
    rw [hsf, List.mem_singleton] at ha
    rw [ha]
    refine ⟨stageOK_makeAnimation _ _ _ _ _ _ _ _, ?_, ?_⟩
    · rw [(fields_makeAnimation _ _ _ _ _ _ _ _).2.2.2.2.2.2.1]; rfl
    · rw [(fields_makeAnimation _ _ _ _ _ _ _ _).2.2.2.2.2.2.2]
      norm_num [rotationOptions, AnimationOptions.empty, evalImports]
  have hlate : ∀ a ∈ seriesFor evalImports 0 [AnimateArg.options (rotationOptions 4)]
      spunView, a.complete = false → a.start + a.duration ≤ 1000 := by
    intro a ha hc
    rw [hsf, List.mem_singleton] at ha
    rw [ha, hcomp] at hc
    cases hc
  obtain ⟨_, hp⟩ := runToEnd_props evalImports 0 1000 []
    [AnimateArg.options (rotationOptions 4)] (by simp) spunView hwf rfl rfl hplain hlate
  rw [hsf] at hp
  simp only [settleProps, hcomp, if_true] at hp
  refine ⟨rfl, rfl, rfl, rfl, by norm_num [evalImports], ?_,
    (normalizeRotation_range evalImports hpi 4).2, by norm_num [evalImports]⟩
  exact congrArg (fun p => p.2.2) hp

theorem tick_range (L : Imports α) (now : α) (v : View α) (hwf : WellFormed v) :
    getMinResolution (updateAnimations_ L now v).view = getMinResolution v ∧
    getMaxResolution (updateAnimations_ L now v).view = getMaxResolution v := by
  by_cases ha : getAnimating v = true
  · obtain ⟨c, r, ρ, heq, _⟩ := updateAnimations_spec L now v ha hwf.1
    rw [heq]
    exact ⟨rfl, rfl⟩
  · have ha' : getAnimating v = false := by simpa using ha
    rw [updateAnimations_idle L now v ha']
    exact ⟨rfl, rfl⟩

theorem ticks_range (L : Imports α) (times : List α) :
    ∀ v : View α, WellFormed v →
      WellFormed (runOps L (times.map Op.tick) v).view ∧
      getMinResolution (runOps L (times.map Op.tick) v).view = getMinResolution v ∧
      getMaxResolution (runOps L (times.map Op.tick) v).view = getMaxResolution v := by
  induction times with
  | nil => intro v hwf; exact ⟨hwf, rfl, rfl⟩
  | cons t rest ih =>
    intro v hwf
    obtain ⟨herr, hwf1⟩ := wellFormed_tick L t v hwf
    obtain ⟨h1, h2⟩ := tick_range L t v hwf
    simp only [List.map_cons, runOps, Op.run, Outcome.andThen, herr]
    obtain ⟨i0, i1, i2⟩ := ih _ hwf1
    exact ⟨i0, i1.trans h1, i2.trans h2⟩

theorem runToEnd_range (L : Imports α) (now t1 : α) (times : List α)
    (args : List (AnimateArg α)) (hargs : args ≠ []) (v : View α) (hwf : WellFormed v)
    (hdef : isDef v = true) :
    getMinResolution (runToEnd L now t1 times args v) = getMinResolution v ∧
    getMaxResolution (runToEnd L now t1 times args v) = getMaxResolution v := by
  have hdef0 := hdef
  simp only [isDef, Bool.and_eq_true, Option.isSome_iff_exists] at hdef
  obtain ⟨⟨c, hcen⟩, _⟩ := hdef
  obtain ⟨_, hwfa⟩ := wellFormed_animate L now args hargs v hwf
  have hsf : seriesFor L now args v = buildSeries L v (callbackOf args)
      ((args.take (animationCount args)).map AnimateArg.asOptions)
      now c (getResolution v) (getRotation v) := by
    simp only [seriesFor, getCenter, hcen]
  have hok : seriesOK (some (seriesFor L now args v)) = true := by
    rw [hsf]
    exact seriesOK_buildSeries L v _ _ (stages_ne_nil args hargs) _ _ _ _
  have hwf2 : WellFormed (pushSeries v (seriesFor L now args v)) :=
    wellFormed_push v hwf hdef0 _ hok
  have hanimate : animate L now args v
      = updateAnimations_ L now (pushSeries v (seriesFor L now args v)) := by
    rw [hsf]
    simp only [animate, hdef0, Bool.not_true, Bool.false_eq_true, if_false, getCenter, hcen,
      pushSeries]
  have ha : getMinResolution (animate L now args v).view = getMinResolution v ∧
      getMaxResolution (animate L now args v).view = getMaxResolution v := by
    rw [hanimate]
    exact tick_range L now _ hwf2
  obtain ⟨hwft, t1', t2'⟩ := ticks_range L times _ hwfa
  obtain ⟨e1, e2⟩ := tick_range L t1 _ hwft
  unfold runToEnd
  exact ⟨e1.trans (t1'.trans ha.1), e2.trans (t2'.trans ha.2)⟩

theorem lastResolution_mem (v : View α) (stages : List (AnimationOptions α))
    (tg : Option α) (h : lastResolution v stages = some tg) :
    ∃ o ∈ stages, resolutionTarget v o = some tg := by
  have hmem := List.mem_of_getLast?_eq_some h
  obtain ⟨o, ho, hr⟩ := List.mem_filterMap.mp hmem
  exact ⟨o, ho, hr⟩

theorem descending_bounds (table : List α) (h : table.Sorted (· ≥ ·)) :
    ∀ a b, table.head? = some a → table.getLast? = some b →
      ∀ x ∈ table, b ≤ x ∧ x ≤ a := by
  induction table with
  | nil => intro a b ha; simp at ha
  | cons y ys ih =>
    intro a b ha hb x hx
    have hya : y = a := by simpa using ha
    subst hya
    obtain ⟨hall, hys⟩ := List.sorted_cons.1 h
    cases ys with
    | nil =>
      have hby : y = b := by simpa using hb
      subst hby
      have hxy : x = y := by simpa using hx
      subst hxy
      exact ⟨le_refl _, le_refl _⟩
    | cons z zs =>
      have hb' : (z :: zs).getLast? = some b := by
        rw [List.getLast?_cons_cons] at hb
        exact hb
      have hbmem := List.mem_of_getLast?_eq_some hb'
      rcases List.mem_cons.1 hx with rfl | hx'
      · exact ⟨hall b hbmem, le_refl _⟩
      · exact ⟨(ih hys z b rfl hb' x hx').1, hall x hx'⟩

theorem snapToResolutions_mem (table : List α) (hne : table ≠ []) (r delta direction : α) :
    ∃ t ∈ table, createSnapToResolutions table (some r) delta direction = some t := by
  have hlen : 1 ≤ table.length := by
    cases table with
    | nil => exact absurd rfl hne
    | cons _ _ => simp
  have hlen' : (1 : α) ≤ (table.length : α) := by exact_mod_cast hlen
  have hidx : ⌊max 0 (min ((linearFindNearest table r direction : α) + delta)
      ((table.length : α) - 1))⌋₊ < table.length := by
    rw [Nat.floor_lt (le_max_left _ _)]
    have h1 : max 0 (min ((linearFindNearest table r direction : α) + delta)
        ((table.length : α) - 1)) ≤ (table.length : α) - 1 :=
      max_le (by linarith) (min_le_right _ _)
    linarith
  refine ⟨table.get ⟨_, hidx⟩, List.get_mem _ _ _, ?_⟩
  simp only [createSnapToResolutions]
  exact List.get?_eq_get hidx

theorem snapToPower_range (L : Imports α) (f maxResolution maxLevel : α)
    (hpow : SteadyPower L f) (hmax : 0 ≤ maxResolution)
    (hle : maxResolution / L.pow f maxLevel ≤ maxResolution) (r delta direction : α) :
    ∃ t, createSnapToPower L f maxResolution maxLevel (some r) delta direction = some t ∧
      maxResolution / L.pow f maxLevel ≤ t ∧ t ≤ maxResolution := by
  simp only [createSnapToPower]
  refine ⟨_, rfl, ?_⟩
  generalize (if direction < 0 then ((⌊L.log (maxResolution / r) / L.log f⌋ : Int) : α)
    else if direction > 0 then ((⌈L.log (maxResolution / r) / L.log f⌉ : Int) : α)
    else ((⌊L.log (maxResolution / r) / L.log f + 1 / 2⌋ : Int) : α)) = rounded
  by_cases hlev : 0 ≤ maxLevel
  · have h0 : 0 ≤ min (max (rounded + delta) 0) maxLevel := le_min (le_max_right _ _) hlev
    have h1 : min (max (rounded + delta) 0) maxLevel ≤ maxLevel := min_le_right _ _
    have p0 : 1 ≤ L.pow f (min (max (rounded + delta) 0) maxLevel) := by
      rw [← hpow.1]
      exact hpow.2 _ _ (le_refl _) h0
    have p1 := hpow.2 _ _ h0 h1
    exact ⟨div_le_div_of_nonneg_left hmax (by linarith) p1, div_le_self hmax p0⟩
  · have hneg : maxLevel < 0 := lt_of_not_le hlev
    have hnew : min (max (rounded + delta) 0) maxLevel = maxLevel :=
      min_eq_right (le_trans hneg.le (le_max_right _ _))
    rw [hnew]
    exact ⟨le_refl _, hle⟩

theorem zoomTarget_range (L : Imports α) (v : View α)
    (hmodel : (∃ table, TableModel v table ∧ table.Sorted (· ≥ ·)) ∨
      (∃ maxLevel : Int, PowerLaw L v maxLevel ∧ SteadyPower L v.zoomFactor_))
    (hpos : 0 < getMinResolution v) (hle : getMinResolution v ≤ getMaxResolution v)
    (delta : α) :
    ∃ t, constrainResolution v (some v.maxResolution_) delta 0 = some t ∧
      getMinResolution v ≤ t ∧ t ≤ getMaxResolution v := by
  unfold getMinResolution getMaxResolution at *
  rcases hmodel with ⟨table, ⟨_, hcon, hhead, hlast⟩, hsorted⟩ | ⟨maxLevel, ⟨_, hcon, hminr⟩, hpow⟩
  · have hne : table ≠ [] := by
      intro h
      rw [h] at hhead
      simp at hhead
    obtain ⟨t, ht, heq⟩ := snapToResolutions_mem table hne v.maxResolution_ delta 0
    refine ⟨t, ?_, descending_bounds table hsorted _ _ hhead hlast t ht⟩
    rw [constrainResolution, hcon]
    exact heq
  · rw [constrainResolution, hcon, hminr]
    rw [hminr] at hle
    exact snapToPower_range L _ _ _ hpow (by linarith [hminr ▸ hpos]) hle _ _ _

theorem seriesFor_last_le_total (L : Imports α) (now : α) (args : List (AnimateArg α))
    (v : View α) (hdur : ∀ o ∈ stagesOf args, 0 ≤ stageDuration o)
    (l : ViewAnimation α) (hl : (seriesFor L now args v).getLast? = some l) :
    l.start + l.duration ≤ now + totalDuration (stagesOf args) := by
  have hmem := List.mem_of_getLast?_eq_some hl
  unfold seriesFor at hmem
  cases hc : getCenter v with
  | none =>
    rw [hc] at hmem
    simp at hmem
  | some c =>
    rw [hc] at hmem
    exact buildSeries_late L v _ _ hdur _ _ _ _ l hmem

/-- C17 fails as stated, in two ways.  `tableView (1, 2) 2` has its resolution
2 within `[1, 4]`; after `animate({resolution: 1000})` and a tick at the end of
the stage no series is left and `getResolution()` is 1000, above
`getMaxResolution()`.  And `shiftedView`, whose table `[4, 2, 1]` is read from
the minimum zoom 1 (for these options `createResolutionConstraint_` returns
the maximum resolution 2, the entry at the index 1), has its resolution 2
within `[1, 2]`; after `animate({zoom: 0})` and a tick at the end of the stage
`getResolution()` is 4, the first entry, above `getMaxResolution()`. -/
theorem resolution_range_counterexample :
    (getMinResolution (tableView (some (1, 2)) (some 2)) ≤ 2 ∧
     (2 : ℚ) ≤ getMaxResolution (tableView (some (1, 2)) (some 2)) ∧
     getResolution (tableView (some (1, 2)) (some 2)) = some 2 ∧
     (runToEnd evalImports 0 1000 [] [AnimateArg.options farOptions]
       (tableView (some (1, 2)) (some 2))).animations_ = [] ∧
     getResolution (runToEnd evalImports 0 1000 [] [AnimateArg.options farOptions]
       (tableView (some (1, 2)) (some 2))) = some 1000 ∧
     getMaxResolution (runToEnd evalImports 0 1000 [] [AnimateArg.options farOptions]
       (tableView (some (1, 2)) (some 2))) = 4 ∧
     ¬ ((1000 : ℚ) ≤ 4)) ∧
    ((∃ info : ConstraintInfo ℚ,
       createResolutionConstraint_ evalImports evalModules shiftedOptions = some info ∧
       info.maxResolution = shiftedView.maxResolution_ ∧
       info.minResolution = shiftedView.minResolution_ ∧
       info.minZoom = shiftedView.minZoom_) ∧
     getMinResolution shiftedView ≤ 2 ∧ (2 : ℚ) ≤ getMaxResolution shiftedView ∧
     getResolution shiftedView = some 2 ∧
     (runToEnd evalImports 0 1000 [] [AnimateArg.options (zoomOptions 0)]
       shiftedView).animations_ = [] ∧
     getResolution (runToEnd evalImports 0 1000 [] [AnimateArg.options (zoomOptions 0)]
       shiftedView) = some 4 ∧
     getMaxResolution (runToEnd evalImports 0 1000 [] [AnimateArg.options (zoomOptions 0)]
       shiftedView) = 2 ∧
     ¬ ((4 : ℚ) ≤ 2)) := by
  refine ⟨?_, ?_⟩
  · have hst : stagesOf [AnimateArg.options farOptions] = [farOptions] := rfl
    have htg : resolutionTarget (tableView (some (1, 2)) (some 2)) farOptions
        = some (some 1000) := by
      norm_num [resolutionTarget, farOptions, AnimationOptions.empty, truthy]
    obtain ⟨h1, _, h3, _⟩ := runToEnd_targets evalImports (by norm_num [evalImports]) 0 1000 []
      [AnimateArg.options farOptions] (by simp) (tableView (some (1, 2)) (some 2))
      (tableView_wellFormed _ _) rfl (1, 2) 2 rfl rfl (by norm_num)
      (by rw [hst]; intro o ho; rw [List.mem_singleton] at ho; rw [ho]; rfl)
      (by
        rw [hst]; intro o ho f hf; rw [List.mem_singleton] at ho
        rw [ho] at hf
        simp [farOptions, AnimationOptions.empty] at hf)
      (by
        rw [hst]; intro o ho tg h; rw [List.mem_singleton] at ho
        rw [ho, htg] at h
        exact ⟨1000, (Option.some.inj h).symm, by norm_num⟩)
      (by
        rw [hst]; intro o ho; rw [List.mem_singleton] at ho
        rw [ho]
        norm_num [stageDuration, farOptions, AnimationOptions.empty])
      (by rw [hst]; norm_num [totalDuration, stageDuration, farOptions, AnimationOptions.empty])
    obtain ⟨_, hmax⟩ := runToEnd_range evalImports 0 1000 [] [AnimateArg.options farOptions]
      (by simp) (tableView (some (1, 2)) (some 2)) (tableView_wellFormed _ _) rfl
    rw [hst] at h3
    simp only [threadEnd, htg] at h3
    refine ⟨by norm_num [getMinResolution, tableView], by norm_num [getMaxResolution, tableView],
      rfl, h1, h3, ?_, by norm_num⟩
    rw [hmax]; rfl
  · have hst : stagesOf [AnimateArg.options (zoomOptions (0 : ℚ))] = [zoomOptions 0] := rfl
    have htg : resolutionTarget shiftedView (zoomOptions 0) = some (some 4) := by
      norm_num [resolutionTarget, zoomOptions, AnimationOptions.empty, constrainResolution,
        shiftedView, tableView, tableConstraints, createSnapToResolutions, linearFindNearest,
        findNearestFrom]
    have hwf : WellFormed shiftedView := wellFormed_of_empty _ rfl rfl
    obtain ⟨h1, _, h3, _⟩ := runToEnd_targets evalImports (by norm_num [evalImports]) 0 1000 []
      [AnimateArg.options (zoomOptions 0)] (by simp) shiftedView hwf rfl (1, 2) 2 rfl rfl
      (by norm_num)
      (by rw [hst]; intro o ho; rw [List.mem_singleton] at ho; rw [ho]; rfl)
      (by
        rw [hst]; intro o ho f hf; rw [List.mem_singleton] at ho
        rw [ho] at hf
        simp [zoomOptions, AnimationOptions.empty] at hf)
      (by
        rw [hst]; intro o ho tg h; rw [List.mem_singleton] at ho
        rw [ho, htg] at h
        exact ⟨4, (Option.some.inj h).symm, by norm_num⟩)
      (by
        rw [hst]; intro o ho; rw [List.mem_singleton] at ho
        rw [ho]
        norm_num [stageDuration, zoomOptions, AnimationOptions.empty])
      (by rw [hst]; norm_num [totalDuration, stageDuration, zoomOptions, AnimationOptions.empty])
    obtain ⟨_, hmax⟩ := runToEnd_range evalImports 0 1000 [] [AnimateArg.options (zoomOptions 0)]
      (by simp) shiftedView hwf rfl
    rw [threadEnd_resolution] at h3
    have hlr : lastResolution shiftedView (stagesOf [AnimateArg.options (zoomOptions (0 : ℚ))])
        = some (some 4) := by
      rw [hst]
      simp only [lastResolution, List.filterMap_cons, htg, List.filterMap_nil,
        List.getLast?_singleton]
    rw [hlr] at h3
    refine ⟨⟨_, rfl, ?_, ?_, ?_⟩, by norm_num [getMinResolution, shiftedView, tableView],
      by norm_num [getMaxResolution, shiftedView, tableView], rfl, h1, h3, ?_, by norm_num⟩
    · norm_num [shiftedView, shiftedOptions, ViewOptions.empty, index]
    · norm_num [shiftedView, tableView, shiftedOptions, ViewOptions.empty, index]
    · norm_num [shiftedView, shiftedOptions, ViewOptions.empty]
    · rw [hmax]; rfl

/-- C17, amended: on a defined view with no active series and a positive
minimum resolution, whose resolution model is a table of resolutions in
descending order with the maximum and the minimum resolution as its first and
last entries, or the power-law model with `Math.pow(zoomFactor, y)` equal to 1
at 0 and not decreasing in `y ≥ 0`, and whose resolution is within
`[getMinResolution(), getMaxResolution()]`: after a series created by `animate`
(stages without anchor, easing functions that return 1 at 1, durations that
are not negative) in which every resolution given as `options.resolution`, in a
stage without a zoom, is within that range, any driver ticks and a driver tick
at a time not earlier than the end of the last stage, no series is left and
`getResolution()` is within `[getMinResolution(), getMaxResolution()]`.  The
targets of the zooms are constrained by the model and need no assumption. -/
theorem series_end_resolution_in_range (L : Imports α) (hease : L.inAndOut 1 = 1)
    (now t1 : α) (times : List α) (args : List (AnimateArg α)) (hargs : args ≠ [])
    (v : View α) (hwf : WellFormed v) (hidle : v.animations_ = [])
    (hmodel : (∃ table, TableModel v table ∧ table.Sorted (· ≥ ·)) ∨
      (∃ maxLevel : Int, PowerLaw L v maxLevel ∧ SteadyPower L v.zoomFactor_))
    (hpos : 0 < getMinResolution v)
    (c0 : Coordinate α) (r0 : α) (hc : getCenter v = some c0)
    (hr : getResolution v = some r0)
    (hmin : getMinResolution v ≤ r0) (hmax : r0 ≤ getMaxResolution v)
    (hanchor : ∀ o ∈ stagesOf args, o.anchor = none)
    (heasing : ∀ o ∈ stagesOf args, ∀ f, o.easing = some f → f 1 = 1)
    (hgiven : ∀ o ∈ stagesOf args, o.zoom = none → ∀ t, o.resolution = some t → t ≠ 0 →
      getMinResolution v ≤ t ∧ t ≤ getMaxResolution v)
    (hdur : ∀ o ∈ stagesOf args, 0 ≤ stageDuration o)
    (hlate : ∀ l, (seriesFor L now args v).getLast? = some l → l.start + l.duration ≤ t1) :
    (runToEnd L now t1 times args v).animations_ = [] ∧
    ∃ r, getResolution (runToEnd L now t1 times args v) = some r ∧
      getMinResolution (runToEnd L now t1 times args v) ≤ r ∧
      r ≤ getMaxResolution (runToEnd L now t1 times args v) := by
  have hc' : v.center = some c0 := hc
  have hr' : v.resolution = some r0 := hr
  have hdef : isDef v = true := by simp [isDef, hc', hr']
  have hle : getMinResolution v ≤ getMaxResolution v := le_trans hmin hmax
  have hr0 : r0 ≠ 0 := ne_of_gt (lt_of_lt_of_le hpos hmin)
  have htargets : ∀ o ∈ stagesOf args, ∀ tg, resolutionTarget v o = some tg →
      ∃ t, tg = some t ∧ t ≠ 0 ∧ getMinResolution v ≤ t ∧ t ≤ getMaxResolution v := by
    intro o ho tg h
    unfold resolutionTarget at h
    cases hz : o.zoom with
    | some z =>
      rw [hz] at h
      simp only [Option.some.injEq] at h
      obtain ⟨t, ht, hlo, hhi⟩ := zoomTarget_range L v hmodel hpos hle (z - v.minZoom_)
      exact ⟨t, by rw [← h, ht], ne_of_gt (lt_of_lt_of_le hpos hlo), hlo, hhi⟩
    | none =>
      rw [hz] at h
      simp only at h
      cases hres : o.resolution with
      | none =>
        rw [hres] at h
        simp [truthy] at h
      | some t =>
        rw [hres] at h
        by_cases ht0 : t = 0
        · simp [truthy, ht0] at h
        · simp only [truthy, ne_eq, ht0, not_false_eq_true, decide_True, if_true,
            Option.some.injEq] at h
          obtain ⟨hlo, hhi⟩ := hgiven o ho hz t hres ht0
          exact ⟨t, h.symm, ht0, hlo, hhi⟩
  have hzoom : ∀ o ∈ stagesOf args, ∀ tg, resolutionTarget v o = some tg →
      ∃ t, tg = some t ∧ t ≠ 0 := by
    intro o ho tg h
    obtain ⟨t, ht, ht0, _⟩ := htargets o ho tg h
    exact ⟨t, ht, ht0⟩
  have hlate' := seriesFor_late_of_last L now t1 args v hdur hlate
  obtain ⟨h1, _, h3, _⟩ := runToEnd_ends L hease now t1 times args hargs v hwf hidle
    c0 r0 hc hr hr0 hanchor heasing hzoom hlate'
  obtain ⟨e1, e2⟩ := runToEnd_range L now t1 times args hargs v hwf hdef
  rw [threadEnd_resolution] at h3
  rw [e1, e2]
  refine ⟨h1, ?_⟩
  cases hl : lastResolution v (stagesOf args) with
  | none =>
    rw [hl] at h3
    exact ⟨r0, h3, hmin, hmax⟩
  | some tg =>
    rw [hl] at h3
    obtain ⟨o, ho, hres⟩ := lastResolution_mem v _ tg hl
    obtain ⟨t, ht, _, hlo, hhi⟩ := htargets o ho tg hres
    refine ⟨t, ?_, hlo, hhi⟩
    rw [h3]; exact ht

theorem flight_stages : stagesOf [AnimateArg.options flightOptions] = [flightOptions] := rfl

theorem flight_target :
    resolutionTarget (tableView (some (1, 2)) (some 2)) flightOptions = some (some 1) := by
  norm_num [resolutionTarget, flightOptions, AnimationOptions.empty, constrainResolution,
    tableView, tableConstraints, createSnapToResolutions, linearFindNearest, findNearestFrom]

theorem flight_last (l : ViewAnimation ℚ)
    (hl : (seriesFor evalImports 0 [AnimateArg.options flightOptions]
      (tableView (some (1, 2)) (some 2))).getLast? = some l) :
    l.start + l.duration ≤ 500 := by
  have hs : seriesFor evalImports 0 [AnimateArg.options flightOptions]
      (tableView (some (1, 2)) (some 2))
      = [makeAnimation evalImports (tableView (some (1, 2)) (some 2)) none flightOptions 0
          (1, 2) (some 2) 0] := rfl
  rw [hs, List.getLast?_singleton] at hl
  obtain ⟨t1, t2⟩ := timing_makeAnimation evalImports (tableView (some (1, 2)) (some 2)) none
    flightOptions 0 (1, 2) (some 2) 0
  rw [← Option.some.inj hl, t1, t2]
  norm_num [stageDuration, flightOptions, AnimationOptions.empty]

/-- C16, amended, on `tableView (1, 2) 2` with the double `Math.PI`: a stage
to center `(3, 4)`, zoom 2 and rotation 1 over 500 ms started at time 0, a
tick at 250 and a tick at 500. -/
theorem series_reaches_targets_witness :
    evalImports.inAndOut 1 = 1 ∧
    (runToEnd evalImports 0 500 [250] [AnimateArg.options flightOptions]
      (tableView (some (1, 2)) (some 2))).animations_ = [] ∧
    getCenter (runToEnd evalImports 0 500 [250] [AnimateArg.options flightOptions]
      (tableView (some (1, 2)) (some 2))) = some (3, 4) ∧
    getResolution (runToEnd evalImports 0 500 [250] [AnimateArg.options flightOptions]
      (tableView (some (1, 2)) (some 2))) = some 1 ∧
    getRotation (runToEnd evalImports 0 500 [250] [AnimateArg.options flightOptions]
      (tableView (some (1, 2)) (some 2))) < evalImports.PI := by
  have hpi := evalImports_PI_pos
  have hst := flight_stages
  have htg := flight_target
  have hease : evalImports.inAndOut 1 = 1 := by norm_num [evalImports]
  obtain ⟨h1, h2, h3, _, _, h6⟩ := series_reaches_targets evalImports hpi hease 0 500 [250]
    [AnimateArg.options flightOptions] (by simp) (tableView (some (1, 2)) (some 2))
    (tableView_wellFormed _ _) rfl (1, 2) 2 rfl rfl (by norm_num)
    (by
      have h0 : getRotation (tableView (some (1, 2)) (some 2)) = 0 := rfl
      rw [h0]; linarith)
    (by
      have h0 : getRotation (tableView (some (1, 2)) (some 2)) = 0 := rfl
      rw [h0]; exact hpi)
    (by rw [hst]; intro o ho; rw [List.mem_singleton] at ho; rw [ho]; rfl)
    (by
      rw [hst]; intro o ho f hf; rw [List.mem_singleton] at ho
      rw [ho] at hf
      simp [flightOptions, AnimationOptions.empty] at hf)
    (by
      rw [hst]; intro o ho tg h; rw [List.mem_singleton] at ho
      rw [ho, htg] at h
      exact ⟨1, (Option.some.inj h).symm, by norm_num⟩)
    (by
      rw [hst]; intro o ho; rw [List.mem_singleton] at ho
      rw [ho]
      norm_num [stageDuration, flightOptions, AnimationOptions.empty])
    flight_last
  have hlc : lastCenter (stagesOf [AnimateArg.options flightOptions]) = some (3, 4) := rfl
  have hlr : lastResolution (tableView (some (1, 2)) (some 2))
      (stagesOf [AnimateArg.options flightOptions]) = some (some 1) := by
    rw [hst]
    simp only [lastResolution, List.filterMap_cons, htg, List.filterMap_nil,
      List.getLast?_singleton]
  have hlρ : lastRotation (stagesOf [AnimateArg.options flightOptions]) = some 1 := rfl
  rw [hlc] at h2
  rw [hlr] at h3
  exact ⟨hease, h1, h2, h3, (h6 1 hlρ).2.1⟩

theorem return_stages : stagesOf returnArgs = [flightOptions, scaleOptions 2 500] := rfl

theorem tableView_model (center : Option (Coordinate ℚ)) (resolution : Option ℚ) :
    TableModel (tableView center resolution) [4, 2, 1] := ⟨rfl, rfl, rfl, rfl⟩

theorem return_resolution :
    getResolution (runToEnd evalImports 0 1000 [250, 500, 750] returnArgs
      (tableView (some (1, 2)) (some 2))) = some 2 := by
  have hst := return_stages
  have htg := flight_target
  have htg2 : resolutionTarget (tableView (some (1, 2)) (some 2)) (scaleOptions 2 500)
      = some (some 2) := by
    norm_num [resolutionTarget, scaleOptions, AnimationOptions.empty, truthy]
  obtain ⟨_, _, h3, _⟩ := runToEnd_targets evalImports (by norm_num [evalImports]) 0 1000
    [250, 500, 750] returnArgs (by simp [returnArgs]) (tableView (some (1, 2)) (some 2))
    (tableView_wellFormed _ _) rfl (1, 2) 2 rfl rfl (by norm_num)
    (by
      rw [hst]; intro o ho
      simp only [List.mem_cons, List.mem_singleton, List.not_mem_nil, or_false] at ho
      rcases ho with rfl | rfl <;> rfl)
    (by
      rw [hst]; intro o ho f hf
      simp only [List.mem_cons, List.mem_singleton, List.not_mem_nil, or_false] at ho
      rcases ho with rfl | rfl
      · simp [flightOptions, AnimationOptions.empty] at hf
      · simp only [scaleOptions, AnimationOptions.empty, Option.some.injEq] at hf
        rw [← hf])
    (by
      rw [hst]; intro o ho tg h
      simp only [List.mem_cons, List.mem_singleton, List.not_mem_nil, or_false] at ho
      rcases ho with rfl | rfl
      · rw [htg] at h
        exact ⟨1, (Option.some.inj h).symm, by norm_num⟩
      · rw [htg2] at h
        exact ⟨2, (Option.some.inj h).symm, by norm_num⟩)
    (by
      rw [hst]; intro o ho
      simp only [List.mem_cons, List.mem_singleton, List.not_mem_nil, or_false] at ho
      rcases ho with rfl | rfl <;>
        norm_num [stageDuration, flightOptions, scaleOptions, AnimationOptions.empty])
    (by
      rw [hst]
      norm_num [totalDuration, stageDuration, flightOptions, scaleOptions,
        AnimationOptions.empty])
  rw [threadEnd_resolution] at h3
  have hlr : lastResolution (tableView (some (1, 2)) (some 2)) (stagesOf returnArgs)
      = some (some 2) := by
    rw [hst]
    simp only [lastResolution, List.filterMap_cons, htg, htg2, List.filterMap_nil]
    rfl
  rw [hlr] at h3
  exact h3

/-- C17, amended, on `tableView (1, 2) 2`, whose table `[4, 2, 1]` spans the
range `[1, 4]`: a stage to zoom 2, resolution 1, then a stage to the resolution
2, of 500 ms each, started at time 0, ticks at 250, 500 and 750 and a tick at
1000: no series is left and `getResolution()` is 2. -/
theorem series_end_resolution_in_range_witness :
    TableModel (tableView (some (1, 2)) (some 2)) [4, 2, 1] ∧
    getMinResolution (tableView (some (1, 2)) (some 2)) ≤ 2 ∧
    (2 : ℚ) ≤ getMaxResolution (tableView (some (1, 2)) (some 2)) ∧
    (runToEnd evalImports 0 1000 [250, 500, 750] returnArgs
      (tableView (some (1, 2)) (some 2))).animations_ = [] ∧
    getResolution (runToEnd evalImports 0 1000 [250, 500, 750] returnArgs
      (tableView (some (1, 2)) (some 2))) = some 2 ∧
    getMinResolution (runToEnd evalImports 0 1000 [250, 500, 750] returnArgs
      (tableView (some (1, 2)) (some 2))) ≤ 2 ∧
    (2 : ℚ) ≤ getMaxResolution (runToEnd evalImports 0 1000 [250, 500, 750] returnArgs
      (tableView (some (1, 2)) (some 2))) := by
  have hst := return_stages
  have hmin : getMinResolution (tableView (some (1, 2)) (some 2)) ≤ 2 := by
    norm_num [getMinResolution, tableView]
  have hmax : (2 : ℚ) ≤ getMaxResolution (tableView (some (1, 2)) (some 2)) := by
    norm_num [getMaxResolution, tableView]
  have hval := return_resolution
  obtain ⟨h1, r, hr, hlo, hhi⟩ := series_end_resolution_in_range evalImports
    (by norm_num [evalImports]) 0 1000 [250, 500, 750] returnArgs (by simp [returnArgs])
    (tableView (some (1, 2)) (some 2)) (tableView_wellFormed _ _) rfl
    (Or.inl ⟨[4, 2, 1], tableView_model _ _, by norm_num [List.Sorted]⟩)
    (by norm_num [getMinResolution, tableView])
    (1, 2) 2 rfl rfl hmin hmax
    (by
      rw [hst]; intro o ho
      simp only [List.mem_cons, List.mem_singleton, List.not_mem_nil, or_false] at ho
      rcases ho with rfl | rfl <;> rfl)
    (by
      rw [hst]; intro o ho f hf
      simp only [List.mem_cons, List.mem_singleton, List.not_mem_nil, or_false] at ho
      rcases ho with rfl | rfl
      · simp [flightOptions, AnimationOptions.empty] at hf
      · simp only [scaleOptions, AnimationOptions.empty, Option.some.injEq] at hf
        rw [← hf])
    (by
      rw [hst]; intro o ho hz t ht _
      simp only [List.mem_cons, List.mem_singleton, List.not_mem_nil, or_false] at ho
      rcases ho with rfl | rfl
      · simp [flightOptions, AnimationOptions.empty] at hz
      · simp only [scaleOptions, AnimationOptions.empty, Option.some.injEq] at ht
        rw [← ht]
        constructor <;> norm_num [getMinResolution, getMaxResolution, tableView])
    (by
      rw [hst]; intro o ho
      simp only [List.mem_cons, List.mem_singleton, List.not_mem_nil, or_false] at ho
      rcases ho with rfl | rfl <;>
        norm_num [stageDuration, flightOptions, scaleOptions, AnimationOptions.empty])
    (by
      intro l hl
      have h := seriesFor_last_le_total evalImports 0 returnArgs
        (tableView (some (1, 2)) (some 2))
        (by
          rw [hst]; intro o ho
          simp only [List.mem_cons, List.mem_singleton, List.not_mem_nil, or_false] at ho
          rcases ho with rfl | rfl <;>
            norm_num [stageDuration, flightOptions, scaleOptions, AnimationOptions.empty])
        l hl
      rw [hst] at h
      norm_num [totalDuration, stageDuration, flightOptions, scaleOptions,
        AnimationOptions.empty] at h
      exact h)
  rw [hval] at hr
  have hr2 : r = 2 := (Option.some.inj hr).symm
  subst hr2
  exact ⟨tableView_model _ _, hmin, hmax, h1, hval, hlo, hhi⟩

end Completion

/-! ## Anchors and centring (C24, C25) -/

section Anchors

set_option linter.unusedSectionVars false

variable {α : Type} [LinearOrderedField α] [FloorRing α]

/-- A setter on a view that satisfies the invariant: the call does not raise,
the three properties are those of the view the setter wrote to, what the
constructor configured is untouched, and the invariant holds after it. -/
theorem cancelIfAnimating_props (v w : View α) (hwf : WellFormed v)
    (hh : w.hints_ = v.hints_) (ha : w.animations_ = v.animations_)
    (hc : w.calls = v.calls) :
    (cancelIfAnimating w).error = none ∧
    (cancelIfAnimating w).view.center = w.center ∧
    (cancelIfAnimating w).view.resolution = w.resolution ∧
    (cancelIfAnimating w).view.rotation = w.rotation ∧
    (cancelIfAnimating w).view.animations_ = [] ∧
    (cancelIfAnimating w).view.calls = v.calls ++ callbackCalls false v.animations_ ∧
    (cancelIfAnimating w).view.constraints_ = w.constraints_ ∧
    (cancelIfAnimating w).view.maxResolution_ = w.maxResolution_ ∧
    (cancelIfAnimating w).view.minResolution_ = w.minResolution_ ∧
    (cancelIfAnimating w).view.zoomFactor_ = w.zoomFactor_ ∧
    (cancelIfAnimating w).view.minZoom_ = w.minZoom_ ∧
    (cancelIfAnimating w).view.resolutions_ = w.resolutions_ ∧
    WellFormed (cancelIfAnimating w).view := by
  obtain ⟨_, hwf'⟩ := wellFormed_setter v w hwf hh ha hc
  by_cases hne : v.animations_ = []
  · have hidle : getAnimating w = false := by
      simp [getAnimating, Hints.get, hh, hwf.2.1, hne]
    rw [cancelIfAnimating_idle w hidle] at hwf' ⊢
    refine ⟨rfl, rfl, rfl, rfl, ha.trans hne, ?_, rfl, rfl, rfl, rfl, rfl, rfl, hwf'⟩
    simp [Outcome.ok, hc, hne, callbackCalls]
  · obtain ⟨h1, h2, h3, h4, h5, _, _, h8⟩ := cancelIfAnimating_active v w hwf hne hh ha hc
    have hanim : getAnimating w = true := by
      have := wellFormed_animating v hwf hne
      simpa [getAnimating, hh] using this
    have hfirst : w.animations_.all hasFirstStage = true := by
      rw [ha]; exact seriesOK_hasFirstStage _ hwf.1
    refine ⟨h1, h2, h3, h4, h5, h8, ?_, ?_, ?_, ?_, ?_, ?_, hwf'⟩ <;>
      simp only [cancelIfAnimating, hanim, if_true, cancelAnimations_spec w hfirst]

theorem calculateCenterZoom_properties (v : View α) (resolution : α)
    (anchor : Coordinate α) :
    v.properties.calculateCenterZoom resolution anchor
      = Except.ok (calculateCenterZoom v resolution anchor) := by
  unfold View.properties Properties.calculateCenterZoom calculateCenterZoom getCenter
    getResolution
  cases v.center <;> cases v.resolution <;> rfl

/-- C25: for a view with center `c` and resolution `r`, not 0,
`calculateCenterZoom(r', a)` returns the center `c'` with
`a - c' = r' * (a - c) / r` in each coordinate; it returns `c` when `a = c`
and when `r' = r`; it returns `undefined` when the center or the resolution is
`undefined`; it is a function of the properties and writes nothing.  (On a
center that is `null`, with a resolution, it raises a `TypeError`.)  On a view
of the model it is the `calculateCenterZoom` the driver calls. -/
theorem calculateCenterZoom_spec (p : Properties α) (resolution : α)
    (anchor : Coordinate α) :
    (∀ c r, p.center = Held.value c → p.resolution = some r → r ≠ 0 →
      ∃ c', p.calculateCenterZoom resolution anchor = Except.ok (some c') ∧
        anchor.1 - c'.1 = resolution * (anchor.1 - c.1) / r ∧
        anchor.2 - c'.2 = resolution * (anchor.2 - c.2) / r ∧
        (anchor = c → c' = c) ∧ (resolution = r → c' = c)) ∧
    (p.center = Held.undefined →
      p.calculateCenterZoom resolution anchor = Except.ok none) ∧
    (p.resolution = none → p.calculateCenterZoom resolution anchor = Except.ok none) ∧
    (∀ r, p.center = Held.null → p.resolution = some r →
      p.calculateCenterZoom resolution anchor = Except.error JsError.TypeError) ∧
    (∀ v : View α, v.properties.calculateCenterZoom resolution anchor
      = Except.ok (calculateCenterZoom v resolution anchor)) := by
  obtain ⟨center, res, rotation⟩ := p
  refine ⟨?_, ?_, ?_, ?_, fun v => calculateCenterZoom_properties v resolution anchor⟩
  · intro c r hc hr hr0
    simp only at hc hr
    subst hc hr
    refine ⟨(anchor.1 - resolution * (anchor.1 - c.1) / r,
      anchor.2 - resolution * (anchor.2 - c.2) / r), rfl, by ring, by ring, ?_, ?_⟩
    · intro h
      rw [h]
      ext <;> simp
    · intro h
      rw [h]
      ext <;> field_simp
  · intro hc
    simp only at hc
    subst hc
    cases res <;> rfl
  · intro hr
    simp only at hr
    subst hr
    cases center <;> rfl
  · intro r hc hr
    simp only at hc hr
    subst hc hr
    rfl

/-- C25 on a view with center `(1, 2)` and resolution 2: the anchor `(5, 6)`
at resolution 1 gives the center `(3, 4)`. -/
theorem calculateCenterZoom_spec_witness :
    Properties.calculateCenterZoom
        { center := Held.value ((1, 2) : Coordinate ℚ), resolution := some 2,
          rotation := some 0 } 1 (5, 6)
      = Except.ok (some (3, 4)) := by
  obtain ⟨c', h1, h2, h3, _⟩ := (calculateCenterZoom_spec
    { center := Held.value ((1, 2) : Coordinate ℚ), resolution := some 2, rotation := some 0 }
    1 (5, 6)).1 (1, 2) 2 rfl rfl (by norm_num)
  rw [h1]
  have e1 : c'.1 = 3 := by norm_num at h2; linarith
  have e2 : c'.2 = 4 := by norm_num at h3; linarith
  rw [← e1, ← e2]

theorem setCenter_props (center : Option (Coordinate α)) (v : View α) (hwf : WellFormed v) :
    (setCenter center v).error = none ∧
    getCenter (setCenter center v).view = center ∧
    getResolution (setCenter center v).view = getResolution v ∧
    getRotation (setCenter center v).view = getRotation v ∧
    (setCenter center v).view.calls = v.calls ++ callbackCalls false v.animations_ ∧
    (setCenter center v).view.animations_ = [] ∧
    WellFormed (setCenter center v).view := by
  obtain ⟨h1, h2, h3, h4, h5, h6, _, _, _, _, _, _, h13⟩ :=
    cancelIfAnimating_props v { v with center := center } hwf rfl rfl rfl
  exact ⟨h1, h2, h3, h4, h6, h5, h13⟩

theorem setResolution_props (resolution : Option α) (v : View α) (hwf : WellFormed v) :
    (setResolution resolution v).error = none ∧
    getCenter (setResolution resolution v).view = getCenter v ∧
    getResolution (setResolution resolution v).view = resolution ∧
    getRotation (setResolution resolution v).view = getRotation v ∧
    (setResolution resolution v).view.calls
      = v.calls ++ callbackCalls false v.animations_ ∧
    (setResolution resolution v).view.animations_ = [] ∧
    WellFormed (setResolution resolution v).view := by
  obtain ⟨h1, h2, h3, h4, h5, h6, _, _, _, _, _, _, h13⟩ :=
    cancelIfAnimating_props v { v with resolution := resolution } hwf rfl rfl rfl
  exact ⟨h1, h2, h3, h4, h6, h5, h13⟩

/-- C24: for a view with resolution `r` and rotation `ρ`, with `cos` even,
`sin` odd and `cos² ρ + sin² ρ = 1`: `centerOn(c, size, position)` does not
raise and sets a center with `c = getCenter() + R(ρ)·((px - w/2)·r,
(h/2 - py)·r)`, `R` the rotation matrix; centring on the middle pixel sets the
center to `c`; resolution and rotation are as before. -/
theorem centerOn_shows_coordinate (L : Imports α) (v : View α) (hwf : WellFormed v)
    (r : α) (hr : getResolution v = some r)
    (hcos : L.cos (-getRotation v) = L.cos (getRotation v))
    (hsin : L.sin (-getRotation v) = -L.sin (getRotation v))
    (hunit : L.cos (getRotation v) * L.cos (getRotation v)
      + L.sin (getRotation v) * L.sin (getRotation v) = 1)
    (c : Coordinate α) (size : Size α) (position : Pixel α) :
    ∃ o c', centerOn L c size position v = some o ∧ o.error = none ∧
      getCenter o.view = some c' ∧
      c.1 = c'.1 + (rotate L ((position.1 - size.1 / 2) * r, (size.2 / 2 - position.2) * r)
        (getRotation v)).1 ∧
      c.2 = c'.2 + (rotate L ((position.1 - size.1 / 2) * r, (size.2 / 2 - position.2) * r)
        (getRotation v)).2 ∧
      (position.1 = size.1 / 2 → position.2 = size.2 / 2 → c' = c) ∧
      getResolution o.view = some r ∧ getRotation o.view = getRotation v := by
  obtain ⟨X, hX, hXe⟩ : ∃ X, centerOn L c size position v = some (setCenter (some X) v) ∧
      X = ((c.1 * L.cos (-getRotation v) - c.2 * L.sin (-getRotation v)
            + (size.1 / 2 - position.1) * r) * L.cos (-getRotation v)
          - (c.2 * L.cos (-getRotation v) + c.1 * L.sin (-getRotation v)
            + (position.2 - size.2 / 2) * r) * -L.sin (-getRotation v),
         (c.2 * L.cos (-getRotation v) + c.1 * L.sin (-getRotation v)
            + (position.2 - size.2 / 2) * r) * L.cos (-getRotation v)
          + (c.1 * L.cos (-getRotation v) - c.2 * L.sin (-getRotation v)
            + (size.1 / 2 - position.1) * r) * -L.sin (-getRotation v)) :=
    ⟨_, by simp only [centerOn, hr], rfl⟩
  obtain ⟨h1, h2, h3, h4, _⟩ := setCenter_props (some X) v hwf
  have hx : ∀ x y : α, x * (L.cos (getRotation v) * L.cos (getRotation v))
      + x * (L.sin (getRotation v) * L.sin (getRotation v)) + y = x + y := by
    intro x y
    rw [← mul_add, hunit, mul_one]
  refine ⟨_, X, hX, h1, h2, ?_, ?_, ?_, h3.trans hr, h4⟩
  · rw [hXe]
    simp only [rotate, hcos, hsin]
    have := hx c.1 0
    linear_combination -this
  · rw [hXe]
    simp only [rotate, hcos, hsin]
    have := hx c.2 0
    linear_combination -this
  · intro hp1 hp2
    rw [hXe]
    simp only [hcos, hsin, hp1, hp2]
    ext
    · have := hx c.1 0
      simp only
      linear_combination this
    · have := hx c.2 0
      simp only
      linear_combination this

/-- C24 on `tableView (1, 2) 2`, rotation 0: the coordinate `(5, 6)` at the
pixel `(10, 20)` of a 100 by 100 viewport. -/
theorem centerOn_shows_coordinate_witness :
    ∃ o, centerOn evalImports (5, 6) (100, 100) (10, 20) (tableView (some (1, 2)) (some 2))
        = some o ∧ o.error = none ∧ getCenter o.view = some (85, -54) ∧
      getResolution o.view = some 2 := by
  obtain ⟨o, c', h1, h2, h3, h4, h5, _, h7, _⟩ := centerOn_shows_coordinate evalImports
    (tableView (some (1, 2)) (some 2)) (tableView_wellFormed _ _) 2 rfl
    (by norm_num [getRotation, tableView, evalImports])
    (by norm_num [getRotation, tableView, evalImports])
    (by norm_num [getRotation, tableView, evalImports]) (5, 6) (100, 100) (10, 20)
  refine ⟨o, h1, h2, ?_, h7⟩
  rw [h3]
  norm_num [rotate, getRotation, tableView, evalImports] at h4 h5
  have e1 : c'.1 = 85 := by linarith
  have e2 : c'.2 = -54 := by linarith
  rw [← e1, ← e2]

end Anchors

/-! ## Fitting an extent (C21, C22, C23) -/

section Fit

set_option linter.unusedSectionVars false

variable {α : Type} [LinearOrderedField α] [FloorRing α]

/-- The padded resolution of an extent: the larger of its width over the
width left by the padding and its height over the height left. -/
theorem fitState_unrotated (L : Imports α) (hcos : L.cos 0 = 1) (hsin : L.sin 0 = 0)
    (element : Option (Size α)) (v : View α) (hrot : getRotation v = 0)
    (e : Extent α) (hx : e.minX ≤ e.maxX) (hy : e.minY ≤ e.maxY)
    (options : FitOptions α) (w h : α) (hsize : options.size = some (w, h))
    (p : Padding α)
    (hpad : options.padding = some p ∨
      (options.padding = none ∧ p = { top := 0, right := 0, bottom := 0, left := 0 }))
    (hw : 0 < w - p.right - p.left) (hh : 0 < h - p.top - p.bottom)
    (hcon : options.constrainResolution = some false)
    (hmin : options.minResolution = none) (hmaxz : options.maxZoom = none) :
    fitState L element (FitTarget.extent e) options v
      = Except.ok (some
          (max ((e.maxX - e.minX) / (w - p.right - p.left))
              ((e.maxY - e.minY) / (h - p.top - p.bottom)),
           ((e.minX + e.maxX) / 2 + (p.right - p.left) / 2
              * max ((e.maxX - e.minX) / (w - p.right - p.left))
                  ((e.maxY - e.minY) / (h - p.top - p.bottom)),
            (e.minY + e.maxY) / 2 + (p.top - p.bottom) / 2
              * max ((e.maxX - e.minX) / (w - p.right - p.left))
                  ((e.maxY - e.minY) / (h - p.top - p.bottom))))) := by
  have hne : e.isEmpty = false := by
    simp [Extent.isEmpty, not_lt.mpr hx, not_lt.mpr hy]
  have hpad' : (match options.padding with
      | some q => q
      | none => ({ top := 0, right := 0, bottom := 0, left := 0 } : Padding α)) = p := by
    rcases hpad with hp | ⟨hp, hp0⟩
    · rw [hp]
    · rw [hp, hp0]
  have hres0 : 0 ≤ max ((e.maxX - e.minX) / (w - p.right - p.left))
      ((e.maxY - e.minY) / (h - p.top - p.bottom)) :=
    le_max_of_le_left (div_nonneg (by linarith) hw.le)
  simp only [fitState, hsize, hne, Bool.false_eq_true, if_false, hpad', hcon, hmin, hmaxz,
    hrot, neg_zero, hcos, hsin, fromExtent, leastOf, greatestOf, List.map_cons, List.map_nil,
    List.foldl_cons, List.foldl_nil, mul_one, mul_zero, sub_zero, zero_add, add_zero,
    min_self, max_self, min_eq_left hx, min_eq_left hy, max_eq_right hx, max_eq_right hy,
    max_eq_left hx, max_eq_left hy, min_eq_right hx, min_eq_right hy,
    Extent.getWidth, Extent.getHeight, getResolutionForExtent, ne_of_gt hw, ne_of_gt hh,
    false_and, or_self, false_or, max_eq_left hres0]

theorem setResolution_setCenter (resolution : Option α) (center : Option (Coordinate α))
    (v : View α) (hwf : WellFormed v) :
    ((setResolution resolution v).andThen (setCenter center)).error = none ∧
    getResolution ((setResolution resolution v).andThen (setCenter center)).view
      = resolution ∧
    getCenter ((setResolution resolution v).andThen (setCenter center)).view = center ∧
    getRotation ((setResolution resolution v).andThen (setCenter center)).view
      = getRotation v ∧
    ((setResolution resolution v).andThen (setCenter center)).view.calls
      = v.calls ++ callbackCalls false v.animations_ ∧
    WellFormed ((setResolution resolution v).andThen (setCenter center)).view := by
  obtain ⟨r1, _, r3, r4, r5, r6, r7⟩ := setResolution_props resolution v hwf
  obtain ⟨c1, c2, c3, c4, c5, _, c7⟩ := setCenter_props center _ r7
  simp only [Outcome.andThen, r1]
  refine ⟨c1, c3.trans r3, c2, c4.trans r4, ?_, c7⟩
  rw [c5, r5, r6]
  simp [callbackCalls]

/-- What `fit` does without a duration, once the state is computed. -/
theorem fit_sets (L : Imports α) (element : Option (Size α)) (now : α)
    (target : FitTarget α) (options : FitOptions α) (v : View α) (hwf : WellFormed v)
    (resolution : α) (center : Coordinate α)
    (hstate : fitState L element target options v = Except.ok (some (resolution, center)))
    (hdur : options.duration = none) :
    ∃ o, fit L element now target options v = some o ∧ o.error = none ∧
      getResolution o.view = some resolution ∧ getCenter o.view = some center ∧
      getRotation o.view = getRotation v ∧
      o.view.calls = v.calls ++ callbackCalls false v.animations_ ∧
      o.timers = [(match options.callback with
        | some cb => cb
        | none => nullFunction, true)] := by
  obtain ⟨h1, h2, h3, h4, h5, _⟩ :=
    setResolution_setCenter (some resolution) (some center) v hwf
  have hfit : fit L element now target options v
      = some { view := ((setResolution (some resolution) v).andThen
                  (setCenter (some center))).view,
               error := none,
               timers := [(match options.callback with
                 | some cb => cb
                 | none => nullFunction, true)] } := by
    simp only [fit, hstate, hdur, h1]
  exact ⟨_, hfit, rfl, h2, h3, h4, h5, rfl⟩

/-- C21: on a view at rotation 0, with `Math.cos(0) = 1` and
`Math.sin(0) = 0`, for a non-empty extent `[x0, y0, x1, y1]` and a size
`[w, h]` with `w, h > 0`: `fit(extent, {size, constrainResolution: false})`
with no or zero padding, no `minResolution`, `maxZoom` or `duration` does not
raise and sets the resolution to `max((x1 - x0)/w, (y1 - y0)/h)` and the
center to `[(x0 + x1)/2, (y0 + y1)/2]`; for the extent `[0, 0, 200, 100]` and
the size `[100, 100]` these are 2 and `[100, 50]`. -/
theorem fit_exact (L : Imports α) (hcos : L.cos 0 = 1) (hsin : L.sin 0 = 0)
    (element : Option (Size α)) (now : α) (v : View α) (hwf : WellFormed v)
    (hrot : getRotation v = 0)
    (e : Extent α) (hx : e.minX ≤ e.maxX) (hy : e.minY ≤ e.maxY)
    (w h : α) (hw : 0 < w) (hh : 0 < h)
    (options : FitOptions α) (hsize : options.size = some (w, h))
    (hpad : options.padding = none ∨
      options.padding = some { top := 0, right := 0, bottom := 0, left := 0 })
    (hcon : options.constrainResolution = some false)
    (hmin : options.minResolution = none) (hmaxz : options.maxZoom = none)
    (hdur : options.duration = none) :
    ∃ o, fit L element now (FitTarget.extent e) options v = some o ∧ o.error = none ∧
      getResolution o.view = some (max ((e.maxX - e.minX) / w) ((e.maxY - e.minY) / h)) ∧
      getCenter o.view = some ((e.minX + e.maxX) / 2, (e.minY + e.maxY) / 2) ∧
      (e.minX = 0 → e.minY = 0 → e.maxX = 200 → e.maxY = 100 → w = 100 → h = 100 →
        getResolution o.view = some 2 ∧ getCenter o.view = some (100, 50)) := by
  have hst := fitState_unrotated L hcos hsin element v hrot e hx hy options w h hsize
    { top := 0, right := 0, bottom := 0, left := 0 }
    (by
      rcases hpad with hp | hp
      · exact Or.inr ⟨hp, rfl⟩
      · exact Or.inl hp)
    (by simpa using hw) (by simpa using hh) hcon hmin hmaxz
  simp only [sub_zero, zero_div, zero_mul, add_zero] at hst
  obtain ⟨o, ho, h1, h2, h3, _⟩ := fit_sets L element now _ options v hwf _ _ hst hdur
  refine ⟨o, ho, h1, h2, h3, ?_⟩
  intro e0 e1 e2 e3 hw' hh'
  rw [h2, h3, e0, e1, e2, e3, hw', hh']
  norm_num

/-- C21 on `tableView (1, 2) 2`: the extent `[0, 0, 200, 100]` in a viewport
of 100 by 100. -/
theorem fit_exact_witness :
    ∃ o, fit evalImports none 0 (FitTarget.extent wideExtent) (plainFit (100, 100)) (tableView (some (1, 2)) (some 2)) = some o ∧
      getResolution o.view = some 2 ∧ getCenter o.view = some (100, 50) := by
  obtain ⟨o, ho, _, _, _, h⟩ := fit_exact evalImports (by norm_num [evalImports])
    (by norm_num [evalImports]) none 0 (tableView (some (1, 2)) (some 2))
    (tableView_wellFormed _ _) rfl wideExtent
    (by norm_num [wideExtent]) (by norm_num [wideExtent]) 100 100 (by norm_num)
    (by norm_num) (plainFit (100, 100))
    rfl (Or.inl rfl) rfl rfl rfl rfl
  exact ⟨o, ho, h rfl rfl rfl rfl rfl rfl⟩

/-- C22: on a view at rotation 0, with `Math.cos(0) = 1` and
`Math.sin(0) = 0`, for a non-empty extent, a size `[w, h]` and a padding
`[top, right, bottom, left]` with `w - left - right > 0` and
`h - top - bottom > 0`: after `fit(extent, {size, padding,
constrainResolution: false})` the extent lies inside the part of the viewport
the padding leaves (in map units, `x` from `cx - w/2·res + left·res` to
`cx + w/2·res - right·res` and `y` from `cy - h/2·res + bottom·res` to
`cy + h/2·res - top·res`), is centred in it, and touches it in `x` or in
`y`. -/
theorem fit_within_padding (L : Imports α) (hcos : L.cos 0 = 1) (hsin : L.sin 0 = 0)
    (element : Option (Size α)) (now : α) (v : View α) (hwf : WellFormed v)
    (hrot : getRotation v = 0)
    (e : Extent α) (hx : e.minX ≤ e.maxX) (hy : e.minY ≤ e.maxY)
    (w h : α) (p : Padding α) (hw : 0 < w - p.left - p.right)
    (hh : 0 < h - p.top - p.bottom)
    (options : FitOptions α) (hsize : options.size = some (w, h))
    (hpad : options.padding = some p)
    (hcon : options.constrainResolution = some false)
    (hmin : options.minResolution = none) (hmaxz : options.maxZoom = none)
    (hdur : options.duration = none) :
    ∃ o cx cy res, fit L element now (FitTarget.extent e) options v = some o ∧
      o.error = none ∧ getCenter o.view = some (cx, cy) ∧ getResolution o.view = some res ∧
      cx - w / 2 * res + p.left * res ≤ e.minX ∧
      e.maxX ≤ cx + w / 2 * res - p.right * res ∧
      cy - h / 2 * res + p.bottom * res ≤ e.minY ∧
      e.maxY ≤ cy + h / 2 * res - p.top * res ∧
      e.minX - (cx - w / 2 * res + p.left * res)
        = cx + w / 2 * res - p.right * res - e.maxX ∧
      e.minY - (cy - h / 2 * res + p.bottom * res)
        = cy + h / 2 * res - p.top * res - e.maxY ∧
      ((e.minX = cx - w / 2 * res + p.left * res ∧
          e.maxX = cx + w / 2 * res - p.right * res) ∨
        (e.minY = cy - h / 2 * res + p.bottom * res ∧
          e.maxY = cy + h / 2 * res - p.top * res)) := by
  have hw' : 0 < w - p.right - p.left := by linarith
  have hst := fitState_unrotated L hcos hsin element v hrot e hx hy options w h hsize p
    (Or.inl hpad) hw' hh hcon hmin hmaxz
  obtain ⟨o, ho, h1, h2, h3, _⟩ := fit_sets L element now _ options v hwf _ _ hst hdur
  generalize hres : max ((e.maxX - e.minX) / (w - p.right - p.left))
    ((e.maxY - e.minY) / (h - p.top - p.bottom)) = res at h2 h3
  have hA : e.maxX - e.minX ≤ (w - p.right - p.left) * res := by
    have := le_max_left ((e.maxX - e.minX) / (w - p.right - p.left))
      ((e.maxY - e.minY) / (h - p.top - p.bottom))
    rw [hres, div_le_iff₀ hw'] at this
    linarith
  have hB : e.maxY - e.minY ≤ (h - p.top - p.bottom) * res := by
    have := le_max_right ((e.maxX - e.minX) / (w - p.right - p.left))
      ((e.maxY - e.minY) / (h - p.top - p.bottom))
    rw [hres, div_le_iff₀ hh] at this
    linarith
  have hC : e.maxX - e.minX = (w - p.right - p.left) * res ∨
      e.maxY - e.minY = (h - p.top - p.bottom) * res := by
    rcases max_choice ((e.maxX - e.minX) / (w - p.right - p.left))
      ((e.maxY - e.minY) / (h - p.top - p.bottom)) with hm | hm
    · left
      rw [hres] at hm
      rw [hm]
      field_simp
    · right
      rw [hres] at hm
      rw [hm]
      field_simp
  refine ⟨o, _, _, res, ho, h1, h3, h2, ?_, ?_, ?_, ?_, ?_, ?_, ?_⟩
  · linarith
  · linarith
  · linarith
  · linarith
  · ring
  · ring
  · rcases hC with hC | hC
    · left; constructor <;> linarith
    · right; constructor <;> linarith

/-- C22 on `tableView (1, 2) 2`: the extent `[0, 0, 200, 100]` in a viewport
of 100 by 100 with the padding `[10, 20, 30, 40]`. -/
theorem fit_within_padding_witness :
    ∃ o, fit evalImports none 0 (FitTarget.extent wideExtent) paddedFit (tableView (some (1, 2)) (some 2)) = some o ∧
      o.error = none := by
  obtain ⟨o, _, _, _, ho, h1, _⟩ := fit_within_padding evalImports (by norm_num [evalImports])
    (by norm_num [evalImports]) none 0 (tableView (some (1, 2)) (some 2))
    (tableView_wellFormed _ _) rfl wideExtent
    (by norm_num [wideExtent]) (by norm_num [wideExtent]) 100 100
    { top := 10, right := 20, bottom := 30, left := 40 }
    (by norm_num) (by norm_num) paddedFit rfl rfl rfl rfl rfl rfl
  exact ⟨o, ho, h1⟩

/-- What `fit` does with a duration, once the state is computed. -/
theorem fit_animates (L : Imports α) (element : Option (Size α)) (now : α)
    (target : FitTarget α) (options : FitOptions α) (v : View α)
    (resolution : α) (center : Coordinate α) (duration : α) (cb : Callback)
    (hstate : fitState L element target options v = Except.ok (some (resolution, center)))
    (hdur : options.duration = some duration) (hcb : options.callback = some cb) :
    ∃ o, fit L element now target options v = some o ∧
      o.view = (animate L now [AnimateArg.options
        (fitStage resolution center duration options.easing), AnimateArg.callback cb] v).view ∧
      o.error = (animate L now [AnimateArg.options
        (fitStage resolution center duration options.easing), AnimateArg.callback cb] v).error ∧
      o.timers = [] := by
  have hfit : fit L element now target options v
      = some { view := (animate L now [AnimateArg.options
                  (fitStage resolution center duration options.easing),
                  AnimateArg.callback cb] v).view,
               error := (animate L now [AnimateArg.options
                  (fitStage resolution center duration options.easing),
                  AnimateArg.callback cb] v).error,
               timers := [] } := by
    simp only [fit, hstate, hdur, hcb]
  exact ⟨_, hfit, rfl, rfl, rfl⟩

/-- C23 fails as stated: on the view with neither center nor resolution,
`fit([0, 0, 200, 100], {size: [100, 100], constrainResolution: false,
duration: 1000, callback})` passes the callback to `animate`, whose shortcut
for a view that is not defined calls it with `true` before it returns: when
`fit` returns the callback has been called and no timer is pending. -/
theorem fit_callback_counterexample :
    ∃ o, fit evalImports none 0 (FitTarget.extent wideExtent) (timedFit 1000)
        (tableView none none) = some o ∧
      o.error = none ∧ o.view.calls = [(7, true)] ∧ o.timers = [] := by
  have hst := fitState_unrotated evalImports (by norm_num [evalImports])
    (by norm_num [evalImports]) none (tableView none none) rfl wideExtent
    (by norm_num [wideExtent]) (by norm_num [wideExtent]) (timedFit 1000) 100 100 rfl
    { top := 0, right := 0, bottom := 0, left := 0 } (Or.inr ⟨rfl, rfl⟩)
    (by norm_num) (by norm_num) rfl rfl rfl
  obtain ⟨o, ho, hv, he, ht⟩ := fit_animates evalImports none 0 (FitTarget.extent wideExtent)
    (timedFit 1000) (tableView none none) _ _ 1000 7 hst rfl rfl
  refine ⟨o, ho, ?_, ?_, ht⟩
  · rw [he]
    simp [animate, isDef, tableView, animateUndefined, animationCount, hasCallback,
      AnimateArg.asOptions, setCenter, cancelIfAnimating, getAnimating,
      Hints.get, Outcome.andThen, Outcome.ok, invoke, callbackOf, fitStage,
      AnimateArg.isFunction]
  · rw [hv]
    simp [animate, isDef, tableView, animateUndefined, animationCount, hasCallback,
      AnimateArg.asOptions, setCenter, cancelIfAnimating, getAnimating,
      Hints.get, Outcome.andThen, Outcome.ok, invoke, callbackOf, fitStage,
      AnimateArg.isFunction, AnimateArg.asCallback]


theorem holders_retiredBy (cb : Callback) (now : α) (v : View α) (hwf : WellFormed v)
    (hfresh : holders cb v.animations_ = 0) :
    holders cb (retiredBy now v.animations_) = 0 := by
  have := holders_split cb now v.animations_ hwf.1
  omega

/-- C23, amended: for a `fit` call with a callback that no active series
stores.  Without a duration the callback is not called before `fit` returns:
it is handed to a zero-delay timer, with `true`.  With a duration the callback
goes to `animate`; on a defined view, when the stage changes the view and has
a positive duration, it is not called before `fit` returns either, and no
timer is set. -/
theorem fit_callback_deferred (L : Imports α) (element : Option (Size α)) (now : α)
    (target : FitTarget α) (options : FitOptions α) (v : View α) (hwf : WellFormed v)
    (cb : Callback) (hcb : options.callback = some cb)
    (hfresh : holders cb v.animations_ = 0) :
    (options.duration = none → ∀ o, fit L element now target options v = some o →
      invocations cb o.view.calls = invocations cb v.calls ∧
      (o.error = none → o.timers = [(cb, true)])) ∧
    (∀ duration resolution center, options.duration = some duration → isDef v = true →
      fitState L element target options v = Except.ok (some (resolution, center)) →
      startsMoving L now [AnimateArg.options
        (fitStage resolution center duration options.easing), AnimateArg.callback cb] v
          = true →
      ∃ o, fit L element now target options v = some o ∧ o.error = none ∧
        invocations cb o.view.calls = invocations cb v.calls ∧ o.timers = []) := by
  refine ⟨?_, ?_⟩
  · intro hdur o ho
    cases hst : fitState L element target options v with
    | error e =>
      simp only [fit, hst, Option.some.injEq] at ho
      rw [← ho]
      exact ⟨rfl, fun h => by cases h⟩
    | ok state =>
      cases state with
      | none => simp [fit, hst] at ho
      | some rc =>
        obtain ⟨r, c⟩ := rc
        obtain ⟨o', ho', h1, _, _, _, h5, h6⟩ :=
          fit_sets L element now target options v hwf r c hst hdur
        rw [ho] at ho'
        obtain rfl := Option.some.inj ho'
        refine ⟨?_, fun _ => ?_⟩
        · rw [h5, invocations_append, invocations_callbackCalls, hfresh, add_zero]
        · rw [h6, hcb]
  · intro duration resolution center hdur hdef hst hmove
    obtain ⟨o, ho, hv, he, ht⟩ := fit_animates L element now target options v resolution
      center duration cb hst hdur hcb
    obtain ⟨a1, _, _, _, a5, _⟩ := animate_appends L now _ v hwf hdef hmove
    refine ⟨o, ho, he.trans a1, ?_, ht⟩
    rw [hv, a5, invocations_append, invocations_callbackCalls,
      holders_retiredBy cb now v hwf hfresh, add_zero]


/-- C23, amended, on `tableView (1, 2) 2` and the extent `[0, 0, 200, 100]`:
without a duration the callback 7 is not called and is handed to the timer;
with the duration 1000 it is not called and no timer is set. -/
theorem fit_callback_deferred_witness :
    (∃ o, fit evalImports none 0 (FitTarget.extent wideExtent) calledFit
        (tableView (some (1, 2)) (some 2)) = some o ∧
      invocations 7 o.view.calls = 0 ∧ o.timers = [(7, true)]) ∧
    (∃ o, fit evalImports none 0 (FitTarget.extent wideExtent) (timedFit 1000)
        (tableView (some (1, 2)) (some 2)) = some o ∧
      invocations 7 o.view.calls = 0 ∧ o.timers = []) := by
  have hst : ∀ options : FitOptions ℚ, options.size = some (100, 100) →
      options.padding = none → options.constrainResolution = some false →
      options.minResolution = none → options.maxZoom = none →
      fitState evalImports none (FitTarget.extent wideExtent) options
        (tableView (some (1, 2)) (some 2)) = Except.ok (some (2, (100, 50))) := by
    intro options h1 h2 h3 h4 h5
    have h := fitState_unrotated evalImports (by norm_num [evalImports])
      (by norm_num [evalImports]) none (tableView (some (1, 2)) (some 2)) rfl wideExtent
      (by norm_num [wideExtent]) (by norm_num [wideExtent]) options 100 100 h1
      { top := 0, right := 0, bottom := 0, left := 0 } (Or.inr ⟨h2, rfl⟩)
      (by norm_num) (by norm_num) h3 h4 h5
    rw [h]
    norm_num [wideExtent]
  constructor
  · obtain ⟨o, ho, h1, _⟩ := fit_sets evalImports none 0 (FitTarget.extent wideExtent)
      calledFit (tableView (some (1, 2)) (some 2)) (tableView_wellFormed _ _) 2 (100, 50)
      (hst calledFit rfl rfl rfl rfl rfl) rfl
    obtain ⟨h2, h3⟩ := (fit_callback_deferred evalImports none 0
      (FitTarget.extent wideExtent) calledFit (tableView (some (1, 2)) (some 2))
      (tableView_wellFormed _ _) 7 rfl rfl).1 rfl o ho
    exact ⟨o, ho, h2, h3 h1⟩
  · obtain ⟨o, ho, _, h2, h3⟩ := (fit_callback_deferred evalImports none 0
      (FitTarget.extent wideExtent) (timedFit 1000) (tableView (some (1, 2)) (some 2))
      (tableView_wellFormed _ _) 7 rfl rfl).2 1000 2 (100, 50) rfl rfl
      (hst (timedFit 1000) rfl rfl rfl rfl rfl)
      (by norm_num [startsMoving, seriesFor, isDef, getCenter, getResolution,
        getRotation, hasCallback, callbackOf, animationCount, AnimateArg.isFunction,
        AnimateArg.asCallback, AnimateArg.asOptions, fitStage, timedFit,
        buildSeries, makeAnimation, resolutionTarget, isNoopAnimation, tableView, truthy])
    exact ⟨o, ho, h2, h3⟩

end Fit

/-! ## A zoom about the center (C26) -/

section AnchoredZoom

set_option linter.unusedSectionVars false

variable {α : Type} [LinearOrderedField α] [FloorRing α]

theorem animate_eq_tick (L : Imports α) (now : α) (args : List (AnimateArg α)) (v : View α)
    (hdef : isDef v = true) :
    animate L now args v = updateAnimations_ L now (pushSeries v (seriesFor L now args v)) := by
  have hdef0 := hdef
  simp only [isDef, Bool.and_eq_true, Option.isSome_iff_exists] at hdef
  obtain ⟨⟨c, hcen⟩, _⟩ := hdef
  have hsf : seriesFor L now args v = buildSeries L v (callbackOf args)
      ((args.take (animationCount args)).map AnimateArg.asOptions)
      now c (getResolution v) (getRotation v) := by
    simp only [seriesFor, getCenter, hcen]
  rw [hsf]
  simp only [animate, hdef0, Bool.not_true, Bool.false_eq_true, if_false, getCenter, hcen,
    pushSeries]

/-- The view after the inner loop over a one-stage series whose stage has no
center and no rotation part. -/
theorem updateSeries_zoom (L : Imports α) (t : α) (a : ViewAnimation α) (v : View α)
    (sc more : Bool) (hsc : a.sourceCenter = none) (hsr : a.sourceRotation = none)
    (hc : a.complete = false) :
    (updateSeries L t [a] v sc more).view
      = writeResolution a (a.easing (if stageFraction t a ≥ 1 then 1 else stageFraction t a))
          v := by
  by_cases hf : stageFraction t a ≥ 1
  · simp only [updateSeries, hc, Bool.false_eq_true, if_false, hf, if_true, writeCenter, hsc,
      writeRotation, hsr, writeResolution]
  · simp only [updateSeries, hc, Bool.false_eq_true, if_false, hf, writeCenter, hsc,
      writeRotation, hsr, writeResolution]


theorem writeResolution_about (a : ViewAnimation α) (p : α) (w : View α)
    (c : Coordinate α) (r : α) (hcen : w.center = some c) (hres : w.resolution = some r)
    (hr : 0 < r) (hanchor : a.anchor = some c)
    (hpos : ∀ s t, a.sourceResolution = some s → a.targetResolution = some t → 0 < s ∧ 0 < t)
    (hp0 : 0 ≤ p) (hp1 : p ≤ 1) :
    (writeResolution a p w).center = some c ∧
    ∃ r', (writeResolution a p w).resolution = some r' ∧ 0 < r' := by
  unfold writeResolution
  cases hs : a.sourceResolution with
  | none => exact ⟨hcen, r, hres, hr⟩
  | some s =>
    cases ht : a.targetResolution with
    | none => exact ⟨hcen, r, hres, hr⟩
    | some t =>
      obtain ⟨hs0, ht0⟩ := hpos s t hs ht
      have hst : s ≠ 0 ∧ t ≠ 0 := ⟨ne_of_gt hs0, ne_of_gt ht0⟩
      simp only [if_pos hst, hanchor]
      refine ⟨?_, _, rfl, ?_⟩
      · simp only [calculateCenterZoom, getCenter, getResolution, hcen, hres, sub_self,
          mul_zero, zero_div, sub_zero]
      · by_cases hp : p = 1
        · simp only [hp, if_true]; exact ht0
        · simp only [hp, if_false]
          nlinarith [mul_nonneg hp0 ht0.le, mul_nonneg (sub_nonneg.mpr hp1) hs0.le]

theorem stageFraction_unit (t : α) (a : ViewAnimation α) (h : a.start ≤ t) :
    0 ≤ (if stageFraction t a ≥ 1 then 1 else stageFraction t a) ∧
    (if stageFraction t a ≥ 1 then 1 else stageFraction t a) ≤ 1 := by
  by_cases hf : stageFraction t a ≥ 1
  · simp only [hf, if_true]
    exact ⟨zero_le_one, le_refl _⟩
  · simp only [hf, if_false]
    refine ⟨?_, le_of_lt (not_le.mp hf)⟩
    unfold stageFraction
    by_cases hd : a.duration > 0
    · simp only [hd, if_true]
      exact div_nonneg (by linarith) hd.le
    · simp only [hd, if_false]
      exact zero_le_one

theorem zoomingAbout_tick (L : Imports α)
    (hease : ∀ x, 0 ≤ x → x ≤ 1 → 0 ≤ L.inAndOut x ∧ L.inAndOut x ≤ 1)
    (now t : α) (ht : now ≤ t) (c : Coordinate α) (w : View α)
    (h : ZoomingAbout L now c w) :
    (updateAnimations_ L t w).error = none ∧
    ZoomingAbout L now c (updateAnimations_ L t w).view := by
  obtain ⟨hwf, hcen, ⟨r, hres, hr⟩, hcase⟩ := h
  obtain ⟨herr, hwf'⟩ := wellFormed_tick L t w hwf
  refine ⟨herr, ?_⟩
  rcases hcase with hnil | ⟨a, ha, hstage⟩
  · have hidle : getAnimating w = false := by
      simp [getAnimating, Hints.get, hwf.2.1, hnil]
    rw [updateAnimations_idle L t w hidle]
    rw [updateAnimations_idle L t w hidle] at hwf'
    exact ⟨hwf', hcen, ⟨r, hres, hr⟩, Or.inl hnil⟩
  · obtain ⟨hsc, hsr, hanchor, heasing, hstart, hdur, hpos⟩ := hstage
    have hanim : getAnimating w = true := wellFormed_animating w hwf (by rw [ha]; simp)
    have hprops := tick_single_props L t w [a] ha hanim
    obtain ⟨c1, r1, ρ1, heq, _⟩ := updateAnimations_spec L t w hanim hwf.1
    have hanims : (updateAnimations_ L t w).view.animations_ = remaining t [some [a]] := by
      rw [heq, ← ha]; rfl
    have hstate : (updateAnimations_ L t w).view.center = some c ∧
        ∃ r', (updateAnimations_ L t w).view.resolution = some r' ∧ 0 < r' := by
      have h1 : (updateAnimations_ L t w).view.center
          = (updateSeries L t [a] { w with updateAnimationKey_ := none } true false).view.center :=
        congrArg (fun p => p.1) hprops
      have h2 : (updateAnimations_ L t w).view.resolution
          = (updateSeries L t [a] { w with updateAnimationKey_ := none } true
              false).view.resolution :=
        congrArg (fun p => p.2.1) hprops
      rw [h1, h2]
      by_cases hc : a.complete = true
      · simp only [updateSeries, hc, if_true]
        exact ⟨hcen, r, hres, hr⟩
      · have hc' : a.complete = false := by simpa using hc
        rw [updateSeries_zoom L t a _ true false hsc hsr hc', heasing]
        obtain ⟨f0, f1⟩ := stageFraction_unit t a (by rw [hstart]; exact ht)
        obtain ⟨p0, p1⟩ := hease _ f0 f1
        exact writeResolution_about a _ { w with updateAnimationKey_ := none } c r hcen hres hr
          hanchor hpos p0 p1
    refine ⟨hwf', hstate.1, hstate.2, ?_⟩
    rw [hanims]
    by_cases hd : seriesDone (advanceSeries t [a]) = true
    · left
      simp [remaining, tickEntry, hd]
    · right
      have hrem : remaining t [some [a]] = [some (advanceSeries t [a])] := by
        simp [remaining, tickEntry, hd]
      rw [hrem]
      by_cases hc : a.complete = true
      · refine ⟨a, by simp [advanceSeries, hc], hsc, hsr, hanchor, heasing, hstart, hdur,
          hpos⟩
      · have hc' : a.complete = false := by simpa using hc
        by_cases hf : stageFraction t a ≥ 1
        · exfalso
          apply hd
          simp [advanceSeries, hc', hf, seriesDone]
        · refine ⟨a, by simp [advanceSeries, hc', hf], hsc, hsr, hanchor, heasing, hstart,
            hdur, hpos⟩


theorem zoomingAbout_ticks (L : Imports α)
    (hease : ∀ x, 0 ≤ x → x ≤ 1 → 0 ≤ L.inAndOut x ∧ L.inAndOut x ≤ 1)
    (now : α) (c : Coordinate α) (times : List α) :
    (∀ t ∈ times, now ≤ t) → ∀ w : View α, ZoomingAbout L now c w →
      (runOps L (times.map Op.tick) w).error = none ∧
      ZoomingAbout L now c (runOps L (times.map Op.tick) w).view := by
  induction times with
  | nil => intro _ w h; exact ⟨rfl, h⟩
  | cons t rest ih =>
    intro ht w h
    obtain ⟨herr, h1⟩ := zoomingAbout_tick L hease now t (ht t (List.mem_cons_self _ _)) c w h
    simp only [List.map_cons, runOps, Op.run, Outcome.andThen, herr]
    exact ih (fun t' ht' => ht t' (List.mem_cons_of_mem _ ht')) _ h1

theorem zoomingAbout_animate (L : Imports α)
    (hease : ∀ x, 0 ≤ x → x ≤ 1 → 0 ≤ L.inAndOut x ∧ L.inAndOut x ≤ 1)
    (now : α) (v : View α) (hwf : WellFormed v) (hidle : v.animations_ = [])
    (c : Coordinate α) (r0 : α) (hc : getCenter v = some c)
    (hr : getResolution v = some r0) (hr0 : 0 < r0) (zoom : α)
    (htarget : ∀ t, getResolutionForZoom v zoom = some t → 0 < t) :
    (animate L now [AnimateArg.options (anchoredZoom zoom c)] v).error = none ∧
    ZoomingAbout L now c (animate L now [AnimateArg.options (anchoredZoom zoom c)] v).view := by
  have hc' : v.center = some c := hc
  have hr' : v.resolution = some r0 := hr
  have hdef : isDef v = true := by simp [isDef, hc', hr']
  have hsf : seriesFor L now [AnimateArg.options (anchoredZoom zoom c)] v
      = [makeAnimation L v none (anchoredZoom zoom c) now c (some r0) (getRotation v)] := by
    simp [seriesFor, hc, hr, callbackOf, animationCount, hasCallback, buildSeries,
      AnimateArg.asOptions]
  rw [animate_eq_tick L now _ v hdef, hsf]
  have hok : seriesOK (some [makeAnimation L v none (anchoredZoom zoom c) now c (some r0)
      (getRotation v)]) = true := by
    simp [seriesOK, stageOK_makeAnimation]
  have hwf2 := wellFormed_push v hwf hdef _ hok
  obtain ⟨f1, _, f3, f4, f5, _, f7, f8⟩ :=
    fields_makeAnimation L v none (anchoredZoom zoom c) now c (some r0) (getRotation v)
  obtain ⟨g1, g2⟩ :=
    timing_makeAnimation L v none (anchoredZoom zoom c) now c (some r0) (getRotation v)
  have htg : resolutionTarget v (anchoredZoom zoom c)
      = some (getResolutionForZoom v zoom) := rfl
  refine zoomingAbout_tick L hease now now (le_refl _) c _ ⟨hwf2, hc', ⟨r0, hr', hr0⟩, Or.inr
    ⟨_, by simp only [pushSeries, setHint, hidle, List.nil_append], f1, f5, f7, f8, g1, g2, ?_⟩⟩
  intro s t hs ht
  rw [f3, htg] at hs
  rw [f4, htg] at ht
  obtain rfl := Option.some.inj hs
  exact ⟨hr0, htarget t ht⟩

/-- C26: on a defined view with center `c`, a positive resolution and no
other active series, for an easing `inAndOut` that maps `[0, 1]` into
`[0, 1]` and a zoom target that resolves to a positive resolution:
`animate({zoom, anchor: c})` and the driver ticks after it (at times not
before the call) do not raise and leave `getCenter()` equal to `c` after every
tick; a tick 1000 ms or more after the call retires the series, and the center
is `c` then too. -/
theorem anchored_zoom_keeps_center (L : Imports α)
    (hease : ∀ x, 0 ≤ x → x ≤ 1 → 0 ≤ L.inAndOut x ∧ L.inAndOut x ≤ 1)
    (now : α) (v : View α) (hwf : WellFormed v) (hidle : v.animations_ = [])
    (c : Coordinate α) (r0 : α) (hc : getCenter v = some c)
    (hr : getResolution v = some r0) (hr0 : 0 < r0) (zoom : α)
    (htarget : ∀ t, getResolutionForZoom v zoom = some t → 0 < t)
    (times : List α) (htimes : ∀ t ∈ times, now ≤ t) :
    (runOps L (times.map Op.tick)
      (animate L now [AnimateArg.options (anchoredZoom zoom c)] v).view).error = none ∧
    getCenter (runOps L (times.map Op.tick)
      (animate L now [AnimateArg.options (anchoredZoom zoom c)] v).view).view = some c ∧
    (∀ t1, now + 1000 ≤ t1 →
      (updateAnimations_ L t1 (runOps L (times.map Op.tick)
        (animate L now [AnimateArg.options (anchoredZoom zoom c)] v).view).view).error
          = none ∧
      (updateAnimations_ L t1 (runOps L (times.map Op.tick)
        (animate L now [AnimateArg.options (anchoredZoom zoom c)] v).view).view).view.animations_
          = [] ∧
      getCenter (updateAnimations_ L t1 (runOps L (times.map Op.tick)
        (animate L now [AnimateArg.options (anchoredZoom zoom c)] v).view).view).view
          = some c) := by
  obtain ⟨_, h0⟩ := zoomingAbout_animate L hease now v hwf hidle c r0 hc hr hr0 zoom htarget
  obtain ⟨herr, h1⟩ := zoomingAbout_ticks L hease now c times htimes _ h0
  refine ⟨herr, h1.2.1, ?_⟩
  intro t1 ht1
  have hnow : now ≤ t1 := by linarith
  obtain ⟨herr2, h2⟩ := zoomingAbout_tick L hease now t1 hnow c _ h1
  refine ⟨herr2, ?_, h2.2.1⟩
  obtain ⟨hwf1, _, _, hcase⟩ := h1
  rcases hcase with hnil | ⟨a, ha, hstage⟩
  · have hidle1 : getAnimating (runOps L (times.map Op.tick)
        (animate L now [AnimateArg.options (anchoredZoom zoom c)] v).view).view = false := by
      simp [getAnimating, Hints.get, hwf1.2.1, hnil]
    rw [updateAnimations_idle L t1 _ hidle1]
    exact hnil
  · obtain ⟨_, _, _, _, hstart, hdur, _⟩ := hstage
    have hanim := wellFormed_animating _ hwf1 (by rw [ha]; simp)
    obtain ⟨c1, r1, ρ1, heq, _⟩ := updateAnimations_spec L t1 _ hanim hwf1.1
    rw [heq]
    have hd := advanceSeries_done_of_late t1 [a]
      (by
        intro b hb _
        rw [List.mem_singleton] at hb
        rw [hb, hstart, hdur]
        exact ht1)
    simp [afterTick, remaining, ha, tickEntry, hd]


theorem evalImports_inAndOut_unit :
    ∀ x : ℚ, 0 ≤ x → x ≤ 1 → 0 ≤ evalImports.inAndOut x ∧ evalImports.inAndOut x ≤ 1 := by
  intro x h0 h1
  have e : evalImports.inAndOut x = 3 * x * x - 2 * x * x * x := rfl
  rw [e]
  constructor
  · nlinarith [mul_nonneg h0 h0, mul_nonneg (mul_nonneg h0 h0) (sub_nonneg.mpr h1)]
  · nlinarith [mul_nonneg (mul_nonneg (sub_nonneg.mpr h1) (sub_nonneg.mpr h1)) h0,
      mul_nonneg (sub_nonneg.mpr h1) (sub_nonneg.mpr h1)]

/-- C26 on `tableView (1, 2) 2`: a zoom to level 2 about the center, started
at time 0, with ticks at 250 and 500. -/
theorem anchored_zoom_keeps_center_witness :
    getCenter (runOps evalImports ([250, 500].map Op.tick)
      (animate evalImports 0 [AnimateArg.options (anchoredZoom 2 (1, 2))]
        (tableView (some (1, 2)) (some 2))).view).view = some (1, 2) :=
  (anchored_zoom_keeps_center evalImports evalImports_inAndOut_unit 0
    (tableView (some (1, 2)) (some 2)) (tableView_wellFormed _ _) rfl (1, 2) 2 rfl rfl
    (by norm_num) 2
    (by
      intro t ht
      norm_num [getResolutionForZoom, constrainResolution, tableView, tableConstraints,
        createSnapToResolutions, linearFindNearest, findNearestFrom] at ht
      rw [← ht]
      norm_num)
    [250, 500] (by intro t ht; simp at ht; rcases ht with rfl | rfl <;> norm_num)).2.1

end AnchoredZoom

/-! ## The power-law resolution model (C27, C28, C29) -/

section PowerLawModel

set_option linter.unusedSectionVars false

variable {α : Type} [LinearOrderedField α] [FloorRing α]

/-- The snap-to-power constraint of a power-law view at direction 0. -/
theorem powerLaw_constrain (L : Imports α) (v : View α) (maxLevel : Int)
    (hp : PowerLaw L v maxLevel) (x delta : α) :
    constrainResolution v (some x) delta 0
      = some (v.maxResolution_ / L.pow v.zoomFactor_
          (min (max (((⌊L.log (v.maxResolution_ / x) / L.log v.zoomFactor_ + 1 / 2⌋ : Int) : α)
            + delta) 0) (maxLevel : α))) := by
  simp only [constrainResolution, hp.2.1, createSnapToPower, lt_self_iff_false, if_false,
    gt_iff_lt]

theorem level_top (L : Imports α) (b m : α) (hex : ExactPower L b) (hm : 0 < m) :
    L.log (m / m) / L.log b = 0 := by
  rw [div_self (ne_of_gt hm), hex.1, zero_div]

theorem level_pow (L : Imports α) (b m : α) (hex : ExactPower L b) (hm : 0 < m) (y : α) :
    L.log (m / (m / L.pow b y)) / L.log b = y := by
  obtain ⟨_, _, _, hpos, _, hinv⟩ := hex
  have hP := hpos y
  have : m / (m / L.pow b y) = L.pow b y := by
    field_simp
  rw [this, hinv]

theorem floor_half (k : Int) : ⌊((k : α) + 1 / 2)⌋ = k := by
  rw [Int.floor_eq_iff]
  constructor
  · linarith
  · linarith

/-- A view configured by `applyOptions_` from options without a table of
resolutions has the power-law model. -/
theorem applyOptions_powerLaw (L : Imports α) (M : Modules α) (options : ViewOptions α)
    (cv cv' : Configured α) (hnt : options.resolutions = none)
    (h : applyOptions_ L M options cv = some cv') :
    ∃ maxLevel : Int, PowerLaw L cv'.view maxLevel := by
  simp only [applyOptions_, createResolutionConstraint_, hnt, add_sub_cancel_left,
    constrainResolution, getResolution] at h
  cases hr : options.resolution with
  | some r =>
    simp only [hr, Option.some.injEq] at h
    rw [← h]
    exact ⟨_, rfl, rfl, rfl⟩
  | none =>
    cases hz : options.zoom with
    | some z =>
      simp only [hr, hz, Option.some.injEq] at h
      rw [← h]
      exact ⟨_, rfl, rfl, rfl⟩
    | none =>
      simp only [hr, hz, Option.some.injEq] at h
      rw [← h]
      exact ⟨_, rfl, rfl, rfl⟩

/-- C27: for a view with the power-law resolution model, in exact arithmetic
(`ExactPower`) and with a positive maximum resolution, every resolution `r`
with `minResolution ≤ r ≤ maxResolution` satisfies
`getResolutionForZoom(getZoomForResolution(r)) = r`. -/
theorem zoom_resolution_inverse (L : Imports α) (v : View α) (maxLevel : Int)
    (hp : PowerLaw L v maxLevel) (hex : ExactPower L v.zoomFactor_)
    (hmax : 0 < v.maxResolution_) (r : α)
    (hlo : getMinResolution v ≤ r) (hhi : r ≤ getMaxResolution v) :
    getResolutionForZoom v (getZoomForResolution L v r) = some r := by
  obtain ⟨hlog1, hlogb, hmono, hpos, hpl, hlp⟩ := hex
  have hex' : ExactPower L v.zoomFactor_ := ⟨hlog1, hlogb, hmono, hpos, hpl, hlp⟩
  have hP := hpos (maxLevel : α)
  have hminpos : 0 < v.minResolution_ := by
    rw [hp.2.2]; exact div_pos hmax hP
  have hr : 0 < r := lt_of_lt_of_le hminpos hlo
  have hq : 0 < v.maxResolution_ / r := div_pos hmax hr
  have hl0 : 0 ≤ L.log (v.maxResolution_ / r) / L.log v.zoomFactor_ := by
    apply div_nonneg _ hlogb.le
    rw [← hlog1]
    apply hmono 1 _ zero_lt_one
    rw [le_div_iff₀ hr]
    simpa using hhi
  have hl1 : L.log (v.maxResolution_ / r) / L.log v.zoomFactor_ ≤ (maxLevel : α) := by
    rw [← hlp (maxLevel : α)]
    apply div_le_div_of_nonneg_right _ hlogb.le
    apply hmono _ _ hq
    rw [div_le_iff₀ hr]
    have h1 : v.maxResolution_ / L.pow v.zoomFactor_ (maxLevel : α) ≤ r := by
      rw [← hp.2.2]; exact hlo
    rw [div_le_iff₀ hP] at h1
    linarith
  have hz : getZoomForResolution L v r - v.minZoom_
      = L.log (v.maxResolution_ / r) / L.log v.zoomFactor_ := by
    simp only [getZoomForResolution, hp.1]
    ring
  rw [getResolutionForZoom, powerLaw_constrain L v maxLevel hp, hz,
    level_top L _ _ hex' hmax]
  have hfl : ((⌊((0 : α) + 1 / 2)⌋ : Int) : α) = 0 := by
    have := floor_half (α := α) 0
    simp only [Int.cast_zero] at this
    rw [this]; simp
  rw [hfl, zero_add, max_eq_left hl0, min_eq_left hl1, hpl _ hq]
  congr 1
  field_simp


theorem clamp_level (k m : Int) :
    min (max (min (max k 0) m) 0) m = min (max k 0) m := by
  simp only [min_def, max_def]
  split_ifs <;> omega

/-- C28: for a view with the snap-to-power resolution constraint, in exact
arithmetic (`ExactPower`) and with a positive maximum resolution, for every
`r > 0`: `constrainResolution(constrainResolution(r, 0, 0), 0, 0)` equals
`constrainResolution(r, 0, 0)`. -/
theorem constrainResolution_idempotent (L : Imports α) (v : View α) (maxLevel : Int)
    (hp : PowerLaw L v maxLevel) (hex : ExactPower L v.zoomFactor_)
    (hmax : 0 < v.maxResolution_) (r : α) (_hr : 0 < r) :
    constrainResolution v (constrainResolution v (some r) 0 0) 0 0
      = constrainResolution v (some r) 0 0 := by
  rw [powerLaw_constrain L v maxLevel hp r 0]
  generalize ⌊L.log (v.maxResolution_ / r) / L.log v.zoomFactor_ + 1 / 2⌋ = k
  have hn : min (max ((k : α) + 0) 0) (maxLevel : α)
      = ((min (max k 0) maxLevel : Int) : α) := by
    push_cast
    rw [add_zero]
  have hc : min (max (((min (max k 0) maxLevel : Int) : α) + 0) 0) (maxLevel : α)
      = ((min (max k 0) maxLevel : Int) : α) := by
    have h := congrArg (fun z : Int => (z : α)) (clamp_level k maxLevel)
    simp only at h
    push_cast at h ⊢
    rw [add_zero]
    exact h
  rw [hn, powerLaw_constrain L v maxLevel hp _ 0, level_pow L _ _ hex hmax, floor_half, hc]

/-- C29: for a view with the power-law resolution model that satisfies the
invariant, in exact arithmetic (`ExactPower`) and with a positive maximum
resolution, for every zoom `z`: `setZoom(z)` does not raise; `getMinZoom()` is
then `minZoom_` and `getMaxZoom()` is `minZoom_` plus the number of levels;
`getZoom()` is `z` clamped into `[getMinZoom(), getMaxZoom()]`, that is into
`[minZoom_, minZoom_ + maxLevel]`; and `getResolution()` is
`constrainResolution(maxResolution, z - minZoom, 0)`, which is the maximum
resolution divided by the zoom factor to the power `z - minZoom_` clamped into
`[0, maxLevel]`. -/
theorem setZoom_clamps (L : Imports α) (v : View α) (hwf : WellFormed v) (maxLevel : Int)
    (hp : PowerLaw L v maxLevel) (hex : ExactPower L v.zoomFactor_)
    (hmax : 0 < v.maxResolution_) (zoom : α) :
    (setZoom zoom v).error = none ∧
    getResolution (setZoom zoom v).view
      = constrainResolution (setZoom zoom v).view (some (getMaxResolution (setZoom zoom v).view))
          (zoom - (setZoom zoom v).view.minZoom_) 0 ∧
    getZoom L (setZoom zoom v).view
      = some (clamp zoom (getMinZoom L (setZoom zoom v).view)
          (getMaxZoom L (setZoom zoom v).view)) ∧
    getMinZoom L (setZoom zoom v).view = v.minZoom_ ∧
    getMaxZoom L (setZoom zoom v).view = v.minZoom_ + (maxLevel : α) ∧
    getZoom L (setZoom zoom v).view
      = some (clamp zoom v.minZoom_ (v.minZoom_ + (maxLevel : α))) ∧
    getResolution (setZoom zoom v).view
      = some (v.maxResolution_ / L.pow v.zoomFactor_
          (clamp (zoom - v.minZoom_) 0 (maxLevel : α))) := by
  obtain ⟨h1, _, h3, _, _, _, h7, h8, h9, h10, h11, h12, _⟩ :=
    cancelIfAnimating_props v { v with resolution := getResolutionForZoom v zoom } hwf
      rfl rfl rfl
  have e7 : (setZoom zoom v).view.constraints_ = v.constraints_ := h7
  have e8 : (setZoom zoom v).view.maxResolution_ = v.maxResolution_ := h8
  have e9 : (setZoom zoom v).view.minResolution_ = v.minResolution_ := h9
  have e10 : (setZoom zoom v).view.zoomFactor_ = v.zoomFactor_ := h10
  have e11 : (setZoom zoom v).view.minZoom_ = v.minZoom_ := h11
  have e12 : (setZoom zoom v).view.resolutions_ = v.resolutions_ := h12
  have e3 : (setZoom zoom v).view.resolution = getResolutionForZoom v zoom := h3
  have hP := hex.2.2.2.1 (maxLevel : α)
  have hfl : ((⌊((0 : α) + 1 / 2)⌋ : Int) : α) = 0 := by
    have := floor_half (α := α) 0
    simp only [Int.cast_zero] at this
    rw [this]; simp
  have hres : getResolutionForZoom v zoom
      = some (v.maxResolution_ / L.pow v.zoomFactor_
          (min (max (zoom - v.minZoom_) 0) (maxLevel : α))) := by
    rw [getResolutionForZoom, powerLaw_constrain L v maxLevel hp,
      level_top L _ _ hex hmax, hfl, zero_add]
  have hminz : getMinZoom L (setZoom zoom v).view = v.minZoom_ := by
    simp only [getMinZoom, getZoomForResolution, e12, hp.1, e8, e10, e11]
    rw [level_top L _ _ hex hmax, add_zero]
  have hmaxz : getMaxZoom L (setZoom zoom v).view = v.minZoom_ + (maxLevel : α) := by
    simp only [getMaxZoom, getZoomForResolution, e12, hp.1, e8, e9, e10, e11]
    rw [hp.2.2, level_pow L _ _ hex hmax]
  have hzoom : getZoom L (setZoom zoom v).view
      = some (clamp zoom v.minZoom_ (v.minZoom_ + (maxLevel : α))) := by
    simp only [getZoom, getResolution, e3, hres, getZoomForResolution, e12, hp.1, e8, e10, e11]
    rw [level_pow L _ _ hex hmax, clamp]
    congr 1
    simp only [min_def, max_def]
    split_ifs <;> linarith
  refine ⟨h1, ?_, ?_, hminz, hmaxz, hzoom, ?_⟩
  · simp only [getResolution, e3, constrainResolution, e7, getMaxResolution, e8, e11,
      getResolutionForZoom]
  · rw [hzoom, hminz, hmaxz]
  · simp only [getResolution, e3, hres, clamp]


/-- The real logarithm and the real power are exact for the base 2. -/
theorem exactPower_real :
    ExactPower (logImports Real.log (fun b y => b ^ y)) (powerView
      (logImports Real.log (fun b y => b ^ y))).zoomFactor_ := by
  have h2 : (0 : ℝ) < 2 := by norm_num
  refine ⟨Real.log_one, Real.log_pos (by norm_num [powerView]), ?_, ?_, ?_, ?_⟩
  · intro x y hx hxy
    exact Real.log_le_log hx hxy
  · intro y
    exact Real.rpow_pos_of_pos h2 y
  · intro x hx
    show (2 : ℝ) ^ (Real.log x / Real.log 2) = x
    rw [Real.log_div_log]
    exact Real.rpow_logb h2 (by norm_num) hx
  · intro y
    show Real.log ((2 : ℝ) ^ y) / Real.log 2 = y
    rw [Real.log_rpow h2]
    exact mul_div_cancel_right₀ y (ne_of_gt (Real.log_pos (by norm_num)))

theorem powerView_powerLaw (L : Imports α) : PowerLaw L (powerView L) 2 := by
  refine ⟨rfl, ?_, ?_⟩
  · simp [powerView]
  · simp [powerView]

theorem powerView_wellFormed (L : Imports α) : WellFormed (powerView L) :=
  wellFormed_of_empty _ rfl rfl

/-- C27 on the power-law view with the real logarithm and power: the
resolution 3, between the minimum 1 and the maximum 4. -/
theorem zoom_resolution_inverse_witness :
    getResolutionForZoom (powerView (logImports Real.log (fun b y => b ^ y)))
      (getZoomForResolution (logImports Real.log (fun b y => b ^ y))
        (powerView (logImports Real.log (fun b y => b ^ y))) 3) = some 3 :=
  zoom_resolution_inverse (logImports Real.log (fun b y => b ^ y))
    (powerView (logImports Real.log (fun b y => b ^ y))) 2 (powerView_powerLaw _)
    exactPower_real (by norm_num [powerView]) 3
    (by
      show (4 : ℝ) / ((2 : ℝ) ^ (2 : ℝ)) ≤ 3
      rw [Real.rpow_two]
      norm_num)
    (by norm_num [getMaxResolution, powerView])

/-- C28 on the power-law view with the real logarithm and power, at the
resolution 3. -/
theorem constrainResolution_idempotent_witness :
    constrainResolution (powerView (logImports Real.log (fun b y => b ^ y)))
        (constrainResolution (powerView (logImports Real.log (fun b y => b ^ y)))
          (some 3) 0 0) 0 0
      = constrainResolution (powerView (logImports Real.log (fun b y => b ^ y)))
          (some 3) 0 0 :=
  constrainResolution_idempotent (logImports Real.log (fun b y => b ^ y))
    (powerView (logImports Real.log (fun b y => b ^ y))) 2 (powerView_powerLaw _)
    exactPower_real (by norm_num [powerView]) 3 (by norm_num)

/-- C29 on the power-law view with the real logarithm and power (maximum
resolution 4, zoom factor 2, levels 0 to 2): after `setZoom(5)`, above the
maximum zoom, `getZoom()` is 2 and `getResolution()` is 1, and `getMinZoom()`
and `getMaxZoom()` are 0 and 2. -/
theorem setZoom_clamps_witness :
    (setZoom 5 (powerView (logImports Real.log (fun b y => b ^ y)))).error = none ∧
    getZoom (logImports Real.log (fun b y => b ^ y))
        (setZoom 5 (powerView (logImports Real.log (fun b y => b ^ y)))).view = some 2 ∧
    getResolution (setZoom 5 (powerView (logImports Real.log (fun b y => b ^ y)))).view
      = some 1 ∧
    getMinZoom (logImports Real.log (fun b y => b ^ y))
        (setZoom 5 (powerView (logImports Real.log (fun b y => b ^ y)))).view = 0 ∧
    getMaxZoom (logImports Real.log (fun b y => b ^ y))
        (setZoom 5 (powerView (logImports Real.log (fun b y => b ^ y)))).view = 2 := by
  obtain ⟨h1, _, _, h4, h5, h6, h7⟩ := setZoom_clamps (logImports Real.log (fun b y => b ^ y))
    (powerView (logImports Real.log (fun b y => b ^ y))) (powerView_wellFormed _) 2
    (powerView_powerLaw _) exactPower_real (by norm_num [powerView]) 5
  refine ⟨h1, ?_, ?_, ?_, ?_⟩
  · rw [h6]
    norm_num [clamp, powerView]
  · rw [h7]
    have e : clamp ((5 : ℝ) - (powerView (logImports Real.log (fun b y => b ^ y))).minZoom_) 0
        ((2 : Int) : ℝ) = 2 := by
      norm_num [clamp, powerView]
    rw [e]
    show some ((4 : ℝ) / (2 : ℝ) ^ (2 : ℝ)) = some 1
    have e2 : (2 : ℝ) ^ (2 : ℝ) = 4 := by
      rw [Real.rpow_two]; norm_num
    rw [e2]; norm_num
  · rw [h4]; rfl
  · rw [h5]
    norm_num [powerView]

end PowerLawModel

/-! ## The minimum zoom (C30) -/

section MinZoom

set_option linter.unusedSectionVars false

variable {α : Type} [LinearOrderedField α] [FloorRing α]

/-- C30 fails as stated: the view constructed with `{maxResolution: 4,
maxZoom: 2}` has no table of resolutions and the maximum zoom 2; after
`setMinZoom(1)`, `getMinZoom()` returns 0, not 1. -/
theorem setMinZoom_counterexample :
    ∃ cv0 cv1, newView evalImports evalModules boundedOptions = some cv0 ∧
      cv0.options_.resolutions = none ∧
      setMinZoom evalImports evalModules 1 cv0 = some cv1 ∧
      getMaxZoom evalImports cv0.view = 2 ∧
      getMinZoom evalImports cv1.view = 0 := by
  refine ⟨_, _, rfl, rfl, rfl, ?_, ?_⟩
  · norm_num [getMaxZoom, getZoomForResolution, boundedOptions, ViewOptions.empty,
      evalImports, evalModules]
  · norm_num [getMinZoom, getZoomForResolution, boundedOptions, ViewOptions.empty,
      evalImports, evalModules, getUpdatedOptions_, assign, getResolution, getZoom, getCenter,
      getRotation, createResolutionConstraint_, applyOptions_, setMinZoom, newView]


/-- What `setMinZoom` leaves in the view, for options without a table of
resolutions: the center and the rotation of before, the zoom factor of the
options, and the minimum zoom given, or 0 when the options have a
`maxResolution`. -/
theorem setMinZoom_fields (L : Imports α) (M : Modules α) (cv : Configured α)
    (hnt : cv.options_.resolutions = none) (zoom : α) :
    ∃ cv', setMinZoom L M zoom cv = some cv' ∧
      cv'.view.center = cv.view.center ∧ cv'.view.rotation = cv.view.rotation ∧
      cv'.view.resolutions_ = none ∧
      cv'.view.minZoom_ = (match cv.options_.maxResolution with
        | some _ => 0
        | none => zoom) ∧
      (∀ m, cv.options_.maxResolution = some m → cv'.view.maxResolution_ = m) := by
  cases hm : cv.options_.maxResolution <;> cases hr : cv.options_.resolution <;>
    cases hv : cv.view.resolution <;> cases hz : cv.options_.zoom <;>
    simp [setMinZoom, applyOptions_, getUpdatedOptions_, assign, createResolutionConstraint_,
      hnt, hm, hr, hv, hz, ViewOptions.empty, getCenter, getRotation, getResolution, getZoom]

/-- C30, amended: for a view configured without a table of resolutions,
`setMinZoom(z)` leaves the center and the rotation as they were; when the
view was configured without a `maxResolution`, `getMinZoom()` then returns `z`
(for `Math.log(1) = 0`, a maximum resolution that is not 0 and a zoom factor
whose logarithm is not 0); when it was configured with a `maxResolution`, the
minimum zoom is 0 whatever `z` is. -/
theorem setMinZoom_sets (L : Imports α) (M : Modules α) (cv : Configured α)
    (hnt : cv.options_.resolutions = none) (hlog : L.log 1 = 0) (zoom : α) :
    ∃ cv', setMinZoom L M zoom cv = some cv' ∧
      getCenter cv'.view = getCenter cv.view ∧
      getRotation cv'.view = getRotation cv.view ∧
      (cv.options_.maxResolution = none → getMaxResolution cv'.view ≠ 0 →
        L.log cv'.view.zoomFactor_ ≠ 0 → getMinZoom L cv'.view = zoom) ∧
      (∀ m, cv.options_.maxResolution = some m → m ≠ 0 →
        L.log cv'.view.zoomFactor_ ≠ 0 → getMinZoom L cv'.view = 0) := by
  obtain ⟨cv', h, h1, h2, h3, h4, h5⟩ := setMinZoom_fields L M cv hnt zoom
  refine ⟨cv', h, h1, h2, ?_, ?_⟩
  · intro hm hmax _
    rw [hm] at h4
    have hmax' : cv'.view.maxResolution_ ≠ 0 := hmax
    simp only [getMinZoom, getZoomForResolution, h3, h4, div_self hmax', hlog, zero_div,
      add_zero]
  · intro m hm hm0 _
    rw [hm] at h4
    have hmax' : cv'.view.maxResolution_ ≠ 0 := by rw [h5 m hm]; exact hm0
    simp only [getMinZoom, getZoomForResolution, h3, h4, div_self hmax', hlog, zero_div,
      add_zero]

/-- C30, amended, on the view constructed with `{maxZoom: 2, center: [1, 2],
zoom: 0}`: after `setMinZoom(1)` the minimum zoom is 1 and the center is
`[1, 2]`. -/
theorem setMinZoom_sets_witness :
    ∃ cv0 cv1, newView evalImports evalModules levelOptions = some cv0 ∧
      setMinZoom evalImports evalModules 1 cv0 = some cv1 ∧
      getMinZoom evalImports cv1.view = 1 ∧ getCenter cv1.view = some (1, 2) := by
  obtain ⟨cv0, cv1, h0, hopt, hcen, h1, hmax, hzf⟩ : ∃ cv0 cv1,
      newView evalImports evalModules levelOptions = some cv0 ∧
      cv0.options_ = levelOptions ∧ getCenter cv0.view = some (1, 2) ∧
      setMinZoom evalImports evalModules 1 cv0 = some cv1 ∧
      getMaxResolution cv1.view ≠ 0 ∧ evalImports.log cv1.view.zoomFactor_ ≠ 0 := by
    refine ⟨_, _, rfl, rfl, rfl, rfl, ?_, ?_⟩
    · norm_num [getMaxResolution, levelOptions, ViewOptions.empty, evalImports, evalModules,
        getUpdatedOptions_, assign, getResolution, getZoom, getCenter, getRotation,
        createResolutionConstraint_, applyOptions_, setMinZoom, newView, Extent.getWidth,
        Extent.getHeight]
    · norm_num [levelOptions, ViewOptions.empty, evalImports, evalModules,
        getUpdatedOptions_, assign, getResolution, getZoom, getCenter, getRotation,
        createResolutionConstraint_, applyOptions_, setMinZoom, newView]
  obtain ⟨cv', h, hc, _, hmin, _⟩ := setMinZoom_sets evalImports evalModules cv0
    (by rw [hopt]; rfl) (by norm_num [evalImports]) 1
  obtain rfl : cv' = cv1 := Option.some.inj (h.symm.trans h1)
  exact ⟨cv0, cv', h0, h1, hmin (by rw [hopt]; rfl) hmax hzf, hc.trans hcen⟩

end MinZoom

/-! ## `fit` on an empty extent or on something else (C39) -/

section FitFailure

set_option linter.unusedSectionVars false

variable {α : Type} [LinearOrderedField α] [FloorRing α]

/-- C39: `fit` called with an argument that is neither an array nor a simple
geometry fails with the assertion error 24, and called with an empty extent
it fails with the assertion error 25; on both failures the view is the view
before the call, so center, resolution, rotation, the hints, the active
series, the log of callback calls and the frames requested are unchanged, and
nothing is handed to `setTimeout`. -/
theorem fit_rejects (L : Imports α) (element : Option (Size α)) (now : α)
    (options : FitOptions α) (v : View α) :
    fit L element now FitTarget.other options v
      = some { view := v, error := some (JsError.AssertionError 24), timers := [] } ∧
    ∀ extent : Extent α, extent.isEmpty = true →
      ∃ o : FitOutcome α, fit L element now (FitTarget.extent extent) options v = some o ∧
        o.error = some (JsError.AssertionError 25) ∧
        o.view = v ∧
        getCenter o.view = getCenter v ∧ getResolution o.view = getResolution v ∧
        getRotation o.view = getRotation v ∧ getHints o.view = getHints v ∧
        o.view.animations_ = v.animations_ ∧ o.view.calls = v.calls ∧
        o.view.frames = v.frames ∧ o.timers = [] := by
  constructor
  · simp only [fit, fitState]
  · intro extent hempty
    refine ⟨{ view := v, error := some (JsError.AssertionError 25), timers := [] }, ?_, rfl,
      rfl, rfl, rfl, rfl, rfl, rfl, rfl, rfl, rfl⟩
    simp only [fit, fitState, hempty, if_true]

/-- C39 on `busyView`, a view with an active series and a callback, and the
empty extent `[1, 0, 0, 1]`. -/
theorem fit_rejects_witness :
    fit evalImports none 0 (FitTarget.extent { minX := 1, minY := 0, maxX := 0, maxY := 1 })
        calledFit busyView
      = some { view := busyView, error := some (JsError.AssertionError 25), timers := [] } := by
  obtain ⟨o, h1, h2, h3, _, _, _, _, _, _, _, h4⟩ :=
    (fit_rejects evalImports none 0 calledFit busyView).2
      { minX := 1, minY := 0, maxX := 0, maxY := 1 } (by norm_num [Extent.isEmpty])
  rw [h1]
  cases o
  simp only at h2 h3 h4
  rw [h2, h3, h4]

end FitFailure

/-! ## The minimum resolution of the power-law model (C40) -/

section MinResolution

set_option linter.unusedSectionVars false

variable {α : Type} [LinearOrderedField α] [FloorRing α]

theorem exactPower_mono (L : Imports α) (b : α) (hex : ExactPower L b) (x y : α)
    (hxy : x ≤ y) : L.pow b x ≤ L.pow b y := by
  obtain ⟨_, hb, hmono, hpos, _, hlog⟩ := hex
  by_contra hcon
  have hlt : L.pow b y < L.pow b x := lt_of_not_le hcon
  have h1 := hmono _ _ (hpos y) hlt.le
  have h2 : L.log (L.pow b y) / L.log b ≤ L.log (L.pow b x) / L.log b :=
    div_le_div_of_nonneg_right h1 hb.le
  rw [hlog, hlog] at h2
  have hxy' : x = y := le_antisymm hxy h2
  rw [hxy'] at hlt
  exact lt_irrefl _ hlt

theorem exactPower_strictMono (L : Imports α) (b : α) (hex : ExactPower L b) (x y : α)
    (hxy : x < y) : L.pow b x < L.pow b y := by
  refine lt_of_le_of_ne (exactPower_mono L b hex x y hxy.le) ?_
  intro heq
  obtain ⟨_, _, _, _, _, hlog⟩ := hex
  have h := hlog x
  rw [heq, hlog] at h
  exact absurd h (ne_of_gt hxy)

theorem exactPower_zero (L : Imports α) (b : α) (hex : ExactPower L b) : L.pow b 0 = 1 := by
  obtain ⟨h1, _, _, _, hpow, _⟩ := hex
  have h := hpow 1 one_pos
  rwa [h1, zero_div] at h

/-- C40 fails as stated: with the options `{maxResolution: 1000,
minResolution: 1, zoomFactor: 10}` and the doubles `Math.log` returns at 1000
and at 10, the quotient of the logarithms is below 3, its floor is 2, and
`createResolutionConstraint_` returns the minimum resolution
`1000 / 10^2 = 10`, which is `m * f`, not below it (the level 3, of resolution
1, is not below the requested minimum either). -/
theorem minResolution_rounding_counterexample :
    decimalOptions.resolutions = none ∧ decimalOptions.zoomFactor = some 10 ∧
    decimalOptions.maxResolution = some 1000 ∧ decimalOptions.minResolution = some 1 ∧
    (1 : ℚ) < 10 ∧ (0 : ℚ) < 1 ∧ (1 : ℚ) ≤ 1000 ∧
    doubleLogImports.log 1000 / doubleLogImports.log 10 < 3 ∧
    ∃ info : ConstraintInfo ℚ,
      createResolutionConstraint_ doubleLogImports plainModules decimalOptions = some info ∧
      info.maxResolution = 1000 ∧ info.minZoom = 0 ∧ info.minResolution = 10 ∧
      ¬ (info.minResolution < 1 * 10) := by
  have hfloor : ⌊(243045032034301 / 35184372088832 : ℚ)
      / (2592480341699211 / 1125899906842624)⌋ = 2 := by
    rw [Int.floor_eq_iff]
    constructor <;> norm_num
  refine ⟨rfl, rfl, rfl, rfl, by norm_num, by norm_num, by norm_num,
    by norm_num [doubleLogImports], _, rfl, ?_, ?_, ?_, ?_⟩
  · rfl
  · rfl
  · norm_num [createResolutionConstraint_, doubleLogImports, decimalOptions, plainModules,
      ViewOptions.empty, evalImports, hfloor]
  · norm_num [createResolutionConstraint_, doubleLogImports, decimalOptions, plainModules,
      ViewOptions.empty, evalImports, hfloor]

/-- C40, amended: without a table of resolutions, with a zoom factor `f > 1`
(given, or the default 2) and given `maxResolution` and `minResolution` with
`0 < minResolution ≤ maxResolution`, when `Math.log` and `Math.pow` are exact
(`ExactPower`, and `pow(f, y + 1) = f * pow(f, y)`),
`createResolutionConstraint_` returns the given maximum resolution, the
minimum zoom 0 and the minimum resolution `maxResolution / f ^ k` for a natural
number `k`; that minimum lies in `[minResolution, minResolution * f)`, is at
most the maximum resolution, and is the smallest resolution of a level that is
not below the requested minimum. -/
theorem createResolutionConstraint_minResolution (L : Imports α) (M : Modules α)
    (options : ViewOptions α) (f maxResolution minResolution : α)
    (htable : options.resolutions = none)
    (hfactor : options.zoomFactor = some f ∨ (options.zoomFactor = none ∧ f = 2))
    (hmax : options.maxResolution = some maxResolution)
    (hmin : options.minResolution = some minResolution)
    (hf : 1 < f) (hpos : 0 < minResolution) (hle : minResolution ≤ maxResolution)
    (hex : ExactPower L f) (hstep : ∀ y, L.pow f (y + 1) = f * L.pow f y) :
    ∃ info : ConstraintInfo α, createResolutionConstraint_ L M options = some info ∧
      info.maxResolution = maxResolution ∧ info.minZoom = 0 ∧ info.zoomFactor = f ∧
      ∃ k : ℕ, info.minResolution = maxResolution / L.pow f (k : α) ∧
        minResolution ≤ info.minResolution ∧ info.minResolution < minResolution * f ∧
        info.minResolution ≤ info.maxResolution ∧
        ∀ j : ℕ, minResolution ≤ maxResolution / L.pow f (j : α) →
          info.minResolution ≤ maxResolution / L.pow f (j : α) := by
  have hzf : (match options.zoomFactor with
      | some z => z
      | none => (2 : α)) = f := by
    rcases hfactor with h | ⟨h, rfl⟩ <;> rw [h]
  have hMpos : 0 < maxResolution := lt_of_lt_of_le hpos hle
  have hratio : 0 < maxResolution / minResolution := div_pos hMpos hpos
  have hone : 1 ≤ maxResolution / minResolution := (one_le_div hpos).2 hle
  obtain ⟨hlog1, hlogb, hmono, hpowpos, hpowlog, hlogpow⟩ := hex
  have hex' : ExactPower L f := ⟨hlog1, hlogb, hmono, hpowpos, hpowlog, hlogpow⟩
  have hl0 : 0 ≤ L.log (maxResolution / minResolution) / L.log f := by
    have := hmono 1 _ one_pos hone
    rw [hlog1] at this
    exact div_nonneg this hlogb.le
  have hk0 : 0 ≤ ⌊L.log (maxResolution / minResolution) / L.log f⌋ := Int.floor_nonneg.2 hl0
  obtain ⟨k, hk⟩ := Int.eq_ofNat_of_zero_le hk0
  have hkα : ((⌊L.log (maxResolution / minResolution) / L.log f⌋ : Int) : α) = (k : α) := by
    rw [hk]; simp
  have hkle : (k : α) ≤ L.log (maxResolution / minResolution) / L.log f := by
    rw [← hkα]; exact Int.floor_le _
  have hklt : L.log (maxResolution / minResolution) / L.log f < (k : α) + 1 := by
    rw [← hkα]; exact Int.lt_floor_add_one _
  have hpk : L.pow f (k : α) ≤ maxResolution / minResolution := by
    have := exactPower_mono L f hex' _ _ hkle
    rwa [hpowlog _ hratio] at this
  have hpk1 : maxResolution / minResolution < f * L.pow f (k : α) := by
    have := exactPower_strictMono L f hex' _ _ hklt
    rwa [hpowlog _ hratio, hstep] at this
  have hpkpos : 0 < L.pow f (k : α) := hpowpos _
  have hpk0 : 1 ≤ L.pow f (k : α) := by
    have := exactPower_mono L f hex' 0 (k : α) (Nat.cast_nonneg k)
    rwa [exactPower_zero L f hex'] at this
  have hlevels : (0 : α) + ((⌊L.log (maxResolution / minResolution) / L.log f⌋ : Int) : α) - 0
      = (k : α) := by
    rw [hkα, zero_add, sub_zero]
  have hres : maxResolution / L.pow f (k : α) < minResolution * f := by
    rw [div_lt_iff₀ hpkpos]
    have := (div_lt_iff₀ hpos).1 hpk1
    calc maxResolution < f * L.pow f (k : α) * minResolution := this
      _ = minResolution * f * L.pow f (k : α) := by ring
  refine ⟨{ constraint := createSnapToPower L f maxResolution (k : α),
            maxResolution := maxResolution, minResolution := maxResolution / L.pow f (k : α),
            minZoom := 0, zoomFactor := f }, ?_, rfl, rfl, rfl, k, rfl, ?_, hres, ?_, ?_⟩
  · simp only [createResolutionConstraint_, htable, hmax, hmin, hzf, hlevels]
  · rw [le_div_iff₀ hpkpos]
    have := (le_div_iff₀ hpos).1 hpk
    linarith
  · exact div_le_self hMpos.le hpk0
  · intro j hj
    have hjpos : 0 < L.pow f (j : α) := hpowpos _
    have hpj : L.pow f (j : α) ≤ maxResolution / minResolution := by
      rw [le_div_iff₀ hpos]
      have := (le_div_iff₀ hjpos).1 hj
      linarith
    have hjl : (j : α) ≤ L.log (maxResolution / minResolution) / L.log f := by
      by_contra hcon
      have := exactPower_strictMono L f hex' _ _ (lt_of_not_le hcon)
      rw [hpowlog _ hratio] at this
      exact absurd hpj (not_le.2 this)
    have hjk : (j : α) ≤ (k : α) := by
      have h1 : ((j : Int) : α) ≤ L.log (maxResolution / minResolution) / L.log f := by
        simpa using hjl
      have h2 := Int.le_floor.2 h1
      rw [hk] at h2
      exact_mod_cast h2
    exact div_le_div_of_nonneg_left hMpos.le hjpos (exactPower_mono L f hex' _ _ hjk)

theorem realPower_step (y : ℝ) :
    (logImports Real.log (fun b y => b ^ y)).pow 2 (y + 1)
      = 2 * (logImports Real.log (fun b y => b ^ y)).pow 2 y := by
  show (2 : ℝ) ^ (y + 1) = 2 * (2 : ℝ) ^ y
  rw [Real.rpow_add_one (by norm_num), mul_comm]

/-- C40, amended, with the real logarithm and power, the default zoom factor 2, the
maximum resolution 4 and the requested minimum 3/2: the minimum resolution
returned lies in `[3/2, 3)` (it is 2, the level 1). -/
theorem createResolutionConstraint_minResolution_witness :
    ∃ info : ConstraintInfo ℝ,
      createResolutionConstraint_ (logImports Real.log (fun b y => b ^ y)) plainModules
        (rangeOptions 4 (3 / 2)) = some info ∧
      info.maxResolution = 4 ∧ info.minZoom = 0 ∧
      3 / 2 ≤ info.minResolution ∧ info.minResolution < 3 / 2 * 2 := by
  obtain ⟨info, h1, h2, h3, _, k, _, h4, h5, _⟩ :=
    createResolutionConstraint_minResolution (logImports Real.log (fun b y => b ^ y))
      plainModules (rangeOptions 4 (3 / 2)) 2 4 (3 / 2) rfl (Or.inr ⟨rfl, rfl⟩) rfl rfl
      (by norm_num) (by norm_num) (by norm_num) exactPower_real realPower_step
  exact ⟨info, h1, h2, h3, h4, h5⟩

end MinResolution

/-! ## A tick after the end of every stage (C37) -/

section LateTick

set_option linter.unusedSectionVars false

variable {α : Type} [LinearOrderedField α] [FloorRing α]

theorem retires_of_late (now : α) (entries : List (Option (List (ViewAnimation α))))
    (hok : entries.all seriesOK = true)
    (hlate : ∀ series, some series ∈ entries → ∀ a ∈ series, a.start + a.duration ≤ now) :
    ∀ entry ∈ entries, retires now entry = true ∧ tickEntry now entry = none := by
  intro entry hentry
  cases entry with
  | none =>
    have := List.all_eq_true.1 hok _ hentry
    simp [seriesOK] at this
  | some series =>
    have hdone := advanceSeries_done_of_late now series (fun a ha _ => hlate series hentry a ha)
    simp [retires, tickEntry, hdone]

/-- C37: on a view whose ANIMATING hint equals the number of its active
series, a driver tick at a time not earlier than `start + duration` of every
stage raises no error, completes every stage of every series, leaves no active
series and the ANIMATING hint 0, and calls the callback of every series once
with `true` (the most recently added series first) and no callback with
`false`; the tick after it raises no error, writes nothing, calls nothing and
requests no frame. -/
theorem late_tick_completes_all (L : Imports α) (now later : α) (v : View α)
    (hwf : WellFormed v)
    (hlate : ∀ series, some series ∈ v.animations_ →
      ∀ a ∈ series, a.start + a.duration ≤ now) :
    (updateAnimations_ L now v).error = none ∧
    (∀ series, some series ∈ v.animations_ →
      ∀ a ∈ advanceSeries now series, a.complete = true) ∧
    (updateAnimations_ L now v).view.animations_ = [] ∧
    (updateAnimations_ L now v).view.hints_.get ViewHint.ANIMATING = 0 ∧
    (updateAnimations_ L now v).view.calls
      = v.calls ++ callbackCalls true v.animations_.reverse ∧
    (∀ cb, callsWith cb true (updateAnimations_ L now v).view.calls
        = callsWith cb true v.calls + holders cb v.animations_ ∧
      callsWith cb false (updateAnimations_ L now v).view.calls
        = callsWith cb false v.calls) ∧
    (updateAnimations_ L later (updateAnimations_ L now v).view).error = none ∧
    (updateAnimations_ L later (updateAnimations_ L now v).view).view
      = { (updateAnimations_ L now v).view with updateAnimationKey_ := none } ∧
    (updateAnimations_ L later (updateAnimations_ L now v).view).view.frames
      = (updateAnimations_ L now v).view.frames := by
  obtain ⟨hok, hhint, hdef⟩ := hwf
  have hall := retires_of_late now v.animations_ hok hlate
  have hstages : ∀ series, some series ∈ v.animations_ →
      ∀ a ∈ advanceSeries now series, a.complete = true := by
    intro series hs a ha
    have := (hall _ hs).1
    simp only [retires, seriesDone, List.all_eq_true] at this
    exact this a ha
  have hfilter : v.animations_.filter (retires now) = v.animations_ :=
    List.filter_eq_self.2 (fun e he => (hall e he).1)
  have hrem : remaining now v.animations_ = [] := by
    unfold remaining
    rw [List.filter_eq_nil_iff]
    intro e he
    obtain ⟨e0, he0, rfl⟩ := List.mem_map.1 he
    rw [(hall e0 he0).2]
    simp
  have hcalls : ∀ cb : Callback,
      callsWith cb true (v.calls ++ callbackCalls true v.animations_.reverse)
        = callsWith cb true v.calls + holders cb v.animations_ ∧
      callsWith cb false (v.calls ++ callbackCalls true v.animations_.reverse)
        = callsWith cb false v.calls := by
    intro cb
    have h1 := callsWith_callbackCalls cb true v.animations_.reverse
    have h2 := callsWith_callbackCalls_other cb true v.animations_.reverse
    have h3 : holders cb v.animations_.reverse = holders cb v.animations_ := by
      simp [holders, List.filter_reverse]
    simp only [Bool.not_true] at h2
    constructor
    · simp only [callsWith, List.filter_append, List.length_append] at h1 ⊢
      rw [h1, h3]
    · simp only [callsWith, List.filter_append, List.length_append] at h2 ⊢
      rw [h2, add_zero]
  by_cases ha : getAnimating v = true
  · obtain ⟨c, r, ρ, htick, _⟩ := updateAnimations_spec L now v ha hok
    have hview : (updateAnimations_ L now v).view = afterTick now v c r ρ := by rw [htick]
    have hanim : (afterTick now v c r ρ).animations_ = [] := hrem
    have hh : (afterTick now v c r ρ).hints_.get ViewHint.ANIMATING = 0 := by
      simp only [afterTick, afterPass, retiredBy, hfilter, List.length_reverse, Hints.add,
        Hints.get, hhint]
      ring
    have hcl : (afterTick now v c r ρ).calls
        = v.calls ++ callbackCalls true v.animations_.reverse := by
      simp only [afterTick, afterPass, retiredBy, hfilter]
    have hidle : getAnimating (afterTick now v c r ρ) = false := by
      simp only [getAnimating, hh]
      simp
    have hnext := updateAnimations_idle L later (afterTick now v c r ρ) hidle
    rw [hview, hnext]
    refine ⟨by rw [htick], hstages, hanim, hh, hcl, ?_, rfl, rfl, rfl⟩
    rw [hcl]
    exact hcalls
  · have hidle : getAnimating v = false := by simpa using ha
    have htick := updateAnimations_idle L now v hidle
    have hempty : v.animations_ = [] := by
      have h0 : v.hints_.animating ≤ 0 := by
        simpa [getAnimating, Hints.get] using hidle
      rw [hhint] at h0
      have : v.animations_.length = 0 := by exact_mod_cast le_antisymm h0 (by positivity)
      exact List.length_eq_zero.1 this
    have hidle' : getAnimating ({ v with updateAnimationKey_ := none } : View α) = false :=
      hidle
    have hnext := updateAnimations_idle L later { v with updateAnimationKey_ := none } hidle'
    rw [htick, hnext]
    refine ⟨rfl, hstages, hempty, ?_, ?_, ?_, rfl, rfl, rfl⟩
    · show v.hints_.get ViewHint.ANIMATING = 0
      simp [Hints.get, hhint, hempty]
    · show v.calls = _
      simp [hempty, callbackCalls]
    · intro cb
      show callsWith cb true v.calls = _ ∧ callsWith cb false v.calls = _
      simp [hempty, holders]

/-- C37 on `busyView`: a tick at time 5000, after the end of every stage. -/
theorem late_tick_completes_all_witness :
    (updateAnimations_ evalImports 5000 busyView).view.animations_ = [] ∧
    (updateAnimations_ evalImports 5000 busyView).view.hints_.get ViewHint.ANIMATING = 0 ∧
    (updateAnimations_ evalImports 5000 busyView).view.calls
      = busyView.calls ++ callbackCalls true busyView.animations_.reverse :=
  have h := late_tick_completes_all evalImports 5000 6000 busyView busyView_wellFormed
    (by
      intro series hs a ha
      simp only [busyView, tableView, List.mem_cons, List.mem_singleton, Option.some.injEq,
        List.not_mem_nil, or_false] at hs
      rcases hs with rfl | rfl <;>
        simp only [List.mem_cons, List.mem_singleton, List.not_mem_nil, or_false] at ha <;>
        rcases ha with rfl | rfl <;> norm_num [panStage])
  ⟨h.2.2.1, h.2.2.2.1, h.2.2.2.2.1⟩

end LateTick

/-! ## The stages `animate` builds (C33) -/

section Stages

set_option linter.unusedSectionVars false

variable {α : Type} [LinearOrderedField α] [FloorRing α]

theorem nearestTarget_cons {β : Type} (target : ViewAnimation α → Option β) (live : β)
    (a : ViewAnimation α) (rest : List (ViewAnimation α)) :
    nearestTarget target live (a :: rest)
      = nearestTarget target (match target a with
          | some t => t
          | none => live) rest := by
  unfold nearestTarget
  cases h : target a with
  | none => simp [List.filterMap_cons, h]
  | some t =>
    simp only [List.filterMap_cons, h]
    cases h2 : (List.filterMap target rest).getLast? with
    | none =>
      have : List.filterMap target rest = [] := List.getLast?_eq_none_iff.1 h2
      simp [this]
    | some u =>
      rw [List.getLast?_cons, h2]
      simp

theorem buildSeries_append (L : Imports α) (v : View α) (callback : Option Callback)
    (pre rest : List (AnimationOptions α)) :
    ∀ (start : α) (c : Coordinate α) (r : Option α) (ρ : α),
      buildSeries L v callback (pre ++ rest) start c r ρ
        = buildSeries L v callback pre start c r ρ
          ++ buildSeries L v callback rest
              (start + durationBefore (buildSeries L v callback pre start c r ρ))
              (threadEnd L v pre c r ρ).1 (threadEnd L v pre c r ρ).2.1
              (threadEnd L v pre c r ρ).2.2 := by
  induction pre with
  | nil => intro start c r ρ; simp [buildSeries, durationBefore, threadEnd]
  | cons o pre ih =>
    intro start c r ρ
    rw [List.cons_append]
    simp only [buildSeries, threadEnd, durationBefore]
    rw [ih]
    have hstart : ∀ (a : ViewAnimation α) (d : α),
        (if a.complete = true then start else start + a.duration) + d
          = start + ((if a.complete = true then 0 else a.duration) + d) := by
      intro a d
      split_ifs <;> ring
    rw [hstart]
    rfl

theorem buildSeries_targets (L : Imports α) (v : View α) (callback : Option Callback)
    (pre : List (AnimationOptions α)) :
    ∀ (start : α) (c : Coordinate α) (r : Option α) (ρ : α),
      (threadEnd L v pre c r ρ).1
        = nearestTarget (fun a => a.targetCenter) c
            (buildSeries L v callback pre start c r ρ) ∧
      (threadEnd L v pre c r ρ).2.2
        = nearestTarget (fun a => a.targetRotation) ρ
            (buildSeries L v callback pre start c r ρ) := by
  induction pre with
  | nil => intro start c r ρ; simp [buildSeries, nearestTarget, threadEnd]
  | cons o pre ih =>
    intro start c r ρ
    obtain ⟨_, h2, _, _, _, h6, _, _⟩ := fields_makeAnimation L v callback o start c r ρ
    simp only [buildSeries, threadEnd, nearestTarget_cons, h2, h6]
    have ih' := ih (if (makeAnimation L v callback o start c r ρ).complete = true then start
      else start + (makeAnimation L v callback o start c r ρ).duration)
    constructor
    · rw [(ih' _ _ _).1]
      cases o.center <;> rfl
    · rw [(ih' _ _ _).2]
      cases o.rotation <;> rfl

/-- C33: `animate` at time `now` on a defined view pushes the series
`seriesFor` and runs the driver; for the stage built from the options `o`,
after the stages built from `pre`: its source center, resolution and rotation
(for the dimensions `o` gives) are the targets of the nearest earlier stage
that gave the dimension, or the value of the view at the call when there is
none; its start is `now` plus the durations of the earlier stages that are not
no-ops; and its duration is the duration given, also when that is 0, or 1000
when none is given. -/
theorem animate_builds_stages (L : Imports α) (now : α) (args : List (AnimateArg α))
    (v : View α) (c : Coordinate α) (hdef : isDef v = true) (hc : getCenter v = some c)
    (pre post : List (AnimationOptions α)) (o : AnimationOptions α)
    (hstages : stagesOf args = pre ++ o :: post) :
    animate L now args v = updateAnimations_ L now (pushSeries v (seriesFor L now args v)) ∧
    ∃ (earlier : List (ViewAnimation α)) (a : ViewAnimation α) (later : List (ViewAnimation α)),
      seriesFor L now args v = earlier ++ a :: later ∧
      earlier = buildSeries L v (callbackOf args) pre now c (getResolution v) (getRotation v) ∧
      earlier.length = pre.length ∧
      (∀ target, o.center = some target →
        a.sourceCenter = some (nearestTarget (fun b => b.targetCenter) c earlier) ∧
        a.targetCenter = some target) ∧
      (∀ target, resolutionTarget v o = some target →
        a.sourceResolution = (match lastResolution v pre with
          | some t => t
          | none => getResolution v) ∧
        a.targetResolution = target) ∧
      (∀ requested, o.rotation = some requested →
        a.sourceRotation
          = some (nearestTarget (fun b => b.targetRotation) (getRotation v) earlier) ∧
        a.targetRotation = some (rotationTarget L
          (nearestTarget (fun b => b.targetRotation) (getRotation v) earlier) requested)) ∧
      a.start = now + durationBefore earlier ∧
      a.duration = (match o.duration with
        | some d => d
        | none => 1000) ∧
      (o.duration = none → a.duration = 1000) ∧
      (o.duration = some 0 → a.duration = 0) := by
  refine ⟨animate_eq_tick L now args v hdef, ?_⟩
  have hsf : seriesFor L now args v
      = buildSeries L v (callbackOf args) (pre ++ o :: post) now c (getResolution v)
          (getRotation v) := by
    simp only [seriesFor, hc]
    rw [← hstages]
    rfl
  rw [buildSeries_append] at hsf
  obtain ⟨ht1, ht2⟩ := buildSeries_targets L v (callbackOf args) pre now c (getResolution v)
    (getRotation v)
  have ht3 := threadEnd_resolution L v pre c (getResolution v) (getRotation v)
  obtain ⟨f1, f2, f3, f4, f5, f6, _, _⟩ := fields_makeAnimation L v (callbackOf args) o
    (now + durationBefore (buildSeries L v (callbackOf args) pre now c (getResolution v)
      (getRotation v)))
    (threadEnd L v pre c (getResolution v) (getRotation v)).1
    (threadEnd L v pre c (getResolution v) (getRotation v)).2.1
    (threadEnd L v pre c (getResolution v) (getRotation v)).2.2
  obtain ⟨d1, d2⟩ := duration_makeAnimation L v (callbackOf args) o
    (now + durationBefore (buildSeries L v (callbackOf args) pre now c (getResolution v)
      (getRotation v)))
    (threadEnd L v pre c (getResolution v) (getRotation v)).1
    (threadEnd L v pre c (getResolution v) (getRotation v)).2.1
    (threadEnd L v pre c (getResolution v) (getRotation v)).2.2
  refine ⟨_, _, _, hsf, rfl, buildSeries_length L v (callbackOf args) pre _ _ _ _, ?_, ?_, ?_,
    d1, d2, ?_, ?_⟩
  · intro target ho
    rw [f1, f2, ho, ht1]
    exact ⟨rfl, rfl⟩
  · intro target ho
    rw [f3, f4, ho, ht3]
    exact ⟨rfl, rfl⟩
  · intro requested ho
    rw [f5, f6, ho, ht2]
    exact ⟨rfl, rfl⟩
  · intro ho
    rw [d2, ho]
  · intro ho
    rw [d2, ho]

/-- C33 on `tableView (1, 2) 2`: a pan of 0 ms to `(5, 6)` and then a pan of
500 ms to `(7, 8)`, called at time 10; the second stage starts from
`(5, 6)`. -/
theorem animate_builds_stages_witness :
    ∃ (earlier : List (ViewAnimation ℚ)) (a : ViewAnimation ℚ) (later : List (ViewAnimation ℚ)),
      seriesFor evalImports 10
          [AnimateArg.options (panOptions (5, 6) 0), AnimateArg.options (panOptions (7, 8) 500)]
          (tableView (some (1, 2)) (some 2)) = earlier ++ a :: later ∧
      a.sourceCenter = some (5, 6) ∧ a.targetCenter = some (7, 8) ∧
      a.start = 10 ∧ a.duration = 500 := by
  obtain ⟨_, earlier, a, later, h1, h2, _, h3, _, _, h4, h5, _, _⟩ :=
    animate_builds_stages evalImports 10
      [AnimateArg.options (panOptions (5, 6) 0), AnimateArg.options (panOptions (7, 8) 500)]
      (tableView (some (1, 2)) (some 2)) (1, 2) rfl rfl [panOptions (5, 6) 0] []
      (panOptions (7, 8) 500) rfl
  refine ⟨earlier, a, later, h1, ?_, (h3 (7, 8) rfl).2, ?_, h5⟩
  · rw [(h3 (7, 8) rfl).1, h2]
    simp [nearestTarget, buildSeries, makeAnimation, panOptions, resolutionTarget, truthy,
      isNoopAnimation, AnimationOptions.empty]
  · rw [h4, h2]
    norm_num [durationBefore, buildSeries, makeAnimation, panOptions, resolutionTarget, truthy,
      isNoopAnimation, tableView, getResolution, getRotation, AnimationOptions.empty]

end Stages

/-! ## The stages a pass advances (C34, C35, C36) -/

section Advanced

set_option linter.unusedSectionVars false

variable {α : Type} [LinearOrderedField α] [FloorRing α]

theorem updateSeries_advanced (L : Imports α) (now : α) (series : List (ViewAnimation α)) :
    ∀ (v : View α) (sc more : Bool), series.all stageOK = true →
      (updateSeries L now series v sc more).view
        = (advanced now series).foldl (stageWrite L) v := by
  induction series with
  | nil => intro v sc more _; rfl
  | cons a rest ih =>
    intro v sc more h
    have hrest : rest.all stageOK = true := by
      simp only [List.all_cons, Bool.and_eq_true] at h
      exact h.2
    have ha : stageOK a = true := by
      simp only [List.all_cons, Bool.and_eq_true] at h
      exact h.1
    by_cases hc : a.complete = true
    · simp only [updateSeries, hc, if_true, advanced]
      exact ih v sc more hrest
    · have hc' : a.complete = false := by simpa using hc
      by_cases hf : stageFraction now a ≥ 1
      · have ha1 : stageOK ({ a with complete := true } : ViewAnimation α) = true := ha
        obtain ⟨he, _⟩ := writes_state L { a with complete := true } (a.easing 1) v ha1
        simp only [updateSeries, hc', advanced, hf, if_true, he]
        simp only [Bool.false_eq_true, if_false, List.foldl_cons]
        exact ih _ sc true hrest
      · obtain ⟨he, _⟩ := writes_state L a (a.easing (stageFraction now a)) v ha
        simp only [updateSeries, hc', advanced, hf, if_false, he]
        simp only [Bool.false_eq_true, if_false, List.foldl_cons, List.foldl_nil]
        rfl

theorem onTime_mono (τ τ' : α) (hτ : τ ≤ τ') :
    ∀ (series : List (ViewAnimation α)) (noops : List Bool) (start : α),
      OnTime τ start noops series → OnTime τ' start noops series := by
  intro series
  induction series with
  | nil =>
    intro noops start h
    cases noops with
    | nil => trivial
    | cons n ns => exact h.elim
  | cons a rest ih =>
    intro noops start h
    cases noops with
    | nil => exact h.elim
    | cons n ns =>
      obtain ⟨h1, h2, h3, h4⟩ := h
      exact ⟨h1, h2, fun hn hc hd => (h3 hn hc hd).trans hτ, ih _ _ h4⟩

theorem onTime_build (L : Imports α) (v : View α) (callback : Option Callback) (τ : α)
    (stages : List (AnimationOptions α)) :
    ∀ (start : α) (c : Coordinate α) (r : Option α) (ρ : α),
      OnTime τ start ((buildSeries L v callback stages start c r ρ).map (fun a => a.complete))
        (buildSeries L v callback stages start c r ρ) := by
  induction stages with
  | nil => intro _ _ _ _; trivial
  | cons o rest ih =>
    intro start c r ρ
    simp only [buildSeries, List.map_cons]
    refine ⟨(timing_makeAnimation L v callback o start c r ρ).1, fun h => h, ?_, ih _ _ _ _⟩
    intro hn hc
    rw [hn] at hc
    exact absurd hc (by simp)

theorem onTime_next (τ start : α) (noop : Bool) (a : ViewAnimation α)
    (h1 : a.start = start) (h3 : noop = false → a.complete = true → 0 < a.duration →
      a.start + a.duration ≤ τ) (hc : a.complete = true) (hs : start ≤ τ) :
    (if noop then start else start + a.duration) ≤ τ := by
  cases noop with
  | true => simpa using hs
  | false =>
    simp only [Bool.false_eq_true, if_false]
    by_cases hd : 0 < a.duration
    · rw [← h1]; exact h3 rfl hc hd
    · have : a.duration ≤ 0 := not_lt.1 hd
      linarith

theorem stageFraction_ge_one (now : α) (a : ViewAnimation α) (hf : stageFraction now a ≥ 1)
    (hd : 0 < a.duration) : a.start + a.duration ≤ now := by
  unfold stageFraction at hf
  rw [if_pos hd] at hf
  have := (le_div_iff₀ hd).1 hf
  linarith

theorem onTime_advance (τ now : α) (hτ : τ ≤ now) :
    ∀ (series : List (ViewAnimation α)) (noops : List Bool) (start : α),
      OnTime τ start noops series → start ≤ now →
      OnTime now start noops (advanceSeries now series) := by
  intro series
  induction series with
  | nil =>
    intro noops start h _
    cases noops with
    | nil => trivial
    | cons n ns => exact h.elim
  | cons a rest ih =>
    intro noops start h hs
    cases noops with
    | nil => exact h.elim
    | cons n ns =>
      obtain ⟨h1, h2, h3, h4⟩ := h
      by_cases hc : a.complete = true
      · simp only [advanceSeries, hc, if_true]
        have h3' : n = false → a.complete = true → 0 < a.duration →
            a.start + a.duration ≤ now := fun hn hc hd => (h3 hn hc hd).trans hτ
        exact ⟨h1, h2, h3', ih _ _ h4 (onTime_next now start n a h1 h3' hc hs)⟩
      · have hc' : a.complete = false := by simpa using hc
        have hn : n = false := by
          cases n with
          | false => rfl
          | true => exact absurd (h2 rfl) hc
        by_cases hf : stageFraction now a ≥ 1
        · simp only [advanceSeries, hc', hf, if_true, Bool.false_eq_true, if_false]
          have h3' : n = false → True → 0 < a.duration → a.start + a.duration ≤ now :=
            fun _ _ hd => stageFraction_ge_one now a hf hd
          refine ⟨h1, fun _ => rfl, fun hn' _ hd => h3' hn' trivial hd, ?_⟩
          refine ih _ _ h4 ?_
          exact onTime_next now start n { a with complete := true } h1
            (fun hn' _ hd => h3' hn' trivial hd) rfl hs
        · simp only [advanceSeries, hc', hf, if_false, Bool.false_eq_true]
          exact onTime_mono τ now hτ _ _ _ ⟨h1, h2, h3, h4⟩

theorem onTime_fractions (τ now : α) (hτ : τ ≤ now) :
    ∀ (series : List (ViewAnimation α)) (noops : List Bool) (start : α),
      OnTime τ start noops series → start ≤ now →
      ∀ stage ∈ advanced now series, 0 ≤ stage.2 ∧ stage.2 ≤ 1 ∧
        (0 < stage.1.duration →
          stage.2 = clamp ((now - stage.1.start) / stage.1.duration) 0 1) := by
  intro series
  induction series with
  | nil =>
    intro noops start _ _ stage hstage
    simp [advanced] at hstage
  | cons a rest ih =>
    intro noops start h hs stage hstage
    cases noops with
    | nil => exact h.elim
    | cons n ns =>
      obtain ⟨h1, h2, h3, h4⟩ := h
      have h3' : n = false → a.complete = true → 0 < a.duration →
          a.start + a.duration ≤ now := fun hn hc hd => (h3 hn hc hd).trans hτ
      by_cases hc : a.complete = true
      · simp only [advanced, hc, if_true] at hstage
        exact ih _ _ h4 (onTime_next now start n a h1 h3' hc hs) stage hstage
      · have hc' : a.complete = false := by simpa using hc
        by_cases hf : stageFraction now a ≥ 1
        · simp only [advanced, hc', hf, if_true, Bool.false_eq_true, if_false,
            List.mem_cons] at hstage
          rcases hstage with rfl | hstage
          · refine ⟨zero_le_one, le_refl _, ?_⟩
            intro hd
            have hd' : 0 < a.duration := hd
            have hq : 1 ≤ (now - a.start) / a.duration := by
              have := hf
              unfold stageFraction at this
              rwa [if_pos hd'] at this
            show (1 : α) = clamp ((now - a.start) / a.duration) 0 1
            unfold clamp
            rw [max_eq_left (le_trans zero_le_one hq), min_eq_right hq]
          · refine ih _ _ h4 ?_ stage hstage
            exact onTime_next now start n { a with complete := true } h1
              (fun _ _ hd => stageFraction_ge_one now a hf hd) rfl hs
        · simp only [advanced, hc', hf, if_false, Bool.false_eq_true,
            List.mem_singleton] at hstage
          subst hstage
          have hlt : stageFraction now a < 1 := lt_of_not_le hf
          have hd : 0 < a.duration := by
            by_contra hd
            unfold stageFraction at hlt
            rw [if_neg hd] at hlt
            exact lt_irrefl _ hlt
          have hq : stageFraction now a = (now - a.start) / a.duration := by
            unfold stageFraction
            rw [if_pos hd]
          have h0 : 0 ≤ (now - a.start) / a.duration :=
            div_nonneg (by rw [h1]; linarith) hd.le
          refine ⟨by rw [hq]; exact h0, hlt.le, ?_⟩
          intro _
          show stageFraction now a = clamp ((now - a.start) / a.duration) 0 1
          unfold clamp
          rw [max_eq_left h0, min_eq_left (by rw [← hq]; exact hlt.le), hq]

theorem onTime_ticked (t0 : α) :
    ∀ (times : List α) (τ : α) (series : List (ViewAnimation α)) (noops : List Bool),
      OnTime τ t0 noops series → t0 ≤ τ → inOrderFrom τ times →
      OnTime (lastTime τ times) t0 noops (ticked times series) ∧ t0 ≤ lastTime τ times := by
  intro times
  induction times with
  | nil => intro τ series noops h hτ _; exact ⟨h, hτ⟩
  | cons t times ih =>
    intro τ series noops h hτ hord
    obtain ⟨h1, h2⟩ := hord
    exact ih t _ noops (onTime_advance τ t h1 series noops t0 h (hτ.trans h1)) (hτ.trans h1) h2

theorem ticked_all_stageOK :
    ∀ (times : List α) (series : List (ViewAnimation α)), series.all stageOK = true →
      (ticked times series).all stageOK = true := by
  intro times
  induction times with
  | nil => intro series h; exact h
  | cons t times ih =>
    intro series h
    exact ih _ ((advanceSeries_all_stageOK t series).trans h)

theorem seriesFor_all_stageOK (L : Imports α) (t0 : α) (args : List (AnimateArg α))
    (v : View α) : (seriesFor L t0 args v).all stageOK = true := by
  unfold seriesFor
  cases getCenter v with
  | none => rfl
  | some c => exact buildSeries_all_stageOK L v _ _ _ _ _ _

theorem seriesFor_onTime (L : Imports α) (t0 : α) (args : List (AnimateArg α))
    (v : View α) :
    OnTime t0 t0 ((seriesFor L t0 args v).map (fun a => a.complete))
      (seriesFor L t0 args v) := by
  unfold seriesFor
  cases getCenter v with
  | none => trivial
  | some c => exact onTime_build L v _ t0 _ _ _ _ _

/-- C34 fails as stated: `animate` at time 0 with two pans of 1000 ms each
(linear easing), a driver tick at time 1500, which completes the first stage,
and a driver tick at time 500, which is not earlier than the call: that tick
advances the second stage, which starts at 1000, with the fraction `-1/2`, and
writes the center `(3, 4)`, which is not between the source `(5, 6)` and the
target `(9, 10)` of the stage. -/
theorem fraction_counterexample :
    (0 : ℚ) ≤ 1500 ∧ (0 : ℚ) ≤ 500 ∧
    (advanced 500 (ticked [0, 1500] (seriesFor evalImports 0 glideArgs
      (tableView (some (1, 2)) (some 2))))).map Prod.snd = [-1 / 2] ∧
    (runOps evalImports [Op.animate 0 glideArgs, Op.tick 1500, Op.tick 500]
      (tableView (some (1, 2)) (some 2))).view.center = some (3, 4) := by
  refine ⟨by norm_num, by norm_num, ?_, ?_⟩
  · norm_num [advanced, ticked, seriesFor, glideArgs, glideOptions, tableView, getCenter,
      getResolution, getRotation, buildSeries, makeAnimation, resolutionTarget, truthy,
      isNoopAnimation, advanceSeries, stageFraction, animationCount, hasCallback, callbackOf,
      AnimateArg.asOptions, AnimateArg.isFunction, AnimationOptions.empty]
  · norm_num [runOps, Op.run, Outcome.andThen, Outcome.ok, animate, isDef, updateAnimations_,
      getAnimating, Hints.get, setHint, Hints.add, invoke, updateLoop, updateSeries,
      stageFraction, writeCenter, writeResolution, writeRotation,
      seriesFor, glideArgs, glideOptions, tableView, getCenter,
      getResolution, getRotation, buildSeries, makeAnimation, resolutionTarget, truthy,
      isNoopAnimation, animationCount, hasCallback, callbackOf,
      AnimateArg.asOptions, AnimateArg.isFunction, AnimationOptions.empty]

/-- C34, amended: for the series `animate` builds at time `t0`, after driver
ticks at times in order from `t0` on (none earlier than the call or than the
tick before it; the tick `animate` itself runs is one of them), a driver tick
at a time `now` not earlier than the last of them writes what the stages in
`advanced` write with their fractions, and the fraction passed to the easing
function of every stage it advances lies in `[0, 1]` and, for a stage of
positive duration, equals `clamp(elapsed / duration, 0, 1)`; this covers the
later stages of a chain. -/
theorem fraction_in_unit_interval (L : Imports α) (t0 now : α) (args : List (AnimateArg α))
    (v : View α) (times : List α) (hord : inOrderFrom t0 times)
    (hnow : lastTime t0 times ≤ now) :
    (∀ (w : View α) (sc more : Bool),
      (updateSeries L now (ticked times (seriesFor L t0 args v)) w sc more).view
        = (advanced now (ticked times (seriesFor L t0 args v))).foldl (stageWrite L) w) ∧
    ∀ stage ∈ advanced now (ticked times (seriesFor L t0 args v)),
      0 ≤ stage.2 ∧ stage.2 ≤ 1 ∧
      (0 < stage.1.duration →
        stage.2 = clamp ((now - stage.1.start) / stage.1.duration) 0 1) := by
  constructor
  · intro w sc more
    exact updateSeries_advanced L now _ w sc more
      (ticked_all_stageOK times _ (seriesFor_all_stageOK L t0 args v))
  · obtain ⟨hon, hle⟩ := onTime_ticked t0 times t0 _ _ (seriesFor_onTime L t0 args v)
      (le_refl _) hord
    exact onTime_fractions _ now hnow _ _ t0 hon (hle.trans hnow)

/-- C34, amended, on the two pans of `glideArgs` called at time 0, with ticks
at 0 and 1500 and then a tick at 1700. -/
theorem fraction_in_unit_interval_witness :
    inOrderFrom (0 : ℚ) [0, 1500] ∧ lastTime (0 : ℚ) [0, 1500] ≤ 1700 ∧
    ∀ stage ∈ advanced 1700 (ticked [0, 1500] (seriesFor evalImports 0 glideArgs
        (tableView (some (1, 2)) (some 2)))),
      0 ≤ stage.2 ∧ stage.2 ≤ 1 ∧
      (0 < stage.1.duration →
        stage.2 = clamp ((1700 - stage.1.start) / stage.1.duration) 0 1) :=
  ⟨by norm_num [inOrderFrom], by norm_num [lastTime],
   (fraction_in_unit_interval evalImports 0 1700 glideArgs (tableView (some (1, 2)) (some 2))
    [0, 1500] (by norm_num [inOrderFrom]) (by norm_num [lastTime])).2⟩

end Advanced

/-! ## What an advanced stage writes (C35) -/

section StageWrites

set_option linter.unusedSectionVars false

variable {α : Type} [LinearOrderedField α] [FloorRing α]

/-- C35 fails as stated: `animate` at time 0 with two changes of resolution
of 1000 ms each (to 4 and then to 1, linear easing, which maps `[0, 1]` into
`[0, 1]`), a driver tick at time 1500 and a driver tick at time 500: that tick
advances the second stage, from 4 to 1, with the fraction `-1/2` and writes the
resolution `11/2`, which is above both the source and the target. -/
theorem resolution_range_escape :
    (advanced 500 (ticked [0, 1500] (seriesFor evalImports 0 scaleArgs
      (tableView (some (1, 2)) (some 2))))).map
        (fun stage => (stage.1.sourceResolution, stage.1.targetResolution, stage.2))
      = [(some 4, some 1, -1 / 2)] ∧
    (∀ stage ∈ advanced 500 (ticked [0, 1500] (seriesFor evalImports 0 scaleArgs
        (tableView (some (1, 2)) (some 2)))),
      ∀ x : ℚ, 0 ≤ x → x ≤ 1 → 0 ≤ stage.1.easing x ∧ stage.1.easing x ≤ 1) ∧
    (runOps evalImports [Op.animate 0 scaleArgs, Op.tick 1500, Op.tick 500]
      (tableView (some (1, 2)) (some 2))).view.resolution = some (11 / 2) ∧
    ¬ ((11 / 2 : ℚ) ≤ max 4 1) := by
  refine ⟨?_, ?_, ?_, by norm_num⟩
  · norm_num [advanced, ticked, seriesFor, scaleArgs, scaleOptions, tableView, getCenter,
      getResolution, getRotation, buildSeries, makeAnimation, resolutionTarget, truthy,
      isNoopAnimation, advanceSeries, stageFraction, animationCount, hasCallback, callbackOf,
      AnimateArg.asOptions, AnimateArg.isFunction, AnimationOptions.empty]
  · intro stage hstage x h0 h1
    norm_num [advanced, ticked, seriesFor, scaleArgs, scaleOptions, tableView, getCenter,
      getResolution, getRotation, buildSeries, makeAnimation, resolutionTarget, truthy,
      isNoopAnimation, advanceSeries, stageFraction, animationCount, hasCallback, callbackOf,
      AnimateArg.asOptions, AnimateArg.isFunction, AnimationOptions.empty] at hstage
    subst hstage
    exact ⟨h0, h1⟩
  · norm_num [runOps, Op.run, Outcome.andThen, Outcome.ok, animate, isDef, updateAnimations_,
      getAnimating, Hints.get, setHint, Hints.add, invoke, updateLoop, updateSeries,
      stageFraction, writeCenter, writeResolution, writeRotation,
      seriesFor, scaleArgs, scaleOptions, tableView, getCenter,
      getResolution, getRotation, buildSeries, makeAnimation, resolutionTarget, truthy,
      isNoopAnimation, animationCount, hasCallback, callbackOf,
      AnimateArg.asOptions, AnimateArg.isFunction, AnimationOptions.empty]

/-- C35, amended: the driver writes, for the stages it advances in order, what
`stageWrite` writes with the progress `p = easing(fraction)`: the center part,
then the resolution part, then the rotation part.  The center written is
`(x0 + p (x1 - x0), y0 + p (y1 - y0))`; the resolution written is
`r0 + p (r1 - r0)`, which is `r1` when `p = 1`, and with an anchor the center
is first set to `calculateCenterZoom` of the new resolution on the view before
the write; the rotation written for `p ≠ 1` is `θ0 + p (θ1 - θ0)`, and with an
anchor the center is first set to `calculateCenterRotate` of the new rotation;
and when the easing maps `[0, 1]` into `[0, 1]` and the fraction lies in
`[0, 1]`, the resolution written lies between the source and the target. -/
theorem stage_writes (L : Imports α) (a : ViewAnimation α) (fraction : α) :
    (∀ (now : α) (series : List (ViewAnimation α)) (v : View α) (sc more : Bool),
      series.all stageOK = true →
      (updateSeries L now series v sc more).view
        = (advanced now series).foldl (stageWrite L) v) ∧
    (∀ w : View α, stageWrite L w (a, fraction)
      = writeRotation L a (a.easing fraction)
          (writeResolution a (a.easing fraction)
            (writeCenter a (a.easing fraction) w).view)) ∧
    (∀ (w : View α) (s t : Coordinate α), a.sourceCenter = some s → a.targetCenter = some t →
      (writeCenter a (a.easing fraction) w).error = none ∧
      (writeCenter a (a.easing fraction) w).view.center
        = some (s.1 + a.easing fraction * (t.1 - s.1),
                s.2 + a.easing fraction * (t.2 - s.2)) ∧
      (writeCenter a (a.easing fraction) w).view.resolution = w.resolution ∧
      (writeCenter a (a.easing fraction) w).view.rotation = w.rotation) ∧
    (∀ (w : View α) (r0 r1 : α), a.sourceResolution = some r0 → a.targetResolution = some r1 →
      r0 ≠ 0 → r1 ≠ 0 →
      (writeResolution a (a.easing fraction) w).resolution
        = some (r0 + a.easing fraction * (r1 - r0)) ∧
      (a.easing fraction = 1 →
        (writeResolution a (a.easing fraction) w).resolution = some r1) ∧
      (writeResolution a (a.easing fraction) w).center
        = (match a.anchor with
          | some anchor => calculateCenterZoom w (r0 + a.easing fraction * (r1 - r0)) anchor
          | none => w.center) ∧
      (writeResolution a (a.easing fraction) w).rotation = w.rotation) ∧
    (∀ (w : View α) (θ0 θ1 : α), a.sourceRotation = some θ0 → a.targetRotation = some θ1 →
      a.easing fraction ≠ 1 →
      (writeRotation L a (a.easing fraction) w).rotation
        = θ0 + a.easing fraction * (θ1 - θ0) ∧
      (writeRotation L a (a.easing fraction) w).center
        = (match a.anchor with
          | some anchor =>
              calculateCenterRotate L w (θ0 + a.easing fraction * (θ1 - θ0)) anchor
          | none => w.center) ∧
      (writeRotation L a (a.easing fraction) w).resolution = w.resolution) ∧
    (∀ (w : View α) (r0 r1 : α), a.sourceResolution = some r0 → a.targetResolution = some r1 →
      r0 ≠ 0 → r1 ≠ 0 →
      (∀ x, 0 ≤ x → x ≤ 1 → 0 ≤ a.easing x ∧ a.easing x ≤ 1) →
      0 ≤ fraction → fraction ≤ 1 →
      ∃ r, (writeResolution a (a.easing fraction) w).resolution = some r ∧
        min r0 r1 ≤ r ∧ r ≤ max r0 r1) := by
  have hres : ∀ (w : View α) (r0 r1 : α), a.sourceResolution = some r0 →
      a.targetResolution = some r1 → r0 ≠ 0 → r1 ≠ 0 →
      (writeResolution a (a.easing fraction) w).resolution
        = some (r0 + a.easing fraction * (r1 - r0)) := by
    intro w r0 r1 h0 h1 hn0 hn1
    unfold writeResolution
    rw [h0, h1]
    simp only [ne_eq, hn0, hn1, not_false_eq_true, and_self, if_true]
    by_cases hp : a.easing fraction = 1
    · rw [if_pos hp, hp]
      cases a.anchor <;> simp
    · rw [if_neg hp]
  refine ⟨fun now series v sc more h => updateSeries_advanced L now series v sc more h,
    fun w => rfl, ?_, ?_, ?_, ?_⟩
  · intro w s t hs ht
    unfold writeCenter
    rw [hs, ht]
    exact ⟨rfl, rfl, rfl, rfl⟩
  · intro w r0 r1 h0 h1 hn0 hn1
    refine ⟨hres w r0 r1 h0 h1 hn0 hn1, ?_, ?_, ?_⟩
    · intro hp
      rw [hres w r0 r1 h0 h1 hn0 hn1, hp]
      simp
    · unfold writeResolution
      rw [h0, h1]
      simp only [ne_eq, hn0, hn1, not_false_eq_true, and_self, if_true]
      by_cases hp : a.easing fraction = 1
      · rw [if_pos hp, hp]
        have e : r0 + 1 * (r1 - r0) = r1 := by ring
        rw [e]
        cases a.anchor <;> rfl
      · rw [if_neg hp]
        cases a.anchor <;> rfl
    · unfold writeResolution
      rw [h0, h1]
      simp only [ne_eq, hn0, hn1, not_false_eq_true, and_self, if_true]
      cases a.anchor <;> rfl
  · intro w θ0 θ1 h0 h1 hp
    unfold writeRotation
    rw [h0, h1]
    simp only [if_neg hp]
    cases a.anchor <;> simp
  · intro w r0 r1 h0 h1 hn0 hn1 hease hf0 hf1
    refine ⟨_, hres w r0 r1 h0 h1 hn0 hn1, ?_, ?_⟩
    · obtain ⟨hp0, hp1⟩ := hease fraction hf0 hf1
      rcases le_total r0 r1 with h | h
      · rw [min_eq_left h]
        nlinarith [mul_nonneg hp0 (sub_nonneg.2 h)]
      · rw [min_eq_right h]
        nlinarith [mul_nonneg (sub_nonneg.2 hp1) (sub_nonneg.2 h)]
    · obtain ⟨hp0, hp1⟩ := hease fraction hf0 hf1
      rcases le_total r0 r1 with h | h
      · rw [max_eq_right h]
        nlinarith [mul_nonneg (sub_nonneg.2 hp1) (sub_nonneg.2 h)]
      · rw [max_eq_left h]
        nlinarith [mul_nonneg hp0 (sub_nonneg.2 h)]

/-- C35, amended, on the pan stage from `(1, 2)` to `(10, 10)` with the linear
easing at the fraction `1/2`. -/
theorem stage_writes_witness :
    (writeCenter (panStage 0 1000 none) ((panStage 0 1000 none).easing (1 / 2))
      (tableView (some (1, 2)) (some 2))).view.center
      = some (1 + (panStage 0 1000 none).easing (1 / 2) * (10 - 1),
              2 + (panStage 0 1000 none).easing (1 / 2) * (10 - 2)) :=
  ((stage_writes evalImports (panStage 0 1000 none) (1 / 2)).2.2.1
    (tableView (some (1, 2)) (some 2)) (1, 2) (10, 10) rfl rfl).2.1

end StageWrites

/-! ## The order of a pass (C36) -/

section PassOrder

set_option linter.unusedSectionVars false

variable {α : Type} [LinearOrderedField α] [FloorRing α]

theorem writeCenter_congr (a : ViewAnimation α) (p : α) (w w' : View α)
    (h : props w = props w') :
    props (writeCenter a p w).view = props (writeCenter a p w').view := by
  simp only [props, Prod.mk.injEq] at h
  obtain ⟨h1, h2, h3⟩ := h
  unfold writeCenter
  cases a.sourceCenter <;> cases a.targetCenter <;> simp [props, h1, h2, h3]

theorem writeResolution_congr (a : ViewAnimation α) (p : α) (w w' : View α)
    (h : props w = props w') :
    props (writeResolution a p w) = props (writeResolution a p w') := by
  simp only [props, Prod.mk.injEq] at h
  obtain ⟨h1, h2, h3⟩ := h
  unfold writeResolution
  cases a.sourceResolution with
  | none => simp [props, h1, h2, h3]
  | some s =>
    cases a.targetResolution with
    | none => simp [props, h1, h2, h3]
    | some t =>
      by_cases hst : s ≠ 0 ∧ t ≠ 0
      · simp only [if_pos hst]
        cases a.anchor <;> simp [props, calculateCenterZoom, getCenter, getResolution, h1, h2, h3]
      · simp only [if_neg hst]
        simp [props, h1, h2, h3]

theorem writeRotation_congr (L : Imports α) (a : ViewAnimation α) (p : α) (w w' : View α)
    (h : props w = props w') :
    props (writeRotation L a p w) = props (writeRotation L a p w') := by
  simp only [props, Prod.mk.injEq] at h
  obtain ⟨h1, h2, h3⟩ := h
  unfold writeRotation
  cases a.sourceRotation with
  | none => simp [props, h1, h2, h3]
  | some s =>
    cases a.targetRotation with
    | none => simp [props, h1, h2, h3]
    | some t =>
      cases a.anchor <;> simp [props, calculateCenterRotate, getCenter, getRotation, h1, h2, h3]

theorem stageWrite_congr (L : Imports α) (stage : ViewAnimation α × α) (w w' : View α)
    (h : props w = props w') :
    props (stageWrite L w stage) = props (stageWrite L w' stage) :=
  writeRotation_congr L _ _ _ _ (writeResolution_congr _ _ _ _ (writeCenter_congr _ _ _ _ h))

theorem foldl_stageWrite_congr (L : Imports α) (stages : List (ViewAnimation α × α)) :
    ∀ (w w' : View α), props w = props w' →
      props (stages.foldl (stageWrite L) w) = props (stages.foldl (stageWrite L) w') := by
  induction stages with
  | nil => intro w w' h; exact h
  | cons s rest ih =>
    intro w w' h
    exact ih _ _ (stageWrite_congr L s w w' h)

theorem seriesWrites_congr (L : Imports α) (now : α) (entry : Option (List (ViewAnimation α)))
    (w w' : View α) (h : props w = props w') :
    props (seriesWrites L now entry w) = props (seriesWrites L now entry w') := by
  cases entry with
  | none => exact h
  | some series => exact foldl_stageWrite_congr L _ w w' h

theorem passWrites_congr (L : Imports α) (now : α)
    (entries : List (Option (List (ViewAnimation α)))) (w w' : View α)
    (h : props w = props w') :
    props (passWrites L now entries w) = props (passWrites L now entries w') := by
  induction entries with
  | nil => exact h
  | cons entry rest ih => exact seriesWrites_congr L now entry _ _ ih

theorem updateLoop_props (L : Imports α) (now : α)
    (entries : List (Option (List (ViewAnimation α)))) :
    ∀ (v : View α) (more : Bool), entries.all seriesOK = true →
      props (updateLoop L now entries v more).view = props (passWrites L now entries v) := by
  induction entries with
  | nil => intro v more _; rfl
  | cons entry rest ih =>
    intro v more h
    simp only [List.all_cons, Bool.and_eq_true] at h
    obtain ⟨hentry, hrest⟩ := h
    obtain ⟨h1, _, _, _⟩ := updateLoop_spec L now rest v more hrest
    have hih := ih v more hrest
    cases entry with
    | none => simp [seriesOK] at hentry
    | some series =>
      cases series with
      | nil => simp [seriesOK] at hentry
      | cons a s =>
        have hok : (a :: s).all stageOK = true := hentry
        obtain ⟨p1, p2, p3, p4, _⟩ := updateSeries_spec L now (a :: s)
          (updateLoop L now rest v more).view true (updateLoop L now rest v more).more hok
        have hadv := updateSeries_advanced L now (a :: s)
          (updateLoop L now rest v more).view true (updateLoop L now rest v more).more hok
        obtain ⟨b, rest1, hb, _⟩ := advanceSeries_cons now a s
        have hgoal : props (updateSeries L now (a :: s) (updateLoop L now rest v more).view true
            (updateLoop L now rest v more).more).view
            = props (passWrites L now (some (a :: s) :: rest) v) := by
          rw [hadv]
          exact foldl_stageWrite_congr L _ _ _ hih
        by_cases hd : seriesDone (advanceSeries now (a :: s)) = true
        · have hd2 : seriesDone (b :: rest1) = true := by rw [← hb]; exact hd
          simp only [updateLoop, h1, p1, p3, p2, hb, hd2, Bool.and_self, if_true]
          rw [← hgoal]
          cases b.callback <;> rfl
        · have hd' : seriesDone (advanceSeries now (a :: s)) = false := by simpa using hd
          simp only [updateLoop, h1, p1, p3, hd', Bool.and_false, Bool.false_eq_true,
            if_false]
          exact hgoal

theorem tick_props (L : Imports α) (now : α) (v : View α) (hwf : WellFormed v) :
    props (updateAnimations_ L now v).view = props (passWrites L now v.animations_ v) := by
  by_cases ha : getAnimating v = true
  · have ha' : getAnimating ({ v with updateAnimationKey_ := none } : View α) = true := ha
    obtain ⟨h1, h2, h3, _⟩ := updateLoop_spec L now v.animations_
      { v with updateAnimationKey_ := none } false hwf.1
    have hp := updateLoop_props L now v.animations_ { v with updateAnimationKey_ := none }
      false hwf.1
    have hc : props (passWrites L now v.animations_ { v with updateAnimationKey_ := none })
        = props (passWrites L now v.animations_ v) := passWrites_congr L now _ _ _ rfl
    rw [← hc, ← hp]
    simp only [updateAnimations_, ha', Bool.not_true, Bool.false_eq_true, if_false, h1]
    split_ifs <;> rfl
  · have ha' : getAnimating v = false := by simpa using ha
    have hnil := wellFormed_idle v hwf ha'
    rw [updateAnimations_idle L now v ha', hnil]
    rfl

theorem advanced_append (now : α) (pre rest : List (ViewAnimation α)) :
    advanced now (pre ++ rest)
      = advanced now pre
        ++ (if seriesDone (advanceSeries now pre) then advanced now rest else []) := by
  induction pre with
  | nil => simp [advanced, advanceSeries, seriesDone]
  | cons a pre ih =>
    rw [List.cons_append]
    by_cases hc : a.complete = true
    · simp only [advanced, advanceSeries, hc, if_true, ih, seriesDone, List.all_cons,
        Bool.true_and]
    · have hc' : a.complete = false := by simpa using hc
      by_cases hf : stageFraction now a ≥ 1
      · simp only [advanced, advanceSeries, hc', hf, if_true, Bool.false_eq_true, if_false,
          ih, seriesDone, List.all_cons, Bool.true_and, List.cons_append]
      · simp only [advanced, advanceSeries, hc', hf, if_false, Bool.false_eq_true,
          seriesDone, List.all_cons, Bool.false_and, List.append_nil]

theorem advanced_flags (now : α) (series : List (ViewAnimation α)) :
    ((advanced now series).filter (fun stage => !stage.1.complete)).length ≤ 1 ∧
    ∀ stage ∈ advanced now series,
      (stage.1.complete = true → stage.2 = 1) ∧ (stage.1.complete = false → stage.2 < 1) := by
  induction series with
  | nil => simp [advanced]
  | cons a rest ih =>
    by_cases hc : a.complete = true
    · simp only [advanced, hc, if_true]
      exact ih
    · have hc' : a.complete = false := by simpa using hc
      by_cases hf : stageFraction now a ≥ 1
      · simp only [advanced, hc', hf, if_true, Bool.false_eq_true, if_false]
        refine ⟨?_, ?_⟩
        · rw [List.filter_cons]
          simpa using ih.1
        · intro stage hstage
          rcases List.mem_cons.1 hstage with rfl | h
          · exact ⟨fun _ => rfl, fun h => by simp at h⟩
          · exact ih.2 stage h
      · simp only [advanced, hc', hf, if_false, Bool.false_eq_true]
        refine ⟨?_, ?_⟩
        · simp [List.filter_cons, hc']
        · intro stage hstage
          rw [List.mem_singleton] at hstage
          subst hstage
          exact ⟨fun h => absurd h hc, fun _ => lt_of_not_le hf⟩

theorem passWrites_append (L : Imports α) (now : α)
    (entries : List (Option (List (ViewAnimation α)))) (entry : Option (List (ViewAnimation α)))
    (w : View α) :
    passWrites L now (entries ++ [entry]) w
      = passWrites L now entries (seriesWrites L now entry w) := by
  simp [passWrites, List.foldr_append]

/-- C36: in a driver tick at time `now` the writes for one series are those of
the stages in `advanced`, in order; a stage after the stages `pre` of its
series is advanced only when every stage of `pre` is complete at that point of
the pass; at most one of the stages advanced in a series remains incomplete (a
stage advanced with a fraction below 1, the others are advanced with the
fraction 1 and marked complete); and the series are visited from the one added
most recently to the one added first, for the writes and for the callbacks of
the series the tick retires. -/
theorem pass_order (L : Imports α) (now : α) (v : View α) (hwf : WellFormed v) :
    (∀ (series : List (ViewAnimation α)) (w : View α) (sc more : Bool),
      series.all stageOK = true →
      (updateSeries L now series w sc more).view
        = (advanced now series).foldl (stageWrite L) w ∧
      (updateSeries L now series w sc more).series = advanceSeries now series) ∧
    (∀ pre rest : List (ViewAnimation α),
      advanced now (pre ++ rest)
        = advanced now pre
          ++ (if seriesDone (advanceSeries now pre) then advanced now rest else [])) ∧
    (∀ series : List (ViewAnimation α),
      ((advanced now series).filter (fun stage => !stage.1.complete)).length ≤ 1 ∧
      ∀ stage ∈ advanced now series,
        (stage.1.complete = true → stage.2 = 1) ∧
        (stage.1.complete = false → stage.2 < 1)) ∧
    props (updateAnimations_ L now v).view = props (passWrites L now v.animations_ v) ∧
    (∀ (entries : List (Option (List (ViewAnimation α))))
      (entry : Option (List (ViewAnimation α))) (w : View α),
      passWrites L now (entries ++ [entry]) w
        = passWrites L now entries (seriesWrites L now entry w)) ∧
    (updateAnimations_ L now v).view.calls
      = v.calls ++ callbackCalls true (v.animations_.filter (retires now)).reverse := by
  refine ⟨?_, advanced_append now, advanced_flags now, tick_props L now v hwf,
    passWrites_append L now, ?_⟩
  · intro series w sc more hok
    exact ⟨updateSeries_advanced L now series w sc more hok,
      (updateSeries_spec L now series w sc more hok).2.1⟩
  · by_cases ha : getAnimating v = true
    · obtain ⟨c, r, ρ, htick, _⟩ := updateAnimations_spec L now v ha hwf.1
      rw [htick]
      rfl
    · have ha' : getAnimating v = false := by simpa using ha
      have hnil := wellFormed_idle v hwf ha'
      rw [updateAnimations_idle L now v ha', hnil]
      simp [callbackCalls]

/-- C36 on `busyView`, with two active series, at time 250. -/
theorem pass_order_witness :
    props (updateAnimations_ evalImports 250 busyView).view
      = props (passWrites evalImports 250 busyView.animations_ busyView) ∧
    (updateAnimations_ evalImports 250 busyView).view.calls
      = busyView.calls
        ++ callbackCalls true (busyView.animations_.filter (retires 250)).reverse :=
  have h := pass_order evalImports 250 busyView busyView_wellFormed
  ⟨h.2.2.2.1, h.2.2.2.2.2⟩

end PassOrder

/-! ## Packing entries into atlases (C31, C32, C38) -/

section Packing

set_option linter.unusedSectionVars false

variable {α : Type} [LinearOrderedCommRing α]

theorem Rect.not_overlaps_of_apart {r q : Rect α} (h : r.Apart q) : ¬ r.Overlaps q := by
  rintro ⟨px, py, ⟨h1, h2, h3, h4⟩, ⟨h5, h6, h7, h8⟩⟩
  rcases h with h | h | h | h
  · exact absurd (lt_of_lt_of_le h2 (h.trans h5)) (lt_irrefl _)
  · exact absurd (lt_of_lt_of_le h6 (h.trans h1)) (lt_irrefl _)
  · exact absurd (lt_of_lt_of_le h4 (h.trans h7)) (lt_irrefl _)
  · exact absurd (lt_of_lt_of_le h8 (h.trans h3)) (lt_irrefl _)

theorem Rect.Apart.symm {r q : Rect α} (h : r.Apart q) : q.Apart r := by
  rcases h with h | h | h | h
  · exact Or.inr (Or.inl h)
  · exact Or.inl h
  · exact Or.inr (Or.inr (Or.inr h))
  · exact Or.inr (Or.inr (Or.inl h))

theorem Rect.Apart.mono_left {r b q : Rect α} (h : b.Apart q) (hr : r.Inside b) : r.Apart q := by
  obtain ⟨h1, h2, h3, h4⟩ := hr
  rcases h with h | h | h | h
  · exact Or.inl (h2.trans h)
  · exact Or.inr (Or.inl (h.trans h1))
  · exact Or.inr (Or.inr (Or.inl (h4.trans h)))
  · exact Or.inr (Or.inr (Or.inr (h.trans h3)))

theorem Rect.Apart.mono_right {r b q : Rect α} (h : q.Apart b) (hr : r.Inside b) : q.Apart r :=
  (h.symm.mono_left hr).symm

theorem Rect.Inside.trans {r b c : Rect α} (h1 : r.Inside b) (h2 : b.Inside c) : r.Inside c :=
  ⟨h2.1.trans h1.1, h1.2.1.trans h2.2.1, h2.2.2.1.trans h1.2.2.1, h1.2.2.2.trans h2.2.2.2⟩

theorem pairwise_replace (pre post past news : List (Rect α)) (b e : Rect α)
    (h : (pre ++ b :: post ++ past).Pairwise Rect.Apart)
    (hsub : ∀ n ∈ news, n.Inside b) (he : e.Inside b)
    (hnews : news.Pairwise Rect.Apart) (hne : ∀ n ∈ news, n.Apart e) :
    (pre ++ news ++ post ++ (past ++ [e])).Pairwise Rect.Apart := by
  simp only [List.pairwise_append, List.pairwise_cons, List.mem_append, List.mem_cons,
    List.mem_singleton, List.pairwise_singleton, List.Pairwise.nil, List.not_mem_nil] at h ⊢
  obtain ⟨⟨hpre, ⟨hbpost, hpost⟩, hprebp⟩, hpast, hall⟩ := h
  refine ⟨⟨⟨hpre, hnews, ?_⟩, hpost, ?_⟩, ⟨hpast, ?_⟩, ?_⟩
  · intro a ha n hn
    exact (hprebp a ha b (Or.inl rfl)).mono_right (hsub n hn)
  · rintro a (ha | ha) c hc
    · exact hprebp a ha c (Or.inr hc)
    · exact (hbpost c hc).mono_left (hsub a ha)
  · refine ⟨⟨fun _ hf => hf.elim, trivial⟩, ?_⟩
    rintro a ha c (rfl | hc)
    · exact ((hall b (Or.inr (Or.inl rfl)) a ha).symm).mono_right he
    · exact hc.elim
  · rintro a ((ha | ha) | ha) c (hc | hc)
    · exact hall a (Or.inl ha) c hc
    · rcases hc with rfl | hc
      · exact (hprebp a ha b (Or.inl rfl)).mono_right he
      · exact hc.elim
    · exact (hall b (Or.inr (Or.inl rfl)) c hc).mono_left (hsub a ha)
    · rcases hc with rfl | hc
      · exact hne a ha
      · exact hc.elim
    · exact hall a (Or.inr (Or.inr ha)) c hc
    · rcases hc with rfl | hc
      · exact (hbpost a ha).symm.mono_right he
      · exact hc.elim

theorem take_drop_splice (pre rest : List (Block α)) (block : Block α) (news : List (Block α)) :
    (pre ++ block :: rest).take pre.length ++ news ++ (pre ++ block :: rest).drop (pre.length + 1)
      = pre ++ [] ++ news ++ rest := by
  rw [List.take_left, List.append_nil]
  congr 1
  rw [show pre.length + 1 = (pre ++ [block]).length by simp,
    show pre ++ block :: rest = (pre ++ [block]) ++ rest by simp, List.drop_left]

theorem Atlas.split_spec (atlas : Atlas α) (pre rest : List (Block α)) (block : Block α)
    (width height : α) (hblocks : atlas.emptyBlocks_ = pre ++ block :: rest)
    (hW : 0 ≤ width) (hH : 0 ≤ height) (hfh : height ≤ block.height) :
    ∃ news : List (Block α),
      (atlas.split_ pre.length block width height).emptyBlocks_ = pre ++ [] ++ news ++ rest ∧
      (atlas.split_ pre.length block width height).space_ = atlas.space_ ∧
      (atlas.split_ pre.length block width height).canvas_ = atlas.canvas_ ∧
      (atlas.split_ pre.length block width height).entries_ = atlas.entries_ ∧
      (∀ n ∈ news, n.rect.Inside block.rect ∧
        n.rect.Apart { x := block.x, y := block.y, width := width, height := height }) ∧
      (news.map Block.rect).Pairwise Rect.Apart := by
  have key : ∀ (b1 b2 : Block α),
      (b1.rect.Inside block.rect ∧
        b1.rect.Apart { x := block.x, y := block.y, width := width, height := height }) →
      (b2.rect.Inside block.rect ∧
        b2.rect.Apart { x := block.x, y := block.y, width := width, height := height }) →
      b1.rect.Apart b2.rect →
      ∃ news : List (Block α),
        (atlas.updateBlocks_ pre.length b1 b2).emptyBlocks_ = pre ++ [] ++ news ++ rest ∧
        (atlas.updateBlocks_ pre.length b1 b2).space_ = atlas.space_ ∧
        (atlas.updateBlocks_ pre.length b1 b2).canvas_ = atlas.canvas_ ∧
        (atlas.updateBlocks_ pre.length b1 b2).entries_ = atlas.entries_ ∧
        (∀ n ∈ news, n.rect.Inside block.rect ∧
          n.rect.Apart { x := block.x, y := block.y, width := width, height := height }) ∧
        (news.map Block.rect).Pairwise Rect.Apart := by
    intro b1 b2 h1 h2 h12
    refine ⟨if 0 < b2.width ∧ 0 < b2.height then
        (if 0 < b1.width ∧ 0 < b1.height then [b1] else []) ++ [b2]
      else (if 0 < b1.width ∧ 0 < b1.height then [b1] else []), ?_, rfl, rfl, rfl, ?_, ?_⟩
    · simp only [Atlas.updateBlocks_]
      rw [hblocks]
      exact take_drop_splice pre rest block _
    · intro n hn
      by_cases c1 : 0 < b1.width ∧ 0 < b1.height <;>
        by_cases c2 : 0 < b2.width ∧ 0 < b2.height <;>
        simp [c1, c2] at hn
      · rcases hn with rfl | rfl
        · exact h1
        · exact h2
      · subst hn; exact h1
      · subst hn; exact h2
    · by_cases c1 : 0 < b1.width ∧ 0 < b1.height <;>
        by_cases c2 : 0 < b2.width ∧ 0 < b2.height <;>
        simp [c1, c2, h12]
  unfold Atlas.split_
  simp only []
  split_ifs with hdelta
  · apply key
    · refine ⟨⟨?_, ?_, ?_, ?_⟩, Or.inr (Or.inl ?_)⟩ <;> simp only [Block.rect] <;> linarith
    · refine ⟨⟨?_, ?_, ?_, ?_⟩, Or.inr (Or.inr (Or.inr ?_))⟩ <;> simp only [Block.rect] <;>
        linarith
    · refine Or.inr (Or.inl ?_)
      simp only [Block.rect]
      exact le_refl _
  · apply key
    · refine ⟨⟨?_, ?_, ?_, ?_⟩, Or.inr (Or.inl ?_)⟩ <;> simp only [Block.rect] <;> linarith
    · refine ⟨⟨?_, ?_, ?_, ?_⟩, Or.inr (Or.inr (Or.inr ?_))⟩ <;> simp only [Block.rect] <;>
        linarith
    · refine Or.inr (Or.inr (Or.inl ?_))
      simp only [Block.rect]
      exact le_refl _

theorem Atlas.addFrom_spec (atlas : Atlas α) (call : AddCall α)
    (hs : 0 ≤ atlas.space_) (hw : 0 < call.width) (hh : 0 < call.height) :
    ∀ (blocks pre : List (Block α)), atlas.emptyBlocks_ = pre ++ blocks →
      Atlas.addFrom atlas call.hash call.width call.height call.renderCallback pre.length blocks
          = (atlas, none) ∨
      ∃ (mid : List (Block α)) (block : Block α) (post news : List (Block α))
        (info : AtlasInfo α) (after : Atlas α),
        Atlas.addFrom atlas call.hash call.width call.height call.renderCallback pre.length
          blocks = (after, some info) ∧
        blocks = mid ++ block :: post ∧
        after.emptyBlocks_ = pre ++ mid ++ news ++ post ∧
        after.space_ = atlas.space_ ∧ after.canvas_ = atlas.canvas_ ∧
        (∀ n ∈ news, n.rect.Inside block.rect ∧ n.rect.Apart (entryRect call info)) ∧
        (news.map Block.rect).Pairwise Rect.Apart ∧
        (entryRect call info).Inside block.rect := by
  intro blocks
  induction blocks with
  | nil => intro pre _; exact Or.inl rfl
  | cons block rest ih =>
    intro pre hpre
    by_cases hfit : block.width ≥ call.width + atlas.space_ ∧
        block.height ≥ call.height + atlas.space_
    · right
      obtain ⟨hfw, hfh⟩ := hfit
      have hfw' : call.width + atlas.space_ ≤ block.width := hfw
      have hfh' : call.height + atlas.space_ ≤ block.height := hfh
      have hW : 0 ≤ call.width + atlas.space_ := by linarith
      have hH : 0 ≤ call.height + atlas.space_ := by linarith
      obtain ⟨news, hn1, hn2, hn3, _, hn5, hn6⟩ := Atlas.split_spec
        { atlas with
          entries_ := Function.update atlas.entries_ call.hash
            (some { offsetX := block.x + atlas.space_, offsetY := block.y + atlas.space_,
                    image := atlas.canvas_ })
          rendered := atlas.rendered ++
            [{ renderCallback := call.renderCallback, x := block.x + atlas.space_,
               y := block.y + atlas.space_ }] }
        pre rest block (call.width + atlas.space_) (call.height + atlas.space_) hpre hW hH
        hfh'
      have hin : ∀ image : Canvas α, (entryRect call
          { offsetX := block.x + atlas.space_, offsetY := block.y + atlas.space_, image := image }).Inside
          { x := block.x, y := block.y, width := call.width + atlas.space_, height := call.height + atlas.space_ } := by
        intro image
        refine ⟨?_, ?_, ?_, ?_⟩ <;> simp only [entryRect] <;> linarith
      have hreg : (Rect.Inside
          { x := block.x, y := block.y, width := call.width + atlas.space_, height := call.height + atlas.space_ }
          block.rect) := by
        refine ⟨?_, ?_, ?_, ?_⟩ <;> simp only [Block.rect] <;> linarith
      refine ⟨[], block, rest, news,
        { offsetX := block.x + atlas.space_, offsetY := block.y + atlas.space_, image := atlas.canvas_ },
        _, ?_, rfl, hn1, hn2, hn3, ?_, hn6, (hin _).trans hreg⟩
      · simp only [Atlas.addFrom, hfw, hfh, and_self, if_true]
      · intro n hn
        exact ⟨(hn5 n hn).1, (hn5 n hn).2.mono_right (hin _)⟩
    · have hstep := ih (pre ++ [block]) (by simp [hpre])
      have hlen : (pre ++ [block]).length = pre.length + 1 := by simp
      rw [hlen] at hstep
      have hun : Atlas.addFrom atlas call.hash call.width call.height call.renderCallback
          pre.length (block :: rest) = Atlas.addFrom atlas call.hash call.width call.height
          call.renderCallback (pre.length + 1) rest := by
        simp only [Atlas.addFrom, hfit, if_false]
      rw [hun]
      rcases hstep with h | ⟨mid, b, post, news, info, after, h1, h2, h3, h4, h5, h6, h7, h8⟩
      · exact Or.inl h
      · refine Or.inr ⟨block :: mid, b, post, news, info, after, h1, by simp [h2], ?_, h4, h5,
          h6, h7, h8⟩
        simp [h3]


theorem Rect.Within.of_inside {size : α} {r b : Rect α} (hb : b.Within size) (hr : r.Inside b) :
    r.Within size :=
  ⟨hb.1.trans hr.1, hr.2.1.trans hb.2.1, hb.2.2.1.trans hr.2.2.1, hr.2.2.2.trans hb.2.2.2⟩

theorem placedRects_cons (call : AddCall α) (result : Option (AtlasInfo α))
    (rest : List (AddCall α × Option (AtlasInfo α))) :
    placedRects ((call, result) :: rest) = placedRects [(call, result)] ++ placedRects rest := by
  cases result <;> simp [placedRects]

theorem Atlas.add_packed (size : α) (atlas : Atlas α) (call : AddCall α) (placed : List (Rect α))
    (hs : 0 ≤ atlas.space_) (hw : 0 < call.width) (hh : 0 < call.height)
    (hinv : Packed size atlas placed) :
    (atlas.add call.hash call.width call.height call.renderCallback).1.space_ = atlas.space_ ∧
    Packed size (atlas.add call.hash call.width call.height call.renderCallback).1
      (placed ++ placedRects
        [(call, (atlas.add call.hash call.width call.height call.renderCallback).2)]) := by
  have hspec := Atlas.addFrom_spec atlas call hs hw hh atlas.emptyBlocks_ [] rfl
  simp only [List.length_nil] at hspec
  unfold Atlas.add
  rcases hspec with h | ⟨mid, block, post, news, info, after, h1, h2, h3, h4, _, h6, h7, h8⟩
  · rw [h]
    simpa [placedRects] using hinv
  · rw [h1]
    refine ⟨h4, ?_⟩
    obtain ⟨hpw, hin⟩ := hinv
    rw [h2] at hpw hin
    have hb : block.rect.Within size := hin _ (by simp)
    constructor
    · simp only [h3, placedRects, List.nil_append, List.map_append]
      have := pairwise_replace (mid.map Block.rect) (post.map Block.rect) placed
        (news.map Block.rect) block.rect (entryRect call info)
        (by simpa using hpw)
        (by
          intro n hn
          obtain ⟨m, hm, rfl⟩ := List.mem_map.1 hn
          exact (h6 m hm).1) h8 h7
        (by
          intro n hn
          obtain ⟨m, hm, rfl⟩ := List.mem_map.1 hn
          exact (h6 m hm).2)
      simpa using this
    · intro r hr
      simp only [h3, placedRects, List.nil_append, List.map_append, List.mem_append,
        List.mem_map, List.mem_singleton] at hr
      rcases hr with ((⟨m, hm, rfl⟩ | ⟨m, hm, rfl⟩) | ⟨m, hm, rfl⟩) | hr | rfl
      · exact hin _ (by simp; exact Or.inl ⟨m, hm, rfl⟩)
      · exact hb.of_inside (h6 m hm).1
      · exact hin _ (by simp; exact Or.inr (Or.inr (Or.inl ⟨m, hm, rfl⟩)))
      · exact hin _ (by simp; exact Or.inr (Or.inr (Or.inr hr)))
      · exact hb.of_inside h8

theorem Atlas.addAll_packed (size : α) :
    ∀ (calls : List (AddCall α)) (atlas : Atlas α) (placed : List (Rect α)),
      0 ≤ atlas.space_ → (∀ c ∈ calls, 0 < c.width ∧ 0 < c.height) →
      Packed size atlas placed →
      Packed size (Atlas.addAll calls atlas).1 (placed ++ placedRects (Atlas.addAll calls atlas).2)
  | [], atlas, placed, _, _, hinv => by simpa [Atlas.addAll, placedRects] using hinv
  | call :: calls, atlas, placed, hs, hpos, hinv => by
    have hc := hpos call (List.mem_cons_self _ _)
    obtain ⟨hsp, hstep⟩ := Atlas.add_packed size atlas call placed hs hc.1 hc.2 hinv
    have ih := Atlas.addAll_packed size calls _ _ (hsp ▸ hs)
      (fun c hc => hpos c (List.mem_cons_of_mem _ hc)) hstep
    simp only [Atlas.addAll]
    rw [placedRects_cons, ← List.append_assoc]
    exact ih

theorem Atlas.create_packed (size space : α) (canvas : Nat) :
    Packed size (Atlas.create size space canvas) [] := by
  constructor
  · simp [Atlas.create]
  · intro r hr
    simp only [Atlas.create, List.map_cons, List.map_nil, List.append_nil,
      List.mem_singleton] at hr
    subst hr
    refine ⟨le_refl _, ?_, le_refl _, ?_⟩ <;> simp [Block.rect]

/-- An entry that fits a new atlas with its spacing is placed: when
`width + space_` and `height + space_` are at most `size_` and the spacing is
not negative, `add` returns an info. -/
theorem AtlasManager.add_of_room (hash : Nat) (width height : α) (renderCallback : Nat)
    (manager : AtlasManager α) (hs : 0 ≤ manager.space_)
    (hw : width + manager.space_ ≤ manager.size_)
    (hh : height + manager.space_ ≤ manager.size_) :
    ∃ (after : AtlasManager α) (info : AtlasInfo α),
      manager.add hash width height renderCallback = Except.ok (after, some info) := by
  have hassert : width ≤ manager.size_ ∧ height ≤ manager.size_ :=
    ⟨by linarith, by linarith⟩
  unfold AtlasManager.add
  rw [if_neg (not_not.2 hassert)]
  cases hloop : addToAtlases hash width height renderCallback manager.atlases_ with
  | some found => exact ⟨_, found.2, rfl⟩
  | none =>
    have hfit : manager.size_ ≥ width + manager.space_ ∧
        manager.size_ ≥ height + manager.space_ := ⟨hw, hh⟩
    have hadd : ((Atlas.create manager.size_ manager.space_ manager.atlases_.length).add hash
        width height renderCallback).2 = some ⟨0 + manager.space_, 0 + manager.space_,
          ⟨manager.atlases_.length, manager.size_, manager.size_⟩⟩ := by
      simp only [Atlas.add, Atlas.create, Atlas.addFrom, hfit, and_self, if_true]
    refine ⟨{ manager with atlases_ := manager.atlases_ ++
        [((Atlas.create manager.size_ manager.space_ manager.atlases_.length).add hash
          width height renderCallback).1] }, ⟨0 + manager.space_, 0 + manager.space_,
          ⟨manager.atlases_.length, manager.size_, manager.size_⟩⟩, ?_⟩
    show Except.ok (_, _) = _
    rw [hadd]

/-- C31 (the code does not do this): on a manager of size 256 and spacing 1
the entry of width 256 and height 10 meets the asserted condition, and `add`
returns `null` after it pushed a second atlas that has no room for the entry
either. -/
theorem add_wide_entry_returns_null :
    (256 : ℤ) ≤ (AtlasManager.create (none : Option ℤ) none).size_ ∧
    (10 : ℤ) ≤ (AtlasManager.create (none : Option ℤ) none).size_ ∧
    ∃ after : AtlasManager ℤ,
      AtlasManager.add 7 256 10 0 (AtlasManager.create (none : Option ℤ) none)
        = Except.ok (after, none) ∧
      after.atlases_.length = 2 :=
  ⟨by decide, by decide, _, rfl, rfl⟩

/-- C32 (the code does not do this): on a manager with the default size 256
and spacing 1, after the entries of hash 1 and hash 7, 255 wide and 127 high
each, filled the first atlas, a second `add` of hash 7 returns an entry on the
canvas of a new atlas, and `getInfo` of hash 7 still returns the earlier entry
on the first canvas; `getInfo` of the hash 5, never added, returns `null`. -/
theorem readded_hash_keeps_old_entry :
    ∃ m1 m2 m3 : AtlasManager ℤ,
      AtlasManager.add 1 255 127 0 (AtlasManager.create none none)
        = Except.ok (m1, some ⟨1, 1, ⟨0, 256, 256⟩⟩) ∧
      AtlasManager.add 7 255 127 0 m1 = Except.ok (m2, some ⟨1, 129, ⟨0, 256, 256⟩⟩) ∧
      AtlasManager.add 7 255 127 0 m2 = Except.ok (m3, some ⟨1, 1, ⟨1, 256, 256⟩⟩) ∧
      m3.getInfo 7 = some ⟨1, 129, ⟨0, 256, 256⟩⟩ ∧
      m3.getInfo 5 = none :=
  ⟨_, _, _, rfl, rfl, rfl, rfl, rfl⟩

/-- C38: on an atlas of size `size` with a spacing that is not negative, after
any sequence of `add` calls with positive widths and heights the pixel
rectangles of the entries returned do not overlap pairwise and lie within
`[0, size) × [0, size)`, and the empty blocks do not overlap pairwise, lie
within the canvas and overlap no entry returned.  The sequence is arbitrary,
so this holds after every call. -/
theorem atlas_packing (size space : α) (canvas : Nat) (calls : List (AddCall α))
    (hs : 0 ≤ space) (hpos : ∀ c ∈ calls, 0 < c.width ∧ 0 < c.height) :
    (placedRects (Atlas.addAll calls (Atlas.create size space canvas)).2).Pairwise
      (fun r q => ¬ r.Overlaps q) ∧
    (∀ r ∈ placedRects (Atlas.addAll calls (Atlas.create size space canvas)).2,
      r.Within size) ∧
    (Atlas.addAll calls (Atlas.create size space canvas)).1.emptyBlocks_.Pairwise
      (fun b c => ¬ b.rect.Overlaps c.rect) ∧
    (∀ b ∈ (Atlas.addAll calls (Atlas.create size space canvas)).1.emptyBlocks_,
      b.rect.Within size) ∧
    (∀ b ∈ (Atlas.addAll calls (Atlas.create size space canvas)).1.emptyBlocks_,
      ∀ r ∈ placedRects (Atlas.addAll calls (Atlas.create size space canvas)).2,
        ¬ b.rect.Overlaps r) := by
  have hinv := Atlas.addAll_packed size calls (Atlas.create size space canvas) [] hs hpos
    (Atlas.create_packed size space canvas)
  rw [List.nil_append] at hinv
  obtain ⟨hpw, hin⟩ := hinv
  rw [List.pairwise_append] at hpw
  obtain ⟨hblocks, hplaced, hcross⟩ := hpw
  refine ⟨hplaced.imp Rect.not_overlaps_of_apart, ?_, ?_, ?_, ?_⟩
  · intro r hr
    exact hin r (List.mem_append_right _ hr)
  · exact (List.pairwise_map.1 hblocks).imp Rect.not_overlaps_of_apart
  · intro b hb
    exact hin _ (List.mem_append_left _ (List.mem_map_of_mem _ hb))
  · intro b hb r hr
    exact Rect.not_overlaps_of_apart (hcross _ (List.mem_map_of_mem _ hb) r hr)

/-- C38 on an atlas of size 4 and spacing 1: three `add` calls, the last of
which finds no room. -/
theorem atlas_packing_witness :
    (Atlas.addAll [⟨7, 1, 1, 0⟩, ⟨9, 2, 1, 0⟩, ⟨11, 3, 3, 0⟩] (Atlas.create (4 : ℤ) 1 0)).2.map
        Prod.snd = [some ⟨1, 1, ⟨0, 4, 4⟩⟩, some ⟨1, 3, ⟨0, 4, 4⟩⟩, none] ∧
    (placedRects (Atlas.addAll [⟨7, 1, 1, 0⟩, ⟨9, 2, 1, 0⟩, ⟨11, 3, 3, 0⟩]
        (Atlas.create (4 : ℤ) 1 0)).2).Pairwise (fun r q => ¬ r.Overlaps q) ∧
    (∀ r ∈ placedRects (Atlas.addAll [⟨7, 1, 1, 0⟩, ⟨9, 2, 1, 0⟩, ⟨11, 3, 3, 0⟩]
        (Atlas.create (4 : ℤ) 1 0)).2, r.Within 4) :=
  have h := atlas_packing (4 : ℤ) 1 0 [⟨7, 1, 1, 0⟩, ⟨9, 2, 1, 0⟩, ⟨11, 3, 3, 0⟩] (by decide)
    (by decide)
  ⟨rfl, h.1, h.2.1⟩

end Packing

end OlView
